import Mathlib

/-!
Scramjet client (`src/c/scramjet.c`): framing codec and message dispatch.

A shallow embedding of the message buffer (`tmpbuf`), the variable-length
integer codec (`put_int` / `get_int`), the format-driven encoder and matcher
(`write_msg` / `match_msg`), the pipe reader (`inbuf_get` / `read_msg`), the
dispatcher (`process_msg`) and the start of `main`.

Conventions of the embedding

* A byte in memory is a `Nat` below 256.  C `int` values are `Int`.
* Plain `char` has implementation-defined signedness.  Every function that
  promotes a `char` to `int` takes the parameter `char_signed`; it is `true`
  on the x86 / x86-64 Linux ABI the program was written on.
* The C globals `tmpbuf`, `tmpbuf_rd`, `tmpbuf_wr` are the fields of `TmpBuf`;
  `tmpbuf_len` is the length of the list `tmpbuf`, and the null pointer is the
  empty list.
* `int *err` is a `Bool` threaded through the calls.
-/

namespace Scramjet

/-! ## Machine integers and characters -/

/-- Value of a `char` holding bit pattern `b` once promoted to `int`. -/
def char_to_int (char_signed : Bool) (b : Nat) : Int :=
  if char_signed && decide (128 ≤ b % 256) then ((b % 256 : Nat) : Int) - 256
  else ((b % 256 : Nat) : Int)

/-- Bit pattern stored when an `int` is assigned to a `char`. -/
def int_to_char (v : Int) : Nat := (v % 256).toNat

/-- Conversion of an integer to 32-bit `int` (wrap-around modulo 2^32). -/
def wrap32 (x : Int) : Int := (x + 2 ^ 31) % 2 ^ 32 - 2 ^ 31

/-- The `int` whose 32-bit pattern is `n`. -/
def to_int32 (n : Nat) : Int :=
  if n % 2 ^ 32 < 2 ^ 31 then ((n % 2 ^ 32 : Nat) : Int) else ((n % 2 ^ 32 : Nat) : Int) - 2 ^ 32

/-- Conversion of an `int` to `uint` (32 bits). -/
def to_uint (v : Int) : Nat := (v % 2 ^ 32).toNat

/-- Ways a call can fail to return: `error("Out of memory")` from `Alloc`
(the process exits with status 1), or behaviour the C language leaves
undefined (an access outside an object, a missing variadic argument). -/
inductive Fault where
  | out_of_memory
  | undefined
  deriving DecidableEq, Repr

/-! ## The message buffer -/

/-- The globals `tmpbuf`, `tmpbuf_rd`, `tmpbuf_wr`. -/
structure TmpBuf where
  tmpbuf : List Nat
  tmpbuf_rd : Nat
  tmpbuf_wr : Nat
  deriving DecidableEq, Repr

/-- The global `tmpbuf_len`: size of the block `tmpbuf` points to. -/
def TmpBuf.tmpbuf_len (s : TmpBuf) : Nat := s.tmpbuf.length

/-- The payload held by the buffer: bytes `tmpbuf[0 .. tmpbuf_wr)`. -/
def TmpBuf.payload (s : TmpBuf) : List Nat := s.tmpbuf.take s.tmpbuf_wr

/-- Program start: `tmpbuf` is the null pointer, cursors are zero. -/
def TmpBuf.initial : TmpBuf := { tmpbuf := [], tmpbuf_rd := 0, tmpbuf_wr := 0 }

/-- `init_tmpbuf`: allocate 1024 zeroed bytes if there is no buffer yet. -/
def init_tmpbuf (s : TmpBuf) : TmpBuf :=
  if s.tmpbuf = [] then
    { tmpbuf := List.replicate 1024 0, tmpbuf_rd := 0, tmpbuf_wr := 0 }
  else s

/-- `clear_tmpbuf`: rewind both cursors (contents are left in place). -/
def clear_tmpbuf (s : TmpBuf) : TmpBuf :=
  { init_tmpbuf s with tmpbuf_rd := 0, tmpbuf_wr := 0 }

/-- The loop `while (newlen <= total) newlen *= 2;` of `mksp`, run for at most
`fuel` rounds; `total + 1` rounds are enough whenever `newlen` is not zero
(`mksp_newlen_gt`).  With `newlen = 0` the C loop never ends; `mksp` only
runs on an allocated buffer. -/
def mksp_newlen : Nat → Nat → Nat → Nat
  | 0, newlen, _ => newlen
  | fuel + 1, newlen, total =>
    if newlen ≤ total then mksp_newlen fuel (newlen * 2) total else newlen

/-- `mksp`: move the buffer into a zeroed block whose size is the old size
doubled until it exceeds `total`. -/
def mksp (total : Nat) (s : TmpBuf) : TmpBuf :=
  let newlen := mksp_newlen (total + 1) s.tmpbuf_len total
  { s with tmpbuf := s.tmpbuf ++ List.replicate (newlen - s.tmpbuf_len) 0 }

/-- `put`: append one byte, growing the buffer when the write cursor has
reached its end. -/
def put (val : Int) (s : TmpBuf) : TmpBuf :=
  let s := if s.tmpbuf_wr ≥ s.tmpbuf_len then mksp (s.tmpbuf_wr + 1) s else s
  { s with tmpbuf := s.tmpbuf.set s.tmpbuf_wr (int_to_char val),
           tmpbuf_wr := s.tmpbuf_wr + 1 }

/-- Inner loop of `put_int`, `for (; a>0; a-=7) put(128 | (127 & (val>>a)))`
with `a = 7 * k`. -/
def put_int_groups (val : Nat) : Nat → TmpBuf → TmpBuf
  | 0, s => s
  | k + 1, s =>
    put_int_groups val k (put ((128 ||| (127 &&& (val >>> (7 * (k + 1)))) : Nat) : Int) s)

/-- Outer loop of `put_int`, `for (a = 28; a>0; a-=7)` with `a = 7 * k`:
find the first non-zero 7-bit group, then emit from there. -/
def put_int_scan (val : Nat) : Nat → TmpBuf → TmpBuf
  | 0, s => put ((127 &&& val : Nat) : Int) s
  | k + 1, s =>
    if val >>> (7 * (k + 1)) ≠ 0 then
      put ((127 &&& val : Nat) : Int) (put_int_groups val (k + 1) s)
    else put_int_scan val k s

/-- `put_int(uint val)`. -/
def put_int (val : Nat) (s : TmpBuf) : TmpBuf :=
  put_int_scan (val % 2 ^ 32) 4 s

/-- The loop `for (a = ..; a<len; a++) put(data[a]);` with `n` rounds left.
`data` is the memory the `char *` points to. -/
def put_bytes (char_signed : Bool) (data : List Nat) : Nat → Nat → TmpBuf → TmpBuf
  | 0, _, s => s
  | n + 1, a, s =>
    put_bytes char_signed data n (a + 1) (put (char_to_int char_signed (data.getD a 0)) s)

/-- `put_tail(data, len)`. -/
def put_tail (char_signed : Bool) (data : List Nat) (len : Int) (s : TmpBuf) : TmpBuf :=
  put_bytes char_signed data len.toNat 0 s

/-- `put_data(data, len)`. -/
def put_data (char_signed : Bool) (data : List Nat) (len : Int) (s : TmpBuf) : TmpBuf :=
  put_bytes char_signed data len.toNat 0 (put_int (to_uint len) s)

/-- `strlen`: number of bytes before the first NUL of the memory `str`
(the terminator follows the list when the list holds no NUL). -/
def strlen (str : List Nat) : Nat := (str.takeWhile (fun b => b ≠ 0)).length

/-- `put_str(str)`: `put_data(str, strlen(str))`, the length converted to `int`. -/
def put_str (char_signed : Bool) (str : List Nat) (s : TmpBuf) : TmpBuf :=
  put_data char_signed str (wrap32 (strlen str)) s

/-! ## Decoding from the buffer -/

/-- `get`: next payload byte as an `int`, or -1 with the error flag set at
the end of the data. -/
def get (char_signed : Bool) (s : TmpBuf) (err : Bool) : Int × Bool × TmpBuf :=
  if s.tmpbuf_rd ≥ s.tmpbuf_wr then (-1, true, s)
  else (char_to_int char_signed (s.tmpbuf.getD s.tmpbuf_rd 0), err,
        { s with tmpbuf_rd := s.tmpbuf_rd + 1 })

/-- The `while (1)` loop of `get_int`; `val` is the 32-bit pattern of the
accumulator.  Every round consumes a byte or returns, so `fuel` rounds with
`fuel` above the number of unread bytes always suffice. -/
def get_int_loop (char_signed : Bool) : Nat → Nat → TmpBuf → Bool → Int × Bool × TmpBuf
  | 0, val, s, err => (to_int32 val, err, s)
  | fuel + 1, val, s, err =>
    let r := get char_signed s err
    if r.1 < 0 then (-1, r.2.1, r.2.2)
    else
      let val := ((val <<< 7) % 2 ^ 32) ||| (r.1.toNat &&& 127)
      if r.1.toNat &&& 128 ≠ 0 then get_int_loop char_signed fuel val r.2.2 r.2.1
      else (to_int32 val, r.2.1, r.2.2)

/-- `get_int`. -/
def get_int (char_signed : Bool) (s : TmpBuf) (err : Bool) : Int × Bool × TmpBuf :=
  get_int_loop char_signed (s.tmpbuf_wr - s.tmpbuf_rd + 1) 0 s err

/-- `Alloc(len)` for an `int` expression `len`: the size converts to
`size_t`, so a negative one is a request nothing can satisfy and ends in
`error("Out of memory")`; otherwise a zeroed block (memory is assumed
available). -/
def Alloc (len : Int) : Except Fault (List Nat) :=
  if len < 0 then .error .out_of_memory else .ok (List.replicate len.toNat 0)

/-- The copy loop of `get_data`:
`for (a = ..; a<len; a++) { rv[a] = get(err); if (*err) break; }`. -/
def get_data_loop (char_signed : Bool) :
    Nat → Nat → List Nat → TmpBuf → Bool → List Nat × Bool × TmpBuf
  | 0, _, rv, s, err => (rv, err, s)
  | n + 1, a, rv, s, err =>
    let r := get char_signed s err
    let rv := rv.set a (int_to_char r.1)
    if r.2.1 then (rv, r.2.1, r.2.2)
    else get_data_loop char_signed n (a + 1) rv r.2.2 r.2.1

/-- `get_data(err, lenp)`: result pointer (`none` is NULL), the value left in
`*lenp`, the error flag and the buffer.  `rv[len] = 0` with `len = -1` writes
in front of the block. -/
def get_data (char_signed : Bool) (s : TmpBuf) (err : Bool) (lenp : Int) :
    Except Fault (Option (List Nat) × Int × Bool × TmpBuf) :=
  let r := get_int char_signed s err
  let len := r.1
  if r.2.1 then .ok (none, lenp, r.2.1, r.2.2)
  else do
    let rv ← Alloc (wrap32 (len + 1))
    if len < 0 then .error .undefined
    else
      let q := get_data_loop char_signed len.toNat 0 rv r.2.2 r.2.1
      if q.2.1 then .ok (none, lenp, q.2.1, q.2.2)
      else .ok (some q.1, len, q.2.1, q.2.2)

/-- `get_str(err)`. -/
def get_str (char_signed : Bool) (s : TmpBuf) (err : Bool) :
    Except Fault (Option (List Nat) × Bool × TmpBuf) :=
  (get_data char_signed s err 0).map (fun r => (r.1, r.2.2.1, r.2.2.2))

/-- The copy loop of `get_tail`: `for (a = ..; a<len; a++) rv[a] = get(err);`. -/
def get_tail_loop (char_signed : Bool) :
    Nat → Nat → List Nat → TmpBuf → Bool → List Nat × Bool × TmpBuf
  | 0, _, rv, s, err => (rv, err, s)
  | n + 1, a, rv, s, err =>
    let r := get char_signed s err
    get_tail_loop char_signed n (a + 1) (rv.set a (int_to_char r.1)) r.2.2 r.2.1

/-- `get_tail(err, lenp)`: the rest of the payload, `len = tmpbuf_wr - tmpbuf_rd`. -/
def get_tail (char_signed : Bool) (s : TmpBuf) (err : Bool) :
    Except Fault (List Nat × Int × Bool × TmpBuf) :=
  let len : Int := (s.tmpbuf_wr : Int) - (s.tmpbuf_rd : Int)
  do
    let rv ← Alloc (wrap32 (len + 1))
    if len < 0 then .error .undefined
    else
      let q := get_tail_loop char_signed len.toNat 0 rv s err
      .ok (q.1, len, q.2.1, q.2.2)

/-! ## Matching a format against the payload -/

/-- Bytes of a string literal, as a C string without its terminator. -/
def cstr (s : String) : List Nat := s.toList.map (fun c => c.toNat)

/-- What a variadic pointer argument of `match_msg` points at: an `int`
variable (argument of type `int *`) or a `char *` variable (argument of type
`char **`; `none` is NULL, `some b` a heap block holding the bytes `b`). -/
inductive Dest where
  | int (v : Int)
  | ptr (p : Option (List Nat))
  deriving DecidableEq, Repr

/-- One pass of `match_msg` over the format: the body of its `while (*p)`
loop.  `ap` holds the current values behind the variadic arguments not yet
consumed; the result lists the values behind all of them afterwards, in
argument order.  A format ending in a lone `%` makes the loop read past the
terminator, and an argument list that does not fit the format makes `va_arg`
undefined. -/
def match_pass (char_signed : Bool) (pass : Nat) :
    List Nat → List Dest → TmpBuf → Bool → Except Fault (List Dest × Bool × TmpBuf)
  | [], ap, s, err => .ok (ap, err, s)
  | ch :: p, ap, s, err =>
    if ch ≠ 37 then
      let r := get char_signed s err
      let err := if r.1 ≠ char_to_int char_signed ch then true else r.2.1
      match_pass char_signed pass p ap r.2.2 err
    else
      match p with
      | [] => .error .undefined
      | ch :: p =>
        if ch = 105 then
          match ap with
          | Dest.int v :: ap =>
            let r := if err then (v, err, s) else get_int char_signed s err
            let v := if r.2.1 then 0 else r.1
            (match_pass char_signed pass p ap r.2.2 r.2.1).map
              (fun q => (Dest.int v :: q.1, q.2))
          | _ => .error .undefined
        else if ch = 116 then
          match ap with
          | Dest.ptr _ :: Dest.int iv :: ap =>
            if err then
              (match_pass char_signed pass p ap s err).map
                (fun q => (Dest.ptr none :: Dest.int iv :: q.1, q.2))
            else
              (get_tail char_signed s err).bind fun r =>
                let cp := if r.2.2.1 || pass = 0 then none else some r.1
                (match_pass char_signed pass p ap r.2.2.2 r.2.2.1).map
                  (fun q => (Dest.ptr cp :: Dest.int r.2.1 :: q.1, q.2))
          | _ => .error .undefined
        else if ch = 115 then
          match ap with
          | Dest.ptr _ :: ap =>
            if err then
              (match_pass char_signed pass p ap s err).map
                (fun q => (Dest.ptr none :: q.1, q.2))
            else
              (get_str char_signed s err).bind fun r =>
                let cp := if r.2.1 || pass = 0 then none else r.1
                (match_pass char_signed pass p ap r.2.2 r.2.1).map
                  (fun q => (Dest.ptr cp :: q.1, q.2))
          | _ => .error .undefined
        else if ch = 114 then
          match ap with
          | Dest.ptr _ :: Dest.int iv :: ap =>
            if err then
              (match_pass char_signed pass p ap s err).map
                (fun q => (Dest.ptr none :: Dest.int 0 :: q.1, q.2))
            else
              (get_data char_signed s err iv).bind fun r =>
                let cp := if r.2.2.1 || pass = 0 then none else r.1
                let ip := if r.2.2.1 || pass = 0 then 0 else r.2.1
                (match_pass char_signed pass p ap r.2.2.2 r.2.2.1).map
                  (fun q => (Dest.ptr cp :: Dest.int ip :: q.1, q.2))
          | _ => .error .undefined
        else
          match_pass char_signed pass p ap s true

/-- The loop `for (pass = ..; pass<2; pass++)` of `match_msg` with `n` passes
left: rewind the read cursor, run the pass, require the payload to be used
up, and return 0 at the first pass that fails. -/
def match_msg_passes (char_signed : Bool) (fmt : List Nat) :
    Nat → Nat → List Dest → TmpBuf → Except Fault (Int × List Dest × TmpBuf)
  | 0, _, ap, s => .ok (1, ap, s)
  | n + 1, pass, ap, s =>
    (match_pass char_signed pass fmt ap { s with tmpbuf_rd := 0 } false).bind fun r =>
      let err := if r.2.2.tmpbuf_rd ≠ r.2.2.tmpbuf_wr then true else r.2.1
      if err then .ok (0, r.1, r.2.2)
      else match_msg_passes char_signed fmt n (pass + 1) r.1 r.2.2

/-- `match_msg(fmt, ...)`: return value, the values left behind the variadic
arguments, and the buffer. -/
def match_msg (char_signed : Bool) (fmt : List Nat) (ap : List Dest) (s : TmpBuf) :
    Except Fault (Int × List Dest × TmpBuf) :=
  match_msg_passes char_signed fmt 2 0 ap s

/-! ## Encoding a message -/

/-- A variadic argument of `write_msg`: an integer, or a `char *` given by
the memory it points to. -/
inductive Arg where
  | int (v : Int)
  | ptr (mem : List Nat)
  deriving DecidableEq, Repr

/-- The `while (*p)` loop of `write_msg`: encode the format and its arguments
into the buffer.  `none` stands for undefined behaviour: a format ending in a
lone `%` (the loop runs past the terminator) or arguments that do not fit the
format. -/
def write_fmt (char_signed : Bool) : List Nat → List Arg → TmpBuf → Option TmpBuf
  | [], _, s => some s
  | ch :: p, ap, s =>
    if ch ≠ 37 then write_fmt char_signed p ap (put (char_to_int char_signed ch) s)
    else
      match p with
      | [] => none
      | ch :: p =>
        if ch = 105 then
          match ap with
          | Arg.int v :: ap => write_fmt char_signed p ap (put_int (to_uint v) s)
          | _ => none
        else if ch = 116 then
          match ap with
          | Arg.ptr data :: Arg.int len :: ap =>
            write_fmt char_signed p ap (put_tail char_signed data len s)
          | _ => none
        else if ch = 115 then
          match ap with
          | Arg.ptr str :: ap => write_fmt char_signed p ap (put_str char_signed str s)
          | _ => none
        else if ch = 114 then
          match ap with
          | Arg.ptr data :: Arg.int len :: ap =>
            write_fmt char_signed p ap (put_data char_signed data len s)
          | _ => none
        else write_fmt char_signed p ap (put (char_to_int char_signed ch) s)

/-- `memcpy(buf + dst, buf + src, n)` inside one block. -/
def memcpy (buf : List Nat) (dst src n : Nat) : List Nat :=
  buf.take dst ++ ((buf.drop src).take n ++ buf.drop (dst + n))

/-- The buffer work of `write_msg`: the payload is encoded behind 8 bytes of
slack, its length is encoded at the start of the buffer and copied so that it
ends where the payload begins.  Returns the buffer and the packet
`tmpbuf[8 - hdrlen .. 8 + msglen)` handed to `fwrite`. -/
def write_msg_packet (char_signed : Bool) (fmt : List Nat) (ap : List Arg) (s : TmpBuf) :
    Option (TmpBuf × List Nat) :=
  let s := clear_tmpbuf s
  let s := { s with tmpbuf_wr := s.tmpbuf_wr + 8 }
  (write_fmt char_signed fmt ap s).map fun s =>
    let msglen : Int := (s.tmpbuf_wr : Int) - 8
    let s := put_int (to_uint msglen) { s with tmpbuf_wr := 0 }
    let hdrlen := s.tmpbuf_wr
    let s := { s with tmpbuf := memcpy s.tmpbuf (8 - hdrlen) 0 hdrlen }
    (s, (s.tmpbuf.drop (8 - hdrlen)).take (hdrlen + msglen.toNat))

/-! ## Process state, environment and observable actions -/

/-- Actions of the process that the outside can observe, in program order. -/
inductive Event where
  /-- Bytes accepted by `write(fd, ..)` over the retry loop of `write_data`. -/
  | write (fd : Nat) (bytes : List Nat)
  /-- Bytes handed to `out_pipe` over the retry loop of `write_msg`. -/
  | fwrite (bytes : List Nat)
  /-- Call of `fflush(out_pipe)`. -/
  | fflush
  /-- Text printed on stderr by `warn`, `error` or `fprintf`. -/
  | stderr (text : List Nat)
  /-- Call of `system(cmd)`. -/
  | system (cmd : List Nat)
  /-- Call of `release_proxy()`. -/
  | release_proxy
  /-- Call of `open(path, O_RDONLY)` in `setup_in_fd`. -/
  | open_in (path : List Nat)
  /-- Call of `pipe(signal_pipe)`. -/
  | pipe
  /-- Call of `tcsetattr(0, TCSANOW, t)`. -/
  | tcsetattr (t : Nat)
  /-- Installation of the SIGWINCH handler. -/
  | sigaction
  /-- Call of `fopen(path, "w")` that sets `out_pipe` in `grab_proxy`. -/
  | open_out (path : List Nat)
  /-- The forked child running `/bin/sh -c cmd` in `start_server`. -/
  | exec (cmd : List Nat)
  /-- Text printed on stdout by `printf`. -/
  | printf (text : List Nat)
  deriving DecidableEq, Repr

/-- Result of one `read(in_fd, inbuf, sizeof(inbuf))`: up to `k` bytes
arrive, or the call is interrupted, or it fails. -/
inductive ReadResult where
  | got (k : Nat)
  | eintr
  | failure
  deriving DecidableEq, Repr

/-- The files of proxy slot `k` in the dot directory: whether the FIFOs
`<k>-in` and `<k>-out` exist, and the file `<k>-owner`: absent, or present
with the integers written to it so far, one per line (empty while the JVM
sets the slot up). -/
structure Slot where
  has_in : Bool
  has_out : Bool
  owner : Option (List Int)
  deriving DecidableEq, Repr

/-- The globals of the client together with the surroundings it acts on. -/
structure Client where
  /-- The globals `tmpbuf`, `tmpbuf_rd`, `tmpbuf_wr`. -/
  buf : TmpBuf
  /-- Everything done so far, oldest first. -/
  trace : List Event
  inbuf : List Nat
  in_off : Nat
  in_len : Nat
  /-- Bytes the JVM has written to the inbound FIFO and that are not read yet. -/
  in_pipe : List Nat
  /-- Whether the JVM has closed its end of the inbound FIFO. -/
  in_eof : Bool
  /-- How the coming `read` calls on the inbound FIFO turn out. -/
  reads : List ReadResult
  using_proxy : Nat
  classpaths : List (List Nat)
  stdin_eof : Bool
  stdin_init : Bool
  tsave : Nat
  con_qinit : Bool
  con_cleanup : List Nat
  con_cleanup_len : Int
  /-- Whether `con_term` is registered with `atexit`. -/
  atexit_con_term : Bool
  /-- Terminal attributes of descriptor 0; `none` when it is not a terminal. -/
  tty : Option Nat
  /-- Answer of `ioctl(0, TIOCGWINSZ, ..)`: columns and rows, `none` on failure. -/
  winsize : Option (Nat × Nat)
  /-- Bytes written to `signal_pipe[1]` and not read yet. -/
  signal_pipe : List Nat
  /-- The global `startup_cmd`: NULL or a string. -/
  startup_cmd : Option (List Nat)
  /-- The list `aliases`, head first. -/
  aliases : List (List Nat)
  idle_timeout : Int
  /-- Contents of `$HOME/.scramjet/config`; `none` when it cannot be opened. -/
  config : Option (List Nat)
  /-- The slot files in the dot directory: entry `k` describes slot `k`, and
  no file exists for a slot beyond the end of the list. -/
  dir : List Slot
  /-- Answer of `getpid()`. -/
  pid : Int
  /-- What `server_not_running()` finds: 0 when the server runs. -/
  server_not_running : Int
  deriving DecidableEq, Repr

/-- What the platform and the surroundings supply: signedness of `char`, the
`<sys/wait.h>` macros and signal numbers, `cfmakeraw`, `$HOME`, and the
outcome of `system`, of opening the inbound FIFO and of `pipe`. -/
structure Env where
  char_signed : Bool
  /-- Return value of `system(cmd)` and the `errno` it leaves. -/
  system : List Nat → Int × Int
  WIFEXITED : Int → Bool
  WEXITSTATUS : Int → Int
  WIFSIGNALED : Int → Bool
  WTERMSIG : Int → Int
  SIGINT : Int
  SIGQUIT : Int
  cfmakeraw : Nat → Nat
  HOME : List Nat
  open_in_fails : Bool
  pipe_fails : Bool
  /-- Whether `fopen` of the leased `<k>-in` for writing fails. -/
  open_out_fails : Bool
  /-- The check of `0-owner` in `start_server`, counted from 0, at which the
  started JVM has deleted the file; `none` when it never does. -/
  jvm_ready : Option Nat
  /-- What `server_not_running()` finds after the server was told to shut
  down: the check, counted from 0, from which on it is gone, and the value
  returned then; `none` when it keeps running. -/
  jvm_gone : Option (Nat × Int)
  /-- What `%d` of `sscanf` stores for a number that does not fit an `int`
  (the C standard leaves it undefined). -/
  scanf_overflow : Int → Int

/-- How a call ends: it returns, the process has exited with a status, the
behaviour is undefined, or the call waits forever. -/
inductive Res (α : Type) where
  | ok (a : α) (c : Client)
  | exited (status : Nat) (c : Client)
  | undefined
  | blocked (c : Client)

/-- Sequencing: run `f` when the first call returns. -/
def Res.bind {α β : Type} (r : Res α) (f : α → Client → Res β) : Res β :=
  match r with
  | .ok a c => f a c
  | .exited st c => .exited st c
  | .undefined => .undefined
  | .blocked c => .blocked c

/-- Record an action. -/
def Client.emit (c : Client) (e : Event) : Client := { c with trace := c.trace ++ [e] }

/-- The C string starting at `mem`: the bytes before the first NUL. -/
def c_string (mem : List Nat) : List Nat := mem.takeWhile (fun b => b ≠ 0)

/-- `write_data(fd, data, len)`: the loop runs until `write` has accepted all
`len` bytes; nothing is written when `len` is not positive.  Write errors
other than EINTR are fatal and not modelled. -/
def write_data (fd : Nat) (data : List Nat) (len : Int) (c : Client) : Client :=
  if len > 0 then c.emit (Event.write fd (data.take len.toNat)) else c

/-- `term_stdin`: restore the saved terminal attributes if raw mode is on. -/
def term_stdin (c : Client) : Client :=
  if c.stdin_init then
    { (c.emit (Event.tcsetattr c.tsave)) with
        tty := c.tty.map (fun _ => c.tsave), stdin_init := false }
  else c

/-- `con_term`. -/
def con_term (c : Client) : Client :=
  let c := term_stdin c
  let c := write_data 1 c.con_cleanup c.con_cleanup_len c
  { c with con_cleanup_len := 0 }

/-- `exit(status)`: run the `atexit` handler if registered; the parent sees
the low 8 bits of `status`. -/
def exit {α : Type} (status : Int) (c : Client) : Res α :=
  let c := if c.atexit_con_term then con_term c else c
  .exited (status % 256).toNat c

/-- `error(msg)` and `errorE(msg)`: print and `exit(1)`.  The message is a
fixed text: the line that `errorE` adds from `strerror(errno)` is left out,
and so is a value the source formats into the text unless the caller puts it
there. -/
def error {α : Type} (msg : String) (c : Client) : Res α :=
  exit 1 (c.emit (Event.stderr (cstr msg)))

/-- A failed buffer operation seen from the process: `Alloc` printed
"Out of memory" and exited, or the behaviour is undefined. -/
def fault {α : Type} (f : Fault) (c : Client) : Res α :=
  match f with
  | .out_of_memory => error "Out of memory\n" c
  | .undefined => .undefined

/-- `write_msg(fmt, ...)`. -/
def write_msg (E : Env) (fmt : List Nat) (ap : List Arg) (c : Client) : Res Unit :=
  match write_msg_packet E.char_signed fmt ap c.buf with
  | none => .undefined
  | some (s, packet) => .ok () ({ c with buf := s }.emit (Event.fwrite packet))

/-- `write_flush`. -/
def write_flush (c : Client) : Res Unit := .ok () (c.emit Event.fflush)

/-- `release_proxy`. -/
def release_proxy (c : Client) : Client := c.emit Event.release_proxy

/-! ## Reading a message from the inbound FIFO -/

/-- The refill loop of `inbuf_get`, entered with `in_off = in_len = 0`: call
`read` until it delivers bytes.  A read that is not interrupted and does not
fail delivers between 1 and 1024 of the bytes in the FIFO; on an empty FIFO
it returns 0 (end of file, which is fatal) when the other end is closed and
waits otherwise.  Returns the first byte delivered, as
`(int) (uchar) inbuf[in_off++]`. -/
def inbuf_fill (c : Client) : List ReadResult → Res Int
  | ReadResult.eintr :: rest => inbuf_fill c rest
  | ReadResult.failure :: rest => error "Read error on named pipe:\n" { c with reads := rest }
  | reads =>
    let k := match reads with
      | ReadResult.got k :: _ => k
      | _ => 1024
    let rv := max 1 (min k 1024)
    let c := { c with reads := reads.tail }
    if c.in_pipe = [] then
      if c.in_eof then error "End of file on input named pipe\n" c else .blocked c
    else
      let chunk := c.in_pipe.take rv
      let c := { c with inbuf := chunk ++ c.inbuf.drop chunk.length,
                        in_len := chunk.length,
                        in_pipe := c.in_pipe.drop rv }
      .ok ((c.inbuf.getD 0 0 % 256 : Nat) : Int) { c with in_off := 1 }

/-- `inbuf_get`: next byte of the inbound FIFO, through the read buffer. -/
def inbuf_get (c : Client) : Res Int :=
  if c.in_off < c.in_len then
    .ok ((c.inbuf.getD c.in_off 0 % 256 : Nat) : Int) { c with in_off := c.in_off + 1 }
  else inbuf_fill { c with in_off := 0, in_len := 0 } c.reads

/-- The length loop of `read_msg`:
`while (1) { ch = inbuf_get(); val = (val << 7) | (ch & 127); if (ch & 128) continue; break; }`
with `val` as a 32-bit pattern.  Every round consumes one byte of input, so
`fuel` above the number of bytes still to come always suffices. -/
def read_msg_len : Nat → Nat → Client → Res Int
  | 0, val, c => .ok (to_int32 val) c
  | fuel + 1, val, c =>
    (inbuf_get c).bind fun ch c =>
      let val := ((val <<< 7) % 2 ^ 32) ||| (ch.toNat &&& 127)
      if ch.toNat &&& 128 ≠ 0 then read_msg_len fuel val c
      else .ok (to_int32 val) c

/-- The payload loop of `read_msg`:
`for (a = val; a>0; a--) put(inbuf_get());` with `n` rounds left. -/
def read_msg_body : Nat → Client → Res Unit
  | 0, c => .ok () c
  | n + 1, c =>
    (inbuf_get c).bind fun ch c => read_msg_body n { c with buf := put ch c.buf }

/-- `read_msg`: read one length-prefixed message into the buffer. -/
def read_msg (c : Client) : Res Unit :=
  (read_msg_len ((c.in_len - c.in_off) + c.in_pipe.length + 1) 0 c).bind fun val c =>
    read_msg_body val.toNat { c with buf := clear_tmpbuf c.buf }

/-! ## File names in the dot directory -/

/-- `putf(fmt, ...)` where `text` is what the format expands to:
`vsnprintf` stores as much of `text` as fits in front of a NUL; if all of it
fits the cursor moves behind it, else the buffer grows and the call is
repeated.  One repetition is always enough. -/
def putf_loop (text : List Nat) : Nat → TmpBuf → TmpBuf
  | 0, s => s
  | fuel + 1, s =>
    let size := s.tmpbuf_len - s.tmpbuf_wr
    let rv := text.length
    let stored := text.take (size - 1) ++ (if size = 0 then [] else [0])
    let s := { s with tmpbuf := s.tmpbuf.take s.tmpbuf_wr ++
                 (stored ++ s.tmpbuf.drop (s.tmpbuf_wr + stored.length)) }
    if s.tmpbuf_wr + rv < s.tmpbuf_len then
      let s := put 0 { s with tmpbuf_wr := s.tmpbuf_wr + rv }
      { s with tmpbuf_wr := s.tmpbuf_wr - 1 }
    else putf_loop text fuel (mksp (s.tmpbuf_wr + rv + 1) s)

/-- `putf`. -/
def putf (text : List Nat) (s : TmpBuf) : TmpBuf := putf_loop text 2 s

/-- `dot_dir_fnam(fnam)`: the name of a file in `$HOME/.scramjet/`. -/
def dot_dir_fnam (E : Env) (fnam : List Nat) (s : TmpBuf) : TmpBuf :=
  putf (E.HOME ++ cstr "/.scramjet/" ++ fnam) (clear_tmpbuf s)

/-- Expansion of `%d` for a non-negative number. -/
def decimal (n : Nat) : List Nat := cstr (toString n)

/-- `setup_in_fd`: open `<using_proxy>-out` for reading.  When that fails
the message is recorded without the path and the `strerror` line. -/
def setup_in_fd (E : Env) (c : Client) : Res Unit :=
  let s := putf (decimal c.using_proxy ++ cstr "-out") (dot_dir_fnam E [] c.buf)
  let c := { c with buf := s }.emit (Event.open_in (c_string s.tmpbuf))
  if E.open_in_fails then error "Unable to open pipe for reading: \n" c
  else .ok () c

/-! ## Console handling -/

/-- `init_stdin`: on first use save the terminal attributes and switch to raw
mode.  `tcgetattr` and `tcsetattr` are taken to succeed on a terminal. -/
def init_stdin (E : Env) (c : Client) : Res Unit :=
  if c.stdin_init then .ok () c
  else
    match c.tty with
    | none => error "Input is not a terminal\n" c
    | some tbuf =>
      let c := { c with tsave := tbuf }
      let raw := E.cfmakeraw tbuf
      let c := c.emit (Event.tcsetattr raw)
      .ok () { c with tty := some raw, stdin_init := true }

/-- `con_init`: on first use set the cleanup string to "", install the
SIGWINCH handler and register `con_term` with `atexit`. -/
def con_init (c : Client) : Client :=
  if c.con_qinit then c
  else
    let c := { c with con_qinit := true, con_cleanup := [0] }
    let c := c.emit Event.sigaction
    { c with atexit_con_term := true }

/-- `con_send_win_size`.  When the size cannot be read the message is
recorded without the `strerror` line. -/
def con_send_win_size (E : Env) (c : Client) : Res Unit :=
  match c.winsize with
  | none => error "Can't read terminal size:\n" c
  | some size =>
    (write_msg E (cstr "con-size %i %i") [Arg.int size.1, Arg.int size.2] c).bind
      fun _ c => write_flush c

/-- Value behind the `k`-th variadic argument when it is a `char **`. -/
def dest_ptr (ds : List Dest) (k : Nat) : Option (List Nat) :=
  match ds.get? k with
  | some (Dest.ptr p) => p
  | _ => none

/-- Value behind the `k`-th variadic argument when it is an `int *`. -/
def dest_int (ds : List Dest) (k : Nat) : Int :=
  match ds.get? k with
  | some (Dest.int v) => v
  | _ => 0

/-- Call `match_msg` on the buffer of the client and continue with its return
value and the values it left behind the arguments. -/
def with_match {α : Type} (E : Env) (fmt : String) (ap : List Dest) (c : Client)
    (k : Int → List Dest → Client → Res α) : Res α :=
  match match_msg E.char_signed (cstr fmt) ap c.buf with
  | .error f => fault f c
  | .ok r => k r.1 r.2.1 { c with buf := r.2.2 }

/-- `con_process_msg`: the locals `tmp` and `tmplen` start out indeterminate
and are written by `match_msg` before any use. -/
def con_process_msg (E : Env) (c : Client) : Res Unit :=
  let c := con_init c
  with_match E "con-raw-on" [] c fun rv _ c =>
  if rv ≠ 0 then init_stdin E c else
  with_match E "con-raw-off" [] c fun rv _ c =>
  if rv ≠ 0 then .ok () (term_stdin c) else
  with_match E "con-cleanup %t" [Dest.ptr none, Dest.int 0] c fun rv ds c =>
  if rv ≠ 0 then
    .ok () { c with con_cleanup := (dest_ptr ds 0).getD [], con_cleanup_len := dest_int ds 1 }
  else
  with_match E "con-req-size" [] c fun rv _ c =>
  if rv ≠ 0 then con_send_win_size E c else
  with_match E "con-term" [] c fun rv _ c =>
  if rv ≠ 0 then .ok () (con_term c) else
  .ok () (c.emit (Event.stderr (cstr "Bad con-* message: " ++ c_string c.buf.tmpbuf ++ [10])))

/-! ## Dispatch of an inbound message -/

/-- Upper-case hexadecimal digit. -/
def hex_digit (n : Nat) : Nat := if n < 10 then 48 + n else 55 + n

/-- Rendering of one byte in the "Invalid message received" dump: a
backslash is doubled, printable characters stand for themselves, anything
else becomes `\xHH`. -/
def dump_byte (b : Nat) : List Nat :=
  let ch := b &&& 255
  if ch = 92 then [92, 92]
  else if 32 ≤ ch ∧ ch ≤ 126 then [ch]
  else [92, 120, hex_digit (ch / 16), hex_digit (ch % 16)]

/-- `process_msg`: dispatch the message in the buffer.  The locals `data`,
`len` and `status` start out indeterminate and are written by `match_msg`
before any use. -/
def process_msg (E : Env) (c : Client) : Res Unit :=
  with_match E "1%t" [Dest.ptr none, Dest.int 0] c fun rv ds c =>
  if rv ≠ 0 then .ok () (write_data 1 ((dest_ptr ds 0).getD []) (dest_int ds 1) c) else
  with_match E "2%t" ds c fun rv ds c =>
  if rv ≠ 0 then .ok () (write_data 2 ((dest_ptr ds 0).getD []) (dest_int ds 1) c) else
  with_match E "exit %i" [Dest.int 0] c fun rv st c =>
  if rv ≠ 0 then exit (dest_int st 0) (release_proxy c) else
  with_match E "run %s" [Dest.ptr (dest_ptr ds 0)] c fun rv ds c =>
  if rv ≠ 0 then
    let data := c_string ((dest_ptr ds 0).getD [])
    let c := c.emit (Event.system data)
    let rv := (E.system data).1
    let errno := (E.system data).2
    let err := decide (rv = -1)
    let exited := !err && E.WIFEXITED rv
    let signalled := !err && E.WIFSIGNALED rv
    let intquit := signalled &&
      (decide (E.WTERMSIG rv = E.SIGINT) || decide (E.WTERMSIG rv = E.SIGQUIT))
    (write_msg E (cstr "run-status %i %i")
      [Arg.int (if err then -1 else if exited then 0 else if intquit then 1
                else if signalled then 2 else 3),
       Arg.int (if err then errno else if exited then E.WEXITSTATUS rv
                else if signalled then E.WTERMSIG rv else 0)] c).bind
      fun _ c => write_flush c
  else if c.buf.tmpbuf.take 4 = cstr "con-" then con_process_msg E c
  else
    let c := c.emit (Event.stderr (cstr "Invalid message received:\n"))
    .ok () (c.emit (Event.stderr ((c.buf.payload.map dump_byte).flatten ++ [10])))

/-! ## Start of a session in `main` -/

/-- `write_classpaths`: send and drop every pending classpath entry. -/
def write_classpaths_loop (E : Env) : List (List Nat) → Client → Res Unit
  | [], c => .ok () { c with classpaths := [] }
  | cp :: rest, c =>
    (write_msg E (cstr "classpath %s") [Arg.ptr cp] { c with classpaths := rest }).bind
      fun _ c => write_classpaths_loop E rest c

/-- `write_classpaths`. -/
def write_classpaths (E : Env) (c : Client) : Res Unit :=
  write_classpaths_loop E c.classpaths c

/-- The loops `while (*args) write_msg("arg %s", *args++);` and
`for (pp = environ; *pp; pp++) write_msg("env %s", *pp);` of `main`. -/
def write_strings (E : Env) (fmt : String) : List (List Nat) → Client → Res Unit
  | [], c => .ok () c
  | a :: rest, c =>
    (write_msg E (cstr fmt) [Arg.ptr a] c).bind fun _ c => write_strings E fmt rest c

/-- The part of `main` between leasing the proxy and the event loop: from
`write_classpaths()` to `pipe(signal_pipe)`.  `getcwd` is the working
directory, or `none` when it does not fit `inbuf`. -/
def main_connect (E : Env) (args environ : List (List Nat)) (getcwd : Option (List Nat))
    (cmd : List Nat) (c : Client) : Res Unit :=
  (write_classpaths E c).bind fun _ c =>
  (write_strings E "arg %s" args c).bind fun _ c =>
  (write_strings E "env %s" environ c).bind fun _ c =>
  match getcwd with
  | none => error "Current working directory too long for inbuf[]\n" c
  | some cwd =>
    let c := { c with inbuf := cwd ++ ([0] ++ c.inbuf.drop (cwd.length + 1)) }
    (write_msg E (cstr "cwd %s") [Arg.ptr c.inbuf] c).bind fun _ c =>
    (write_msg E (cstr "run %s") [Arg.ptr cmd] c).bind fun _ c =>
    (write_flush c).bind fun _ c =>
    (setup_in_fd E c).bind fun _ c =>
    if E.pipe_fails then error "Unable to create internal pipe:\n" (c.emit Event.pipe)
    else .ok () (c.emit Event.pipe)

/-! ## Notions used to state the results -/

/-- A buffer is well formed when it is allocated and the write cursor lies
inside the block; `clear_tmpbuf` establishes this and `put` keeps it. -/
def TmpBuf.WF (s : TmpBuf) : Prop :=
  0 < s.tmpbuf.length ∧ s.tmpbuf_wr ≤ s.tmpbuf.length

/-- The step from `s` to `t` stored the bytes `bs` at the write cursor and
moved the cursor behind them: bytes in front are kept, bytes behind are kept
too, and the block may have grown by zero bytes. -/
def Wrote (s t : TmpBuf) (bs : List Nat) : Prop :=
  t.tmpbuf_wr = s.tmpbuf_wr + bs.length ∧ t.tmpbuf_rd = s.tmpbuf_rd ∧
  ∃ k, t.tmpbuf = s.tmpbuf.take s.tmpbuf_wr ++
        (bs ++ (s.tmpbuf.drop (s.tmpbuf_wr + bs.length) ++ List.replicate k 0))

/-- The unread part of the payload: bytes `tmpbuf[tmpbuf_rd .. tmpbuf_wr)`. -/
def TmpBuf.unread (s : TmpBuf) : List Nat := s.payload.drop s.tmpbuf_rd

/-- Continuation bytes of the 7-bit groups `k, k-1, .., 1` of `v`: the group
with bit 0x80 set. -/
def vlq_groups (v : Nat) : Nat → List Nat
  | 0 => []
  | k + 1 => (128 + v / 2 ^ (7 * (k + 1)) % 128) :: vlq_groups v k

/-- Index of the highest non-zero 7-bit group of `v` among the groups
`k, .., 1`, or 0 when they are all zero. -/
def vlq_high (v : Nat) : Nat → Nat
  | 0 => 0
  | k + 1 => if v / 2 ^ (7 * (k + 1)) ≠ 0 then k + 1 else vlq_high v k

/-- The variable-length encoding of a 32-bit number `v`: its base-128 digits,
most significant first, without leading zero digits, bit 0x80 set on every
byte but the last. -/
def vlq (v : Nat) : List Nat := vlq_groups v (vlq_high v 4) ++ [v % 128]

/-- The number a byte sequence decodes to under
`val = (val << 7) | (byte & 127)` in 32 bits, started from `val`. -/
def vlq_value (val : Nat) (bs : List Nat) : Nat :=
  bs.foldl (fun acc b => (acc * 128 + b % 128) % 2 ^ 32) val

/-- What a pass of `match_msg` leaves behind the variadic arguments when it
runs with the error flag already set: `%i` stores 0, `%t` and `%s` store
NULL, `%r` stores NULL and 0.  `none` when the format ends in a lone `%` or
the arguments do not fit it. -/
def skip_dests : List Nat → List Dest → Option (List Dest)
  | [], ap => some ap
  | ch :: p, ap =>
    if ch ≠ 37 then skip_dests p ap
    else
      match p with
      | [] => none
      | ch :: p =>
        if ch = 105 then
          match ap with
          | Dest.int _ :: ap => (skip_dests p ap).map (fun q => Dest.int 0 :: q)
          | _ => none
        else if ch = 116 then
          match ap with
          | Dest.ptr _ :: Dest.int iv :: ap =>
            (skip_dests p ap).map (fun q => Dest.ptr none :: Dest.int iv :: q)
          | _ => none
        else if ch = 115 then
          match ap with
          | Dest.ptr _ :: ap => (skip_dests p ap).map (fun q => Dest.ptr none :: q)
          | _ => none
        else if ch = 114 then
          match ap with
          | Dest.ptr _ :: Dest.int _ :: ap =>
            (skip_dests p ap).map (fun q => Dest.ptr none :: Dest.int 0 :: q)
          | _ => none
        else skip_dests p ap

/-- A buffer as `read_msg` leaves it when it has read the payload `l` (of at
most 1024 bytes) into a fresh block. -/
def TmpBuf.holding (l : List Nat) : TmpBuf :=
  { tmpbuf := l ++ List.replicate (1024 - l.length) 0, tmpbuf_rd := 0, tmpbuf_wr := l.length }

/-- The process right after start-up, before anything was sent or received:
the globals as initialised (`idle_timeout` is 15, the rest zero), standard
input a terminal with attributes `tty` and 80 columns by 24 rows, no config
file, an empty dot directory, no server running. -/
def Client.start (tty : Nat) : Client :=
  { buf := TmpBuf.initial, trace := [], inbuf := List.replicate 1024 0, in_off := 0,
    in_len := 0, in_pipe := [], in_eof := false, reads := [], using_proxy := 0,
    classpaths := [],
    stdin_eof := false, stdin_init := false, tsave := 0, con_qinit := false,
    con_cleanup := [], con_cleanup_len := 0, atexit_con_term := false,
    tty := some tty, winsize := some (80, 24),
    signal_pipe := [], startup_cmd := none, aliases := [], idle_timeout := 15,
    config := none, dir := [], pid := 4711, server_not_running := 3 }

/-- A concrete environment: Linux on x86-64 with glibc.  `char` is signed, a
wait status holds the terminating signal in its low 7 bits and the exit
status in the next 8, SIGINT is 2 and SIGQUIT is 3, and `%d` stores the low
32 bits of a number clamped to the range of `long`.  `rv` is what every
`system` call returns. -/
def Env.linux (rv : Int) : Env :=
  { char_signed := true,
    system := fun _ => (rv, 0),
    WIFEXITED := fun st => decide (st % 128 = 0),
    WEXITSTATUS := fun st => st / 256 % 256,
    WIFSIGNALED := fun st => decide (0 < st % 128 ∧ st % 128 < 127),
    WTERMSIG := fun st => st % 128,
    SIGINT := 2,
    SIGQUIT := 3,
    cfmakeraw := fun t => t + 1,
    HOME := cstr "/home/u",
    open_in_fails := false,
    pipe_fails := false,
    open_out_fails := false,
    jvm_ready := some 3,
    jvm_gone := some (2, 3),
    scanf_overflow := fun n => wrap32 (max (-(2 ^ 63)) (min n (2 ^ 63 - 1))) }

/-- Wire form of the first `n` bytes at a `char *`. -/
def enc_bytes (data : List Nat) (n : Nat) : List Nat :=
  (List.range n).map (fun i => data.getD i 0 % 256)

/-- Wire form of `%i`: the variable-length encoding of the argument taken as
a 32-bit unsigned number. -/
def enc_int (v : Int) : List Nat := vlq (to_uint v)

/-- Wire form of `%r`: encoded length, then that many bytes. -/
def enc_data (data : List Nat) (len : Int) : List Nat :=
  enc_int len ++ enc_bytes data len.toNat

/-- Wire form of `%s`: encoded length of the C string, then its bytes. -/
def enc_str (str : List Nat) : List Nat := enc_data str (wrap32 (strlen str))

/-- The payload a format and its arguments stand for, by the table of the
framing codec: literal characters are themselves, `%i` is a variable-length
integer, `%s` and `%r` are length-prefixed bytes, `%t` is bytes without a
length.  `none` when the format ends in a lone `%` or the arguments do not
fit it. -/
def encode : List Nat → List Arg → Option (List Nat)
  | [], _ => some []
  | ch :: p, ap =>
    if ch ≠ 37 then (encode p ap).map (fun q => ch % 256 :: q)
    else
      match p with
      | [] => none
      | ch :: p =>
        if ch = 105 then
          match ap with
          | Arg.int v :: ap => (encode p ap).map (fun q => enc_int v ++ q)
          | _ => none
        else if ch = 116 then
          match ap with
          | Arg.ptr data :: Arg.int len :: ap =>
            (encode p ap).map (fun q => enc_bytes data len.toNat ++ q)
          | _ => none
        else if ch = 115 then
          match ap with
          | Arg.ptr str :: ap => (encode p ap).map (fun q => enc_str str ++ q)
          | _ => none
        else if ch = 114 then
          match ap with
          | Arg.ptr data :: Arg.int len :: ap =>
            (encode p ap).map (fun q => enc_data data len ++ q)
          | _ => none
        else (encode p ap).map (fun q => ch % 256 :: q)

/-- A buffer is either not allocated yet or at least as large as its initial
1024 bytes; `init_tmpbuf` and `mksp` never make a smaller one. -/
def TmpBuf.Sized (s : TmpBuf) : Prop := s.tmpbuf = [] ∨ 1024 ≤ s.tmpbuf.length

/-- The `run-status` table of the message dispatch, in its own words: kind
and code for a result `rv` of `system` and the `errno` it left.
(-1, errno) if the call returned -1; otherwise (0, exit status) if the child
exited normally; otherwise (1, signal) if it was terminated by SIGINT or
SIGQUIT; otherwise (2, signal) if terminated by another signal; otherwise
(3, 0). -/
def spec_run_status (E : Env) (rv errno : Int) : Int × Int :=
  if rv = -1 then (-1, errno)
  else if E.WIFEXITED rv = true then (0, E.WEXITSTATUS rv)
  else if E.WIFSIGNALED rv = true ∧ (E.WTERMSIG rv = E.SIGINT ∨ E.WTERMSIG rv = E.SIGQUIT) then
    (1, E.WTERMSIG rv)
  else if E.WIFSIGNALED rv = true then (2, E.WTERMSIG rv)
  else (3, 0)

/-- A message on the wire: encoded payload length, then the payload. -/
def frame (P : List Nat) : List Nat := vlq P.length ++ P

/-- The payload `<tag><string>` of a message made by a format `<tag>%s`. -/
def tagged (tag : String) (a : List Nat) : List Nat := cstr tag ++ (vlq a.length ++ a)

/-- Whether an action hands bytes to the outbound pipe. -/
def Event.is_fwrite : Event → Bool
  | Event.fwrite _ => true
  | _ => false

/-- The state of the process when a call has ended, if there is one. -/
def Res.client {α : Type} : Res α → Option Client
  | .ok _ c => some c
  | .exited _ c => some c
  | .undefined => none
  | .blocked c => some c

/-- A C string as the program holds one: bytes from 1 to 255, and short
enough (below 2^27 bytes) that a message made of it stays below 2^28 bytes,
where the length prefix has at most four bytes and the `int` buffer sizes
cannot overflow. -/
def Str (a : List Nat) : Prop := (∀ b ∈ a, b ≠ 0 ∧ b < 256) ∧ a.length < 2 ^ 27

instance (a : List Nat) : Decidable (Str a) := by
  unfold Str
  infer_instance

/-- The bytes the reader will see next: what is left in `inbuf`, then what
is still in the FIFO. -/
def Client.pending (c : Client) : List Nat :=
  (c.inbuf.take c.in_len).drop c.in_off ++ c.in_pipe

/-- The read buffer is in order: `in_off ≤ in_len ≤ sizeof(inbuf)`. -/
def Client.InOK (c : Client) : Prop :=
  c.in_off ≤ c.in_len ∧ c.in_len ≤ c.inbuf.length ∧ 1024 ≤ c.inbuf.length

/-- No coming `read` fails with an error other than EINTR. -/
def NoFail (reads : List ReadResult) : Prop := ReadResult.failure ∉ reads

/-- What successful calls of `inbuf_get` do between `c` and `c1`: `t` is what
is pending afterwards, and everything but the read buffer is left alone. -/
def Got (c c1 : Client) (t : List Nat) : Prop :=
  c1.pending = t ∧ c1.InOK ∧ NoFail c1.reads ∧ c1.buf = c.buf ∧ c1.trace = c.trace

/-! ## Notions for the dispatch of console messages -/

/-- The step from `c` to `c1` touched only the message buffer and the state
of the reader of the inbound FIFO. -/
def ReaderOnly (c c1 : Client) : Prop :=
  ∃ buf inbuf in_off in_len in_pipe reads,
    c1 = { c with buf := buf, inbuf := inbuf, in_off := in_off, in_len := in_len,
                  in_pipe := in_pipe, reads := reads }

/-- The work of the event loop on the next `n` inbound messages: `n` rounds
of `read_msg(); process_msg();`. -/
def inbound (E : Env) : Nat → Client → Res Unit
  | 0, c => .ok () c
  | n + 1, c =>
    (read_msg c).bind fun _ c => (process_msg E c).bind fun _ c => inbound E n c

/-- The console messages that act on the terminal state: `con-raw-on`,
`con-raw-off`, `con-term`, and `con-cleanup ` followed by bytes. -/
def ConMsg (m : List Nat) : Prop :=
  m = cstr "con-raw-on" ∨ m = cstr "con-raw-off" ∨ m = cstr "con-term" ∨
    ∃ B, m = cstr "con-cleanup " ++ B ∧ (∀ b ∈ B, b < 256) ∧ B.length < 2 ^ 28

/-- The terminal is accounted for with respect to the attributes `t0` it
had at first: either raw mode is off and the terminal has the attributes
`t0`, or raw mode is on, `t0` is what is saved in `tsave`, and `con_term` is
registered to run at exit. -/
def TermOK (t0 : Option Nat) (c : Client) : Prop :=
  (c.stdin_init = false ∧ c.tty = t0) ∨
  (c.stdin_init = true ∧ c.atexit_con_term = true ∧ c.tty ≠ none ∧ t0 = some c.tsave)

/-- The console was set up by `con_init` if it says so: `con_qinit` implies
that `con_term` is registered with `atexit`. -/
def ConOK (c : Client) : Prop := c.con_qinit = true → c.atexit_con_term = true

/-- What the reader of the inbound FIFO works on. -/
def Client.reader (c : Client) : List Nat × Nat × Nat × List Nat × Bool × List ReadResult :=
  (c.inbuf, c.in_off, c.in_len, c.in_pipe, c.in_eof, c.reads)

/-- A sample session: raw mode on, a cleanup string, raw mode on again,
off, and on once more. -/
def con_session : List (List Nat) :=
  [cstr "con-raw-on", cstr "con-cleanup " ++ [27, 91, 48, 109, 10], cstr "con-raw-on",
    cstr "con-raw-off", cstr "con-raw-on"]

/-! ## The event loop of `main` -/

/-- The bits of `revents` that the event loop tests. -/
structure Revents where
  pollin : Bool
  pollerr : Bool
  pollhup : Bool
  pollnval : Bool
  deriving DecidableEq, Repr

/-- What one round of the event loop meets: how many SIGWINCH signals are
handled while the process waits in `poll`, whether `poll` fails with an
error other than EINTR, the `revents` of the three descriptors as the loop
finds them afterwards, and what `read(0, stdinbuf, sizeof(stdinbuf))`
returns and leaves in `stdinbuf` if the loop calls it. -/
structure Poll where
  sigwinch : Nat
  failed : Bool
  /-- `pfd[0].revents`, the inbound FIFO. -/
  in_fd : Revents
  /-- `pfd[1].revents`, the read end of `signal_pipe`. -/
  signal_pipe : Revents
  /-- `pfd[2].revents`, standard input. -/
  stdin : Revents
  stdin_cnt : Int
  stdinbuf : List Nat
  deriving DecidableEq, Repr

/-- The handler `console_resized`, run `n` times: each run writes one `W`
to the self-pipe.  The handler is installed by `con_init`; before that
SIGWINCH is ignored. -/
def console_resized (n : Nat) (c : Client) : Client :=
  if c.con_qinit then { c with signal_pipe := c.signal_pipe ++ List.replicate n 87 } else c

/-- The part of the event loop that handles standard input. -/
def main_loop_stdin (E : Env) (p : Poll) (c : Client) : Res Unit :=
  if c.stdin_eof then .ok () c
  else if p.stdin.pollerr || p.stdin.pollnval then error "Error on STDIN\n" c
  else
    (if p.stdin.pollhup then
      (write_msg E (cstr "EOF") [] { c with stdin_eof := true }).bind fun _ c => write_flush c
     else .ok () c).bind fun _ c =>
    if p.stdin.pollin then
      if p.stdin_cnt = 0 then
        (write_msg E (cstr "EOF") [] { c with stdin_eof := true }).bind fun _ c => write_flush c
      else if p.stdin_cnt < 0 then error "STDIN error:\n" c
      else
        (write_msg E (cstr "0%t") [Arg.ptr p.stdinbuf, Arg.int p.stdin_cnt] c).bind
          fun _ c => write_flush c
    else .ok () c

/-- The loop over the flags read from the self-pipe:
`for (a = 0; a<cnt; a++) if (buf[a] == 'W') sigwinch = 1; else error(..);`
returning `sigwinch`. -/
def signal_flags : List Nat → Bool → Client → Res Bool
  | [], sigwinch, c => .ok sigwinch c
  | b :: rest, _, c =>
    if b = 87 then signal_flags rest true c
    else exit 1 (c.emit (Event.stderr (cstr "Unexpected flag in signal_pipe: " ++ [b, 10])))

/-- The part of the event loop that handles the self-pipe: one `read` into
`char buf[16]` takes up to 16 of the queued bytes.  A `read` on an empty
pipe would wait, as the process itself holds the write end. -/
def main_loop_signal (E : Env) (p : Poll) (c : Client) : Res Unit :=
  if p.signal_pipe.pollerr || p.signal_pipe.pollhup || p.signal_pipe.pollnval then
    error "Unexpected error on signal_pipe\n" c
  else if p.signal_pipe.pollin then
    if c.signal_pipe = [] then .blocked c
    else
      let buf := c.signal_pipe.take 16
      let c := { c with signal_pipe := c.signal_pipe.drop 16 }
      (signal_flags buf false c).bind fun sigwinch c =>
        if sigwinch then con_send_win_size E c else .ok () c
  else .ok () c

/-- The loop `while (1) { read_msg(); process_msg(); if (in_off >= in_len) break; }`.
Every round takes at least one byte from the read buffer or the FIFO, so
with `fuel` above the number of bytes in both the rounds never run out. -/
def main_loop_inbound (E : Env) : Nat → Client → Res Unit
  | 0, c => .blocked c
  | fuel + 1, c =>
    (read_msg c).bind fun _ c =>
    (process_msg E c).bind fun _ c =>
    if c.in_off ≥ c.in_len then .ok () c else main_loop_inbound E fuel c

/-- One round of the `while (1)` loop of `main`. -/
def main_loop_body (E : Env) (p : Poll) (c : Client) : Res Unit :=
  let c := console_resized p.sigwinch c
  if p.failed then error "Call to poll failed:\n" c
  else
    (main_loop_stdin E p c).bind fun _ c =>
    (main_loop_signal E p c).bind fun _ c =>
    if p.in_fd.pollhup then error "Java process hung up pipe\n" c
    else if p.in_fd.pollerr || p.in_fd.pollnval then error "Error on incoming pipe\n" c
    else if p.in_fd.pollin then
      main_loop_inbound E ((c.in_len - c.in_off) + c.in_pipe.length + 1) c
    else .ok () c

/-- The event loop of `main`, run for as many rounds as `polls` describes. -/
def main_loop (E : Env) : List Poll → Client → Res Unit
  | [], c => .ok () c
  | p :: polls, c => (main_loop_body E p c).bind fun _ c => main_loop E polls c

/-- No event on a descriptor. -/
def Revents.none : Revents :=
  { pollin := false, pollerr := false, pollhup := false, pollnval := false }

/-- A descriptor that is readable and nothing else. -/
def Revents.readable : Revents :=
  { pollin := true, pollerr := false, pollhup := false, pollnval := false }

/-- A round in which `poll` reports nothing, as when it was interrupted. -/
def Poll.idle : Poll :=
  { sigwinch := 0, failed := false, in_fd := Revents.none, signal_pipe := Revents.none,
    stdin := Revents.none, stdin_cnt := 0, stdinbuf := [] }

/-- A round in which `poll` reports the self-pipe readable and nothing else. -/
def Poll.signalled : Poll := { Poll.idle with signal_pipe := Revents.readable }

/-- A round in which `poll` reports both POLLIN and POLLHUP on standard
input and the `read` returns `cnt` with `data` in `stdinbuf`. -/
def Poll.stdin_hup (cnt : Int) (data : List Nat) : Poll :=
  { Poll.idle with
    stdin := { pollin := true, pollerr := false, pollhup := true, pollnval := false },
    stdin_cnt := cnt, stdinbuf := data }

/-- The payload of a `con-size` message. -/
def con_size (cols rows : Nat) : List Nat :=
  cstr "con-size " ++ (enc_int cols ++ 32 :: enc_int rows)

/-! ## Reading the config file -/

/-- `isspace` in the C locale. -/
def isspace (b : Nat) : Bool := b = 32 || (9 ≤ b && b ≤ 13)

/-- `isdigit`. -/
def isdigit (b : Nat) : Bool := 48 ≤ b && b ≤ 57

/-- `fgets(buf, size, in)` with `rest` still to come on the stream: `none`
at end of file (the call returns NULL and leaves the buffer alone), else the
bytes stored in front of the terminator (at most `size - 1`, ending with the
first line feed if there is one among them) and what is left of the stream. -/
def fgets (size : Nat) (rest : List Nat) : Option (List Nat × List Nat) :=
  if rest = [] then none
  else
    let most := rest.take (size - 1)
    let k := if 10 ∈ most then (most.takeWhile (fun b => b ≠ 10)).length + 1 else most.length
    some (rest.take k, rest.drop k)

/-- The bytes of `l` without trailing white space:
`while (lf > inbuf && isspace(lf[-1])) *--lf = 0;`. -/
def strip_spaces (l : List Nat) : List Nat := (l.reverse.dropWhile isspace).reverse

/-- The loop of `load_config` that strips the line feed and trailing spaces
and joins lines ending with a backslash.  `line` is the C string in `inbuf`;
the result is the C string in `inbuf` when the loop is left, and the rest of
the stream.  A round that does not leave the loop has read from the stream
or has met its end, after which the next round leaves; so `fuel` above the
length of the stream by 2 is never used up. -/
def join_lines : Nat → List Nat → List Nat → List Nat × List Nat
  | 0, line, rest => (line, rest)
  | fuel + 1, line, rest =>
    if 10 ∈ line then
      let l := strip_spaces (line.takeWhile (fun b => b ≠ 10))
      if l.getLast? = some 92 then
        let l := l.dropLast
        match fgets (1024 - l.length) rest with
        | none => join_lines fuel l rest
        | some (chunk, rest) => join_lines fuel (l ++ c_string chunk) rest
      else (l, rest)
    else (line, rest)

/-- The lines the loop `while (NULL != fgets(inbuf, sizeof(inbuf), in))` of
`load_config` works on, for a stream `rest`: each is the C string in `inbuf`
after the strip-and-join loop.  Every round reads at least one byte, so
`fuel` above the length of the stream is never used up. -/
def config_lines : Nat → List Nat → List (List Nat)
  | 0, _ => []
  | fuel + 1, rest =>
    match fgets 1024 rest with
    | none => []
    | some (chunk, rest) =>
      let r := join_lines (rest.length + 2) (c_string chunk) rest
      r.1 :: config_lines fuel r.2

/-- Value of a string of decimal digits. -/
def digits_value (ds : List Nat) : Nat := ds.foldl (fun acc d => acc * 10 + (d - 48)) 0

/-- `sscanf(s, "%d %c", &v, &dmy)`: the return value and, if the `%d`
conversion was done, the number stored in `v`.  `%d` skips white space,
takes an optional sign and then decimal digits; the blank in the format
skips white space; `%c` takes one more character if there is one.  The call
returns -1 when the input ends before a number starts, 0 when no digits are
found, 1 when nothing but white space follows the number, 2 otherwise. -/
def sscanf_d_c (E : Env) (s : List Nat) : Int × Option Int :=
  let s := s.dropWhile isspace
  if s = [] then (-1, none)
  else
    let neg := decide (s.head? = some 45)
    let t := if s.head? = some 45 ∨ s.head? = some 43 then s.tail else s
    let ds := t.takeWhile isdigit
    if ds = [] then (0, none)
    else
      let n : Int := if neg then -(digits_value ds : Int) else digits_value ds
      let v := if -(2 ^ 31) ≤ n ∧ n < 2 ^ 31 then n else E.scanf_overflow n
      if (t.dropWhile isdigit).dropWhile isspace = [] then (1, some v) else (2, some v)

/-- `0 == memcmp(inbuf, lit, strlen(lit))` for the C string `line` in
`inbuf`: the string starts with the literal.  (A shorter string differs from
the literal at its terminator, so bytes behind it never decide.) -/
def starts_with (lit : String) (line : List Nat) : Bool :=
  decide (line.take (cstr lit).length = cstr lit)

/-- The body of the `while` loop of `load_config` behind the strip-and-join
loop, for the C string `line` in `inbuf`.  Returns `idle_timeout_set`.
`Alloc` and `StrDup` are taken to succeed. -/
def load_config_line (E : Env) (line : List Nat) (idle_timeout_set : Bool) (c : Client) :
    Res Bool :=
  if line.head? = some 35 then .ok idle_timeout_set c
  else if line = [] then .ok idle_timeout_set c
  else if starts_with "alias " line then
    .ok idle_timeout_set { c with aliases := line.drop 6 :: c.aliases }
  else if starts_with "classpath " line then
    .ok idle_timeout_set { c with classpaths := line.drop 10 :: c.classpaths }
  else if starts_with "startup " line then
    if c.startup_cmd ≠ none then
      error "Error: more than one 'startup' line specified in config\n" c
    else .ok idle_timeout_set { c with startup_cmd := some (line.drop 8) }
  else if starts_with "idle_timeout " line then
    if idle_timeout_set then
      error "Error: more than one 'idle_timeout' line specified in config\n" c
    else
      let r := sscanf_d_c E (line.drop 13)
      let c := { c with idle_timeout := r.2.getD c.idle_timeout }
      if r.1 ≠ 1 then
        exit 1 (c.emit (Event.stderr (cstr "Invalid idle_timeout line: " ++ line ++ [10])))
      else .ok true c
  else exit 1 (c.emit (Event.stderr (cstr "Bad config line: " ++ line ++ [10])))

/-- The `while` loop of `load_config` over the lines of the file. -/
def load_config_lines (E : Env) : List (List Nat) → Bool → Client → Res Unit
  | [], _, c => .ok () c
  | line :: rest, idle_timeout_set, c =>
    (load_config_line E line idle_timeout_set c).bind fun idle_timeout_set c =>
      load_config_lines E rest idle_timeout_set c

/-- `load_config`.  The line buffer `inbuf` is not modelled as such: what the
call leaves in it is overwritten before it is read again. -/
def load_config (E : Env) (c : Client) : Res Unit :=
  if c.startup_cmd ≠ none then error "load_config() run twice\n" c
  else
    let c := { c with buf := dot_dir_fnam E (cstr "config") c.buf }
    match c.config with
    | none =>
      exit 1 (c.emit (Event.stderr (cstr "Can't open config file: " ++ c_string c.buf.tmpbuf ++ [10])))
    | some file =>
      (load_config_lines E (config_lines (file.length + 1) file) false c).bind fun _ c =>
        if c.startup_cmd = none then
          error "No 'startup' command specified in config file\n" c
        else .ok () c

/-- The lines of a config file as `load_config` takes them. -/
def config_file_lines (file : List Nat) : List (List Nat) := config_lines (file.length + 1) file

/-- A call returns or ends the process with status 1. -/
def Res.ok_or_fatal {α : Type} (r : Res α) : Prop :=
  (∃ a c1, r = .ok a c1) ∨ (∃ c1, r = .exited 1 c1)

/-- A config file with a comment continued over a line break, an alias, a
class path, the `startup` line and a timeout. -/
def sample_config : List Nat :=
  cstr "# sample \\\ncontinued\nalias foo net.example.Foo\nclasspath /tmp/x.jar  \nstartup java -jar sj.jar\nidle_timeout 20\n"

/-- A config file with a negative timeout. -/
def negative_config : List Nat := cstr "startup java\nidle_timeout -5\n"

/-! ## Leasing a proxy slot: `grab_proxy` -/

/-- A slot none of whose files exists. -/
def Slot.absent : Slot := { has_in := false, has_out := false, owner := none }

/-- The files of slot `k` in a directory. -/
def slot (dir : List Slot) (k : Nat) : Slot := dir.getD k Slot.absent

/-- The directory with the files of slot `k` replaced. -/
def set_slot (dir : List Slot) (k : Nat) (s : Slot) : List Slot :=
  if k < dir.length then dir.set k s
  else dir ++ (List.replicate (k - dir.length) Slot.absent ++ [s])

/-- The constant `MIN_FREE_PROXIES`. -/
def MIN_FREE_PROXIES : Nat := 4

/-- `create_proxy(a)`: create the owner flag, then the two FIFOs.  `creat`
makes an empty file or empties the one that is there; `mkfifo` fails when
the name exists.  Other causes of failure are not modelled. -/
def create_proxy (E : Env) (a : Nat) (c : Client) : Res Unit :=
  let c := { c with buf := putf (decimal a ++ cstr "-owner") (dot_dir_fnam E [] c.buf) }
  let c := { c with dir := set_slot c.dir a { slot c.dir a with owner := some [] } }
  let c := { c with buf := putf (decimal a ++ cstr "-in") (dot_dir_fnam E [] c.buf) }
  if (slot c.dir a).has_in then
    exit 1 (c.emit (Event.stderr (cstr "Failed to create named pipe: " ++ c_string c.buf.tmpbuf ++ cstr "\n  File exists\n")))
  else
    let c := { c with dir := set_slot c.dir a { slot c.dir a with has_in := true } }
    let c := { c with buf := putf (decimal a ++ cstr "-out") (dot_dir_fnam E [] c.buf) }
    if (slot c.dir a).has_out then
      exit 1 (c.emit (Event.stderr (cstr "Failed to create named pipe: " ++ c_string c.buf.tmpbuf ++ cstr "\n  File exists\n")))
    else .ok () { c with dir := set_slot c.dir a { slot c.dir a with has_out := true } }

/-- The loop `for (a = 0; 1; a++)` of `grab_proxy` from slot `a` on, with
the locals `out_pipe` (whether it is set) and `free`; returns them and
`n_proxies`.  The loop ends at the first slot without `<a>-in`, which is met
at the end of the directory at the latest, so `fuel` above the number of
slots left is never used up.  Appending to the owner file creates it when it
is not there; reading it back gives its first integer, or leaves `owner` at
-1 when there is none. -/
def grab_scan (E : Env) : Nat → Nat → Bool → Nat → Client → Res (Bool × Nat × Nat)
  | 0, _, _, _, c => .blocked c
  | fuel + 1, a, out_pipe, free, c =>
    let c := { c with buf := putf (decimal a ++ cstr "-in") (dot_dir_fnam E [] c.buf) }
    if (slot c.dir a).has_in = false then .ok (out_pipe, free, a) c
    else
      let c := { c with buf := putf (decimal a ++ cstr "-owner") (dot_dir_fnam E [] c.buf) }
      if (slot c.dir a).owner ≠ none then grab_scan E fuel (a + 1) out_pipe free c
      else if out_pipe then grab_scan E fuel (a + 1) out_pipe (free + 1) c
      else
        let file := (slot c.dir a).owner.getD [] ++ [c.pid]
        let c := { c with dir := set_slot c.dir a { slot c.dir a with owner := some file } }
        let owner := file.headD (-1)
        if owner = c.pid then
          let c := { c with using_proxy := a }
          let c := { c with buf := putf (decimal a ++ cstr "-in") (dot_dir_fnam E [] c.buf) }
          let c := c.emit (Event.open_out (c_string c.buf.tmpbuf))
          if E.open_out_fails then
            exit 1 (c.emit (Event.stderr (cstr "Unable to open pipe for writing: " ++ c_string c.buf.tmpbuf ++ [10])))
          else grab_scan E fuel (a + 1) true free c
        else grab_scan E fuel (a + 1) out_pipe free c

/-- The loop `while (inuse + MIN_FREE_PROXIES > n_proxies)` of `grab_proxy`.
`n_proxies` grows by one per round and `inuse` is at most its first value,
so the loop makes at most `MIN_FREE_PROXIES` rounds. -/
def grab_topup (E : Env) (inuse : Int) : Nat → Nat → Client → Res Unit
  | 0, _, c => .ok () c
  | fuel + 1, n_proxies, c =>
    if inuse + MIN_FREE_PROXIES > n_proxies then
      (create_proxy E n_proxies c).bind fun _ c =>
      (write_msg E (cstr "new_proxy %i") [Arg.int n_proxies] c).bind fun _ c =>
      grab_topup E inuse fuel (n_proxies + 1) c
    else .ok () c

/-- `grab_proxy`. -/
def grab_proxy (E : Env) (c : Client) : Res Unit :=
  (grab_scan E (c.dir.length + 1) 0 false 0 c).bind fun r c =>
    if r.1 = false then error "All proxies are in use\n" c
    else grab_topup E ((r.2.2 : Int) - (r.2.1 : Int)) MIN_FREE_PROXIES r.2.2 c

/-- The message that `grab_proxy` prints when no slot is free. -/
def all_in_use : Event := Event.stderr (cstr "All proxies are in use\n")

/-- The payload of a `new_proxy` message. -/
def new_proxy (i : Nat) : List Nat := cstr "new_proxy " ++ enc_int i

/-- A slot as `create_proxy` makes it: both FIFOs and an empty owner flag. -/
def Slot.created : Slot := { has_in := true, has_out := true, owner := some [] }

/-- A slot that is set up and leased by the process `pid`. -/
def Slot.leased (pid : Int) : Slot := { has_in := true, has_out := true, owner := some [pid] }

/-- A slot that is set up and free. -/
def Slot.free : Slot := { has_in := true, has_out := true, owner := none }

/-- A directory of four slots: the first and third leased by another
process, the second and fourth free. -/
def sample_dir : List Slot := [Slot.leased 77, Slot.free, Slot.leased 78, Slot.free]

/-! ## Starting the server and the session -/

/-- `server_not_running()`: the answer, and the buffer holding the name of
the PID file. -/
def server_not_running (E : Env) (c : Client) : Int × Client :=
  (c.server_not_running, { c with buf := dot_dir_fnam E (cstr "server.pid") c.buf })

/-- `stop_server`.  After the `shutdown` message the loop checks every
100 ms whether the server is gone and gives up at the first check after more
than 5 seconds, the 52nd. -/
def stop_server (E : Env) (c : Client) : Res Unit :=
  let r := server_not_running E c
  if r.1 ≠ 0 then .ok () r.2
  else
    let c := r.2.emit (Event.printf (cstr "Stopping JVM ... "))
    (grab_proxy E c).bind fun _ c =>
    (write_msg E (cstr "shutdown") [] c).bind fun _ c =>
    let c := release_proxy c
    let c := (server_not_running E c).2
    match E.jvm_gone with
    | none => error "Scramjet server did not respond to shutdown after 5 seconds\n" c
    | some (k, v) =>
      if k ≤ 51 ∧ v ≠ 0 then
        .ok () ({ c with server_not_running := v }.emit (Event.printf (cstr "DONE\n")))
      else error "Scramjet server did not respond to shutdown after 5 seconds\n" c

/-- Whether the JVM that `start_server` has started deletes `0-owner` in
time: at the 102nd check at the latest. -/
def jvm_starts (E : Env) : Bool :=
  match E.jvm_ready with
  | some k => decide (k ≤ 101)
  | none => false

/-- The loop `for (ap = aliases; ap; ap= ap->nxt) write_msg("alias %s", ap->alias);`. -/
def write_aliases (E : Env) (c : Client) : Res Unit := write_strings E "alias %s" c.aliases c

/-- The block of `start_server` under "Delete all files from last server
run": the four patterns are named in the buffer and every file that matches
one is unlinked, which leaves no slot file. -/
def start_server_sweep (E : Env) (c : Client) : Client :=
  let s := dot_dir_fnam E (cstr "*.pid") c.buf
  let s := dot_dir_fnam E (cstr "*-in") s
  let s := dot_dir_fnam E (cstr "*-out") s
  let s := dot_dir_fnam E (cstr "*-owner") s
  { c with buf := s, dir := [] }

/-- The block of `start_server` under "Start JVM": the shell command is put
in the buffer and a child process runs it.  Opening `/dev/null` and `fork`
are taken to succeed. -/
def start_server_spawn (c : Client) : Client :=
  let s := putf (cstr "echo $$ >~/.scramjet/server.pid && exec " ++ c.startup_cmd.getD []) (clear_tmpbuf c.buf)
  { c with buf := s }.emit (Event.exec (c_string s.tmpbuf))

/-- The block of `start_server` under "Wait for JVM to start up and delete
0-owner flag": the parent checks every 100 ms whether `0-owner` is gone and
gives up at the first check after more than 10 seconds, the 102nd.  Once the
JVM has deleted `0-owner` its PID file is there and it runs. -/
def start_server_wait (E : Env) (c : Client) : Res Unit :=
  let c := { c with buf := dot_dir_fnam E (cstr "0-owner") c.buf }
  if jvm_starts E = false then
    error "Scramjet server did not start up after 10 seconds\n" c
  else
    .ok () { c with dir := set_slot c.dir 0 { slot c.dir 0 with owner := none }, server_not_running := 0 }

/-- The block of `start_server` under "Try to talk to JVM to setup
alias/classpath". -/
def start_server_setup (E : Env) (keep_open : Bool) (c : Client) : Res Unit :=
  (grab_proxy E c).bind fun _ c =>
  (write_msg E (cstr "idle_timeout %i") [Arg.int c.idle_timeout] c).bind fun _ c =>
  (write_aliases E c).bind fun _ c =>
  (write_classpaths E c).bind fun _ c =>
  (write_flush c).bind fun _ c =>
  .ok () (if keep_open then c else release_proxy c)

/-- `start_server(verbose, keep_open)`. -/
def start_server (E : Env) (verbose keep_open : Bool) (c : Client) : Res Int :=
  let r := server_not_running E c
  if r.1 = 0 then .ok 0 r.2
  else
    let c := if verbose then r.2.emit (Event.printf (cstr "Starting JVM ... ")) else r.2
    (load_config E c).bind fun _ c =>
    (create_proxy E 0 (start_server_sweep E c)).bind fun _ c =>
    (start_server_wait E (start_server_spawn c)).bind fun _ c =>
    (start_server_setup E keep_open c).bind fun _ c =>
    let c := if verbose then c.emit (Event.printf (cstr "DONE\n")) else c
    .ok (if keep_open then 1 else 0) c

/-- `usage()`: print the usage text (for the default `APP_NAME`, `JVM_NAME`
and `JVM_START_EXAMPLE`) and exit. -/
def usage {α : Type} (c : Client) : Res α :=
  error "Usage:\n  scramjet -S or --start             (start JVM manually)\n  scramjet -K or --stop              (stop JVM)\n  scramjet -s or --status            (check JVM status)\n  scramjet [opt] <classname> <args>  (run Tool <classname> with <args>)\n  scramjet [opt] <alias> <args>      (run Tool that has given alias)\n  sj-<alias> <args>    (where sj-<alias> is a link to scramjet binary)\n  <alias> <args>       (where <alias> is a link to scramjet binary)\n\nOptions:\n  -j <jar-or-folder>   (ensure JAR or folder is in classpath)\n  -R            (restart JVM before running tool, useful after rebuilding)\n\nBuiltins:     (aliases to net.uazu.scramjet.tool.*)\n  sj-classpath                  (show classpath)\n  sj-alias                      (list aliases)\n  sj-alias <alias> <classname>  (add an alias)\n  sj-threads [-l]               (list running threads, -l: with backtraces)\n\nConfiguration in .scramjet/config:\n  #...                       (comment)\n  startup <command-line>     (JVM startup, example: java -jar scramjet.jar)\n  idle_timeout <minutes>     (shutdown after N mins of inactivity, default 15)\n  alias <alias> <classname>  (set up <alias> as alias for <classname>)\n  classpath <jar-or-folder>  (add a JAR or folder to the classpath)\n  charset <charset>          (terminal charset, default ISO-8859-1\n                              see java.nio.charset.Charset.forName())\n" c

/-- The loop `while (ac > 0)` of `main` over the options `-j <path>` and
`-R`; returns the arguments that are left.  `Alloc` and `StrDup` are taken
to succeed. -/
def main_options (E : Env) : Nat → List (List Nat) → Client → Res (List (List Nat))
  | 0, av, c => .ok av c
  | fuel + 1, av, c =>
    match av with
    | [] => .ok [] c
    | o :: rest =>
      if 2 ≤ av.length ∧ o = cstr "-j" then
        main_options E fuel rest.tail { c with classpaths := rest.headD [] :: c.classpaths }
      else if o = cstr "-R" then (stop_server E c).bind fun _ c => main_options E fuel rest c
      else .ok av c

/-- `main` for an invocation under the name `scramjet` that is not one of
the single options `--stop`, `--start`, `--status`: from the options loop to
`pipe(signal_pipe)`.  `environ` is the environment that
`setup_env_256_color` leaves, which is taken to return. -/
def main_session (E : Env) (av environ : List (List Nat)) (getcwd : Option (List Nat))
    (c : Client) : Res Unit :=
  (main_options E av.length av c).bind fun av c =>
  match av with
  | [] => usage c
  | cmd :: args =>
    if cmd.head? = some 45 then usage c
    else
      (start_server E false true c).bind fun opened c =>
      (if opened = 0 then grab_proxy E c else .ok () c).bind fun _ c =>
      main_connect E args environ getcwd cmd c

/-- A line that `load_config` takes: a comment, an empty line, or one of the
four settings, `idle_timeout` with a number and nothing but white space
behind it. -/
def line_ok (E : Env) (l : List Nat) : Bool :=
  decide (l.head? = some 35) || decide (l = []) || starts_with "alias " l ||
  starts_with "classpath " l || starts_with "startup " l ||
  (starts_with "idle_timeout " l && decide ((sscanf_d_c E (l.drop 13)).1 = 1))

/-- The payload of an `idle_timeout` message. -/
def idle_timeout_msg (t : Int) : List Nat := cstr "idle_timeout " ++ enc_int t

/-- The command line `-j j1 .. -j jk`. -/
def j_options (js : List (List Nat)) : List (List Nat) :=
  (js.map (fun j => [cstr "-j", j])).flatten

/-- The texts of the `alias` lines of a config file, in file order. -/
def config_aliases (file : List Nat) : List (List Nat) :=
  ((config_file_lines file).filter (starts_with "alias ")).map (fun l => l.drop 6)

/-- The texts of the `classpath` lines of a config file, in file order. -/
def config_classpaths (file : List Nat) : List (List Nat) :=
  ((config_file_lines file).filter (starts_with "classpath ")).map (fun l => l.drop 10)

/-- A config file with two aliases and two class paths around the `startup`
line. -/
def cold_config : List Nat :=
  cstr "alias a1 A\nclasspath /p1\nstartup java\nalias a2 B\nclasspath /p2\n"

/-- The process right after start-up with `cold_config` as its config file. -/
def cold_client : Client := { Client.start 5 with config := some cold_config }

/-! # Results -/

/-! ## The buffer -/

theorem mksp_newlen_gt (fuel newlen total : Nat) (h : total < newlen * 2 ^ fuel) :
    total < mksp_newlen fuel newlen total := by
  induction fuel generalizing newlen with
  | zero => simpa [mksp_newlen] using h
  | succ f ih =>
    unfold mksp_newlen
    split
    · apply ih
      rw [pow_succ] at h
      nlinarith
    · omega

theorem mksp_newlen_ge (fuel newlen total : Nat) : newlen ≤ mksp_newlen fuel newlen total := by
  induction fuel generalizing newlen with
  | zero => simp [mksp_newlen]
  | succ f ih =>
    unfold mksp_newlen
    split
    · have := ih (newlen * 2)
      omega
    · omega

theorem wrote_put (v : Int) (s : TmpBuf) (h : s.WF) : Wrote s (put v s) [int_to_char v] := by
  obtain ⟨hpos, hle⟩ := h
  unfold put Wrote
  simp only [TmpBuf.tmpbuf_len, mksp]
  by_cases hge : s.tmpbuf_wr ≥ s.tmpbuf.length
  · have heq : s.tmpbuf_wr = s.tmpbuf.length := by omega
    have hgt : s.tmpbuf_wr + 1 < mksp_newlen (s.tmpbuf_wr + 1 + 1) s.tmpbuf.length (s.tmpbuf_wr + 1) := by
      apply mksp_newlen_gt
      have := Nat.lt_two_pow (s.tmpbuf_wr + 1 + 1)
      nlinarith
    rw [if_pos hge]
    refine ⟨rfl, rfl, ?_⟩
    obtain ⟨m, hm⟩ : ∃ m, mksp_newlen (s.tmpbuf_wr + 1 + 1) s.tmpbuf.length (s.tmpbuf_wr + 1)
        - s.tmpbuf.length = m + 1 := ⟨_, (Nat.succ_pred_eq_of_pos (by omega)).symm⟩
    refine ⟨m, ?_⟩
    simp only [hm]
    rw [heq, List.set_append]
    simp [List.replicate_succ]
  · have hlt : s.tmpbuf_wr < s.tmpbuf.length := by omega
    rw [if_neg hge]
    refine ⟨rfl, rfl, 0, ?_⟩
    rw [List.set_eq_take_cons_drop _ hlt]
    simp

theorem wrote_wf {s t : TmpBuf} {bs : List Nat} (h : s.WF) (w : Wrote s t bs) : t.WF := by
  obtain ⟨hpos, hle⟩ := h
  obtain ⟨hwr, _, k, hk⟩ := w
  unfold TmpBuf.WF
  rw [hk, hwr]
  simp only [List.length_append, List.length_take, List.length_drop, List.length_replicate]
  omega

theorem wrote_refl (s : TmpBuf) : Wrote s s [] := by
  refine ⟨by simp, rfl, 0, ?_⟩
  simp

theorem wrote_trans {s t u : TmpBuf} {a b : List Nat} (h : s.WF)
    (w1 : Wrote s t a) (w2 : Wrote t u b) : Wrote s u (a ++ b) := by
  obtain ⟨hpos, hle⟩ := h
  obtain ⟨hwr1, hrd1, k1, hk1⟩ := w1
  obtain ⟨hwr2, hrd2, k2, hk2⟩ := w2
  refine ⟨by simp [hwr2, hwr1]; omega, by rw [hrd2, hrd1], ?_⟩
  have hlen : (s.tmpbuf.take s.tmpbuf_wr).length = s.tmpbuf_wr := by
    simp [List.length_take]; omega
  have htake : t.tmpbuf.take t.tmpbuf_wr = s.tmpbuf.take s.tmpbuf_wr ++ a := by
    rw [hk1, hwr1, ← List.append_assoc]
    apply List.take_left'
    simp [hlen]
  have hdrop : t.tmpbuf.drop (t.tmpbuf_wr + b.length) =
      s.tmpbuf.drop (s.tmpbuf_wr + (a ++ b).length) ++
        List.replicate (k1 - (b.length - (s.tmpbuf.length - (s.tmpbuf_wr + a.length)))) 0 := by
    rw [hk1, hwr1, ← List.append_assoc, List.drop_append_eq_append_drop]
    have e1 : (s.tmpbuf.take s.tmpbuf_wr ++ a).length = s.tmpbuf_wr + a.length := by
      simp [hlen]
    rw [e1]
    have e2 : List.drop (s.tmpbuf_wr + a.length + b.length) (s.tmpbuf.take s.tmpbuf_wr ++ a) = [] := by
      apply List.drop_eq_nil_of_le
      rw [e1]; omega
    rw [e2, List.nil_append]
    have e3 : s.tmpbuf_wr + a.length + b.length - (s.tmpbuf_wr + a.length) = b.length := by omega
    rw [e3, List.drop_append_eq_append_drop, List.drop_drop, List.drop_replicate]
    simp only [List.length_drop, List.length_append]
    rw [Nat.add_assoc]
  refine ⟨k1 - (b.length - (s.tmpbuf.length - (s.tmpbuf_wr + a.length))) + k2, ?_⟩
  rw [hk2, htake, hdrop, List.replicate_add]
  simp [List.append_assoc]

/-! ## Bit operations as arithmetic -/

theorem and_127 (x : Nat) : 127 &&& x = x % 128 := by
  rw [Nat.land_comm]
  exact Nat.and_pow_two_sub_one_eq_mod x 7

theorem and_127_right (x : Nat) : x &&& 127 = x % 128 :=
  Nat.and_pow_two_sub_one_eq_mod x 7

theorem or_128 (y : Nat) (h : y < 128) : 128 ||| y = 128 + y := by
  have := Nat.mul_add_lt_is_or (i := 7) (b := y) (by simpa using h) 1
  simpa using this.symm

theorem shl7_or (a y : Nat) (h : y < 128) : ((a <<< 7) % 2 ^ 32) ||| y = (a * 128 + y) % 2 ^ 32 := by
  have e : (a <<< 7) % 2 ^ 32 = 2 ^ 7 * ((a % 2 ^ 25)) := by
    rw [Nat.shiftLeft_eq]
    omega
  rw [e, ← Nat.mul_add_lt_is_or (by simpa using h)]
  omega

theorem and_128_ne_zero (x : Nat) (h : x < 256) : (x &&& 128 ≠ 0) ↔ 128 ≤ x := by
  have e : x &&& 128 = if 128 ≤ x then 128 else 0 := by
    interval_cases x <;> decide
  rw [e]
  split <;> simp_all

theorem int_to_char_natCast (n : Nat) : int_to_char (n : Int) = n % 256 := by
  unfold int_to_char
  have : ((n : Int) % 256) = ((n % 256 : Nat) : Int) := by omega
  rw [this, Int.toNat_natCast]

theorem int_to_char_char_to_int (sg : Bool) (b : Nat) :
    int_to_char (char_to_int sg b) = b % 256 := by
  unfold int_to_char char_to_int
  split <;> omega

/-! ## Encoders append bytes -/

theorem put_group_byte (v a : Nat) :
    int_to_char ((128 ||| (127 &&& (v >>> a)) : Nat) : Int) = 128 + v / 2 ^ a % 128 := by
  rw [int_to_char_natCast, and_127, or_128 _ (Nat.mod_lt _ (by norm_num)),
    Nat.shiftRight_eq_div_pow]
  omega

theorem put_last_byte (v : Nat) : int_to_char ((127 &&& v : Nat) : Int) = v % 128 := by
  rw [int_to_char_natCast, and_127]
  omega

theorem wrote_put_int_groups (v k : Nat) (s : TmpBuf) (h : s.WF) :
    Wrote s (put_int_groups v k s) (vlq_groups v k) := by
  induction k generalizing s with
  | zero => exact wrote_refl s
  | succ k ih =>
    have w1 := wrote_put ((128 ||| (127 &&& (v >>> (7 * (k + 1)))) : Nat) : Int) s h
    rw [put_group_byte] at w1
    have w2 := ih _ (wrote_wf h w1)
    exact wrote_trans h w1 w2

theorem wrote_put_int_scan (v k : Nat) (s : TmpBuf) (h : s.WF) :
    Wrote s (put_int_scan v k s) (vlq_groups v (vlq_high v k) ++ [v % 128]) := by
  induction k generalizing s with
  | zero =>
    have w1 := wrote_put ((127 &&& v : Nat) : Int) s h
    rw [put_last_byte] at w1
    simpa [put_int_scan, vlq_high, vlq_groups] using w1
  | succ k ih =>
    unfold put_int_scan vlq_high
    rw [Nat.shiftRight_eq_div_pow]
    split
    · have w1 := wrote_put_int_groups v (k + 1) s h
      have w2 := wrote_put ((127 &&& v : Nat) : Int) _ (wrote_wf h w1)
      rw [put_last_byte] at w2
      exact wrote_trans h w1 w2
    · exact ih s h

theorem wrote_put_int (v : Nat) (hv : v < 2 ^ 32) (s : TmpBuf) (h : s.WF) :
    Wrote s (put_int v s) (vlq v) := by
  unfold put_int vlq
  rw [Nat.mod_eq_of_lt hv]
  exact wrote_put_int_scan v 4 s h

theorem wrote_put_bytes (sg : Bool) (data : List Nat) (n a : Nat) (s : TmpBuf) (h : s.WF)
    (hlen : a + n ≤ data.length) (hb : ∀ b ∈ data, b < 256) :
    Wrote s (put_bytes sg data n a s) ((data.drop a).take n) := by
  induction n generalizing a s with
  | zero => simpa [put_bytes] using wrote_refl s
  | succ n ih =>
    have ha : a < data.length := by omega
    have w1 := wrote_put (char_to_int sg (data.getD a 0)) s h
    have hbyte : data.getD a 0 < 256 := by
      rw [List.getD_eq_getElem _ _ ha]
      exact hb _ (List.getElem_mem ha)
    rw [int_to_char_char_to_int, Nat.mod_eq_of_lt hbyte] at w1
    have w2 := ih (a + 1) _ (wrote_wf h w1) (by omega)
    have w := wrote_trans h w1 w2
    have e : (data.drop a).take (n + 1) = [data.getD a 0] ++ (data.drop (a + 1)).take n := by
      rw [List.drop_eq_getElem_cons ha, List.take_succ_cons, List.getD_eq_getElem _ _ ha]
      rfl
    rw [e]
    exact w

theorem wrap32_of_lt (n : Nat) (h : n < 2 ^ 31) : wrap32 (n : Int) = n := by
  unfold wrap32
  omega

theorem to_uint_natCast (n : Nat) (h : n < 2 ^ 32) : to_uint (n : Int) = n := by
  unfold to_uint
  omega

theorem to_int32_of_lt (n : Nat) (h : n < 2 ^ 31) : to_int32 n = n := by
  unfold to_int32
  have e : n % 2 ^ 32 = n := Nat.mod_eq_of_lt (by omega)
  rw [e, if_pos h]

theorem take_length_takeWhile (p : Nat → Bool) (l : List Nat) :
    l.take (l.takeWhile p).length = l.takeWhile p := by
  induction l with
  | nil => rfl
  | cons x xs ih =>
    by_cases hx : p x = true
    · simp [List.takeWhile_cons, hx, ih]
    · simp [List.takeWhile_cons, hx]

theorem wrote_put_tail (sg : Bool) (data : List Nat) (len : Nat) (s : TmpBuf) (h : s.WF)
    (hlen : len ≤ data.length) (hb : ∀ b ∈ data, b < 256) :
    Wrote s (put_tail sg data (len : Int) s) (data.take len) := by
  unfold put_tail
  rw [Int.toNat_natCast]
  simpa using wrote_put_bytes sg data len 0 s h (by omega) hb

theorem wrote_put_data (sg : Bool) (data : List Nat) (len : Nat) (s : TmpBuf) (h : s.WF)
    (hlen : len ≤ data.length) (hb : ∀ b ∈ data, b < 256) (h32 : len < 2 ^ 32) :
    Wrote s (put_data sg data (len : Int) s) (vlq len ++ data.take len) := by
  unfold put_data
  rw [Int.toNat_natCast, to_uint_natCast len h32]
  have w1 := wrote_put_int len h32 s h
  have w2 := wrote_put_bytes sg data len 0 _ (wrote_wf h w1) (by omega) hb
  simpa using wrote_trans h w1 w2

theorem wrote_put_str (sg : Bool) (str : List Nat) (s : TmpBuf) (h : s.WF)
    (hb : ∀ b ∈ str, b < 256) (h31 : strlen str < 2 ^ 31) :
    Wrote s (put_str sg str s) (vlq (strlen str) ++ c_string str) := by
  unfold put_str
  rw [wrap32_of_lt _ h31]
  have hle : strlen str ≤ str.length := by
    unfold strlen
    exact (List.takeWhile_sublist _).length_le
  have w := wrote_put_data sg str (strlen str) s h hle hb (by omega)
  have e : str.take (strlen str) = c_string str := by
    unfold strlen c_string
    exact take_length_takeWhile _ _
  rw [e] at w
  exact w

/-! ## Reading from the buffer -/

theorem payload_length (s : TmpBuf) (h : s.WF) : s.payload.length = s.tmpbuf_wr := by
  unfold TmpBuf.payload
  rw [List.length_take]
  exact Nat.min_eq_left h.2

theorem get_nil (sg : Bool) (s : TmpBuf) (err : Bool) (h : s.WF) (hu : s.unread = []) :
    get sg s err = (-1, true, s) := by
  have hl := payload_length s h
  unfold TmpBuf.unread at hu
  have : s.payload.length ≤ s.tmpbuf_rd := List.drop_eq_nil_iff.mp hu
  unfold get
  rw [if_pos (by omega)]

theorem get_cons (sg : Bool) (s : TmpBuf) (err : Bool) (b : Nat) (t : List Nat)
    (hu : s.unread = b :: t) :
    get sg s err = (char_to_int sg b, err, { s with tmpbuf_rd := s.tmpbuf_rd + 1 }) ∧
    ({ s with tmpbuf_rd := s.tmpbuf_rd + 1 } : TmpBuf).unread = t := by
  unfold TmpBuf.unread TmpBuf.payload at hu
  have hlt : s.tmpbuf_rd < (s.tmpbuf.take s.tmpbuf_wr).length := by
    by_contra hc
    rw [List.drop_eq_nil_of_le (by omega)] at hu
    cases hu
  have hlt2 : s.tmpbuf_rd < s.tmpbuf_wr ∧ s.tmpbuf_rd < s.tmpbuf.length := by
    rw [List.length_take] at hlt
    omega
  rw [List.drop_eq_getElem_cons hlt] at hu
  injection hu with hb ht
  constructor
  · unfold get
    rw [if_neg (by omega)]
    have : s.tmpbuf.getD s.tmpbuf_rd 0 = b := by
      rw [List.getD_eq_getElem _ _ hlt2.2, ← hb, List.getElem_take]
    rw [this]
  · unfold TmpBuf.unread TmpBuf.payload
    exact ht

theorem unread_length (s : TmpBuf) (h : s.WF) :
    s.unread.length = s.tmpbuf_wr - s.tmpbuf_rd := by
  unfold TmpBuf.unread
  rw [List.length_drop, payload_length s h]

theorem char_to_int_of_lt (sg : Bool) (b : Nat) (h : b < 128) : char_to_int sg b = (b : Int) := by
  unfold char_to_int
  have e : b % 256 = b := Nat.mod_eq_of_lt (by omega)
  rw [e]
  have : ¬ (128 ≤ b) := by omega
  simp [this]

theorem char_to_int_unsigned (b : Nat) (h : b < 256) : char_to_int false b = (b : Int) := by
  unfold char_to_int
  simp [Nat.mod_eq_of_lt h]

theorem char_to_int_signed_high (b : Nat) (h : 128 ≤ b) (h2 : b < 256) :
    char_to_int true b = (b : Int) - 256 := by
  unfold char_to_int
  simp [Nat.mod_eq_of_lt h2, h]

/-- Decoding a well-formed group sequence: continuation bytes `bs`, then a
byte below 128.  With signed `char` this only covers the one-byte case. -/
theorem get_int_loop_vlq (sg : Bool) (bs : List Nat) (last : Nat) (t : List Nat) :
    ∀ (fuel val : Nat) (s : TmpBuf) (err : Bool),
    s.unread = bs ++ last :: t → (∀ b ∈ bs, 128 ≤ b ∧ b < 256) → last < 128 →
    (sg = false ∨ bs = []) → bs.length < fuel →
    get_int_loop sg fuel val s err =
      (to_int32 (vlq_value val (bs ++ [last])), err,
        { s with tmpbuf_rd := s.tmpbuf_rd + (bs.length + 1) }) := by
  induction bs with
  | nil =>
    intro fuel val s err hu _ hlast _ hfuel
    obtain ⟨f, rfl⟩ : ∃ f, fuel = f + 1 := ⟨fuel - 1, by simp at hfuel; omega⟩
    have hg := (get_cons sg s err last t (by simpa using hu)).1
    unfold get_int_loop
    simp only [hg, char_to_int_of_lt sg last hlast]
    have h1 : ¬ ((last : Int) < 0) := by omega
    have h2 : ¬ ((last : Int).toNat &&& 128 ≠ 0) := by
      rw [Int.toNat_natCast, and_128_ne_zero last (by omega)]
      omega
    rw [if_neg h1, if_neg h2, Int.toNat_natCast, and_127_right,
      shl7_or _ _ (Nat.mod_lt _ (by norm_num))]
    simp [vlq_value]
  | cons b bs ih =>
    intro fuel val s err hu hbs hlast hsg hfuel
    obtain ⟨f, rfl⟩ : ∃ f, fuel = f + 1 := ⟨fuel - 1, by simp at hfuel; omega⟩
    have hsg : sg = false := by
      rcases hsg with h | h
      · exact h
      · cases h
    subst hsg
    have hb := hbs b (List.mem_cons_self _ _)
    obtain ⟨hg, hu2⟩ := get_cons false s err b (bs ++ last :: t) (by simpa using hu)
    unfold get_int_loop
    simp only [hg, char_to_int_unsigned b hb.2]
    have h1 : ¬ ((b : Int) < 0) := by omega
    have h2 : (b : Int).toNat &&& 128 ≠ 0 := by
      rw [Int.toNat_natCast, and_128_ne_zero b hb.2]
      exact hb.1
    rw [if_neg h1, if_pos h2, Int.toNat_natCast, and_127_right,
      shl7_or _ _ (Nat.mod_lt _ (by norm_num))]
    rw [ih f _ _ err hu2 (fun x hx => hbs x (List.mem_cons_of_mem _ hx)) hlast (Or.inl rfl)
      (by simp at hfuel; omega)]
    simp [vlq_value, Nat.add_assoc, Nat.add_comm 1]

theorem get_int_vlq (sg : Bool) (s : TmpBuf) (err : Bool) (bs : List Nat) (last : Nat)
    (t : List Nat) (hwf : s.WF) (hu : s.unread = bs ++ last :: t)
    (hbs : ∀ b ∈ bs, 128 ≤ b ∧ b < 256) (hlast : last < 128) (hsg : sg = false ∨ bs = []) :
    get_int sg s err =
      (to_int32 (vlq_value 0 (bs ++ [last])), err,
        { s with tmpbuf_rd := s.tmpbuf_rd + (bs.length + 1) }) := by
  unfold get_int
  apply get_int_loop_vlq sg bs last t _ _ _ _ hu hbs hlast hsg
  have := unread_length s hwf
  rw [hu] at this
  simp at this
  omega

/-- With signed `char`, a first byte of 128 or more makes `get` return a
negative number, which `get_int` takes for the end of the data: it returns -1
and leaves the error flag as it was. -/
theorem get_int_signed_high (s : TmpBuf) (err : Bool) (b : Nat) (t : List Nat)
    (hu : s.unread = b :: t) (h1 : 128 ≤ b) (h2 : b < 256) :
    get_int true s err = (-1, err, { s with tmpbuf_rd := s.tmpbuf_rd + 1 }) := by
  unfold get_int get_int_loop
  have hg := (get_cons true s err b t hu).1
  simp only [hg, char_to_int_signed_high b h1 h2]
  rw [if_pos (by omega)]

theorem vlq_groups_bounds (v k : Nat) : ∀ b ∈ vlq_groups v k, 128 ≤ b ∧ b < 256 := by
  induction k with
  | zero => simp [vlq_groups]
  | succ k ih =>
    intro b hb
    simp only [vlq_groups, List.mem_cons] at hb
    rcases hb with rfl | hb
    · omega
    · exact ih b hb

theorem vlq_value_vlq (v : Nat) (hv : v < 2 ^ 32) : vlq_value 0 (vlq v) = v := by
  unfold vlq vlq_high vlq_high vlq_high vlq_high vlq_high
  norm_num
  split_ifs <;> simp [vlq_groups, vlq_value] <;> omega

theorem wrote_payload {s t : TmpBuf} {bs : List Nat} (h : s.WF) (w : Wrote s t bs) :
    t.payload = s.payload ++ bs := by
  obtain ⟨hwr, _, k, hk⟩ := w
  unfold TmpBuf.payload
  rw [hk, hwr, ← List.append_assoc]
  apply List.take_left'
  rw [List.length_append, List.length_take]
  have := h.2
  omega

theorem clear_tmpbuf_wf (s : TmpBuf) : (clear_tmpbuf s).WF := by
  unfold clear_tmpbuf init_tmpbuf TmpBuf.WF
  by_cases h : s.tmpbuf = []
  · rw [if_pos h]
    simp only [List.length_replicate]
    omega
  · rw [if_neg h]
    have := List.length_pos.mpr h
    simp only
    omega

theorem clear_tmpbuf_wr (s : TmpBuf) : (clear_tmpbuf s).tmpbuf_wr = 0 := rfl

theorem clear_tmpbuf_rd (s : TmpBuf) : (clear_tmpbuf s).tmpbuf_rd = 0 := rfl

theorem clear_tmpbuf_payload (s : TmpBuf) : (clear_tmpbuf s).payload = [] := by
  simp [TmpBuf.payload, clear_tmpbuf_wr]

theorem vlq_cases (v : Nat) (hv : v < 2 ^ 32) :
    (v < 2 ^ 7 ∧ vlq v = [v % 128]) ∨
    (2 ^ 7 ≤ v ∧ v < 2 ^ 14 ∧ vlq v = [128 + v / 2 ^ 7 % 128, v % 128]) ∨
    (2 ^ 14 ≤ v ∧ v < 2 ^ 21 ∧
      vlq v = [128 + v / 2 ^ 14 % 128, 128 + v / 2 ^ 7 % 128, v % 128]) ∨
    (2 ^ 21 ≤ v ∧ v < 2 ^ 28 ∧
      vlq v = [128 + v / 2 ^ 21 % 128, 128 + v / 2 ^ 14 % 128, 128 + v / 2 ^ 7 % 128,
               v % 128]) ∨
    (2 ^ 28 ≤ v ∧
      vlq v = [128 + v / 2 ^ 28 % 128, 128 + v / 2 ^ 21 % 128, 128 + v / 2 ^ 14 % 128,
               128 + v / 2 ^ 7 % 128, v % 128]) := by
  unfold vlq vlq_high vlq_high vlq_high vlq_high vlq_high
  norm_num
  split_ifs <;> simp [vlq_groups] <;> omega

/-! ## Shape of the integer encoding -/

/-- C7: for every 32-bit unsigned `v`, `put_int` appends to the buffer a byte
sequence `bs` whose length `n` is the least `n ≥ 1` with `v < 2^(7n)`; every
byte but the last has bit 0x80 set (it lies in 128..255), the last byte is
below 128, and the low 7 bits of the bytes are the base-128 digits of `v`,
most significant first.  In particular 0 gives the single byte 0, `2^28 - 1`
gives 4 bytes and `2^28` gives 5 bytes. -/
theorem put_int_minimal_encoding (v : Nat) (hv : v < 2 ^ 32) (s : TmpBuf) (hs : s.WF) :
    ∃ bs : List Nat,
      (put_int v s).payload = s.payload ++ bs ∧
      (put_int v s).tmpbuf_wr = s.tmpbuf_wr + bs.length ∧
      1 ≤ bs.length ∧ v < 2 ^ (7 * bs.length) ∧
      (∀ m, 1 ≤ m → v < 2 ^ (7 * m) → bs.length ≤ m) ∧
      (∀ i, i + 1 < bs.length → 128 ≤ bs.getD i 0 ∧ bs.getD i 0 < 256) ∧
      bs.getD (bs.length - 1) 0 < 128 ∧
      (∀ i, i < bs.length → bs.getD i 0 % 128 = v / 128 ^ (bs.length - 1 - i) % 128) ∧
      (v = 0 → bs = [0]) ∧ (v = 2 ^ 28 - 1 → bs.length = 4) ∧ (v = 2 ^ 28 → bs.length = 5) := by
  have w := wrote_put_int v hv s hs
  refine ⟨vlq v, wrote_payload hs w, w.1, ?_⟩
  rcases vlq_cases v hv with ⟨h1, e⟩ | ⟨h1, h2, e⟩ | ⟨h1, h2, e⟩ | ⟨h1, h2, e⟩ | ⟨h1, e⟩ <;>
    rw [e] <;> simp only [List.length_cons, List.length_nil] <;>
    refine ⟨by omega, by omega, ?_, ?_, ?_, ?_, ?_, ?_, ?_⟩
  all_goals first
    | (intro m hm1 hm2
       by_contra hc
       have hm4 : m ≤ 4 := by omega
       interval_cases m <;> omega)
    | (intro i hi
       have hi4 : i ≤ 4 := by omega
       interval_cases i <;> simp at hi ⊢ <;> omega)
    | (intro h; subst h; simp at *)
    | (simp; omega)

/-- The bytes `put_int` produces for the boundary values named in C7. -/
theorem put_int_boundary_values :
    vlq 0 = [0] ∧ vlq (2 ^ 28 - 1) = [255, 255, 255, 127] ∧
    vlq (2 ^ 28) = [129, 128, 128, 128, 0] := by
  decide

/-- Witness for C7: the encoding of `2^28` on a freshly cleared buffer. -/
theorem put_int_minimal_encoding_witness :
    ∃ bs : List Nat,
      (put_int (2 ^ 28) (clear_tmpbuf TmpBuf.initial)).payload
        = (clear_tmpbuf TmpBuf.initial).payload ++ bs ∧
      (put_int (2 ^ 28) (clear_tmpbuf TmpBuf.initial)).tmpbuf_wr
        = (clear_tmpbuf TmpBuf.initial).tmpbuf_wr + bs.length ∧
      1 ≤ bs.length ∧ 2 ^ 28 < 2 ^ (7 * bs.length) ∧
      (∀ m, 1 ≤ m → 2 ^ 28 < 2 ^ (7 * m) → bs.length ≤ m) ∧
      (∀ i, i + 1 < bs.length → 128 ≤ bs.getD i 0 ∧ bs.getD i 0 < 256) ∧
      bs.getD (bs.length - 1) 0 < 128 ∧
      (∀ i, i < bs.length → bs.getD i 0 % 128 = 2 ^ 28 / 128 ^ (bs.length - 1 - i) % 128) ∧
      (2 ^ 28 = 0 → bs = [0]) ∧ (2 ^ 28 = 2 ^ 28 - 1 → bs.length = 4) ∧
      (2 ^ 28 = 2 ^ 28 → bs.length = 5) :=
  put_int_minimal_encoding (2 ^ 28) (by norm_num) (clear_tmpbuf TmpBuf.initial)
    (clear_tmpbuf_wf _)

/-! ## Integer round trip -/

theorem put_int_cleared (v : Nat) (hv : v < 2 ^ 32) (s : TmpBuf) :
    (put_int v (clear_tmpbuf s)).WF ∧
    (put_int v (clear_tmpbuf s)).unread = vlq v ∧
    (put_int v (clear_tmpbuf s)).tmpbuf_rd = 0 ∧
    (put_int v (clear_tmpbuf s)).tmpbuf_wr = (vlq v).length := by
  have hwf := clear_tmpbuf_wf s
  have w := wrote_put_int v hv _ hwf
  have hp := wrote_payload hwf w
  rw [clear_tmpbuf_payload, List.nil_append] at hp
  refine ⟨wrote_wf hwf w, ?_, w.2.1, ?_⟩
  · unfold TmpBuf.unread
    rw [w.2.1, clear_tmpbuf_rd, hp, List.drop_zero]
  · rw [w.1, clear_tmpbuf_wr, Nat.zero_add]

/-- The byte list `vlq v` is what `put_int(v)` leaves in a cleared buffer. -/
theorem put_int_payload (v : Nat) (hv : v < 2 ^ 32) (s : TmpBuf) :
    (put_int v (clear_tmpbuf s)).payload = vlq v := by
  have hwf := clear_tmpbuf_wf s
  have hp := wrote_payload hwf (wrote_put_int v hv _ hwf)
  rw [clear_tmpbuf_payload, List.nil_append] at hp
  exact hp

/-- With unsigned `char`, decoding what `put_int` wrote gives the number back
with the error flag clear and the read cursor at the write cursor. -/
theorem get_int_put_int_unsigned (v : Nat) (hv : v < 2 ^ 31) (s : TmpBuf) :
    get_int false (put_int v (clear_tmpbuf s)) false =
      ((v : Int), false,
        { put_int v (clear_tmpbuf s) with
            tmpbuf_rd := (put_int v (clear_tmpbuf s)).tmpbuf_wr }) := by
  obtain ⟨hwf, hu, hrd, hwr⟩ := put_int_cleared v (by omega) s
  have hu2 : (put_int v (clear_tmpbuf s)).unread
      = vlq_groups v (vlq_high v 4) ++ (v % 128) :: [] := by
    rw [hu]; rfl
  rw [get_int_vlq false _ false _ _ [] hwf hu2 (vlq_groups_bounds v _)
    (Nat.mod_lt _ (by norm_num)) (Or.inl rfl)]
  have e : vlq_groups v (vlq_high v 4) ++ [v % 128] = vlq v := rfl
  rw [e, vlq_value_vlq v (by omega), to_int32_of_lt v hv, hrd]
  have hl : (vlq_groups v (vlq_high v 4)).length + 1
      = (put_int v (clear_tmpbuf s)).tmpbuf_wr := by
    rw [hwr, ← e]
    simp
  rw [Nat.zero_add, hl]

/-- With signed `char` the round trip still works for numbers below 128,
whose encoding is one byte without the high bit. -/
theorem get_int_put_int_signed_small (v : Nat) (hv : v < 128) (s : TmpBuf) :
    get_int true (put_int v (clear_tmpbuf s)) false =
      ((v : Int), false,
        { put_int v (clear_tmpbuf s) with
            tmpbuf_rd := (put_int v (clear_tmpbuf s)).tmpbuf_wr }) := by
  obtain ⟨hwf, hu, hrd, hwr⟩ := put_int_cleared v (by omega) s
  have hv1 : vlq v = [v] := by
    rcases vlq_cases v (by omega) with ⟨_, e⟩ | ⟨h, _⟩ | ⟨h, _⟩ | ⟨h, _⟩ | ⟨h, _⟩
    · rw [e, Nat.mod_eq_of_lt hv]
    all_goals omega
  rw [hv1] at hu hwr
  rw [get_int_vlq true _ false [] v [] hwf (by simpa using hu) (by simp) hv (Or.inr rfl)]
  have e : vlq_value 0 [v] = v := by
    simp [vlq_value]
    omega
  simp only [List.nil_append, e, to_int32_of_lt v (by omega), hrd, hwr]
  simp

/-- C5, where the code departs from the claim: with signed `char` (the x86
Linux ABI), for every `v` from 128 to `2^31 - 1`, after `put_int(v)` on a
cleared buffer `get_int` started at read cursor 0 does not return `v`: it
returns -1 on the first byte (whose high bit is set), the error flag stays
clear and the read cursor stops at 1, short of the write cursor. -/
theorem get_int_put_int_signed_high (v : Nat) (h1 : 128 ≤ v) (h2 : v ≤ 2 ^ 31 - 1)
    (s : TmpBuf) :
    get_int true (put_int v (clear_tmpbuf s)) false =
      (-1, false, { put_int v (clear_tmpbuf s) with tmpbuf_rd := 1 }) ∧
    1 < (put_int v (clear_tmpbuf s)).tmpbuf_wr := by
  obtain ⟨hwf, hu, hrd, hwr⟩ := put_int_cleared v (by omega) s
  have hshape : ∃ b t, vlq v = b :: t ∧ 128 ≤ b ∧ b < 256 ∧ 1 ≤ t.length := by
    rcases vlq_cases v (by omega) with ⟨h, _⟩ | ⟨_, _, e⟩ | ⟨_, _, e⟩ | ⟨_, _, e⟩ | ⟨_, e⟩
    · omega
    all_goals exact ⟨_, _, e, by omega, by omega, by simp⟩
  obtain ⟨b, t, e, hb1, hb2, ht⟩ := hshape
  rw [e] at hu hwr
  constructor
  · rw [get_int_signed_high _ false b t hu hb1 hb2, hrd]
  · rw [hwr]
    simp
    omega

/-- Witness for C5: the number 128 on a fresh buffer. -/
theorem get_int_put_int_signed_high_witness :
    get_int true (put_int 128 (clear_tmpbuf TmpBuf.initial)) false =
      (-1, false, { put_int 128 (clear_tmpbuf TmpBuf.initial) with tmpbuf_rd := 1 }) ∧
    1 < (put_int 128 (clear_tmpbuf TmpBuf.initial)).tmpbuf_wr :=
  get_int_put_int_signed_high 128 (by norm_num) (by norm_num) TmpBuf.initial

/-! ## Copy loops of `get_data` and `get_tail` -/

theorem set_after_done (done : List Nat) (n x : Nat) :
    (done ++ List.replicate (n + 1) 0).set done.length x =
      (done ++ [x]) ++ List.replicate n 0 := by
  rw [List.set_append]
  simp [List.replicate_succ]

theorem get_data_loop_copy (sg : Bool) (data t : List Nat) :
    ∀ (done : List Nat) (s : TmpBuf), s.unread = data ++ t → (∀ b ∈ data, b < 256) →
    get_data_loop sg data.length done.length
        (done ++ List.replicate (data.length + 1) 0) s false =
      (done ++ data ++ [0], false,
        { s with tmpbuf_rd := s.tmpbuf_rd + data.length }) := by
  induction data with
  | nil =>
    intro done s _ _
    simp [get_data_loop]
  | cons b data ih =>
    intro done s hu hb
    obtain ⟨hg, hu2⟩ := get_cons sg s false b (data ++ t) (by simpa using hu)
    have hb256 := hb b (List.mem_cons_self _ _)
    simp only [List.length_cons]
    unfold get_data_loop
    simp only [hg, int_to_char_char_to_int, Nat.mod_eq_of_lt hb256]
    rw [set_after_done]
    have hl : done.length + 1 = (done ++ [b]).length := by simp
    rw [hl, ih (done ++ [b]) _ hu2 (fun x hx => hb x (List.mem_cons_of_mem _ hx))]
    simp [Nat.add_assoc, Nat.add_comm 1]

theorem get_tail_loop_copy (sg : Bool) (data : List Nat) :
    ∀ (done : List Nat) (s : TmpBuf) (err : Bool), s.unread = data →
    (∀ b ∈ data, b < 256) →
    get_tail_loop sg data.length done.length
        (done ++ List.replicate (data.length + 1) 0) s err =
      (done ++ data ++ [0], err,
        { s with tmpbuf_rd := s.tmpbuf_rd + data.length }) := by
  induction data with
  | nil =>
    intro done s err _ _
    simp [get_tail_loop]
  | cons b data ih =>
    intro done s err hu hb
    obtain ⟨hg, hu2⟩ := get_cons sg s err b data hu
    have hb256 := hb b (List.mem_cons_self _ _)
    simp only [List.length_cons]
    unfold get_tail_loop
    simp only [hg, int_to_char_char_to_int, Nat.mod_eq_of_lt hb256]
    rw [set_after_done]
    have hl : done.length + 1 = (done ++ [b]).length := by simp
    rw [hl, ih (done ++ [b]) _ err hu2 (fun x hx => hb x (List.mem_cons_of_mem _ hx))]
    simp [Nat.add_assoc, Nat.add_comm 1]

/-- `get_tail` hands back the whole unread part followed by a NUL, and its
length, whatever the signedness of `char`. -/
theorem get_tail_unread (sg : Bool) (s : TmpBuf) (err : Bool) (hwf : s.WF)
    (hb : ∀ b ∈ s.unread, b < 256) (hlen : s.unread.length < 2 ^ 31 - 1)
    (hrd : s.tmpbuf_rd ≤ s.tmpbuf_wr) :
    get_tail sg s err =
      .ok (s.unread ++ [0], (s.unread.length : Int), err,
        { s with tmpbuf_rd := s.tmpbuf_wr }) := by
  have hl := unread_length s hwf
  have e1 : (s.tmpbuf_wr : Int) - (s.tmpbuf_rd : Int) = (s.unread.length : Int) := by
    rw [hl]; omega
  unfold get_tail
  simp only [e1]
  have e2 : wrap32 ((s.unread.length : Int) + 1) = ((s.unread.length + 1 : Nat) : Int) := by
    unfold wrap32
    omega
  have e3 : Alloc (wrap32 ((s.unread.length : Int) + 1))
      = .ok (List.replicate (s.unread.length + 1) 0) := by
    rw [e2]
    unfold Alloc
    rw [if_neg (by omega), Int.toNat_natCast]
  rw [e3]
  have h0 : ¬ ((s.unread.length : Int) < 0) := by omega
  have := get_tail_loop_copy sg s.unread [] s err rfl hb
  simp only [List.nil_append, List.length_nil] at this
  simp only [Except.bind, bind, h0, if_false, Int.toNat_natCast, this]
  have : s.tmpbuf_rd + s.unread.length = s.tmpbuf_wr := by omega
  rw [this]

/-! ## String round trip -/

theorem unread_advance (s : TmpBuf) (k : Nat) :
    ({ s with tmpbuf_rd := s.tmpbuf_rd + k } : TmpBuf).unread = s.unread.drop k := by
  unfold TmpBuf.unread TmpBuf.payload
  rw [List.drop_drop]

theorem vlq_groups_small (n : Nat) (h : n < 128) : vlq_groups n (vlq_high n 4) = [] := by
  unfold vlq_high vlq_high vlq_high vlq_high vlq_high
  norm_num
  have h1 : n / 268435456 = 0 := by omega
  have h2 : n / 2097152 = 0 := by omega
  have h3 : n / 16384 = 0 := by omega
  have h4 : n / 128 = 0 := by omega
  simp [h1, h2, h3, h4, vlq_groups]

theorem c_string_of_no_nul (str : List Nat) (h : ∀ b ∈ str, b ≠ 0) : c_string str = str := by
  unfold c_string
  rw [List.takeWhile_eq_self_iff]
  intro x hx
  simpa using h x hx

theorem c_string_append_nul (str rest : List Nat) (h : ∀ b ∈ str, b ≠ 0) :
    c_string (str ++ 0 :: rest) = str := by
  unfold c_string
  rw [List.takeWhile_append_of_pos (by intro x hx; simpa using h x hx)]
  simp

theorem strlen_of_no_nul (str : List Nat) (h : ∀ b ∈ str, b ≠ 0) : strlen str = str.length := by
  have := c_string_of_no_nul str h
  unfold c_string at this
  unfold strlen
  rw [this]

/-- Decoding a length-prefixed string that is completely present: with
unsigned `char` for every length, with signed `char` for lengths below 128. -/
theorem get_data_vlq (sg : Bool) (s : TmpBuf) (lenp : Int) (data t : List Nat) (hwf : s.WF)
    (hu : s.unread = vlq data.length ++ data ++ t) (hb : ∀ b ∈ data, b < 256)
    (hlen : data.length < 2 ^ 31 - 1) (hsg : sg = false ∨ data.length < 128) :
    get_data sg s false lenp =
      .ok (some (data ++ [0]), (data.length : Int), false,
        { s with tmpbuf_rd := s.tmpbuf_rd + ((vlq data.length).length + data.length) }) := by
  have hu1 : s.unread = vlq_groups data.length (vlq_high data.length 4)
      ++ (data.length % 128) :: (data ++ t) := by
    rw [hu]; simp [vlq]
  have hsg2 : sg = false ∨ vlq_groups data.length (vlq_high data.length 4) = [] := by
    rcases hsg with h | h
    · exact Or.inl h
    · exact Or.inr (vlq_groups_small _ h)
  have hgi := get_int_vlq sg s false _ _ _ hwf hu1 (vlq_groups_bounds _ _)
    (Nat.mod_lt _ (by norm_num)) hsg2
  have e : vlq_groups data.length (vlq_high data.length 4) ++ [data.length % 128]
      = vlq data.length := rfl
  rw [e, vlq_value_vlq _ (by omega), to_int32_of_lt _ (by omega)] at hgi
  have hl : (vlq_groups data.length (vlq_high data.length 4)).length + 1
      = (vlq data.length).length := by rw [← e]; simp
  rw [hl] at hgi
  have hu2 : ({ s with tmpbuf_rd := s.tmpbuf_rd + (vlq data.length).length } : TmpBuf).unread
      = data ++ t := by
    rw [unread_advance, hu, List.append_assoc, List.drop_left]
  unfold get_data
  simp only [hgi]
  have e2 : wrap32 ((data.length : Int) + 1) = ((data.length + 1 : Nat) : Int) := by
    unfold wrap32
    omega
  have e3 : Alloc (wrap32 ((data.length : Int) + 1))
      = .ok (List.replicate (data.length + 1) 0) := by
    rw [e2]
    unfold Alloc
    rw [if_neg (by omega), Int.toNat_natCast]
  rw [e3]
  have h0 : ¬ ((data.length : Int) < 0) := by omega
  have hc := get_data_loop_copy sg data t [] _ hu2 hb
  simp only [List.nil_append, List.length_nil] at hc
  simp only [Except.bind, bind, h0, if_false, Int.toNat_natCast, hc, Bool.false_eq_true]
  simp [Nat.add_assoc]

theorem put_str_cleared (sg : Bool) (str : List Nat) (s : TmpBuf)
    (hb : ∀ b ∈ str, b < 256) (h0 : ∀ b ∈ str, b ≠ 0) (h31 : str.length < 2 ^ 31) :
    (put_str sg str (clear_tmpbuf s)).WF ∧
    (put_str sg str (clear_tmpbuf s)).unread = vlq str.length ++ str ∧
    (put_str sg str (clear_tmpbuf s)).payload = vlq str.length ++ str ∧
    (put_str sg str (clear_tmpbuf s)).tmpbuf_rd = 0 ∧
    (put_str sg str (clear_tmpbuf s)).tmpbuf_wr = (vlq str.length).length + str.length := by
  have hwf := clear_tmpbuf_wf s
  have hs := strlen_of_no_nul str h0
  have w := wrote_put_str sg str _ hwf hb (by rw [hs]; exact h31)
  rw [hs, c_string_of_no_nul str h0] at w
  have hp := wrote_payload hwf w
  rw [clear_tmpbuf_payload, List.nil_append] at hp
  refine ⟨wrote_wf hwf w, ?_, hp, w.2.1, ?_⟩
  · unfold TmpBuf.unread
    rw [w.2.1, clear_tmpbuf_rd, hp, List.drop_zero]
  · rw [w.1, clear_tmpbuf_wr, Nat.zero_add, List.length_append]

/-- With unsigned `char`, `get_str` gives back what `put_str` stored: a block
holding the bytes and a terminator, error flag clear, read cursor at the
write cursor. -/
theorem get_str_put_str_unsigned (str : List Nat) (s : TmpBuf)
    (hb : ∀ b ∈ str, b < 256) (h0 : ∀ b ∈ str, b ≠ 0) (h31 : str.length < 2 ^ 31 - 1) :
    get_str false (put_str false str (clear_tmpbuf s)) false =
      .ok (some (str ++ [0]), false,
        { put_str false str (clear_tmpbuf s) with
            tmpbuf_rd := (put_str false str (clear_tmpbuf s)).tmpbuf_wr }) ∧
    c_string (str ++ [0]) = str := by
  obtain ⟨hwf, hu, _, hrd, hwr⟩ := put_str_cleared false str s hb h0 (by omega)
  constructor
  · unfold get_str
    rw [get_data_vlq false _ 0 str [] hwf (by simpa using hu) hb h31 (Or.inl rfl)]
    simp [Except.map, hrd, hwr]
  · exact c_string_append_nul str [] h0

/-- With signed `char` the string round trip works for lengths below 128. -/
theorem get_str_put_str_signed_short (str : List Nat) (s : TmpBuf)
    (hb : ∀ b ∈ str, b < 256) (h0 : ∀ b ∈ str, b ≠ 0) (hlen : str.length < 128) :
    get_str true (put_str true str (clear_tmpbuf s)) false =
      .ok (some (str ++ [0]), false,
        { put_str true str (clear_tmpbuf s) with
            tmpbuf_rd := (put_str true str (clear_tmpbuf s)).tmpbuf_wr }) := by
  obtain ⟨hwf, hu, _, hrd, hwr⟩ := put_str_cleared true str s hb h0 (by omega)
  unfold get_str
  rw [get_data_vlq true _ 0 str [] hwf (by simpa using hu) hb (by omega) (Or.inr hlen)]
  simp [Except.map, hrd, hwr]

/-- The empty string is stored as the single byte 0. -/
theorem put_str_empty (sg : Bool) (s : TmpBuf) :
    (put_str sg [] (clear_tmpbuf s)).payload = [0] := by
  have h := (put_str_cleared sg [] s (by simp) (by simp) (by simp)).2.2.1
  rw [h]
  decide

/-- C6, where the code departs from the claim: with signed `char` (the x86
Linux ABI), for every NUL-free byte sequence of 128 bytes or more, after
`put_str` on a cleared buffer `get_str` started at read cursor 0 returns no
string at all: `get_int` yields -1 for the length without setting the error
flag, and `get_data` then stores `rv[-1] = 0` in front of a zero-size block,
which is undefined behaviour. -/
theorem get_str_put_str_signed_long (str : List Nat) (s : TmpBuf)
    (hb : ∀ b ∈ str, b < 256) (h0 : ∀ b ∈ str, b ≠ 0)
    (h128 : 128 ≤ str.length) (h31 : str.length < 2 ^ 31) :
    get_str true (put_str true str (clear_tmpbuf s)) false = .error Fault.undefined := by
  obtain ⟨hwf, hu, _, hrd, hwr⟩ := put_str_cleared true str s hb h0 h31
  have hshape : ∃ b t, vlq str.length = b :: t ∧ 128 ≤ b ∧ b < 256 := by
    rcases vlq_cases str.length (by omega) with
      ⟨h, _⟩ | ⟨_, _, e⟩ | ⟨_, _, e⟩ | ⟨_, _, e⟩ | ⟨_, e⟩
    · omega
    all_goals exact ⟨_, _, e, by omega, by omega⟩
  obtain ⟨b, t, e, hb1, hb2⟩ := hshape
  rw [e] at hu
  have hgi := get_int_signed_high _ false b (t ++ str) (by simpa using hu) hb1 hb2
  have ha : Alloc (wrap32 (-1 + 1)) = Except.ok [] := by rfl
  unfold get_str get_data
  simp only [hgi, ha]
  simp [Except.map, bind, Except.bind]

/-- Witness for C6: a string of 128 letters `a`. -/
theorem get_str_put_str_signed_long_witness :
    get_str true (put_str true (List.replicate 128 97) (clear_tmpbuf TmpBuf.initial)) false
      = .error Fault.undefined :=
  get_str_put_str_signed_long (List.replicate 128 97) TmpBuf.initial
    (by intro b hb; rw [List.eq_of_mem_replicate hb]; norm_num)
    (by intro b hb; rw [List.eq_of_mem_replicate hb]; norm_num)
    (by simp) (by simp)

/-! ## Stepping `match_msg` through a format -/

theorem get_rd_only (sg : Bool) (s : TmpBuf) (err : Bool) :
    ∃ rd, (get sg s err).2.2 = { s with tmpbuf_rd := rd } := by
  unfold get
  split
  · exact ⟨s.tmpbuf_rd, rfl⟩
  · exact ⟨s.tmpbuf_rd + 1, rfl⟩

theorem get_err_sticky (sg : Bool) (s : TmpBuf) : (get sg s true).2.1 = true := by
  unfold get
  split <;> rfl

/-- Once the error flag is set, a pass only moves the read cursor and nulls
the outputs. -/
theorem match_pass_err_aux (sg : Bool) (pass n : Nat) :
    ∀ (p : List Nat), p.length ≤ n → ∀ (ap : List Dest) (s : TmpBuf), ∃ rd,
      match_pass sg pass p ap s true =
        match skip_dests p ap with
        | some ds => .ok (ds, true, { s with tmpbuf_rd := rd })
        | none => .error Fault.undefined := by
  induction n with
  | zero =>
    intro p hp ap s
    have : p = [] := List.length_eq_zero.mp (by omega)
    subst this
    exact ⟨s.tmpbuf_rd, by simp [match_pass, skip_dests]⟩
  | succ n ih =>
    intro p hp ap s
    match p with
    | [] => exact ⟨s.tmpbuf_rd, by simp [match_pass, skip_dests]⟩
    | ch :: p =>
      by_cases hch : ch ≠ 37
      · obtain ⟨rd1, h1⟩ := get_rd_only sg s true
        obtain ⟨rd2, h2⟩ := ih p (by simp at hp; omega) ap { s with tmpbuf_rd := rd1 }
        refine ⟨rd2, ?_⟩
        unfold match_pass skip_dests
        simp only [ne_eq, hch, if_true, get_err_sticky, ite_self, h1, not_false_eq_true]
        exact h2
      · have hch37 : ch = 37 := by simpa using hch
        subst hch37
        match p with
        | [] => exact ⟨s.tmpbuf_rd, by simp [match_pass, skip_dests]⟩
        | c2 :: p =>
          have hlen : p.length ≤ n := by simp at hp; omega
          unfold match_pass skip_dests
          simp only [ne_eq, not_true_eq_false, if_false]
          by_cases h105 : c2 = 105
          · simp only [h105, if_true]
            match ap with
            | [] => exact ⟨0, rfl⟩
            | Dest.ptr _ :: _ => exact ⟨0, rfl⟩
            | Dest.int v :: ap =>
              obtain ⟨rd, h⟩ := ih p hlen ap s
              refine ⟨rd, ?_⟩
              simp only [if_true, h]
              cases skip_dests p ap <;> rfl
          · simp only [h105, if_false]
            by_cases h116 : c2 = 116
            · simp only [h116, if_true]
              match ap with
              | [] => exact ⟨0, rfl⟩
              | Dest.int _ :: _ => exact ⟨0, rfl⟩
              | [Dest.ptr _] => exact ⟨0, rfl⟩
              | Dest.ptr _ :: Dest.ptr _ :: _ => exact ⟨0, rfl⟩
              | Dest.ptr _ :: Dest.int iv :: ap =>
                obtain ⟨rd, h⟩ := ih p hlen ap s
                refine ⟨rd, ?_⟩
                simp only [if_true, h]
                cases skip_dests p ap <;> rfl
            · simp only [h116, if_false]
              by_cases h115 : c2 = 115
              · simp only [h115, if_true]
                match ap with
                | [] => exact ⟨0, rfl⟩
                | Dest.int _ :: _ => exact ⟨0, rfl⟩
                | Dest.ptr _ :: ap =>
                  obtain ⟨rd, h⟩ := ih p hlen ap s
                  refine ⟨rd, ?_⟩
                  simp only [if_true, h]
                  cases skip_dests p ap <;> rfl
              · simp only [h115, if_false]
                by_cases h114 : c2 = 114
                · simp only [h114, if_true]
                  match ap with
                  | [] => exact ⟨0, rfl⟩
                  | Dest.int _ :: _ => exact ⟨0, rfl⟩
                  | [Dest.ptr _] => exact ⟨0, rfl⟩
                  | Dest.ptr _ :: Dest.ptr _ :: _ => exact ⟨0, rfl⟩
                  | Dest.ptr _ :: Dest.int iv :: ap =>
                    obtain ⟨rd, h⟩ := ih p hlen ap s
                    refine ⟨rd, ?_⟩
                    simp only [if_true, h]
                    cases skip_dests p ap <;> rfl
                · simp only [h114, if_false]
                  exact ih p hlen ap s

theorem match_pass_err (sg : Bool) (pass : Nat) (p : List Nat) (ap : List Dest) (s : TmpBuf) :
    ∃ rd, match_pass sg pass p ap s true =
        match skip_dests p ap with
        | some ds => .ok (ds, true, { s with tmpbuf_rd := rd })
        | none => .error Fault.undefined :=
  match_pass_err_aux sg pass p.length p (Nat.le_refl _) ap s

theorem char_to_int_inj (sg : Bool) (a b : Nat) (ha : a < 256) (hb : b < 256)
    (h : char_to_int sg a = char_to_int sg b) : a = b := by
  unfold char_to_int at h
  rw [Nat.mod_eq_of_lt ha, Nat.mod_eq_of_lt hb] at h
  split at h <;> split at h <;> omega

theorem payload_rewind (s : TmpBuf) :
    ({ s with tmpbuf_rd := 0 } : TmpBuf).unread = s.payload := by
  unfold TmpBuf.unread
  simp [TmpBuf.payload]

/-- Literal characters of the format that the payload has at the read cursor
are stepped over, leaving the error flag alone. -/
theorem match_pass_literals (sg : Bool) (pass : Nat) (lits : List Nat) :
    ∀ (p : List Nat) (ap : List Dest) (s : TmpBuf) (err : Bool) (t : List Nat),
    (∀ c ∈ lits, c ≠ 37) → s.unread = lits ++ t →
    match_pass sg pass (lits ++ p) ap s err =
      match_pass sg pass p ap { s with tmpbuf_rd := s.tmpbuf_rd + lits.length } err := by
  induction lits with
  | nil =>
    intro p ap s err t _ _
    rfl
  | cons c lits ih =>
    intro p ap s err t hc hu
    obtain ⟨hg, hu2⟩ := get_cons sg s err c (lits ++ t) (by simpa using hu)
    have hc37 : c ≠ 37 := hc c (List.mem_cons_self _ _)
    rw [List.cons_append]
    conv_lhs => unfold match_pass
    simp only [ne_eq, hc37, not_false_eq_true, if_true, hg, not_true_eq_false, if_false]
    rw [ih p ap _ err t (fun x hx => hc x (List.mem_cons_of_mem _ hx)) hu2]
    simp [Nat.add_assoc, Nat.add_comm 1]

/-- A format whose first character is a literal that the payload does not
start with (or the payload is empty) is rejected in the first pass; the
outputs are nulled as by `skip_dests`. -/
theorem match_msg_first_mismatch (sg : Bool) (ch : Nat) (p : List Nat) (ap : List Dest)
    (s : TmpBuf) (hwf : s.WF) (hch : ch ≠ 37) (hch2 : ch < 256)
    (hb : ∀ b ∈ s.payload, b < 256) (hne : s.payload.head? ≠ some ch) :
    ∃ rd, match_msg sg (ch :: p) ap s =
        match skip_dests p ap with
        | some ds => .ok (0, ds, { s with tmpbuf_rd := rd })
        | none => .error Fault.undefined := by
  have hstep : ∃ rd1, match_pass sg 0 (ch :: p) ap { s with tmpbuf_rd := 0 } false
      = match_pass sg 0 p ap { s with tmpbuf_rd := rd1 } true := by
    have hu0 := payload_rewind s
    cases hp : s.payload with
    | nil =>
      rw [hp] at hu0
      have hg := get_nil sg { s with tmpbuf_rd := 0 } false hwf hu0
      refine ⟨0, ?_⟩
      conv_lhs => unfold match_pass
      simp only [ne_eq, hch, not_false_eq_true, if_true, hg, ite_self]
    | cons b t =>
      rw [hp] at hu0
      obtain ⟨hg, _⟩ := get_cons sg { s with tmpbuf_rd := 0 } false b t hu0
      have hbne : b ≠ ch := by
        intro h
        apply hne
        rw [hp, h]
        rfl
      have hb256 : b < 256 := hb b (by rw [hp]; exact List.mem_cons_self _ _)
      have hci : char_to_int sg b ≠ char_to_int sg ch :=
        fun h => hbne (char_to_int_inj sg b ch hb256 hch2 h)
      refine ⟨0 + 1, ?_⟩
      conv_lhs => unfold match_pass
      simp only [ne_eq, hch, not_false_eq_true, if_true, hg, hci]
  obtain ⟨rd1, h1⟩ := hstep
  obtain ⟨rd2, h2⟩ := match_pass_err sg 0 p ap { s with tmpbuf_rd := rd1 }
  refine ⟨rd2, ?_⟩
  unfold match_msg match_msg_passes
  rw [h1, h2]
  cases skip_dests p ap <;> simp [Except.bind]

theorem match_msg_of_passes (sg : Bool) (fmt : List Nat) (ap ds1 ds2 : List Dest)
    (s s1 s2 : TmpBuf)
    (h0 : match_pass sg 0 fmt ap { s with tmpbuf_rd := 0 } false = .ok (ds1, false, s1))
    (hrd1 : s1.tmpbuf_rd = s1.tmpbuf_wr)
    (h1 : match_pass sg 1 fmt ds1 { s1 with tmpbuf_rd := 0 } false = .ok (ds2, false, s2))
    (hrd2 : s2.tmpbuf_rd = s2.tmpbuf_wr) :
    match_msg sg fmt ap s = .ok (1, ds2, s2) := by
  unfold match_msg match_msg_passes
  rw [h0]
  simp only [Except.bind, ne_eq, hrd1, not_true_eq_false, if_false, Bool.false_eq_true]
  unfold match_msg_passes
  rw [h1]
  simp only [Except.bind, ne_eq, hrd2, not_true_eq_false, if_false, Bool.false_eq_true]
  rfl

theorem match_msg_of_pass0_fail (sg : Bool) (fmt : List Nat) (ap ds1 : List Dest)
    (s s1 : TmpBuf) (e : Bool)
    (h0 : match_pass sg 0 fmt ap { s with tmpbuf_rd := 0 } false = .ok (ds1, e, s1))
    (hfail : e = true ∨ s1.tmpbuf_rd ≠ s1.tmpbuf_wr) :
    match_msg sg fmt ap s = .ok (0, ds1, s1) := by
  unfold match_msg match_msg_passes
  rw [h0]
  simp only [Except.bind]
  rcases hfail with h | h
  · subst h
    simp
  · simp [h]

theorem wf_rd (s : TmpBuf) (rd : Nat) (h : s.WF) : ({ s with tmpbuf_rd := rd } : TmpBuf).WF := h

/-- One pass over a format `X%t` when the payload starts with `X`: the rest
of the payload is copied, and kept only in the second pass. -/
theorem match_pass_tail (sg : Bool) (pass x : Nat) (hx : x ≠ 37) (s : TmpBuf) (B : List Nat)
    (cp0 : Option (List Nat)) (ip0 : Int) (hwf : s.WF) (hp : s.payload = x :: B)
    (hB : ∀ b ∈ B, b < 256) (hlen : B.length < 2 ^ 31 - 1) :
    match_pass sg pass [x, 37, 116] [Dest.ptr cp0, Dest.int ip0] { s with tmpbuf_rd := 0 } false =
      .ok ([Dest.ptr (if pass = 0 then none else some (B ++ [0])), Dest.int B.length], false,
            { s with tmpbuf_rd := s.tmpbuf_wr }) := by
  have hu0 : ({ s with tmpbuf_rd := 0 } : TmpBuf).unread = [x] ++ B := by
    rw [payload_rewind, hp]; rfl
  have hl := payload_length s hwf
  rw [hp] at hl
  simp only [List.length_cons] at hl
  have h1 := match_pass_literals sg pass [x] [37, 116] [Dest.ptr cp0, Dest.int ip0]
    { s with tmpbuf_rd := 0 } false B (by simpa using hx) hu0
  simp only [List.singleton_append, List.length_singleton] at h1
  rw [h1]
  have hu1 : ({ s with tmpbuf_rd := 0 + 1 } : TmpBuf).unread = B := by
    have := unread_advance { s with tmpbuf_rd := 0 } 1
    rw [hu0] at this
    simpa using this
  have hgt := get_tail_unread sg { s with tmpbuf_rd := 0 + 1 } false (wf_rd s _ hwf)
    (by rw [hu1]; exact hB) (by rw [hu1]; exact hlen) (by simp; omega)
  rw [hu1] at hgt
  unfold match_pass
  simp only [ne_eq, not_true_eq_false, if_false, if_true]
  unfold match_pass
  simp only [hgt, Except.bind, Except.map, Bool.false_or, decide_eq_true_eq]
  simp

/-- The format `X%t` matches every payload that starts with `X`. -/
theorem match_msg_tail (sg : Bool) (x : Nat) (hx : x ≠ 37) (s : TmpBuf) (B : List Nat)
    (cp0 : Option (List Nat)) (ip0 : Int) (hwf : s.WF) (hp : s.payload = x :: B)
    (hB : ∀ b ∈ B, b < 256) (hlen : B.length < 2 ^ 31 - 1) :
    match_msg sg [x, 37, 116] [Dest.ptr cp0, Dest.int ip0] s =
      .ok (1, [Dest.ptr (some (B ++ [0])), Dest.int B.length],
            { s with tmpbuf_rd := s.tmpbuf_wr }) := by
  unfold match_msg match_msg_passes match_msg_passes match_msg_passes
  rw [match_pass_tail sg 0 x hx s B cp0 ip0 hwf hp hB hlen]
  simp only [Except.bind, ne_eq, not_true_eq_false, if_false, Bool.false_eq_true]
  have := match_pass_tail sg (0 + 1) x hx s B none B.length hwf hp hB hlen
  simp only [if_true] at this ⊢
  rw [this]
  simp

/-! ## Dispatch: stdout and stderr data -/

theorem cstr_1t : cstr "1%t" = [49, 37, 116] := by decide
theorem cstr_2t : cstr "2%t" = [50, 37, 116] := by decide
theorem cstr_exit : cstr "exit %i" = [101, 120, 105, 116, 32, 37, 105] := by decide
theorem cstr_run : cstr "run %s" = [114, 117, 110, 32, 37, 115] := by decide
theorem cstr_con : cstr "con-" = [99, 111, 110, 45] := by decide

theorem write_data_block (fd : Nat) (B : List Nat) (c : Client) :
    write_data fd (B ++ [0]) (B.length : Int) c =
      { c with trace := c.trace ++ (if B = [] then [] else [Event.write fd B]) } := by
  unfold write_data
  by_cases h : B = []
  · subst h
    simp
  · have hpos : 0 < B.length := List.length_pos.mpr h
    have : (B.length : Int) > 0 := by omega
    rw [if_pos this, if_neg h, Int.toNat_natCast]
    simp [Client.emit]

theorem with_match_ok {α : Type} (E : Env) (fmt : String) (ap : List Dest) (c : Client)
    (k : Int → List Dest → Client → Res α) (r : Int × List Dest × TmpBuf)
    (h : match_msg E.char_signed (cstr fmt) ap c.buf = .ok r) :
    with_match E fmt ap c k = k r.1 r.2.1 { c with buf := r.2.2 } := by
  unfold with_match
  rw [h]

theorem dest_ptr_zero (p : Option (List Nat)) (ds : List Dest) :
    dest_ptr (Dest.ptr p :: ds) 0 = p := rfl

theorem dest_int_zero (v : Int) (ds : List Dest) : dest_int (Dest.int v :: ds) 0 = v := rfl

theorem dest_int_one (d : Dest) (v : Int) (ds : List Dest) :
    dest_int (d :: Dest.int v :: ds) 1 = v := rfl

/-- C2: for every payload `'1' :: B` (respectively `'2' :: B`), with `B` any
byte sequence (empty, with NUL bytes, with bytes of 128 and more),
`process_msg` returns after writing exactly the bytes `B` to descriptor 1
(respectively 2): that write is the only action of the call, so nothing is
sent on the outbound pipe and the process does not exit.  This holds for
either signedness of `char`. -/
theorem process_msg_output (E : Env) (c : Client) (B : List Nat) (fd : Nat)
    (hfd : fd = 1 ∨ fd = 2) (hwf : c.buf.WF) (hp : c.buf.payload = (48 + fd) :: B)
    (hB : ∀ b ∈ B, b < 256) (hlen : B.length < 2 ^ 31 - 1) :
    process_msg E c =
      .ok () { c with buf := { c.buf with tmpbuf_rd := c.buf.tmpbuf_wr },
                      trace := c.trace ++ (if B = [] then [] else [Event.write fd B]) } := by
  rcases hfd with rfl | rfl
  · have h1 : match_msg E.char_signed (cstr "1%t") [Dest.ptr none, Dest.int 0] c.buf =
        .ok (1, [Dest.ptr (some (B ++ [0])), Dest.int B.length],
              { c.buf with tmpbuf_rd := c.buf.tmpbuf_wr }) := by
      rw [cstr_1t]
      exact match_msg_tail E.char_signed 49 (by norm_num) c.buf B none 0 hwf hp hB hlen
    unfold process_msg
    rw [with_match_ok E "1%t" _ c _ _ h1]
    dsimp only
    rw [if_pos (by norm_num), dest_ptr_zero, dest_int_one, Option.getD_some, write_data_block]
  · have hb : ∀ b ∈ c.buf.payload, b < 256 := by
      rw [hp]
      intro b hb
      rcases List.mem_cons.mp hb with rfl | h
      · norm_num
      · exact hB b h
    obtain ⟨rd, h1⟩ := match_msg_first_mismatch E.char_signed 49 [37, 116]
      [Dest.ptr none, Dest.int 0] c.buf hwf (by norm_num) (by norm_num) hb
      (by rw [hp]; simp)
    have h1' : match_msg E.char_signed (cstr "1%t") [Dest.ptr none, Dest.int 0] c.buf
        = .ok (0, [Dest.ptr none, Dest.int 0], { c.buf with tmpbuf_rd := rd }) := by
      rw [cstr_1t, h1]
      rfl
    have h2 : match_msg E.char_signed (cstr "2%t") [Dest.ptr none, Dest.int 0]
        ({ c with buf := { c.buf with tmpbuf_rd := rd } } : Client).buf =
        .ok (1, [Dest.ptr (some (B ++ [0])), Dest.int B.length],
              { c.buf with tmpbuf_rd := c.buf.tmpbuf_wr }) := by
      rw [cstr_2t]
      exact match_msg_tail E.char_signed 50 (by norm_num) { c.buf with tmpbuf_rd := rd } B
        none 0 hwf hp hB hlen
    unfold process_msg
    rw [with_match_ok E "1%t" _ c _ _ h1']
    dsimp only
    rw [if_neg (by norm_num), with_match_ok E "2%t" _ _ _ _ h2]
    dsimp only
    rw [if_pos (by norm_num), dest_ptr_zero, dest_int_one, Option.getD_some, write_data_block]

theorem holding_wf (l : List Nat) : (TmpBuf.holding l).WF := by
  unfold TmpBuf.WF TmpBuf.holding
  simp only [List.length_append, List.length_replicate]
  omega

theorem holding_payload (l : List Nat) : (TmpBuf.holding l).payload = l := by
  unfold TmpBuf.payload TmpBuf.holding
  simp

/-- Witness for C2: the payload `'1'` followed by the bytes 0x80, 0x00, 0xFF
goes to standard output unchanged. -/
theorem process_msg_output_witness :
    process_msg (Env.linux 0)
        { Client.start 5 with buf := TmpBuf.holding [49, 128, 0, 255] } =
      .ok () { Client.start 5 with
                 buf := { TmpBuf.holding [49, 128, 0, 255] with tmpbuf_rd := 4 },
                 trace := [Event.write 1 [128, 0, 255]] } :=
  process_msg_output (Env.linux 0) { Client.start 5 with buf := TmpBuf.holding [49, 128, 0, 255] }
    [128, 0, 255] 1 (Or.inl rfl) (holding_wf _) (holding_payload _) (by decide) (by norm_num)

/-! ## Dispatch: `exit` -/

theorem match_pass_int_last (sg : Bool) (pass : Nat) (x : Int) (s : TmpBuf) :
    match_pass sg pass [37, 105] [Dest.int x] s false =
      .ok ([Dest.int (if (get_int sg s false).2.1 then 0 else (get_int sg s false).1)],
            (get_int sg s false).2.1, (get_int sg s false).2.2) := by
  unfold match_pass
  simp only [ne_eq, not_true_eq_false, if_false, if_true, Bool.false_eq_true]
  unfold match_pass
  rfl

theorem payload_pos (s : TmpBuf) (h : s.WF) (a : List Nat) (hp : s.payload = a) :
    s.tmpbuf_wr = a.length := by
  rw [← payload_length s h, hp]

/-- One pass over `exit %i` when the payload is `exit ` followed by `rest`:
the five literals are stepped over and `get_int` runs at offset 5. -/
theorem match_pass_exit (sg : Bool) (pass : Nat) (x : Int) (s : TmpBuf) (rest : List Nat)
    (hp : s.payload = [101, 120, 105, 116, 32] ++ rest) :
    match_pass sg pass [101, 120, 105, 116, 32, 37, 105] [Dest.int x]
        { s with tmpbuf_rd := 0 } false =
      .ok ([Dest.int (if (get_int sg { s with tmpbuf_rd := 5 } false).2.1 then 0
                      else (get_int sg { s with tmpbuf_rd := 5 } false).1)],
            (get_int sg { s with tmpbuf_rd := 5 } false).2.1,
            (get_int sg { s with tmpbuf_rd := 5 } false).2.2) := by
  have hu0 : ({ s with tmpbuf_rd := 0 } : TmpBuf).unread = [101, 120, 105, 116, 32] ++ rest := by
    rw [payload_rewind, hp]
  have h1 := match_pass_literals sg pass [101, 120, 105, 116, 32] [37, 105] [Dest.int x]
    { s with tmpbuf_rd := 0 } false rest (by decide) hu0
  have e : [101, 120, 105, 116, 32] ++ [37, 105] = [101, 120, 105, 116, 32, 37, 105] := rfl
  rw [e] at h1
  rw [h1]
  exact match_pass_int_last sg pass x _

theorem unread_at (s : TmpBuf) (a b : List Nat) (hp : s.payload = a ++ b) :
    ({ s with tmpbuf_rd := a.length } : TmpBuf).unread = b := by
  unfold TmpBuf.unread
  show s.payload.drop a.length = b
  rw [hp, List.drop_left]

/-- The format `exit %i` matches `exit ` followed by an encoded number when
`char` is unsigned, or when the number is below 128. -/
theorem match_msg_exit (sg : Bool) (x : Int) (s : TmpBuf) (v : Nat) (hwf : s.WF)
    (hv : v < 2 ^ 31) (hsg : sg = false ∨ v < 128)
    (hp : s.payload = [101, 120, 105, 116, 32] ++ vlq v) :
    match_msg sg [101, 120, 105, 116, 32, 37, 105] [Dest.int x] s =
      .ok (1, [Dest.int v], { s with tmpbuf_rd := s.tmpbuf_wr }) := by
  have hu := unread_at s _ _ hp
  have hu1 : ({ s with tmpbuf_rd := 5 } : TmpBuf).unread
      = vlq_groups v (vlq_high v 4) ++ (v % 128) :: [] := by
    rw [← List.append_nil (_ :: _)] at *
    exact hu
  have hsg2 : sg = false ∨ vlq_groups v (vlq_high v 4) = [] := by
    rcases hsg with h | h
    · exact Or.inl h
    · exact Or.inr (vlq_groups_small _ h)
  have hgi := get_int_vlq sg { s with tmpbuf_rd := 5 } false _ _ [] (wf_rd s 5 hwf) hu1
    (vlq_groups_bounds _ _) (Nat.mod_lt _ (by norm_num)) hsg2
  have e : vlq_groups v (vlq_high v 4) ++ [v % 128] = vlq v := rfl
  rw [e, vlq_value_vlq v (by omega), to_int32_of_lt v hv] at hgi
  have hwr : s.tmpbuf_wr = 5 + ((vlq_groups v (vlq_high v 4)).length + 1) := by
    rw [payload_pos s hwf _ hp, ← e]
    simp only [List.length_append, List.length_cons, List.length_nil]
  have hpass : ∀ pass y, match_pass sg pass [101, 120, 105, 116, 32, 37, 105] [Dest.int y]
      { s with tmpbuf_rd := 0 } false
      = .ok ([Dest.int v], false, { s with tmpbuf_rd := s.tmpbuf_wr }) := by
    intro pass y
    rw [match_pass_exit sg pass y s _ hp, hgi, hwr]
    rfl
  exact match_msg_of_passes sg _ _ _ _ s _ _ (hpass 0 x) rfl (hpass 1 v) rfl

/-- With signed `char`, the format `exit %i` rejects `exit ` followed by the
encoding of a number of 128 or more, and leaves -1 in the output. -/
theorem match_msg_exit_signed_high (x : Int) (s : TmpBuf) (v : Nat) (hwf : s.WF)
    (h1 : 128 ≤ v) (h2 : v < 2 ^ 32)
    (hp : s.payload = [101, 120, 105, 116, 32] ++ vlq v) :
    match_msg true [101, 120, 105, 116, 32, 37, 105] [Dest.int x] s =
      .ok (0, [Dest.int (-1)], { s with tmpbuf_rd := 6 }) := by
  have hu := unread_at s _ _ hp
  have hshape : ∃ b t, vlq v = b :: t ∧ 128 ≤ b ∧ b < 256 ∧ 1 ≤ t.length := by
    rcases vlq_cases v h2 with ⟨h, _⟩ | ⟨_, _, e⟩ | ⟨_, _, e⟩ | ⟨_, _, e⟩ | ⟨_, e⟩
    · omega
    all_goals exact ⟨_, _, e, by omega, by omega, by simp⟩
  obtain ⟨b, t, e, hb1, hb2, ht⟩ := hshape
  rw [e] at hu
  have hgi := get_int_signed_high { s with tmpbuf_rd := 5 } false b t hu hb1 hb2
  have hwr : s.tmpbuf_wr ≠ 6 := by
    rw [payload_pos s hwf _ hp, e]
    simp only [List.length_append, List.length_cons, List.length_nil]
    omega
  have h0 := match_pass_exit true 0 x s _ hp
  rw [hgi] at h0
  exact match_msg_of_pass0_fail true _ _ _ s _ _ h0 (Or.inr (fun h => hwr h.symm))

theorem vlq_bytes_lt (v : Nat) : ∀ b ∈ vlq v, b < 256 := by
  intro b hb
  unfold vlq at hb
  rcases List.mem_append.mp hb with h | h
  · exact (vlq_groups_bounds v _ b h).2
  · have : b = v % 128 := by simpa using h
    omega

theorem tmpbuf_take_of_payload (s : TmpBuf) (a b : List Nat) (hwf : s.WF)
    (hp : s.payload = a ++ b) : s.tmpbuf.take a.length = a := by
  have hl := payload_pos s hwf _ hp
  have : s.tmpbuf.take a.length = (s.tmpbuf.take s.tmpbuf_wr).take a.length := by
    rw [List.take_take, Nat.min_eq_left]
    rw [hl, List.length_append]
    omega
  rw [this]
  show s.payload.take a.length = a
  rw [hp, List.take_left]

/-- The three formats tried before `exit %i` and `run %s` reject a payload
that starts with neither `1` nor `2`. -/
theorem match_msg_not_data (sg : Bool) (x : Nat) (hx : x = 49 ∨ x = 50) (s : TmpBuf)
    (cp : Option (List Nat)) (ip : Int) (hwf : s.WF) (hb : ∀ b ∈ s.payload, b < 256)
    (hne : s.payload.head? ≠ some x) :
    ∃ rd, match_msg sg [x, 37, 116] [Dest.ptr cp, Dest.int ip] s =
      .ok (0, [Dest.ptr none, Dest.int ip], { s with tmpbuf_rd := rd }) := by
  obtain ⟨rd, h⟩ := match_msg_first_mismatch sg x [37, 116] [Dest.ptr cp, Dest.int ip] s hwf
    (by rcases hx with rfl | rfl <;> norm_num) (by rcases hx with rfl | rfl <;> norm_num) hb hne
  exact ⟨rd, h⟩

theorem match_msg_not_run (sg : Bool) (s : TmpBuf) (cp : Option (List Nat)) (hwf : s.WF)
    (hb : ∀ b ∈ s.payload, b < 256) (hne : s.payload.head? ≠ some 114) :
    ∃ rd, match_msg sg [114, 117, 110, 32, 37, 115] [Dest.ptr cp] s =
      .ok (0, [Dest.ptr none], { s with tmpbuf_rd := rd }) := by
  obtain ⟨rd, h⟩ := match_msg_first_mismatch sg 114 [117, 110, 32, 37, 115] [Dest.ptr cp] s hwf
    (by norm_num) (by norm_num) hb hne
  exact ⟨rd, h⟩

theorem match_msg_not_exit (sg : Bool) (s : TmpBuf) (x : Int) (hwf : s.WF)
    (hb : ∀ b ∈ s.payload, b < 256) (hne : s.payload.head? ≠ some 101) :
    ∃ rd, match_msg sg [101, 120, 105, 116, 32, 37, 105] [Dest.int x] s =
      .ok (0, [Dest.int 0], { s with tmpbuf_rd := rd }) := by
  obtain ⟨rd, h⟩ := match_msg_first_mismatch sg 101 [120, 105, 116, 32, 37, 105] [Dest.int x] s
    hwf (by norm_num) (by norm_num) hb hne
  exact ⟨rd, h⟩

/-- The steps of `process_msg` up to the `exit %i` test, for a payload that
starts with neither `1` nor `2`. -/
theorem process_msg_to_exit (E : Env) (c : Client) (hwf : c.buf.WF)
    (hb : ∀ b ∈ c.buf.payload, b < 256) (h49 : c.buf.payload.head? ≠ some 49)
    (h50 : c.buf.payload.head? ≠ some 50) :
    ∃ rd, process_msg E c =
      with_match E "exit %i" [Dest.int 0] { c with buf := { c.buf with tmpbuf_rd := rd } }
        fun rv st c =>
        if rv ≠ 0 then exit (dest_int st 0) (release_proxy c) else
        with_match E "run %s" [Dest.ptr none] c fun rv ds c =>
        if rv ≠ 0 then
          let data := c_string ((dest_ptr ds 0).getD [])
          let c := c.emit (Event.system data)
          let rv := (E.system data).1
          let errno := (E.system data).2
          let err := decide (rv = -1)
          let exited := !err && E.WIFEXITED rv
          let signalled := !err && E.WIFSIGNALED rv
          let intquit := signalled &&
            (decide (E.WTERMSIG rv = E.SIGINT) || decide (E.WTERMSIG rv = E.SIGQUIT))
          (write_msg E (cstr "run-status %i %i")
            [Arg.int (if err then -1 else if exited then 0 else if intquit then 1
                      else if signalled then 2 else 3),
             Arg.int (if err then errno else if exited then E.WEXITSTATUS rv
                      else if signalled then E.WTERMSIG rv else 0)] c).bind
            fun _ c => write_flush c
        else if c.buf.tmpbuf.take 4 = cstr "con-" then con_process_msg E c
        else
          let c := c.emit (Event.stderr (cstr "Invalid message received:\n"))
          .ok () (c.emit (Event.stderr ((c.buf.payload.map dump_byte).flatten ++ [10]))) := by
  obtain ⟨rd1, h1⟩ := match_msg_not_data E.char_signed 49 (Or.inl rfl) c.buf none 0 hwf hb h49
  obtain ⟨rd2, h2⟩ := match_msg_not_data E.char_signed 50 (Or.inr rfl)
    { c.buf with tmpbuf_rd := rd1 } none 0 hwf hb h50
  refine ⟨rd2, ?_⟩
  rw [← cstr_1t] at h1
  rw [← cstr_2t] at h2
  have h2' : match_msg E.char_signed (cstr "2%t") [Dest.ptr none, Dest.int 0]
      ({ c with buf := { c.buf with tmpbuf_rd := rd1 } } : Client).buf = _ := h2
  unfold process_msg
  rw [with_match_ok E "1%t" _ c _ _ h1]
  dsimp only
  rw [if_neg (by norm_num), with_match_ok E "2%t" _ _ _ _ h2']
  dsimp only
  rw [if_neg (by norm_num)]
  rfl

theorem cstr_exit_sp : cstr "exit " = [101, 120, 105, 116, 32] := by decide

theorem exit_status (α : Type) (v : Nat) (hv : v ≤ 255) (c : Client) :
    (exit (v : Int) c : Res α) = .exited v (if c.atexit_con_term then con_term c else c) := by
  unfold exit
  have : ((v : Int) % 256).toNat = v := by omega
  rw [this]

theorem exit_payload_bytes (v : Nat) : ∀ b ∈ cstr "exit " ++ vlq v, b < 256 := by
  intro b hb
  rcases List.mem_append.mp hb with h | h
  · rw [cstr_exit_sp] at h
    simp at h
    omega
  · exact vlq_bytes_lt v b h

/-- When `char` is unsigned, or the status is below 128, the message
`exit <status>` releases the proxy and ends the process with that status. -/
theorem process_msg_exit (E : Env) (c : Client) (v : Nat) (hwf : c.buf.WF) (hv : v ≤ 255)
    (hsg : E.char_signed = false ∨ v < 128) (hp : c.buf.payload = cstr "exit " ++ vlq v) :
    process_msg E c =
      .exited v
        (let c := release_proxy { c with buf := { c.buf with tmpbuf_rd := c.buf.tmpbuf_wr } }
         if c.atexit_con_term then con_term c else c) := by
  have hb : ∀ b ∈ c.buf.payload, b < 256 := by rw [hp]; exact exit_payload_bytes v
  have hp' : c.buf.payload = [101, 120, 105, 116, 32] ++ vlq v := by rw [hp, cstr_exit_sp]
  obtain ⟨rd, h⟩ := process_msg_to_exit E c hwf hb (by rw [hp']; simp) (by rw [hp']; simp)
  have h3 : match_msg E.char_signed (cstr "exit %i") [Dest.int 0]
      ({ c with buf := { c.buf with tmpbuf_rd := rd } } : Client).buf =
      .ok (1, [Dest.int v], { c.buf with tmpbuf_rd := c.buf.tmpbuf_wr }) := by
    rw [cstr_exit]
    exact match_msg_exit E.char_signed 0 { c.buf with tmpbuf_rd := rd } v hwf (by omega) hsg hp'
  rw [h, with_match_ok E "exit %i" _ _ _ _ h3]
  dsimp only
  rw [if_pos (by norm_num), dest_int_zero, exit_status Unit v hv]

/-- C1, where the code departs from the claim: with signed `char` (the x86
Linux ABI), for every status from 128 to 255, when the buffer holds `exit `
followed by the encoding of the status that `put_int` produces, `process_msg`
does not take the exit branch.  `exit %i` is rejected (the first length byte
has its high bit set and reads as a negative `char`), no other form matches,
and the call returns after printing "Invalid message received:" and a dump
of the payload on stderr; nothing is released and the process does not
exit. -/
theorem process_msg_exit_high_status (E : Env) (c : Client) (v : Nat) (hwf : c.buf.WF)
    (h1 : 128 ≤ v) (h2 : v ≤ 255) (hsg : E.char_signed = true)
    (hp : c.buf.payload = cstr "exit " ++ vlq v) :
    ∃ rd, process_msg E c =
      .ok () { c with
        buf := { c.buf with tmpbuf_rd := rd },
        trace := c.trace ++
          [Event.stderr (cstr "Invalid message received:\n"),
           Event.stderr ((c.buf.payload.map dump_byte).flatten ++ [10])] } := by
  have hb : ∀ b ∈ c.buf.payload, b < 256 := by rw [hp]; exact exit_payload_bytes v
  have hp' : c.buf.payload = [101, 120, 105, 116, 32] ++ vlq v := by rw [hp, cstr_exit_sp]
  obtain ⟨rd, h⟩ := process_msg_to_exit E c hwf hb (by rw [hp']; simp) (by rw [hp']; simp)
  have h3 : match_msg E.char_signed (cstr "exit %i") [Dest.int 0]
      ({ c with buf := { c.buf with tmpbuf_rd := rd } } : Client).buf =
      .ok (0, [Dest.int (-1)], { c.buf with tmpbuf_rd := 6 }) := by
    rw [cstr_exit, hsg]
    exact match_msg_exit_signed_high 0 { c.buf with tmpbuf_rd := rd } v hwf h1 (by omega) hp'
  obtain ⟨rd4, h4⟩ := match_msg_not_run E.char_signed { c.buf with tmpbuf_rd := 6 } none hwf hb
    (by show c.buf.payload.head? ≠ some 114; rw [hp']; simp)
  rw [← cstr_run] at h4
  have h4' : match_msg E.char_signed (cstr "run %s") [Dest.ptr none]
      ({ c with buf := { c.buf with tmpbuf_rd := 6 } } : Client).buf = _ := h4
  have hcon : ¬ (c.buf.tmpbuf.take 4 = cstr "con-") := by
    have := tmpbuf_take_of_payload c.buf [101, 120, 105, 116] (32 :: vlq v) hwf hp'
    simp only [List.length_cons, List.length_nil] at this
    rw [this, cstr_con]
    decide
  refine ⟨rd4, ?_⟩
  rw [h, with_match_ok E "exit %i" _ _ _ _ h3]
  dsimp only
  rw [if_neg (by norm_num), with_match_ok E "run %s" _ _ _ _ h4']
  dsimp only
  rw [if_neg (by norm_num), if_neg hcon]
  simp only [Client.emit, List.append_assoc, List.cons_append, List.nil_append]
  rfl

/-- Witness for C1: status 128, encoded as the bytes 0x81 0x00. -/
theorem process_msg_exit_high_status_witness :
    ∃ rd, process_msg (Env.linux 0)
        { Client.start 5 with buf := TmpBuf.holding (cstr "exit " ++ vlq 128) } =
      .ok () { Client.start 5 with
        buf := { TmpBuf.holding (cstr "exit " ++ vlq 128) with tmpbuf_rd := rd },
        trace := [] ++
          [Event.stderr (cstr "Invalid message received:\n"),
           Event.stderr (((TmpBuf.holding (cstr "exit " ++ vlq 128)).payload.map
              dump_byte).flatten ++ [10])] } :=
  process_msg_exit_high_status (Env.linux 0)
    { Client.start 5 with buf := TmpBuf.holding (cstr "exit " ++ vlq 128) } 128
    (holding_wf _) (by norm_num) (by norm_num) rfl (holding_payload _)

/-! ## `match_msg`: what a failed match leaves behind, and what a match accepts -/

/-- C8, where the code departs from its own documentation ("else 0 match
failure, values nulled"): when the payload is `exit `, a one-byte number `d`
and at least one more byte, `match_msg("exit %i", &status)` returns 0 because
the payload is not used up, yet the `%i` destination is left holding the
decoded `d`, not 0.  `%i` is only zeroed when the error is already known at
the time the field is decoded.  This holds for either signedness of
`char`. -/
theorem match_msg_failure_keeps_int (sg : Bool) (s : TmpBuf) (d x : Nat) (rest : List Nat)
    (status : Int) (hwf : s.WF) (hd : d < 128)
    (hp : s.payload = cstr "exit " ++ d :: x :: rest) :
    match_msg sg (cstr "exit %i") [Dest.int status] s =
      .ok (0, [Dest.int d], { s with tmpbuf_rd := 6 }) := by
  rw [cstr_exit_sp] at hp
  have hu := unread_at s _ _ hp
  have hgi := get_int_vlq sg { s with tmpbuf_rd := 5 } false [] d (x :: rest) (wf_rd s 5 hwf)
    (by simpa using hu) (by simp) hd (Or.inr rfl)
  have e : vlq_value 0 ([] ++ [d]) = d := by
    simp [vlq_value]
    omega
  rw [e, to_int32_of_lt d (by omega)] at hgi
  have hwr : s.tmpbuf_wr ≠ 6 := by
    rw [payload_pos s hwf _ hp]
    simp only [List.length_append, List.length_cons, List.length_nil]
    omega
  have h0 := match_pass_exit sg 0 status s _ hp
  rw [hgi] at h0
  rw [cstr_exit]
  exact match_msg_of_pass0_fail sg _ _ _ s _ _ h0 (Or.inr (fun h => hwr h.symm))

/-- Witness for C8: the payload `exit `, 0x05, `X` leaves 5 in `status`. -/
theorem match_msg_failure_keeps_int_witness :
    match_msg true (cstr "exit %i") [Dest.int 0] (TmpBuf.holding (cstr "exit " ++ [5, 88])) =
      .ok (0, [Dest.int 5], { TmpBuf.holding (cstr "exit " ++ [5, 88]) with tmpbuf_rd := 6 }) :=
  match_msg_failure_keeps_int true (TmpBuf.holding (cstr "exit " ++ [5, 88])) 5 88 [] 0
    (holding_wf _) (by norm_num) (holding_payload _)

theorem match_msg_passes_one (sg : Bool) (fmt : List Nat) (n : Nat) :
    ∀ (pass : Nat) (ap ds : List Dest) (s t : TmpBuf),
    match_msg_passes sg fmt n pass ap s = .ok (1, ds, t) →
    n = 0 ∨ t.tmpbuf_rd = t.tmpbuf_wr := by
  induction n with
  | zero => intro _ _ _ _ _ _; exact Or.inl rfl
  | succ n ih =>
    intro pass ap ds s t h
    right
    unfold match_msg_passes at h
    cases h0 : match_pass sg pass fmt ap { s with tmpbuf_rd := 0 } false with
    | error f => rw [h0] at h; cases h
    | ok r =>
      rw [h0] at h
      simp only [Except.bind] at h
      by_cases herr : (if r.2.2.tmpbuf_rd ≠ r.2.2.tmpbuf_wr then true else r.2.1) = true
      · rw [if_pos herr] at h
        injection h with h
        have := congrArg (fun q => q.1) h
        simp at this
      · rw [if_neg herr] at h
        rcases ih _ _ _ _ _ h with hn | ht
        · subst hn
          unfold match_msg_passes at h
          injection h with h
          have ht : r.2.2 = t := congrArg (fun q => q.2.2) h
          rw [← ht]
          by_contra hc
          apply herr
          rw [if_pos hc]
        · exact ht

/-- Whenever `match_msg` returns 1 the read cursor has reached the write
cursor: no payload byte is left over. -/
theorem match_msg_one_consumes_all (sg : Bool) (fmt : List Nat) (ap ds : List Dest)
    (s t : TmpBuf) (h : match_msg sg fmt ap s = .ok (1, ds, t)) :
    t.tmpbuf_rd = t.tmpbuf_wr := by
  rcases match_msg_passes_one sg fmt 2 0 ap ds s t h with h2 | h2
  · cases h2
  · exact h2

/-- With unsigned `char`, a number cut short after a continuation byte makes
`get_int` run into the end of the data: it returns -1 with the error flag
set. -/
theorem get_int_unsigned_truncated (s : TmpBuf) (err : Bool) (b : Nat) (hwf : s.WF)
    (hu : s.unread = [b]) (h1 : 128 ≤ b) (h2 : b < 256) :
    get_int false s err = (-1, true, { s with tmpbuf_rd := s.tmpbuf_rd + 1 }) := by
  obtain ⟨hg, hu2⟩ := get_cons false s err b [] hu
  have hg2 := get_nil false { s with tmpbuf_rd := s.tmpbuf_rd + 1 } err (wf_rd s _ hwf) hu2
  have hl := unread_length s hwf
  rw [hu] at hl
  simp only [List.length_cons, List.length_nil] at hl
  have hf : s.tmpbuf_wr - s.tmpbuf_rd + 1 = 1 + 1 := by omega
  unfold get_int
  rw [hf]
  unfold get_int_loop
  simp only [hg, char_to_int_unsigned b h2]
  have h3 : (b : Int).toNat &&& 128 ≠ 0 := by
    rw [Int.toNat_natCast, and_128_ne_zero b h2]
    exact h1
  rw [if_neg (by omega), if_pos h3]
  unfold get_int_loop
  simp only [hg2]
  rw [if_pos (by norm_num)]

/-- With unsigned `char`, `exit ` followed by a lone continuation byte is
rejected and the output is zeroed: the behaviour C9 describes. -/
theorem match_msg_rejects_truncated_int_unsigned (s : TmpBuf) (b : Nat) (status : Int)
    (hwf : s.WF) (h1 : 128 ≤ b) (h2 : b < 256) (hp : s.payload = cstr "exit " ++ [b]) :
    match_msg false (cstr "exit %i") [Dest.int status] s =
      .ok (0, [Dest.int 0], { s with tmpbuf_rd := 6 }) := by
  rw [cstr_exit_sp] at hp
  have hu := unread_at s _ _ hp
  have hgi := get_int_unsigned_truncated { s with tmpbuf_rd := 5 } false b (wf_rd s 5 hwf) hu h1 h2
  have h0 := match_pass_exit false 0 status s _ hp
  rw [hgi] at h0
  rw [cstr_exit]
  exact match_msg_of_pass0_fail false _ _ _ s _ _ h0 (Or.inl rfl)

/-- C9, where the code departs from the claim: with signed `char` (the x86
Linux ABI), when the payload is `exit ` followed by one byte with the
continuation bit set, so that the number is cut short, `match_msg("exit %i")`
returns 1 and stores -1, instead of returning 0.  The byte reads as a
negative `char`, `get_int` stops on it as on the end of the data without
setting the error flag, and the payload counts as used up. -/
theorem match_msg_accepts_truncated_int (s : TmpBuf) (b : Nat) (status : Int) (hwf : s.WF)
    (h1 : 128 ≤ b) (h2 : b < 256) (hp : s.payload = cstr "exit " ++ [b]) :
    match_msg true (cstr "exit %i") [Dest.int status] s =
      .ok (1, [Dest.int (-1)], { s with tmpbuf_rd := s.tmpbuf_wr }) := by
  rw [cstr_exit_sp] at hp
  have hu := unread_at s _ _ hp
  have hgi := get_int_signed_high { s with tmpbuf_rd := 5 } false b [] hu h1 h2
  have hwr : s.tmpbuf_wr = 6 := by
    rw [payload_pos s hwf _ hp]
    rfl
  have hpass : ∀ pass y, match_pass true pass [101, 120, 105, 116, 32, 37, 105] [Dest.int y]
      { s with tmpbuf_rd := 0 } false
      = .ok ([Dest.int (-1)], false, { s with tmpbuf_rd := s.tmpbuf_wr }) := by
    intro pass y
    rw [match_pass_exit true pass y s _ hp, hgi, hwr]
    rfl
  rw [cstr_exit]
  exact match_msg_of_passes true _ _ _ _ s _ _ (hpass 0 status) rfl (hpass 1 (-1)) rfl

/-- Witness for C9: the payload `exit ` followed by the byte 0x80. -/
theorem match_msg_accepts_truncated_int_witness :
    match_msg true (cstr "exit %i") [Dest.int 0] (TmpBuf.holding (cstr "exit " ++ [128])) =
      .ok (1, [Dest.int (-1)],
        { TmpBuf.holding (cstr "exit " ++ [128]) with
            tmpbuf_rd := (TmpBuf.holding (cstr "exit " ++ [128])).tmpbuf_wr }) :=
  match_msg_accepts_truncated_int (TmpBuf.holding (cstr "exit " ++ [128])) 128 0
    (holding_wf _) (by norm_num) (by norm_num) (holding_payload _)

/-! ## `write_msg`: the packet handed to the pipe -/

theorem to_uint_lt (v : Int) : to_uint v < 2 ^ 32 := by
  unfold to_uint
  omega

theorem wrote_put_bytes_enc (sg : Bool) (data : List Nat) (n : Nat) :
    ∀ (a : Nat) (s : TmpBuf), s.WF →
    Wrote s (put_bytes sg data n a s)
      ((List.range n).map (fun i => data.getD (a + i) 0 % 256)) := by
  induction n with
  | zero => intro a s _; simpa [put_bytes] using wrote_refl s
  | succ n ih =>
    intro a s h
    have w1 := wrote_put (char_to_int sg (data.getD a 0)) s h
    rw [int_to_char_char_to_int] at w1
    have w2 := ih (a + 1) _ (wrote_wf h w1)
    have w := wrote_trans h w1 w2
    have e : (List.range (n + 1)).map (fun i => data.getD (a + i) 0 % 256)
        = [data.getD a 0 % 256] ++ (List.range n).map (fun i => data.getD (a + 1 + i) 0 % 256) := by
      rw [List.range_succ_eq_map]
      simp [List.map_map, Function.comp_def, Nat.add_assoc, Nat.add_comm 1]
    rw [e]
    exact w

theorem wrote_put_tail_enc (sg : Bool) (data : List Nat) (len : Int) (s : TmpBuf) (h : s.WF) :
    Wrote s (put_tail sg data len s) (enc_bytes data len.toNat) := by
  unfold put_tail enc_bytes
  simpa using wrote_put_bytes_enc sg data len.toNat 0 s h

theorem wrote_put_data_enc (sg : Bool) (data : List Nat) (len : Int) (s : TmpBuf) (h : s.WF) :
    Wrote s (put_data sg data len s) (enc_data data len) := by
  unfold put_data enc_data enc_int enc_bytes
  have w1 := wrote_put_int (to_uint len) (to_uint_lt len) s h
  have w2 := wrote_put_bytes_enc sg data len.toNat 0 _ (wrote_wf h w1)
  simpa using wrote_trans h w1 w2

theorem wrote_put_str_enc (sg : Bool) (str : List Nat) (s : TmpBuf) (h : s.WF) :
    Wrote s (put_str sg str s) (enc_str str) := by
  unfold put_str enc_str
  exact wrote_put_data_enc sg str _ s h

theorem wrote_put_int_enc (v : Int) (s : TmpBuf) (h : s.WF) :
    Wrote s (put_int (to_uint v) s) (enc_int v) :=
  wrote_put_int (to_uint v) (to_uint_lt v) s h

theorem wrote_cons {s t u : TmpBuf} {b : Nat} {q : List Nat} (h : s.WF)
    (w1 : Wrote s t [b]) (w2 : Wrote t u q) : Wrote s u (b :: q) :=
  wrote_trans h w1 w2

theorem write_fmt_step (o : Option (List Nat)) (s mid : TmpBuf) (r : Option TmpBuf)
    (pre : List Nat) (hwf : s.WF) (w1 : Wrote s mid pre)
    (h2 : match o with
      | none => r = none
      | some P => ∃ s1, r = some s1 ∧ Wrote mid s1 P) :
    match o.map (fun q => pre ++ q) with
    | none => r = none
    | some P => ∃ s1, r = some s1 ∧ Wrote s s1 P := by
  cases o with
  | none => exact h2
  | some q =>
    obtain ⟨s1, e1, w2⟩ := h2
    exact ⟨s1, e1, wrote_trans hwf w1 w2⟩

/-- The encoding loop of `write_msg` appends exactly the payload that the
format and the arguments stand for, and is undefined exactly when that
payload is. -/
theorem write_fmt_encode_aux (sg : Bool) (n : Nat) :
    ∀ (p : List Nat), p.length ≤ n → ∀ (ap : List Arg) (s : TmpBuf), s.WF →
      match encode p ap with
      | none => write_fmt sg p ap s = none
      | some P => ∃ s1, write_fmt sg p ap s = some s1 ∧ Wrote s s1 P := by
  induction n with
  | zero =>
    intro p hp ap s _
    have : p = [] := List.length_eq_zero.mp (by omega)
    subst this
    exact ⟨s, rfl, wrote_refl s⟩
  | succ n ih =>
    intro p hp ap s hwf
    match p with
    | [] => exact ⟨s, rfl, wrote_refl s⟩
    | ch :: p =>
      by_cases hch : ch ≠ 37
      · have w1 := wrote_put (char_to_int sg ch) s hwf
        rw [int_to_char_char_to_int] at w1
        have h2 := ih p (by simp at hp; omega) ap _ (wrote_wf hwf w1)
        unfold encode write_fmt
        simp only [ne_eq, hch, not_false_eq_true, if_true]
        exact write_fmt_step _ s _ _ [ch % 256] hwf w1 h2
      · have hch37 : ch = 37 := by simpa using hch
        subst hch37
        match p with
        | [] => rfl
        | c2 :: p =>
          have hlen : p.length ≤ n := by simp at hp; omega
          unfold encode write_fmt
          simp only [ne_eq, not_true_eq_false, if_false]
          by_cases h105 : c2 = 105
          · simp only [h105, if_true]
            match ap with
            | [] => rfl
            | Arg.ptr _ :: _ => rfl
            | Arg.int v :: ap =>
              have w1 := wrote_put_int_enc v s hwf
              exact write_fmt_step _ s _ _ _ hwf w1 (ih p hlen ap _ (wrote_wf hwf w1))
          · simp only [h105, if_false]
            by_cases h116 : c2 = 116
            · simp only [h116, if_true]
              match ap with
              | [] => rfl
              | Arg.int _ :: _ => rfl
              | [Arg.ptr _] => rfl
              | Arg.ptr _ :: Arg.ptr _ :: _ => rfl
              | Arg.ptr data :: Arg.int len :: ap =>
                have w1 := wrote_put_tail_enc sg data len s hwf
                exact write_fmt_step _ s _ _ _ hwf w1 (ih p hlen ap _ (wrote_wf hwf w1))
            · simp only [h116, if_false]
              by_cases h115 : c2 = 115
              · simp only [h115, if_true]
                match ap with
                | [] => rfl
                | Arg.int _ :: _ => rfl
                | Arg.ptr str :: ap =>
                  have w1 := wrote_put_str_enc sg str s hwf
                  exact write_fmt_step _ s _ _ _ hwf w1 (ih p hlen ap _ (wrote_wf hwf w1))
              · simp only [h115, if_false]
                by_cases h114 : c2 = 114
                · simp only [h114, if_true]
                  match ap with
                  | [] => rfl
                  | Arg.int _ :: _ => rfl
                  | [Arg.ptr _] => rfl
                  | Arg.ptr _ :: Arg.ptr _ :: _ => rfl
                  | Arg.ptr data :: Arg.int len :: ap =>
                    have w1 := wrote_put_data_enc sg data len s hwf
                    exact write_fmt_step _ s _ _ _ hwf w1 (ih p hlen ap _ (wrote_wf hwf w1))
                · simp only [h114, if_false]
                  have w1 := wrote_put (char_to_int sg c2) s hwf
                  rw [int_to_char_char_to_int] at w1
                  exact write_fmt_step _ s _ _ [c2 % 256] hwf w1 (ih p hlen ap _ (wrote_wf hwf w1))

theorem write_fmt_encode (sg : Bool) (p : List Nat) (ap : List Arg) (s : TmpBuf) (hwf : s.WF) :
    match encode p ap with
    | none => write_fmt sg p ap s = none
    | some P => ∃ s1, write_fmt sg p ap s = some s1 ∧ Wrote s s1 P :=
  write_fmt_encode_aux sg p.length p (Nat.le_refl _) ap s hwf

theorem clear_tmpbuf_length (s : TmpBuf) (hs : s.Sized) :
    1024 ≤ (clear_tmpbuf s).tmpbuf.length := by
  unfold clear_tmpbuf init_tmpbuf
  by_cases h : s.tmpbuf = []
  · rw [if_pos h]
    simp only [List.length_replicate]
    omega
  · rw [if_neg h]
    rcases hs with h1 | h1
    · exact absurd h1 h
    · exact h1

theorem vlq_length_le (v : Nat) (hv : v < 2 ^ 32) : 1 ≤ (vlq v).length ∧ (vlq v).length ≤ 5 := by
  rcases vlq_cases v hv with ⟨_, e⟩ | ⟨_, _, e⟩ | ⟨_, _, e⟩ | ⟨_, _, e⟩ | ⟨_, e⟩ <;>
    rw [e] <;> simp

/-- The packet `write_msg` hands to the pipe is the encoded length of the
payload followed by the payload. -/
theorem write_msg_packet_frame (sg : Bool) (fmt : List Nat) (ap : List Arg) (s : TmpBuf)
    (P : List Nat) (hs : s.Sized) (he : encode fmt ap = some P) (hP : P.length < 2 ^ 28) :
    ∃ t, write_msg_packet sg fmt ap s = some (t, vlq P.length ++ P) ∧
      1024 ≤ t.tmpbuf.length := by
  have hL := clear_tmpbuf_length s hs
  have hwf0 : ({ clear_tmpbuf s with tmpbuf_wr := (clear_tmpbuf s).tmpbuf_wr + 8 } : TmpBuf).WF := by
    constructor
    · show 0 < (clear_tmpbuf s).tmpbuf.length
      omega
    · show (clear_tmpbuf s).tmpbuf_wr + 8 ≤ (clear_tmpbuf s).tmpbuf.length
      rw [clear_tmpbuf_wr]
      omega
  have h1 := write_fmt_encode sg fmt ap _ hwf0
  rw [he] at h1
  obtain ⟨s1, e1, hwr1, _, k1, hk1⟩ := h1
  simp only [clear_tmpbuf_wr, Nat.zero_add] at hwr1 hk1
  have hwf1 : ({ s1 with tmpbuf_wr := 0 } : TmpBuf).WF := by
    constructor
    · show 0 < s1.tmpbuf.length
      rw [hk1]
      simp only [List.length_append, List.length_take]
      omega
    · exact Nat.zero_le _
  have hml : to_uint ((s1.tmpbuf_wr : Int) - 8) = P.length := by
    rw [hwr1]
    unfold to_uint
    omega
  have h2 := wrote_put_int P.length (by omega) _ hwf1
  obtain ⟨hwr2, _, k2, hk2⟩ := h2
  simp only [Nat.zero_add, List.take_zero, List.nil_append] at hwr2 hk2
  have hh := vlq_length_le P.length (by omega)
  have hT8 : s1.tmpbuf.drop 8 = P ++ ((clear_tmpbuf s).tmpbuf.drop (8 + P.length)
      ++ List.replicate k1 0) := by
    rw [hk1]
    apply List.drop_left'
    rw [List.length_take]
    omega
  have hTlen : 8 + P.length ≤ s1.tmpbuf.length := by
    rw [hk1]
    simp only [List.length_append, List.length_take, List.length_drop, List.length_replicate]
    omega
  have hU8 : (put_int P.length { s1 with tmpbuf_wr := 0 }).tmpbuf.drop 8
      = s1.tmpbuf.drop 8 ++ List.replicate k2 0 := by
    rw [hk2, List.drop_append_eq_append_drop, List.drop_eq_nil_of_le (by omega),
      List.nil_append, List.drop_append_eq_append_drop, List.drop_drop]
    have e2 : (vlq P.length).length + (8 - (vlq P.length).length) = 8 := by omega
    rw [e2]
    have e3 : 8 - (vlq P.length).length - (List.drop (vlq P.length).length s1.tmpbuf).length = 0 := by
      rw [List.length_drop]
      omega
    rw [e3, List.drop_zero]
  have hUh : (put_int P.length { s1 with tmpbuf_wr := 0 }).tmpbuf.take (vlq P.length).length
      = vlq P.length := by
    rw [hk2]
    exact List.take_left _ _
  have hUlen : s1.tmpbuf.length ≤ (put_int P.length { s1 with tmpbuf_wr := 0 }).tmpbuf.length := by
    rw [hk2]
    simp only [List.length_append, List.length_drop, List.length_replicate]
    omega
  refine ⟨{ put_int P.length { s1 with tmpbuf_wr := 0 } with
      tmpbuf := memcpy (put_int P.length { s1 with tmpbuf_wr := 0 }).tmpbuf
        (8 - (vlq P.length).length) 0 (vlq P.length).length }, ?_, ?_⟩
  · unfold write_msg_packet
    simp only [e1, Option.map]
    rw [hml, hwr2]
    congr 2
    have hint : ((s1.tmpbuf_wr : Int) - 8).toNat = P.length := by
      rw [hwr1]
      omega
    rw [hint]
    unfold memcpy
    have e4 : 8 - (vlq P.length).length + (vlq P.length).length = 8 := by omega
    rw [e4, List.drop_zero, hUh, hU8, hT8]
    rw [List.drop_left']
    · rw [List.take_append_eq_append_take, List.take_of_length_le (by omega)]
      simp
    · rw [List.length_take]
      omega
  · have hT1024 : 1024 ≤ s1.tmpbuf.length := by
      rw [hk1]
      simp only [List.length_append, List.length_take, List.length_drop, List.length_replicate]
      omega
    simp only [memcpy, List.length_append, List.length_take, List.length_drop, Nat.sub_zero]
    omega

theorem write_msg_sends (E : Env) (fmt : List Nat) (ap : List Arg) (c : Client) (P : List Nat)
    (hs : c.buf.Sized) (he : encode fmt ap = some P) (hP : P.length < 2 ^ 28) :
    ∃ t, write_msg E fmt ap c =
        .ok () { c with buf := t, trace := c.trace ++ [Event.fwrite (vlq P.length ++ P)] } ∧
      1024 ≤ t.tmpbuf.length := by
  obtain ⟨t, h, hl⟩ := write_msg_packet_frame E.char_signed fmt ap c.buf P hs he hP
  refine ⟨t, ?_, hl⟩
  unfold write_msg
  rw [h]
  rfl

/-! ## Dispatch: `run` -/

theorem cstr_run_sp : cstr "run " = [114, 117, 110, 32] := by decide

theorem cstr_run_status :
    cstr "run-status %i %i" =
      [114, 117, 110, 45, 115, 116, 97, 116, 117, 115, 32, 37, 105, 32, 37, 105] := by decide

theorem cstr_run_status_sp :
    cstr "run-status " = [114, 117, 110, 45, 115, 116, 97, 116, 117, 115, 32] := by decide

theorem encode_run_status (kind code : Int) :
    encode (cstr "run-status %i %i") [Arg.int kind, Arg.int code] =
      some (cstr "run-status " ++ (enc_int kind ++ (32 :: enc_int code))) := by
  rw [cstr_run_status, cstr_run_status_sp]
  simp [encode]

theorem enc_int_length (v : Int) : (enc_int v).length ≤ 5 :=
  (vlq_length_le _ (to_uint_lt v)).2

theorem match_pass_str_last (sg : Bool) (pass : Nat) (x : Option (List Nat)) (s : TmpBuf) :
    match_pass sg pass [37, 115] [Dest.ptr x] s false =
      (get_str sg s false).bind fun r =>
        .ok ([Dest.ptr (if r.2.1 || pass = 0 then none else r.1)], r.2.1, r.2.2) := by
  unfold match_pass
  simp only [ne_eq, not_true_eq_false, if_false, if_true, Bool.false_eq_true]
  rw [if_neg (by norm_num), if_neg (by norm_num)]
  unfold match_pass
  rfl

/-- The format `run %s` matches `run ` followed by a length-prefixed string
when `char` is unsigned, or when the string is shorter than 128 bytes. -/
theorem match_msg_run (sg : Bool) (x : Option (List Nat)) (s : TmpBuf) (cmd : List Nat)
    (hwf : s.WF) (hb : ∀ b ∈ cmd, b < 256) (hlen : cmd.length < 2 ^ 31 - 1)
    (hsg : sg = false ∨ cmd.length < 128)
    (hp : s.payload = [114, 117, 110, 32] ++ (vlq cmd.length ++ cmd)) :
    match_msg sg [114, 117, 110, 32, 37, 115] [Dest.ptr x] s =
      .ok (1, [Dest.ptr (some (cmd ++ [0]))], { s with tmpbuf_rd := s.tmpbuf_wr }) := by
  have hu := unread_at s _ _ hp
  have hu0 : ({ s with tmpbuf_rd := 0 } : TmpBuf).unread
      = [114, 117, 110, 32] ++ (vlq cmd.length ++ cmd) := by
    rw [payload_rewind, hp]
  have hgd := get_data_vlq sg { s with tmpbuf_rd := 4 } 0 cmd [] (wf_rd s 4 hwf)
    (by simpa using hu) hb hlen hsg
  have hwr : s.tmpbuf_wr = 4 + ((vlq cmd.length).length + cmd.length) := by
    rw [payload_pos s hwf _ hp]
    simp only [List.length_append, List.length_cons, List.length_nil]
  have hpass : ∀ pass y, match_pass sg pass [114, 117, 110, 32, 37, 115] [Dest.ptr y]
      { s with tmpbuf_rd := 0 } false
      = .ok ([Dest.ptr (if pass = 0 then none else some (cmd ++ [0]))], false,
          { s with tmpbuf_rd := s.tmpbuf_wr }) := by
    intro pass y
    have h1 := match_pass_literals sg pass [114, 117, 110, 32] [37, 115] [Dest.ptr y]
      { s with tmpbuf_rd := 0 } false _ (by decide) hu0
    have e : [114, 117, 110, 32] ++ [37, 115] = [114, 117, 110, 32, 37, 115] := rfl
    rw [e] at h1
    rw [h1, match_pass_str_last]
    unfold get_str
    have e4 : ({ s with tmpbuf_rd := 0 } : TmpBuf).tmpbuf_rd + [114, 117, 110, 32].length = 4 := rfl
    simp only [e4]
    rw [hgd, hwr]
    simp [Except.map, Except.bind]
  exact match_msg_of_passes sg _ _ _ _ s _ _ (by simpa using hpass 0 x) rfl
    (by simpa using hpass 1 none) rfl

theorem run_status_kind (E : Env) (rv errno : Int) :
    (if decide (rv = -1) = true then (-1 : Int)
     else if (!decide (rv = -1) && E.WIFEXITED rv) = true then 0
     else if ((!decide (rv = -1) && E.WIFSIGNALED rv) &&
        (decide (E.WTERMSIG rv = E.SIGINT) || decide (E.WTERMSIG rv = E.SIGQUIT))) = true then 1
     else if (!decide (rv = -1) && E.WIFSIGNALED rv) = true then 2 else 3)
      = (spec_run_status E rv errno).1 := by
  unfold spec_run_status
  by_cases h1 : rv = -1 <;> cases h2 : E.WIFEXITED rv <;> cases h3 : E.WIFSIGNALED rv <;>
    by_cases h4 : E.WTERMSIG rv = E.SIGINT <;> by_cases h5 : E.WTERMSIG rv = E.SIGQUIT <;>
    simp [h1, h4, h5]

theorem run_status_code (E : Env) (rv errno : Int) :
    (if decide (rv = -1) = true then errno
     else if (!decide (rv = -1) && E.WIFEXITED rv) = true then E.WEXITSTATUS rv
     else if (!decide (rv = -1) && E.WIFSIGNALED rv) = true then E.WTERMSIG rv else 0)
      = (spec_run_status E rv errno).2 := by
  unfold spec_run_status
  by_cases h1 : rv = -1 <;> cases h2 : E.WIFEXITED rv <;> cases h3 : E.WIFSIGNALED rv <;>
    by_cases h4 : E.WTERMSIG rv = E.SIGINT <;> by_cases h5 : E.WTERMSIG rv = E.SIGQUIT <;>
    simp [h1, h4, h5]

theorem run_payload_bytes (cmd : List Nat) (hb : ∀ b ∈ cmd, b < 256) :
    ∀ b ∈ [114, 117, 110, 32] ++ (vlq cmd.length ++ cmd), b < 256 := by
  intro b h
  rcases List.mem_append.mp h with h | h
  · simp at h
    omega
  · rcases List.mem_append.mp h with h | h
    · exact vlq_bytes_lt _ b h
    · exact hb b h

/-- When `char` is unsigned, or the command line is shorter than 128 bytes:
for every message `run <cmdline>` and every result `rv` of `system` with the
`errno` it leaves, `process_msg` runs the command once, sends exactly one
message, `run-status <kind> <code>` with kind and code as in the table
(`spec_run_status`), flushes, and returns without exiting. -/
theorem process_msg_run (E : Env) (c : Client) (cmd : List Nat) (hwf : c.buf.WF)
    (hs : c.buf.Sized) (hb : ∀ b ∈ cmd, b < 256) (h0 : ∀ b ∈ cmd, b ≠ 0)
    (hlen : cmd.length < 2 ^ 31 - 1) (hsg : E.char_signed = false ∨ cmd.length < 128)
    (hp : c.buf.payload = cstr "run " ++ (vlq cmd.length ++ cmd)) :
    ∃ t, process_msg E c =
      .ok () { c with
        buf := t,
        trace := c.trace ++
          [Event.system cmd,
           Event.fwrite
             (vlq (cstr "run-status " ++
                    (enc_int (spec_run_status E (E.system cmd).1 (E.system cmd).2).1 ++
                      (32 :: enc_int
                        (spec_run_status E (E.system cmd).1 (E.system cmd).2).2))).length ++
               (cstr "run-status " ++
                 (enc_int (spec_run_status E (E.system cmd).1 (E.system cmd).2).1 ++
                   (32 :: enc_int (spec_run_status E (E.system cmd).1 (E.system cmd).2).2)))),
           Event.fflush] } := by
  rw [cstr_run_sp] at hp
  have hpb : ∀ b ∈ c.buf.payload, b < 256 := by rw [hp]; exact run_payload_bytes cmd hb
  obtain ⟨rd, h⟩ := process_msg_to_exit E c hwf hpb (by rw [hp]; simp) (by rw [hp]; simp)
  obtain ⟨rd3, h3⟩ := match_msg_not_exit E.char_signed { c.buf with tmpbuf_rd := rd } 0 hwf hpb
    (by show c.buf.payload.head? ≠ some 101; rw [hp]; simp)
  rw [← cstr_exit] at h3
  have h3' : match_msg E.char_signed (cstr "exit %i") [Dest.int 0]
      ({ c with buf := { c.buf with tmpbuf_rd := rd } } : Client).buf = _ := h3
  have h4 : match_msg E.char_signed (cstr "run %s") [Dest.ptr none]
      ({ c with buf := { c.buf with tmpbuf_rd := rd3 } } : Client).buf =
      .ok (1, [Dest.ptr (some (cmd ++ [0]))], { c.buf with tmpbuf_rd := c.buf.tmpbuf_wr }) := by
    rw [cstr_run]
    exact match_msg_run E.char_signed none { c.buf with tmpbuf_rd := rd3 } cmd hwf hb hlen hsg hp
  have hcs : c_string (cmd ++ [0]) = cmd := c_string_append_nul cmd [] h0
  have hPlen : (cstr "run-status " ++
      (enc_int (spec_run_status E (E.system cmd).1 (E.system cmd).2).1 ++
        (32 :: enc_int (spec_run_status E (E.system cmd).1 (E.system cmd).2).2))).length
      < 2 ^ 28 := by
    have a1 := enc_int_length (spec_run_status E (E.system cmd).1 (E.system cmd).2).1
    have a2 := enc_int_length (spec_run_status E (E.system cmd).1 (E.system cmd).2).2
    rw [cstr_run_status_sp]
    simp only [List.length_append, List.length_cons, List.length_nil]
    omega
  obtain ⟨t, hw, _⟩ := write_msg_sends E (cstr "run-status %i %i")
    [Arg.int (spec_run_status E (E.system cmd).1 (E.system cmd).2).1,
     Arg.int (spec_run_status E (E.system cmd).1 (E.system cmd).2).2]
    (({ c with buf := { c.buf with tmpbuf_rd := c.buf.tmpbuf_wr } } : Client).emit
      (Event.system cmd)) _
    hs (encode_run_status _ _) hPlen
  refine ⟨t, ?_⟩
  rw [h, with_match_ok E "exit %i" _ _ _ _ h3']
  dsimp only
  rw [if_neg (by norm_num), with_match_ok E "run %s" _ _ _ _ h4]
  dsimp only
  rw [if_pos (by norm_num), dest_ptr_zero, Option.getD_some, hcs, run_status_kind,
    run_status_code, hw]
  simp only [Res.bind, write_flush, Client.emit, List.append_assoc, List.cons_append,
    List.nil_append]

theorem holding_sized (l : List Nat) : (TmpBuf.holding l).Sized := by
  right
  unfold TmpBuf.holding
  simp only [List.length_append, List.length_replicate]
  omega

/-- An instance of `process_msg_run`: `run /bin/false`, where the command
exits with status 1 (wait status 256), is answered by `run-status 0 1`. -/
theorem process_msg_run_witness :
    ∃ t, process_msg (Env.linux 256)
        { Client.start 5 with buf := TmpBuf.holding (cstr "run " ++
            (vlq (cstr "/bin/false").length ++ cstr "/bin/false")) } =
      .ok () { Client.start 5 with
        buf := t,
        trace := [] ++
          [Event.system (cstr "/bin/false"),
           Event.fwrite
             (vlq (cstr "run-status " ++
                    (enc_int (spec_run_status (Env.linux 256)
                        ((Env.linux 256).system (cstr "/bin/false")).1
                        ((Env.linux 256).system (cstr "/bin/false")).2).1 ++
                      (32 :: enc_int
                        (spec_run_status (Env.linux 256)
                          ((Env.linux 256).system (cstr "/bin/false")).1
                          ((Env.linux 256).system (cstr "/bin/false")).2).2))).length ++
               (cstr "run-status " ++
                 (enc_int (spec_run_status (Env.linux 256)
                     ((Env.linux 256).system (cstr "/bin/false")).1
                     ((Env.linux 256).system (cstr "/bin/false")).2).1 ++
                   (32 :: enc_int (spec_run_status (Env.linux 256)
                     ((Env.linux 256).system (cstr "/bin/false")).1
                     ((Env.linux 256).system (cstr "/bin/false")).2).2)))),
           Event.fflush] } :=
  process_msg_run (Env.linux 256) _ (cstr "/bin/false") (holding_wf _) (holding_sized _)
    (by decide) (by decide) (by decide) (Or.inr (by decide)) (holding_payload _)

/-- The reply to `run /bin/false`, byte for byte: the frame of
`run-status `, 0, a blank, 1. -/
theorem run_status_false_bytes :
    spec_run_status (Env.linux 256) 256 0 = (0, 1) ∧
    frame (cstr "run-status " ++ (enc_int 0 ++ (32 :: enc_int 1))) =
      [14, 114, 117, 110, 45, 115, 116, 97, 116, 117, 115, 32, 0, 32, 1] := by
  decide

/-- With signed `char`, the format `run %s` on `run ` followed by a
length-prefixed string of 128 bytes or more: the first length byte reads as
a negative `char`, `get_int` returns -1 with the error flag clear, and
`get_data` stores `rv[-1] = 0` in front of a block of size zero. -/
theorem match_msg_run_long (x : Option (List Nat)) (s : TmpBuf) (cmd : List Nat)
    (h128 : 128 ≤ cmd.length) (hlen : cmd.length < 2 ^ 31 - 1)
    (hp : s.payload = [114, 117, 110, 32] ++ (vlq cmd.length ++ cmd)) :
    match_msg true [114, 117, 110, 32, 37, 115] [Dest.ptr x] s = .error Fault.undefined := by
  have hu0 : ({ s with tmpbuf_rd := 0 } : TmpBuf).unread
      = [114, 117, 110, 32] ++ (vlq cmd.length ++ cmd) := by
    rw [payload_rewind, hp]
  have hu := unread_at s _ _ hp
  have hshape : ∃ b t, vlq cmd.length = b :: t ∧ 128 ≤ b ∧ b < 256 := by
    rcases vlq_cases cmd.length (by omega) with
      ⟨h, _⟩ | ⟨_, _, e⟩ | ⟨_, _, e⟩ | ⟨_, _, e⟩ | ⟨_, e⟩
    · omega
    all_goals exact ⟨_, _, e, by omega, by omega⟩
  obtain ⟨b, t, e, hb1, hb2⟩ := hshape
  rw [e] at hu
  have hgi := get_int_signed_high { s with tmpbuf_rd := 4 } false b (t ++ cmd)
    (by simpa using hu) hb1 hb2
  have ha : Alloc (wrap32 (-1 + 1)) = Except.ok [] := by rfl
  have h1 := match_pass_literals true 0 [114, 117, 110, 32] [37, 115] [Dest.ptr x]
    { s with tmpbuf_rd := 0 } false _ (by decide) hu0
  have e6 : [114, 117, 110, 32] ++ [37, 115] = [114, 117, 110, 32, 37, 115] := rfl
  rw [e6] at h1
  have e4 : ({ s with tmpbuf_rd := 0 } : TmpBuf).tmpbuf_rd + [114, 117, 110, 32].length = 4 := rfl
  unfold match_msg match_msg_passes
  rw [h1, match_pass_str_last]
  simp only [e4]
  unfold get_str get_data
  simp only [hgi, ha]
  simp [Except.map, bind, Except.bind]

/-- C10, where the code departs from the claim: with signed `char` (the x86
Linux ABI), for every `run` message whose command line has 128 bytes or
more, `process_msg` does not get as far as running the command.  The tests
for `1%t`, `2%t` and `exit %i` fail, and in `match_msg("run %s")` the first
length byte has its high bit set and reads as a negative `char`: `get_int`
returns -1 with the error flag clear, and `get_data` stores `rv[-1] = 0` in
front of a block of size zero.  The behaviour is undefined from there; no
`system` call is made and no `run-status` message is sent before it. -/
theorem process_msg_run_long_command (E : Env) (c : Client) (cmd : List Nat) (hwf : c.buf.WF)
    (hb : ∀ b ∈ cmd, b < 256) (h128 : 128 ≤ cmd.length) (hlen : cmd.length < 2 ^ 31 - 1)
    (hsg : E.char_signed = true)
    (hp : c.buf.payload = cstr "run " ++ (vlq cmd.length ++ cmd)) :
    process_msg E c = Res.undefined := by
  rw [cstr_run_sp] at hp
  have hpb : ∀ b ∈ c.buf.payload, b < 256 := by rw [hp]; exact run_payload_bytes cmd hb
  obtain ⟨rd, h⟩ := process_msg_to_exit E c hwf hpb (by rw [hp]; simp) (by rw [hp]; simp)
  obtain ⟨rd3, h3⟩ := match_msg_not_exit E.char_signed { c.buf with tmpbuf_rd := rd } 0 hwf hpb
    (by show c.buf.payload.head? ≠ some 101; rw [hp]; simp)
  rw [← cstr_exit] at h3
  have h3' : match_msg E.char_signed (cstr "exit %i") [Dest.int 0]
      ({ c with buf := { c.buf with tmpbuf_rd := rd } } : Client).buf = _ := h3
  have h4 : match_msg E.char_signed (cstr "run %s") [Dest.ptr none]
      ({ c with buf := { c.buf with tmpbuf_rd := rd3 } } : Client).buf =
      .error Fault.undefined := by
    rw [cstr_run, hsg]
    exact match_msg_run_long none { c.buf with tmpbuf_rd := rd3 } cmd h128 hlen hp
  rw [h, with_match_ok E "exit %i" _ _ _ _ h3']
  dsimp only
  rw [if_neg (by norm_num)]
  unfold with_match
  rw [h4]
  rfl

/-- Witness for C10: a `run` message with a command line of 128 letters `a`
on x86-64 Linux. -/
theorem process_msg_run_long_command_witness :
    process_msg (Env.linux 0)
        { Client.start 5 with buf := TmpBuf.holding (cstr "run " ++
            (vlq (List.replicate 128 97).length ++ List.replicate 128 97)) } =
      Res.undefined :=
  process_msg_run_long_command (Env.linux 0) _ (List.replicate 128 97) (holding_wf _)
    (by intro b hb; rw [List.eq_of_mem_replicate hb]; norm_num) (by simp) (by simp) rfl
    (holding_payload _)

theorem enc_bytes_leading (a rest : List Nat) (hb : ∀ b ∈ a, b < 256) :
    enc_bytes (a ++ rest) a.length = a := by
  unfold enc_bytes
  apply List.ext_getElem
  · simp
  · intro i h1 h2
    simp only [List.length_map, List.length_range] at h1
    simp only [List.getElem_map, List.getElem_range]
    rw [List.getD_append _ _ _ _ h1, List.getD_eq_getElem _ _ h1]
    exact Nat.mod_eq_of_lt (hb _ (List.getElem_mem h1))

theorem strlen_leading (a rest : List Nat) (h0 : ∀ b ∈ a, b ≠ 0)
    (hrest : rest = [] ∨ rest.head? = some 0) : strlen (a ++ rest) = a.length := by
  unfold strlen
  rw [List.takeWhile_append_of_pos (by intro x hx; simpa using h0 x hx)]
  rcases hrest with h | h
  · subst h
    simp
  · cases rest with
    | nil => simp
    | cons r rs =>
      have : r = 0 := by simpa using h
      subst this
      simp

/-- The wire form of a C string: encoded length, then the bytes up to the
terminator. -/
theorem enc_str_eq (a rest : List Nat) (hb : ∀ b ∈ a, b < 256) (h0 : ∀ b ∈ a, b ≠ 0)
    (hlen : a.length < 2 ^ 31) (hrest : rest = [] ∨ rest.head? = some 0) :
    enc_str (a ++ rest) = vlq a.length ++ a := by
  unfold enc_str enc_data enc_int
  rw [strlen_leading a rest h0 hrest, wrap32_of_lt _ hlen, to_uint_natCast _ (by omega),
    Int.toNat_natCast, enc_bytes_leading a rest hb]

theorem encode_tag_str (tag : List Nat) (htag : ∀ ch ∈ tag, ch ≠ 37 ∧ ch < 256)
    (str : List Nat) :
    encode (tag ++ [37, 115]) [Arg.ptr str] = some (tag ++ enc_str str) := by
  induction tag with
  | nil =>
    have : encode [37, 115] [Arg.ptr str] = some (enc_str str ++ []) := rfl
    rw [List.nil_append, this, List.append_nil, List.nil_append]
  | cons ch tag ih =>
    have h := htag ch (List.mem_cons_self _ _)
    have e : encode (ch :: (tag ++ [37, 115])) [Arg.ptr str]
        = (encode (tag ++ [37, 115]) [Arg.ptr str]).map (fun q => ch % 256 :: q) := by
      conv_lhs => unfold encode
      rw [if_pos h.1]
    rw [List.cons_append, e, ih (fun x hx => htag x (List.mem_cons_of_mem _ hx)),
      Nat.mod_eq_of_lt h.2]
    rfl

/-- Sending one message `<tag>%s` with a C string (followed in memory by its
terminator or by nothing) puts one frame `<tag><length><bytes>` on the pipe. -/
theorem write_msg_tag_str (E : Env) (fmt : String) (tag : String)
    (hfmt : cstr fmt = cstr tag ++ [37, 115])
    (htag : ∀ ch ∈ cstr tag, ch ≠ 37 ∧ ch < 256) (htl : (cstr tag).length ≤ 16)
    (a rest : List Nat) (ha : Str a) (hrest : rest = [] ∨ rest.head? = some 0)
    (c : Client) (hs : c.buf.Sized) :
    ∃ c1, write_msg E (cstr fmt) [Arg.ptr (a ++ rest)] c = .ok () c1 ∧
      c1.trace = c.trace ++ [Event.fwrite (frame (tagged tag a))] ∧ c1.buf.Sized := by
  have he : encode (cstr fmt) [Arg.ptr (a ++ rest)] = some (tagged tag a) := by
    rw [hfmt, encode_tag_str _ htag,
      enc_str_eq a rest (fun b hb => (ha.1 b hb).2) (fun b hb => (ha.1 b hb).1)
        (by have := ha.2; omega) hrest]
    rfl
  have hlen : (tagged tag a).length < 2 ^ 28 := by
    have h5 := (vlq_length_le a.length (by have := ha.2; omega)).2
    have := ha.2
    unfold tagged
    simp only [List.length_append]
    omega
  obtain ⟨t, h, hl⟩ := write_msg_sends E (cstr fmt) [Arg.ptr (a ++ rest)] c _ hs he hlen
  exact ⟨_, h, rfl, Or.inr hl⟩

theorem write_strings_sends (E : Env) (fmt : String) (tag : String)
    (hfmt : cstr fmt = cstr tag ++ [37, 115])
    (htag : ∀ ch ∈ cstr tag, ch ≠ 37 ∧ ch < 256) (htl : (cstr tag).length ≤ 16)
    (l : List (List Nat)) :
    ∀ c : Client, c.buf.Sized → (∀ a ∈ l, Str a) →
    ∃ c1, write_strings E fmt l c = .ok () c1 ∧
      c1.trace = c.trace ++ l.map (fun a => Event.fwrite (frame (tagged tag a))) ∧
      c1.buf.Sized := by
  induction l with
  | nil =>
    intro c hs _
    exact ⟨c, rfl, by simp, hs⟩
  | cons a l ih =>
    intro c hs hl
    obtain ⟨c1, h1, ht1, hs1⟩ := write_msg_tag_str E fmt tag hfmt htag htl a []
      (hl a (List.mem_cons_self _ _)) (Or.inl rfl) c hs
    rw [List.append_nil] at h1
    obtain ⟨c2, h2, ht2, hs2⟩ := ih c1 hs1 (fun x hx => hl x (List.mem_cons_of_mem _ hx))
    refine ⟨c2, ?_, ?_, hs2⟩
    · unfold write_strings
      rw [h1]
      exact h2
    · rw [ht2, ht1]
      simp

theorem write_classpaths_sends (E : Env) (l : List (List Nat)) :
    ∀ c : Client, c.buf.Sized → (∀ a ∈ l, Str a) →
    ∃ c1, write_classpaths_loop E l c = .ok () c1 ∧
      c1.trace = c.trace ++ l.map (fun a => Event.fwrite (frame (tagged "classpath " a))) ∧
      c1.buf.Sized ∧ c1.classpaths = [] := by
  induction l with
  | nil =>
    intro c hs _
    exact ⟨{ c with classpaths := [] }, rfl, by simp, hs, rfl⟩
  | cons a l ih =>
    intro c hs hl
    obtain ⟨c1, h1, ht1, hs1⟩ := write_msg_tag_str E "classpath %s" "classpath " (by decide)
      (by decide) (by decide) a [] (hl a (List.mem_cons_self _ _)) (Or.inl rfl)
      { c with classpaths := l } hs
    rw [List.append_nil] at h1
    obtain ⟨c2, h2, ht2, hs2, hc2⟩ := ih c1 hs1 (fun x hx => hl x (List.mem_cons_of_mem _ hx))
    refine ⟨c2, ?_, ?_, hs2, hc2⟩
    · unfold write_classpaths_loop
      rw [h1]
      exact h2
    · rw [ht2, ht1]
      simp

theorem con_term_trace (c : Client) :
    ∃ tail, (con_term c).trace = c.trace ++ tail ∧ ∀ e ∈ tail, e.is_fwrite = false := by
  unfold con_term term_stdin write_data
  by_cases hi : c.stdin_init = true <;> by_cases hl : c.con_cleanup_len > 0
  · refine ⟨[Event.tcsetattr c.tsave,
      Event.write 1 (c.con_cleanup.take c.con_cleanup_len.toNat)], ?_, ?_⟩
    · simp [hi, hl, Client.emit]
    · intro e he
      simp at he
      rcases he with rfl | rfl <;> rfl
  · refine ⟨[Event.tcsetattr c.tsave], ?_, ?_⟩
    · simp [hi, hl, Client.emit]
    · intro e he
      simp at he
      subst he
      rfl
  · refine ⟨[Event.write 1 (c.con_cleanup.take c.con_cleanup_len.toNat)], ?_, ?_⟩
    · simp [hi, hl, Client.emit]
    · intro e he
      simp at he
      subst he
      rfl
  · refine ⟨[], ?_, ?_⟩
    · simp [hi, hl]
    · intro e he
      cases he

theorem exit_trace {α : Type} (st : Int) (c : Client) :
    ∃ c1 tail, (exit st c : Res α) = .exited (st % 256).toNat c1 ∧
      c1.trace = c.trace ++ tail ∧ ∀ e ∈ tail, e.is_fwrite = false := by
  unfold exit
  by_cases ha : c.atexit_con_term = true
  · rw [if_pos ha]
    obtain ⟨tail, ht, hf⟩ := con_term_trace c
    exact ⟨con_term c, tail, rfl, ht, hf⟩
  · rw [if_neg ha]
    exact ⟨c, [], rfl, by simp, by intro e he; cases he⟩

theorem error_trace {α : Type} (msg : String) (c : Client) :
    ∃ c1 tail, (error msg c : Res α) = .exited 1 c1 ∧
      c1.trace = c.trace ++ tail ∧ ∀ e ∈ tail, e.is_fwrite = false := by
  unfold error
  obtain ⟨c1, tail, h, ht, hf⟩ := exit_trace (α := α) 1 (c.emit (Event.stderr (cstr msg)))
  refine ⟨c1, Event.stderr (cstr msg) :: tail, h, ?_, ?_⟩
  · rw [ht]
    simp [Client.emit]
  · intro e he
    rcases List.mem_cons.mp he with rfl | he
    · rfl
    · exact hf e he

/-- C3: for every argument list, environment, working directory and tool
name, the messages `main` hands to the outbound pipe from `write_classpaths()`
on are exactly: the pending `classpath` messages, then `arg a1` .. `arg an`
in argument order, `env e1` .. `env em` in `environ` order, `cwd c`, `run t`.
All of them, and the flush, come before the inbound FIFO is opened, and
nothing is handed to the pipe afterwards, whether or not opening the FIFO and
creating the signal pipe succeed. -/
theorem main_connect_order (E : Env) (args environ : List (List Nat)) (cwd cmd : List Nat)
    (c : Client) (hs : c.buf.Sized) (hcp : ∀ a ∈ c.classpaths, Str a)
    (hargs : ∀ a ∈ args, Str a) (henv : ∀ a ∈ environ, Str a) (hcwd : Str cwd)
    (hcmd : Str cmd) :
    ∃ c1 path tail,
      (main_connect E args environ (some cwd) cmd c).client = some c1 ∧
      c1.trace = c.trace ++
        (c.classpaths.map (fun a => Event.fwrite (frame (tagged "classpath " a))) ++
        (args.map (fun a => Event.fwrite (frame (tagged "arg " a))) ++
        (environ.map (fun a => Event.fwrite (frame (tagged "env " a))) ++
        ([Event.fwrite (frame (tagged "cwd " cwd)), Event.fwrite (frame (tagged "run " cmd)),
          Event.fflush, Event.open_in path] ++ tail)))) ∧
      ∀ e ∈ tail, e.is_fwrite = false := by
  obtain ⟨c1, h1, ht1, hs1, _⟩ := write_classpaths_sends E c.classpaths c hs hcp
  obtain ⟨c2, h2, ht2, hs2⟩ := write_strings_sends E "arg %s" "arg " (by decide) (by decide)
    (by decide) args c1 hs1 hargs
  obtain ⟨c3, h3, ht3, hs3⟩ := write_strings_sends E "env %s" "env " (by decide) (by decide)
    (by decide) environ c2 hs2 henv
  obtain ⟨c4, h4, ht4, hs4⟩ := write_msg_tag_str E "cwd %s" "cwd " (by decide) (by decide)
    (by decide) cwd ([0] ++ c3.inbuf.drop (cwd.length + 1)) hcwd (Or.inr (by simp))
    { c3 with inbuf := cwd ++ ([0] ++ c3.inbuf.drop (cwd.length + 1)) } hs3
  obtain ⟨c5, h5, ht5, hs5⟩ := write_msg_tag_str E "run %s" "run " (by decide) (by decide)
    (by decide) cmd [] hcmd (Or.inl rfl) c4 hs4
  rw [List.append_nil] at h5
  have htr : c5.trace = c.trace ++
      (c.classpaths.map (fun a => Event.fwrite (frame (tagged "classpath " a))) ++
      (args.map (fun a => Event.fwrite (frame (tagged "arg " a))) ++
      (environ.map (fun a => Event.fwrite (frame (tagged "env " a))) ++
      [Event.fwrite (frame (tagged "cwd " cwd)), Event.fwrite (frame (tagged "run " cmd))]))) := by
    rw [ht5, ht4]
    show c3.trace ++ _ ++ _ = _
    rw [ht3, ht2, ht1]
    simp
  unfold main_connect write_classpaths
  rw [h1]
  simp only [Res.bind]
  rw [h2]
  simp only [Res.bind]
  rw [h3]
  simp only [Res.bind]
  rw [h4]
  simp only [Res.bind]
  rw [h5]
  simp only [Res.bind, write_flush, setup_in_fd]
  by_cases ho : E.open_in_fails = true
  · rw [if_pos ho]
    obtain ⟨d, tail, hd, ht, hf⟩ := error_trace (α := Unit)
      "Unable to open pipe for reading: \n"
      (({ c5.emit Event.fflush with buf := putf (decimal (c5.emit Event.fflush).using_proxy ++ cstr "-out") (dot_dir_fnam E [] (c5.emit Event.fflush).buf) } : Client).emit (Event.open_in (c_string (putf (decimal (c5.emit Event.fflush).using_proxy ++ cstr "-out") (dot_dir_fnam E [] (c5.emit Event.fflush).buf)).tmpbuf)))
    rw [hd]
    refine ⟨d, c_string (putf (decimal (c5.emit Event.fflush).using_proxy ++ cstr "-out") (dot_dir_fnam E [] (c5.emit Event.fflush).buf)).tmpbuf, tail, rfl, ?_, hf⟩
    rw [ht]
    simp only [Client.emit, htr, List.append_assoc, List.cons_append, List.nil_append]
  · rw [if_neg ho]
    simp only [Res.bind]
    by_cases hpipe : E.pipe_fails = true
    · rw [if_pos hpipe]
      obtain ⟨d, tail, hd, ht, hf⟩ := error_trace (α := Unit)
        "Unable to create internal pipe:\n"
        ((({ c5.emit Event.fflush with buf := putf (decimal (c5.emit Event.fflush).using_proxy ++ cstr "-out") (dot_dir_fnam E [] (c5.emit Event.fflush).buf) } : Client).emit (Event.open_in (c_string (putf (decimal (c5.emit Event.fflush).using_proxy ++ cstr "-out") (dot_dir_fnam E [] (c5.emit Event.fflush).buf)).tmpbuf))).emit Event.pipe)
      rw [hd]
      refine ⟨d, c_string (putf (decimal (c5.emit Event.fflush).using_proxy ++ cstr "-out") (dot_dir_fnam E [] (c5.emit Event.fflush).buf)).tmpbuf, Event.pipe :: tail, rfl, ?_, ?_⟩
      · rw [ht]
        simp only [Client.emit, htr, List.append_assoc, List.cons_append, List.nil_append]
      · intro e he
        rcases List.mem_cons.mp he with rfl | he
        · rfl
        · exact hf e he
    · rw [if_neg hpipe]
      refine ⟨_, c_string (putf (decimal (c5.emit Event.fflush).using_proxy ++ cstr "-out") (dot_dir_fnam E [] (c5.emit Event.fflush).buf)).tmpbuf, [Event.pipe], rfl, ?_, ?_⟩
      · simp only [Client.emit, htr, List.append_assoc, List.cons_append, List.nil_append]
      · intro e he
        simp at he
        subst he
        rfl

/-- Witness for C3: one pending classpath, one argument, one environment
entry. -/
theorem main_connect_order_witness :
    ∃ c1 path tail,
      (main_connect (Env.linux 0) [cstr "bar"] [cstr "HOME=/home/u"] (some (cstr "/tmp"))
        (cstr "foo") { Client.start 5 with classpaths := [cstr "/tmp/x.jar"] }).client
        = some c1 ∧
      c1.trace = ({ Client.start 5 with classpaths := [cstr "/tmp/x.jar"] } : Client).trace ++
        ((({ Client.start 5 with classpaths := [cstr "/tmp/x.jar"] } : Client).classpaths.map
            (fun a => Event.fwrite (frame (tagged "classpath " a)))) ++
        ([cstr "bar"].map (fun a => Event.fwrite (frame (tagged "arg " a))) ++
        ([cstr "HOME=/home/u"].map (fun a => Event.fwrite (frame (tagged "env " a))) ++
        ([Event.fwrite (frame (tagged "cwd " (cstr "/tmp"))),
          Event.fwrite (frame (tagged "run " (cstr "foo"))),
          Event.fflush, Event.open_in path] ++ tail)))) ∧
      ∀ e ∈ tail, e.is_fwrite = false :=
  main_connect_order (Env.linux 0) [cstr "bar"] [cstr "HOME=/home/u"] (cstr "/tmp") (cstr "foo")
    { Client.start 5 with classpaths := [cstr "/tmp/x.jar"] } (Or.inl rfl) (by decide)
    (by decide) (by decide) (by decide) (by decide)

/-! ## `read_msg` and the frame round trip -/

/-- A `read` that delivers `m + 1` bytes at most: the first byte of the FIFO
is returned and the rest stays pending. -/
theorem deliver_got (c : Client) (m : Nat) (b : Nat) (t : List Nat) (reads : List ReadResult)
    (hl : 1024 ≤ c.inbuf.length) (hm : m + 1 ≤ 1024) (hnf : NoFail reads) (hb : b < 256) :
    (((b :: t).take (m + 1) ++ c.inbuf.drop ((b :: t).take (m + 1)).length).getD 0 0 % 256 = b) ∧
    Got c { c with reads := reads,
                   inbuf := (b :: t).take (m + 1) ++ c.inbuf.drop ((b :: t).take (m + 1)).length,
                   in_len := ((b :: t).take (m + 1)).length,
                   in_pipe := (b :: t).drop (m + 1), in_off := 1 } t := by
  have hchunk : (b :: t).take (m + 1) = b :: t.take m := rfl
  have hcl : ((b :: t).take (m + 1)).length = 1 + min m t.length := by
    rw [hchunk, List.length_cons, List.length_take]
    omega
  constructor
  · rw [hchunk]
    simp only [List.cons_append, List.getD_cons_zero]
    exact Nat.mod_eq_of_lt hb
  · refine ⟨?_, ⟨?_, ?_, ?_⟩, hnf, rfl, rfl⟩
    · unfold Client.pending
      simp only
      rw [List.take_left, hchunk]
      simp
    · show 1 ≤ ((b :: t).take (m + 1)).length
      omega
    · show ((b :: t).take (m + 1)).length ≤
        ((b :: t).take (m + 1) ++ c.inbuf.drop ((b :: t).take (m + 1)).length).length
      rw [List.length_append]
      omega
    · show 1024 ≤ ((b :: t).take (m + 1) ++ c.inbuf.drop ((b :: t).take (m + 1)).length).length
      rw [List.length_append, List.length_drop]
      omega

theorem inbuf_fill_next (reads : List ReadResult) :
    ∀ (c : Client) (b : Nat) (t : List Nat),
    1024 ≤ c.inbuf.length → NoFail reads → c.in_pipe = b :: t → b < 256 →
    ∃ c1, inbuf_fill c reads = .ok (b : Int) c1 ∧ Got c c1 t := by
  induction reads with
  | nil =>
    intro c b t hl hnf hp hb
    obtain ⟨h1, h2⟩ := deliver_got c 1023 b t [] hl (by norm_num) hnf hb
    unfold inbuf_fill
    simp only [hp, List.tail_nil]
    rw [if_neg (by simp)]
    have e : max 1 (min 1024 1024) = 1023 + 1 := by norm_num
    rw [e, h1]
    exact ⟨_, rfl, h2⟩
  | cons r reads ih =>
    intro c b t hl hnf hp hb
    have hnf2 : NoFail reads := fun h => hnf (List.mem_cons_of_mem _ h)
    cases r with
    | eintr =>
      unfold inbuf_fill
      exact ih c b t hl hnf2 hp hb
    | failure =>
      exact absurd (List.mem_cons_self _ _) hnf
    | got k =>
      obtain ⟨m, hm⟩ : ∃ m, max 1 (min k 1024) = m + 1 := ⟨max 1 (min k 1024) - 1, by omega⟩
      obtain ⟨h1, h2⟩ := deliver_got c m b t reads hl (by omega) hnf2 hb
      unfold inbuf_fill
      simp only [hp, List.tail_cons]
      rw [if_neg (by simp), hm, h1]
      exact ⟨_, rfl, h2⟩

theorem pending_length (c : Client) (h : c.InOK) :
    c.pending.length = (c.in_len - c.in_off) + c.in_pipe.length := by
  unfold Client.pending
  rw [List.length_append, List.length_drop, List.length_take]
  have := h.2.1
  omega

/-- One `inbuf_get` returns the next pending byte. -/
theorem inbuf_get_next (c : Client) (b : Nat) (t : List Nat) (hok : c.InOK)
    (hnf : NoFail c.reads) (hp : c.pending = b :: t) (hb : b < 256) :
    ∃ c1, inbuf_get c = .ok (b : Int) c1 ∧ Got c c1 t := by
  unfold inbuf_get
  by_cases hlt : c.in_off < c.in_len
  · rw [if_pos hlt]
    have hlen : c.in_off < (c.inbuf.take c.in_len).length := by
      rw [List.length_take]
      have := hok.2.1
      omega
    unfold Client.pending at hp
    rw [List.drop_eq_getElem_cons hlen] at hp
    simp only [List.cons_append] at hp
    injection hp with hb1 ht1
    have hget : c.inbuf.getD c.in_off 0 = b := by
      rw [List.getD_eq_getElem _ _ (by have := hok.2.1; omega), ← hb1, List.getElem_take]
    rw [hget, Nat.mod_eq_of_lt hb]
    refine ⟨_, rfl, ?_, ⟨?_, hok.2.1, hok.2.2⟩, hnf, rfl, rfl⟩
    · unfold Client.pending
      exact ht1
    · show c.in_off + 1 ≤ c.in_len
      omega
  · rw [if_neg hlt]
    have hpipe : c.in_pipe = b :: t := by
      unfold Client.pending at hp
      rw [List.drop_eq_nil_of_le (by rw [List.length_take]; omega)] at hp
      simpa using hp
    obtain ⟨c1, h1, hg⟩ := inbuf_fill_next c.reads { c with in_off := 0, in_len := 0 } b t
      hok.2.2 hnf hpipe hb
    exact ⟨c1, h1, hg⟩

theorem got_trans {c c1 c2 : Client} {t1 t2 : List Nat} (h1 : Got c c1 t1) (h2 : Got c1 c2 t2) :
    Got c c2 t2 :=
  ⟨h2.1, h2.2.1, h2.2.2.1, h2.2.2.2.1.trans h1.2.2.2.1, h2.2.2.2.2.trans h1.2.2.2.2⟩

/-- The length loop of `read_msg` on a well-formed length: continuation
bytes, then a byte below 128. -/
theorem read_msg_len_vlq (bs : List Nat) (last : Nat) (t : List Nat) :
    ∀ (fuel val : Nat) (c : Client), c.InOK → NoFail c.reads →
    c.pending = bs ++ last :: t → (∀ b ∈ bs, 128 ≤ b ∧ b < 256) → last < 128 →
    bs.length < fuel →
    ∃ c1, read_msg_len fuel val c = .ok (to_int32 (vlq_value val (bs ++ [last]))) c1 ∧
      Got c c1 t := by
  induction bs with
  | nil =>
    intro fuel val c hok hnf hp _ hlast hfuel
    obtain ⟨f, rfl⟩ : ∃ f, fuel = f + 1 := ⟨fuel - 1, by simp at hfuel; omega⟩
    obtain ⟨c1, h1, hg⟩ := inbuf_get_next c last t hok hnf (by simpa using hp) (by omega)
    refine ⟨c1, ?_, hg⟩
    unfold read_msg_len
    rw [h1]
    simp only [Res.bind, Int.toNat_natCast]
    have h2 : ¬ (last &&& 128 ≠ 0) := by
      rw [and_128_ne_zero last (by omega)]
      omega
    rw [if_neg h2, and_127_right, shl7_or _ _ (Nat.mod_lt _ (by norm_num))]
    simp [vlq_value]
  | cons b bs ih =>
    intro fuel val c hok hnf hp hbs hlast hfuel
    obtain ⟨f, rfl⟩ : ∃ f, fuel = f + 1 := ⟨fuel - 1, by simp at hfuel; omega⟩
    have hb := hbs b (List.mem_cons_self _ _)
    obtain ⟨c1, h1, hg⟩ := inbuf_get_next c b (bs ++ last :: t) hok hnf (by simpa using hp) hb.2
    obtain ⟨c2, h2, hg2⟩ := ih f ((val * 128 + b % 128) % 2 ^ 32) c1 hg.2.1 hg.2.2.1 hg.1
      (fun x hx => hbs x (List.mem_cons_of_mem _ hx)) hlast (by simp at hfuel; omega)
    refine ⟨c2, ?_, got_trans hg hg2⟩
    unfold read_msg_len
    rw [h1]
    simp only [Res.bind, Int.toNat_natCast]
    have h3 : b &&& 128 ≠ 0 := by
      rw [and_128_ne_zero b hb.2]
      exact hb.1
    rw [if_pos h3, and_127_right, shl7_or _ _ (Nat.mod_lt _ (by norm_num)), h2]
    simp [vlq_value]

/-- The payload loop of `read_msg` appends the next pending bytes to the
buffer. -/
theorem read_msg_body_copy (P : List Nat) (t : List Nat) :
    ∀ (c : Client), c.InOK → NoFail c.reads → c.pending = P ++ t → (∀ b ∈ P, b < 256) →
    c.buf.WF →
    ∃ c1, read_msg_body P.length c = .ok () c1 ∧ Wrote c.buf c1.buf P ∧ c1.pending = t ∧
      c1.InOK ∧ NoFail c1.reads ∧ c1.trace = c.trace := by
  induction P with
  | nil =>
    intro c hok hnf hp _ _
    exact ⟨c, rfl, wrote_refl _, by simpa using hp, hok, hnf, rfl⟩
  | cons b P ih =>
    intro c hok hnf hp hb hwf
    have hb256 := hb b (List.mem_cons_self _ _)
    obtain ⟨c1, h1, hg⟩ := inbuf_get_next c b (P ++ t) hok hnf (by simpa using hp) hb256
    have w1 := wrote_put (b : Int) c1.buf (by rw [hg.2.2.2.1]; exact hwf)
    rw [int_to_char_natCast, Nat.mod_eq_of_lt hb256, hg.2.2.2.1] at w1
    obtain ⟨c2, h2, w2, hp2, hok2, hnf2, ht2⟩ := ih { c1 with buf := put (b : Int) c.buf }
      hg.2.1 hg.2.2.1 hg.1 (fun x hx => hb x (List.mem_cons_of_mem _ hx)) (wrote_wf hwf w1)
    refine ⟨c2, ?_, wrote_trans hwf w1 w2, hp2, hok2, hnf2, ht2.trans hg.2.2.2.2⟩
    simp only [List.length_cons]
    unfold read_msg_body
    rw [h1]
    simp only [Res.bind, hg.2.2.2.1]
    exact h2

theorem enc_bytes_lt (data : List Nat) (n : Nat) : ∀ b ∈ enc_bytes data n, b < 256 := by
  intro b hb
  unfold enc_bytes at hb
  obtain ⟨i, _, rfl⟩ := List.mem_map.mp hb
  exact Nat.mod_lt _ (by norm_num)

theorem enc_data_lt (data : List Nat) (len : Int) : ∀ b ∈ enc_data data len, b < 256 := by
  intro b hb
  unfold enc_data enc_int at hb
  rcases List.mem_append.mp hb with h | h
  · exact vlq_bytes_lt _ b h
  · exact enc_bytes_lt _ _ b h

theorem encode_step_lt (o : Option (List Nat)) (pre P : List Nat)
    (hpre : ∀ b ∈ pre, b < 256) (ho : ∀ q, o = some q → ∀ b ∈ q, b < 256)
    (h : o.map (fun q => pre ++ q) = some P) : ∀ b ∈ P, b < 256 := by
  cases o with
  | none => cases h
  | some q =>
    injection h with h
    subst h
    intro b hb
    rcases List.mem_append.mp hb with h1 | h1
    · exact hpre b h1
    · exact ho q rfl b h1

/-- Every byte of an encoded payload is below 256. -/
theorem encode_bytes_lt_aux (n : Nat) :
    ∀ (p : List Nat), p.length ≤ n → ∀ (ap : List Arg) (P : List Nat),
    encode p ap = some P → ∀ b ∈ P, b < 256 := by
  induction n with
  | zero =>
    intro p hp ap P h
    have : p = [] := List.length_eq_zero.mp (by omega)
    subst this
    injection h with h
    subst h
    intro b hb
    cases hb
  | succ n ih =>
    intro p hp ap P h
    match p with
    | [] =>
      injection h with h
      subst h
      intro b hb
      cases hb
    | ch :: p =>
      have hlen1 : p.length ≤ n := by simp at hp; omega
      by_cases hch : ch ≠ 37
      · unfold encode at h
        rw [if_pos hch] at h
        exact encode_step_lt _ [ch % 256] P
          (by intro b hb; simp at hb; subst hb; exact Nat.mod_lt _ (by norm_num))
          (fun q hq => ih p hlen1 ap q hq) h
      · have hch37 : ch = 37 := by simpa using hch
        subst hch37
        match p with
        | [] => cases h
        | c2 :: p =>
          have hlen : p.length ≤ n := by simp at hp; omega
          unfold encode at h
          simp only [ne_eq, not_true_eq_false, if_false] at h
          by_cases h105 : c2 = 105
          · simp only [h105, if_true] at h
            match ap with
            | [] => cases h
            | Arg.ptr _ :: _ => cases h
            | Arg.int v :: ap =>
              exact encode_step_lt _ (enc_int v) P (vlq_bytes_lt _)
                (fun q hq => ih p hlen ap q hq) h
          · simp only [h105, if_false] at h
            by_cases h116 : c2 = 116
            · simp only [h116, if_true] at h
              match ap with
              | [] => cases h
              | Arg.int _ :: _ => cases h
              | [Arg.ptr _] => cases h
              | Arg.ptr _ :: Arg.ptr _ :: _ => cases h
              | Arg.ptr data :: Arg.int len :: ap =>
                exact encode_step_lt _ (enc_bytes data len.toNat) P (enc_bytes_lt _ _)
                  (fun q hq => ih p hlen ap q hq) h
            · simp only [h116, if_false] at h
              by_cases h115 : c2 = 115
              · simp only [h115, if_true] at h
                match ap with
                | [] => cases h
                | Arg.int _ :: _ => cases h
                | Arg.ptr str :: ap =>
                  exact encode_step_lt _ (enc_str str) P (enc_data_lt _ _)
                    (fun q hq => ih p hlen ap q hq) h
              · simp only [h115, if_false] at h
                by_cases h114 : c2 = 114
                · simp only [h114, if_true] at h
                  match ap with
                  | [] => cases h
                  | Arg.int _ :: _ => cases h
                  | [Arg.ptr _] => cases h
                  | Arg.ptr _ :: Arg.ptr _ :: _ => cases h
                  | Arg.ptr data :: Arg.int len :: ap =>
                    exact encode_step_lt _ (enc_data data len) P (enc_data_lt _ _)
                      (fun q hq => ih p hlen ap q hq) h
                · simp only [h114, if_false] at h
                  exact encode_step_lt _ [c2 % 256] P
                    (by intro b hb; simp at hb; subst hb; exact Nat.mod_lt _ (by norm_num))
                    (fun q hq => ih p hlen ap q hq) h

theorem encode_bytes_lt (p : List Nat) (ap : List Arg) (P : List Nat)
    (h : encode p ap = some P) : ∀ b ∈ P, b < 256 :=
  encode_bytes_lt_aux p.length p (Nat.le_refl _) ap P h

/-- What `read_msg` does with a stream that starts with the frame of `P`:
it returns with `P` as the payload of the buffer, the write cursor behind
it, and the bytes after the frame still pending. -/
theorem read_msg_frame (c : Client) (P t : List Nat) (hok : c.InOK) (hnf : NoFail c.reads)
    (hp : c.pending = frame P ++ t) (hb : ∀ b ∈ P, b < 256) (hlen : P.length < 2 ^ 31) :
    ∃ c1, read_msg c = .ok () c1 ∧ c1.buf.payload = P ∧ c1.buf.tmpbuf_wr = P.length ∧
      c1.pending = t ∧ c1.InOK ∧ c1.trace = c.trace := by
  have hp1 : c.pending = vlq_groups P.length (vlq_high P.length 4)
      ++ (P.length % 128) :: (P ++ t) := by
    rw [hp]
    simp [frame, vlq]
  have hfuel : (vlq_groups P.length (vlq_high P.length 4)).length
      < (c.in_len - c.in_off) + c.in_pipe.length + 1 := by
    have := pending_length c hok
    rw [hp1] at this
    simp only [List.length_append, List.length_cons] at this
    omega
  obtain ⟨c1, h1, hg⟩ := read_msg_len_vlq _ _ _ _ 0 c hok hnf hp1 (vlq_groups_bounds _ _)
    (Nat.mod_lt _ (by norm_num)) hfuel
  have e : vlq_groups P.length (vlq_high P.length 4) ++ [P.length % 128] = vlq P.length := rfl
  rw [e, vlq_value_vlq _ (by omega), to_int32_of_lt _ hlen] at h1
  obtain ⟨c2, h2, w2, hp2, hok2, _, ht2⟩ := read_msg_body_copy P t
    { c1 with buf := clear_tmpbuf c1.buf } hg.2.1 hg.2.2.1 hg.1 hb (clear_tmpbuf_wf _)
  have hpay := wrote_payload (clear_tmpbuf_wf _) w2
  refine ⟨c2, ?_, ?_, ?_, hp2, hok2, ht2.trans hg.2.2.2.2⟩
  · unfold read_msg
    rw [h1]
    simp only [Res.bind, Int.toNat_natCast]
    exact h2
  · rw [hpay]
    show (clear_tmpbuf c1.buf).payload ++ P = P
    rw [clear_tmpbuf_payload, List.nil_append]
  · rw [w2.1]
    show (clear_tmpbuf c1.buf).tmpbuf_wr + P.length = P.length
    rw [clear_tmpbuf_wr, Nat.zero_add]

/-- C4: frame round trip.  For every payload `P` that a format and its
arguments stand for (shorter than 2^28 bytes, so also far longer than the
1024-byte initial buffer), `write_msg` hands to the pipe exactly the encoded
length of `P` followed by the bytes of `P`; and `read_msg`, started with an
empty read buffer on a FIFO holding exactly those bytes, however the `read`
calls split them and however often they are interrupted, returns with all of
them consumed, the buffer holding `P` and the write cursor at `|P|`. -/
theorem frame_round_trip (E : Env) (fmt : List Nat) (ap : List Arg) (w r : Client)
    (P : List Nat) (hs : w.buf.Sized) (he : encode fmt ap = some P) (hP : P.length < 2 ^ 28)
    (hok : r.InOK) (hempty : r.in_off = r.in_len) (hnf : NoFail r.reads) :
    ∃ w1 r1,
      write_msg E fmt ap w = .ok () w1 ∧
      w1.trace = w.trace ++ [Event.fwrite (vlq P.length ++ P)] ∧
      read_msg { r with in_pipe := vlq P.length ++ P } = .ok () r1 ∧
      r1.buf.payload = P ∧ r1.buf.tmpbuf_wr = P.length ∧
      r1.in_pipe = [] ∧ r1.in_off = r1.in_len := by
  obtain ⟨t, hw, _⟩ := write_msg_sends E fmt ap w P hs he hP
  have hpend : ({ r with in_pipe := vlq P.length ++ P } : Client).pending = frame P ++ [] := by
    unfold Client.pending
    simp only
    rw [List.drop_eq_nil_of_le (by rw [List.length_take]; have := hok.2.1; omega)]
    simp [frame]
  obtain ⟨r1, hr, hpay, hwr, hp1, hok1, _⟩ := read_msg_frame
    { r with in_pipe := vlq P.length ++ P } P [] hok hnf hpend (encode_bytes_lt fmt ap P he)
    (by omega)
  have hl := pending_length r1 hok1
  rw [hp1] at hl
  simp only [List.length_nil] at hl
  refine ⟨_, r1, hw, rfl, hr, hpay, hwr, ?_, ?_⟩
  · exact List.length_eq_zero.mp (by omega)
  · have := hok1.1
    omega

theorem start_in_ok (tty : Nat) : (Client.start tty).InOK := by
  refine ⟨Nat.le_refl _, Nat.zero_le _, ?_⟩
  show 1024 ≤ (List.replicate 1024 0).length
  rw [List.length_replicate]

/-- Witness for C4: 1500 bytes of standard input (each 0xC8) sent as `0%t`,
a payload longer than the initial buffer. -/
theorem frame_round_trip_witness :
    ∃ w1 r1,
      write_msg (Env.linux 0) (cstr "0%t")
          [Arg.ptr (List.replicate 1500 200), Arg.int 1500] (Client.start 5) = .ok () w1 ∧
      w1.trace = (Client.start 5).trace ++
        [Event.fwrite (vlq (48 % 256 :: (enc_bytes (List.replicate 1500 200) 1500 ++ [])).length
          ++ (48 % 256 :: (enc_bytes (List.replicate 1500 200) 1500 ++ [])))] ∧
      read_msg { Client.start 5 with
          in_pipe := vlq (48 % 256 :: (enc_bytes (List.replicate 1500 200) 1500 ++ [])).length
            ++ (48 % 256 :: (enc_bytes (List.replicate 1500 200) 1500 ++ [])) } = .ok () r1 ∧
      r1.buf.payload = (48 % 256 :: (enc_bytes (List.replicate 1500 200) 1500 ++ [])) ∧
      r1.buf.tmpbuf_wr = (48 % 256 :: (enc_bytes (List.replicate 1500 200) 1500 ++ [])).length ∧
      r1.in_pipe = [] ∧ r1.in_off = r1.in_len :=
  frame_round_trip (Env.linux 0) (cstr "0%t") [Arg.ptr (List.replicate 1500 200), Arg.int 1500]
    (Client.start 5) (Client.start 5) _ (Or.inl rfl) rfl
    (by
      simp only [List.length_cons, List.length_append, enc_bytes, List.length_map,
        List.length_range, List.length_nil]
      norm_num)
    (start_in_ok 5) rfl (List.not_mem_nil _)

/-! ## Dispatch: console messages, stale bytes and the terminal -/

/-- A format that agrees with the payload on the literals `lits` and then
has a literal `ch` where the payload has another byte, or has ended, is
rejected in the first pass; the outputs are nulled as by `skip_dests`. -/
theorem match_msg_mismatch (sg : Bool) (lits : List Nat) (ch : Nat) (p : List Nat)
    (ap : List Dest) (s : TmpBuf) (t : List Nat) (hwf : s.WF) (hl : ∀ c ∈ lits, c ≠ 37)
    (hch : ch ≠ 37) (hch2 : ch < 256) (hb : ∀ b ∈ s.payload, b < 256)
    (hp : s.payload = lits ++ t) (hne : t.head? ≠ some ch) :
    ∃ rd, match_msg sg (lits ++ ch :: p) ap s =
        match skip_dests p ap with
        | some ds => .ok (0, ds, { s with tmpbuf_rd := rd })
        | none => .error Fault.undefined := by
  have hu0 : ({ s with tmpbuf_rd := 0 } : TmpBuf).unread = lits ++ t := by
    rw [payload_rewind, hp]
  have h0 := match_pass_literals sg 0 lits (ch :: p) ap { s with tmpbuf_rd := 0 } false t hl hu0
  have hu1 : ({ s with tmpbuf_rd := 0 + lits.length } : TmpBuf).unread = t := by
    have := unread_at s lits t hp
    simpa using this
  have hstep : ∃ rd1, match_pass sg 0 (ch :: p) ap { s with tmpbuf_rd := 0 + lits.length } false
      = match_pass sg 0 p ap { s with tmpbuf_rd := rd1 } true := by
    cases ht : t with
    | nil =>
      rw [ht] at hu1
      have hg := get_nil sg { s with tmpbuf_rd := 0 + lits.length } false hwf hu1
      refine ⟨0 + lits.length, ?_⟩
      conv_lhs => unfold match_pass
      simp only [ne_eq, hch, not_false_eq_true, if_true, hg, ite_self]
    | cons b t2 =>
      rw [ht] at hu1
      obtain ⟨hg, _⟩ := get_cons sg { s with tmpbuf_rd := 0 + lits.length } false b t2 hu1
      have hbne : b ≠ ch := by
        intro h
        apply hne
        rw [ht, h]
        rfl
      have hb256 : b < 256 := hb b (by rw [hp, ht]; simp)
      have hci : char_to_int sg b ≠ char_to_int sg ch :=
        fun h => hbne (char_to_int_inj sg b ch hb256 hch2 h)
      refine ⟨0 + lits.length + 1, ?_⟩
      conv_lhs => unfold match_pass
      simp only [ne_eq, hch, not_false_eq_true, if_true, hg, hci]
  obtain ⟨rd1, h1⟩ := hstep
  obtain ⟨rd2, h2⟩ := match_pass_err sg 0 p ap { s with tmpbuf_rd := rd1 }
  refine ⟨rd2, ?_⟩
  unfold match_msg match_msg_passes
  rw [h0, h1, h2]
  cases skip_dests p ap <;> simp [Except.bind]

/-- A format made of literals only matches the payload equal to it. -/
theorem match_msg_literal (sg : Bool) (lits : List Nat) (s : TmpBuf) (hwf : s.WF)
    (hl : ∀ c ∈ lits, c ≠ 37) (hp : s.payload = lits) :
    match_msg sg lits [] s = .ok (1, [], { s with tmpbuf_rd := s.tmpbuf_wr }) := by
  have hlen := payload_length s hwf
  rw [hp] at hlen
  have hpass : ∀ pass, match_pass sg pass lits [] { s with tmpbuf_rd := 0 } false =
      .ok ([], false, { s with tmpbuf_rd := s.tmpbuf_wr }) := by
    intro pass
    have hu0 : ({ s with tmpbuf_rd := 0 } : TmpBuf).unread = lits ++ [] := by
      rw [payload_rewind, hp, List.append_nil]
    have h0 := match_pass_literals sg pass lits [] [] { s with tmpbuf_rd := 0 } false [] hl hu0
    rw [List.append_nil] at h0
    rw [h0]
    unfold match_pass
    simp only [Nat.zero_add, hlen]
  exact match_msg_of_passes sg lits [] [] [] s _ _ (hpass 0) rfl (hpass 1) rfl

/-- The steps of `process_msg` up to the `con-` test, for a payload that
starts with none of `1`, `2`, `e`, `r`. -/
theorem process_msg_to_con (E : Env) (c : Client) (hwf : c.buf.WF)
    (hb : ∀ b ∈ c.buf.payload, b < 256) (h49 : c.buf.payload.head? ≠ some 49)
    (h50 : c.buf.payload.head? ≠ some 50) (h101 : c.buf.payload.head? ≠ some 101)
    (h114 : c.buf.payload.head? ≠ some 114) :
    ∃ rd, process_msg E c =
      if c.buf.tmpbuf.take 4 = cstr "con-" then
        con_process_msg E { c with buf := { c.buf with tmpbuf_rd := rd } }
      else
        .ok () (({ c with buf := { c.buf with tmpbuf_rd := rd } }.emit
          (Event.stderr (cstr "Invalid message received:\n"))).emit
          (Event.stderr ((c.buf.payload.map dump_byte).flatten ++ [10]))) := by
  obtain ⟨rd0, h0⟩ := process_msg_to_exit E c hwf hb h49 h50
  obtain ⟨rd1, h1⟩ := match_msg_not_exit E.char_signed { c.buf with tmpbuf_rd := rd0 } 0 hwf hb h101
  obtain ⟨rd2, h2⟩ := match_msg_not_run E.char_signed { c.buf with tmpbuf_rd := rd1 } none hwf hb
    h114
  refine ⟨rd2, ?_⟩
  rw [← cstr_exit] at h1
  rw [← cstr_run] at h2
  have h1' : match_msg E.char_signed (cstr "exit %i") [Dest.int 0]
      ({ c with buf := { c.buf with tmpbuf_rd := rd0 } } : Client).buf = _ := h1
  rw [h0, with_match_ok E "exit %i" _ _ _ _ h1']
  dsimp only
  have h2' : match_msg E.char_signed (cstr "run %s") [Dest.ptr none]
      ({ c with buf := { c.buf with tmpbuf_rd := rd1 } } : Client).buf = _ := h2
  rw [if_neg (by norm_num), with_match_ok E "run %s" _ _ _ _ h2']
  dsimp only
  rw [if_neg (by norm_num)]
  rfl

theorem skip_dests_lits (p : List Nat) (ap : List Dest) (h : ∀ c ∈ p, c ≠ 37) :
    skip_dests p ap = some ap := by
  induction p with
  | nil => rfl
  | cons c p ih =>
    unfold skip_dests
    rw [if_pos (h c (List.mem_cons_self _ _))]
    exact ih (fun x hx => h x (List.mem_cons_of_mem _ hx))

/-- Two lists are equal, or differ at a first position of the second, or the
second is a proper initial part of the first. -/
theorem list_compare (l : List Nat) : ∀ a : List Nat,
    a = l ∨ (∃ l1 ch p t, l = l1 ++ ch :: p ∧ a = l1 ++ t ∧ t.head? ≠ some ch) ∨
      (∃ b t, a = l ++ b :: t) := by
  induction l with
  | nil =>
    intro a
    cases a with
    | nil => exact Or.inl rfl
    | cons b t => exact Or.inr (Or.inr ⟨b, t, rfl⟩)
  | cons c l ih =>
    intro a
    cases a with
    | nil => exact Or.inr (Or.inl ⟨[], c, l, [], rfl, rfl, by simp⟩)
    | cons b t =>
      by_cases hbc : b = c
      · subst hbc
        rcases ih t with h | ⟨l1, ch, p, t2, h1, h2, h3⟩ | ⟨b2, t2, h⟩
        · exact Or.inl (by rw [h])
        · exact Or.inr (Or.inl ⟨b :: l1, ch, p, t2, by rw [h1]; rfl, by rw [h2]; rfl, h3⟩)
        · exact Or.inr (Or.inr ⟨b2, t2, by rw [h]; rfl⟩)
      · exact Or.inr (Or.inl ⟨[], c, l, b :: t, rfl, rfl, by simpa using hbc⟩)

/-- A format without directives matches exactly the payload equal to it. -/
theorem match_msg_lits (sg : Bool) (lits : List Nat) (s : TmpBuf) (hwf : s.WF)
    (hl : ∀ c ∈ lits, c ≠ 37 ∧ c < 256) (hb : ∀ b ∈ s.payload, b < 256) :
    ∃ rd, match_msg sg lits [] s =
      .ok ((if s.payload = lits then 1 else 0), [], { s with tmpbuf_rd := rd }) := by
  rcases list_compare lits s.payload with h | ⟨l1, ch, p, t, h1, h2, h3⟩ | ⟨b, t, h⟩
  · refine ⟨s.tmpbuf_wr, ?_⟩
    rw [if_pos h]
    exact match_msg_literal sg lits s hwf (fun c hc => (hl c hc).1) h
  · have hne : s.payload ≠ lits := by
      intro he
      rw [he, h1] at h2
      have := List.append_cancel_left h2
      rw [← this] at h3
      exact h3 rfl
    have hl1 : ∀ c ∈ l1, c ≠ 37 := fun c hc => (hl c (by rw [h1]; simp [hc])).1
    have hch := hl ch (by rw [h1]; simp)
    have hp : ∀ c ∈ p, c ≠ 37 := fun c hc => (hl c (by rw [h1]; simp [hc])).1
    obtain ⟨rd, hm⟩ := match_msg_mismatch sg l1 ch p [] s t hwf hl1 hch.1 hch.2 hb h2 h3
    rw [skip_dests_lits p [] hp] at hm
    refine ⟨rd, ?_⟩
    rw [if_neg hne, h1]
    exact hm
  · have hne : s.payload ≠ lits := by
      intro he
      rw [he] at h
      have := congrArg List.length h
      simp at this
    have hlen := payload_length s hwf
    have hu0 : ({ s with tmpbuf_rd := 0 } : TmpBuf).unread = lits ++ b :: t := by
      rw [payload_rewind, h]
    have h0 := match_pass_literals sg 0 lits [] [] { s with tmpbuf_rd := 0 } false (b :: t)
      (fun c hc => (hl c hc).1) hu0
    rw [List.append_nil] at h0
    have h0' : match_pass sg 0 lits [] { s with tmpbuf_rd := 0 } false =
        .ok ([], false, { s with tmpbuf_rd := 0 + lits.length }) := by
      rw [h0]
      unfold match_pass
      rfl
    refine ⟨0 + lits.length, ?_⟩
    rw [if_neg hne]
    refine match_msg_of_pass0_fail sg lits [] [] s _ false h0' (Or.inr ?_)
    show 0 + lits.length ≠ s.tmpbuf_wr
    rw [← hlen, h]
    simp

/-- One pass over a format `<literals>%t` when the payload starts with the
literals: the rest of the payload is copied, and kept only in the second
pass. -/
theorem match_pass_lits_tail (sg : Bool) (pass : Nat) (lits : List Nat)
    (hl : ∀ c ∈ lits, c ≠ 37) (s : TmpBuf) (B : List Nat)
    (cp0 : Option (List Nat)) (ip0 : Int) (hwf : s.WF) (hp : s.payload = lits ++ B)
    (hB : ∀ b ∈ B, b < 256) (hlen : B.length < 2 ^ 31 - 1) :
    match_pass sg pass (lits ++ [37, 116]) [Dest.ptr cp0, Dest.int ip0]
        { s with tmpbuf_rd := 0 } false =
      .ok ([Dest.ptr (if pass = 0 then none else some (B ++ [0])), Dest.int B.length], false,
            { s with tmpbuf_rd := s.tmpbuf_wr }) := by
  have hu0 : ({ s with tmpbuf_rd := 0 } : TmpBuf).unread = lits ++ B := by
    rw [payload_rewind, hp]
  have hl2 := payload_length s hwf
  rw [hp] at hl2
  simp only [List.length_append] at hl2
  have h1 := match_pass_literals sg pass lits [37, 116] [Dest.ptr cp0, Dest.int ip0]
    { s with tmpbuf_rd := 0 } false B hl hu0
  rw [h1]
  have hu1 : ({ s with tmpbuf_rd := 0 + lits.length } : TmpBuf).unread = B := by
    have := unread_at s lits B hp
    simpa using this
  have hgt := get_tail_unread sg { s with tmpbuf_rd := 0 + lits.length } false (wf_rd s _ hwf)
    (by rw [hu1]; exact hB) (by rw [hu1]; exact hlen) (by simp; omega)
  rw [hu1] at hgt
  unfold match_pass
  simp only [ne_eq, not_true_eq_false, if_false, if_true]
  unfold match_pass
  simp only [hgt, Except.bind, Except.map, Bool.false_or, decide_eq_true_eq]
  simp

/-- The format `<literals>%t` matches every payload that starts with the
literals. -/
theorem match_msg_lits_tail (sg : Bool) (lits : List Nat) (hl : ∀ c ∈ lits, c ≠ 37)
    (s : TmpBuf) (B : List Nat)
    (cp0 : Option (List Nat)) (ip0 : Int) (hwf : s.WF) (hp : s.payload = lits ++ B)
    (hB : ∀ b ∈ B, b < 256) (hlen : B.length < 2 ^ 31 - 1) :
    match_msg sg (lits ++ [37, 116]) [Dest.ptr cp0, Dest.int ip0] s =
      .ok (1, [Dest.ptr (some (B ++ [0])), Dest.int B.length],
            { s with tmpbuf_rd := s.tmpbuf_wr }) := by
  have h0 := match_pass_lits_tail sg 0 lits hl s B cp0 ip0 hwf hp hB hlen
  have h1 := match_pass_lits_tail sg 1 lits hl { s with tmpbuf_rd := s.tmpbuf_wr } B none
    B.length hwf hp hB hlen
  simp only [if_true] at h0
  have h1' : match_pass sg 1 (lits ++ [37, 116]) [Dest.ptr none, Dest.int B.length]
      { ({ s with tmpbuf_rd := s.tmpbuf_wr } : TmpBuf) with tmpbuf_rd := 0 } false =
      .ok ([Dest.ptr (some (B ++ [0])), Dest.int B.length], false,
            { s with tmpbuf_rd := s.tmpbuf_wr }) := h1
  exact match_msg_of_passes sg _ _ _ _ s _ _ h0 rfl h1' rfl

theorem con_init_buf (c : Client) : (con_init c).buf = c.buf := by
  unfold con_init
  split <;> rfl

/-- A test of the buffer against a format without directives that the
payload equals. -/
theorem with_match_lits_eq (E : Env) (fmt : String) (c : Client) (hwf : c.buf.WF)
    (hl : ∀ ch ∈ cstr fmt, ch ≠ 37 ∧ ch < 256) (hp : c.buf.payload = cstr fmt) :
    ∃ rd, ∀ (k : Int → List Dest → Client → Res Unit), with_match E fmt [] c k =
      k 1 [] { c with buf := { c.buf with tmpbuf_rd := rd } } := by
  obtain ⟨rd, h⟩ := match_msg_lits E.char_signed (cstr fmt) c.buf hwf hl
    (by rw [hp]; exact fun b hb => (hl b hb).2)
  rw [if_pos hp] at h
  exact ⟨rd, fun k => with_match_ok E fmt [] c k _ h⟩

/-- A test of the buffer against a format without directives that the
payload differs from. -/
theorem with_match_lits_ne (E : Env) (fmt : String) (c : Client) (hwf : c.buf.WF)
    (hl : ∀ ch ∈ cstr fmt, ch ≠ 37 ∧ ch < 256) (hb : ∀ b ∈ c.buf.payload, b < 256)
    (hp : c.buf.payload ≠ cstr fmt) :
    ∃ rd, ∀ (k : Int → List Dest → Client → Res Unit), with_match E fmt [] c k =
      k 0 [] { c with buf := { c.buf with tmpbuf_rd := rd } } := by
  obtain ⟨rd, h⟩ := match_msg_lits E.char_signed (cstr fmt) c.buf hwf hl hb
  rw [if_neg hp] at h
  exact ⟨rd, fun k => with_match_ok E fmt [] c k _ h⟩

theorem cstr_con_raw_on : cstr "con-raw-on" = [99, 111, 110, 45, 114, 97, 119, 45, 111, 110] := by
  decide
theorem cstr_con_raw_off :
    cstr "con-raw-off" = [99, 111, 110, 45, 114, 97, 119, 45, 111, 102, 102] := by decide
theorem cstr_con_cleanup :
    cstr "con-cleanup %t" = [99, 111, 110, 45] ++ 99 :: [108, 101, 97, 110, 117, 112, 32, 37, 116] := by
  decide
theorem cstr_con_cleanup_tail :
    cstr "con-cleanup %t" = cstr "con-cleanup " ++ [37, 116] := by
  decide
theorem cstr_con_cleanup_sp :
    cstr "con-cleanup " = [99, 111, 110, 45, 99, 108, 101, 97, 110, 117, 112, 32] := by decide
theorem cstr_con_req_size :
    cstr "con-req-size" = [99, 111, 110, 45, 114, 101, 113, 45, 115, 105, 122, 101] := by decide
theorem cstr_con_term : cstr "con-term" = [99, 111, 110, 45, 116, 101, 114, 109] := by decide

theorem lits_con_raw_on : ∀ ch ∈ cstr "con-raw-on", ch ≠ 37 ∧ ch < 256 := by decide
theorem lits_con_raw_off : ∀ ch ∈ cstr "con-raw-off", ch ≠ 37 ∧ ch < 256 := by decide
theorem lits_con_req_size : ∀ ch ∈ cstr "con-req-size", ch ≠ 37 ∧ ch < 256 := by decide
theorem lits_con_term : ∀ ch ∈ cstr "con-term", ch ≠ 37 ∧ ch < 256 := by decide

/-- The test against `con-cleanup %t` of a payload that has another byte, or
its end, where the format has the first character that differs. -/
theorem with_match_not_cleanup (E : Env) (c : Client) (hwf : c.buf.WF)
    (hb : ∀ b ∈ c.buf.payload, b < 256) (l1 : List Nat) (ch : Nat) (p t : List Nat)
    (hf : cstr "con-cleanup " = l1 ++ ch :: p)
    (hp : c.buf.payload = l1 ++ t) (hne : t.head? ≠ some ch) :
    ∃ rd, ∀ (k : Int → List Dest → Client → Res Unit),
      with_match E "con-cleanup %t" [Dest.ptr none, Dest.int 0] c k =
      k 0 [Dest.ptr none, Dest.int 0] { c with buf := { c.buf with tmpbuf_rd := rd } } := by
  have hall : ∀ x ∈ cstr "con-cleanup ", x ≠ 37 ∧ x < 256 := by decide
  rw [hf] at hall
  obtain ⟨rd, h⟩ := match_msg_mismatch E.char_signed l1 ch (p ++ [37, 116])
    [Dest.ptr none, Dest.int 0] c.buf t hwf
    (fun x hx => (hall x (by simp [hx])).1) (hall ch (by simp)).1 (hall ch (by simp)).2 hb hp hne
  have hs : skip_dests (p ++ [37, 116]) [Dest.ptr none, Dest.int 0] =
      some [Dest.ptr none, Dest.int 0] := by
    have hp37 : ∀ x ∈ p, x ≠ 37 := fun x hx => (hall x (by simp [hx])).1
    clear h hf hall
    induction p with
    | nil => rfl
    | cons x p ih =>
      rw [List.cons_append]
      unfold skip_dests
      rw [if_pos (hp37 x (List.mem_cons_self _ _))]
      exact ih (fun y hy => hp37 y (List.mem_cons_of_mem _ hy))
  rw [hs] at h
  have hfmt : cstr "con-cleanup %t" = l1 ++ ch :: (p ++ [37, 116]) := by
    rw [cstr_con_cleanup_tail, hf]
    simp
  rw [← hfmt] at h
  exact ⟨rd, fun k => with_match_ok E "con-cleanup %t" _ c k _ h⟩

/-- `con-raw-on` reaches `init_stdin`. -/
theorem con_process_msg_raw_on (E : Env) (c : Client) (hwf : c.buf.WF)
    (hp : c.buf.payload = cstr "con-raw-on") :
    ∃ rd, con_process_msg E c =
      init_stdin E { con_init c with buf := { c.buf with tmpbuf_rd := rd } } := by
  have hi := con_init_buf c
  obtain ⟨rd, h⟩ := with_match_lits_eq E "con-raw-on" (con_init c)
    (by rw [hi]; exact hwf) lits_con_raw_on (by rw [hi]; exact hp)
  refine ⟨rd, ?_⟩
  unfold con_process_msg
  dsimp only
  rw [h, hi, if_pos (by norm_num)]

/-- `con-raw-off` reaches `term_stdin`. -/
theorem con_process_msg_raw_off (E : Env) (c : Client) (hwf : c.buf.WF)
    (hp : c.buf.payload = cstr "con-raw-off") :
    ∃ rd, con_process_msg E c =
      .ok () (term_stdin { con_init c with buf := { c.buf with tmpbuf_rd := rd } }) := by
  have hb : ∀ b ∈ c.buf.payload, b < 256 := by rw [hp]; decide
  have hi := con_init_buf c
  obtain ⟨rd1, h1⟩ := with_match_lits_ne E "con-raw-on" (con_init c)
    (by rw [hi]; exact hwf) lits_con_raw_on (by rw [hi]; exact hb) (by rw [hi, hp]; decide)
  obtain ⟨rd2, h2⟩ := with_match_lits_eq E "con-raw-off"
    { con_init c with buf := { (con_init c).buf with tmpbuf_rd := rd1 } }
    (by rw [hi]; exact hwf) lits_con_raw_off (by rw [hi]; exact hp)
  refine ⟨rd2, ?_⟩
  unfold con_process_msg
  dsimp only
  rw [h1]
  dsimp only
  rw [if_neg (by norm_num), h2]
  dsimp only
  rw [if_pos (by norm_num), hi]

/-- `con-term` reaches `con_term`. -/
theorem con_process_msg_term (E : Env) (c : Client) (hwf : c.buf.WF)
    (hp : c.buf.payload = cstr "con-term") :
    ∃ rd, con_process_msg E c =
      .ok () (con_term { con_init c with buf := { c.buf with tmpbuf_rd := rd } }) := by
  have hb : ∀ b ∈ c.buf.payload, b < 256 := by rw [hp]; decide
  have hi := con_init_buf c
  obtain ⟨rd1, h1⟩ := with_match_lits_ne E "con-raw-on" (con_init c)
    (by rw [hi]; exact hwf) lits_con_raw_on (by rw [hi]; exact hb) (by rw [hi, hp]; decide)
  obtain ⟨rd2, h2⟩ := with_match_lits_ne E "con-raw-off"
    { con_init c with buf := { (con_init c).buf with tmpbuf_rd := rd1 } }
    (by rw [hi]; exact hwf) lits_con_raw_off (by rw [hi]; exact hb)
    (by rw [hi]; show c.buf.payload ≠ _; rw [hp]; decide)
  obtain ⟨rd3, h3⟩ := with_match_not_cleanup E
    { con_init c with buf := { (con_init c).buf with tmpbuf_rd := rd2 } }
    (by rw [hi]; exact hwf) (by rw [hi]; exact hb) [99, 111, 110, 45] 99
    [108, 101, 97, 110, 117, 112, 32] [116, 101, 114, 109] (by decide)
    (by rw [hi]; show c.buf.payload = _; rw [hp]; decide) (by decide)
  obtain ⟨rd4, h4⟩ := with_match_lits_ne E "con-req-size"
    { con_init c with buf := { (con_init c).buf with tmpbuf_rd := rd3 } }
    (by rw [hi]; exact hwf) lits_con_req_size (by rw [hi]; exact hb)
    (by rw [hi]; show c.buf.payload ≠ _; rw [hp]; decide)
  obtain ⟨rd5, h5⟩ := with_match_lits_eq E "con-term"
    { con_init c with buf := { (con_init c).buf with tmpbuf_rd := rd4 } }
    (by rw [hi]; exact hwf) lits_con_term (by rw [hi]; exact hp)
  refine ⟨rd5, ?_⟩
  unfold con_process_msg
  dsimp only
  rw [h1]
  dsimp only
  rw [if_neg (by norm_num), h2]
  dsimp only
  rw [if_neg (by norm_num), h3]
  dsimp only
  rw [if_neg (by norm_num), h4]
  dsimp only
  rw [if_neg (by norm_num), h5]
  dsimp only
  rw [if_pos (by norm_num), hi]

/-- `con-cleanup <bytes>` replaces the cleanup string. -/
theorem con_process_msg_cleanup (E : Env) (c : Client) (B : List Nat) (hwf : c.buf.WF)
    (hp : c.buf.payload = cstr "con-cleanup " ++ B) (hB : ∀ b ∈ B, b < 256)
    (hlen : B.length < 2 ^ 31 - 1) :
    con_process_msg E c =
      .ok () { con_init c with buf := { c.buf with tmpbuf_rd := c.buf.tmpbuf_wr },
                               con_cleanup := B ++ [0], con_cleanup_len := B.length } := by
  have hb : ∀ b ∈ c.buf.payload, b < 256 := by
    rw [hp]
    intro b hb
    rcases List.mem_append.mp hb with h | h
    · have hall : ∀ x ∈ cstr "con-cleanup ", x < 256 := by decide
      exact hall b h
    · exact hB b h
  have hne : ∀ l : List Nat, l.length < 12 → c.buf.payload ≠ l := by
    intro l hl he
    have := congrArg List.length he
    rw [hp] at this
    simp [cstr_con_cleanup_sp] at this
    omega
  have hi := con_init_buf c
  obtain ⟨rd1, h1⟩ := with_match_lits_ne E "con-raw-on" (con_init c)
    (by rw [hi]; exact hwf) lits_con_raw_on (by rw [hi]; exact hb)
    (by rw [hi]; exact hne _ (by decide))
  obtain ⟨rd2, h2⟩ := with_match_lits_ne E "con-raw-off"
    { con_init c with buf := { (con_init c).buf with tmpbuf_rd := rd1 } }
    (by rw [hi]; exact hwf) lits_con_raw_off (by rw [hi]; exact hb)
    (by rw [hi]; exact hne _ (by decide))
  have h3 := match_msg_lits_tail E.char_signed (cstr "con-cleanup ") (by decide)
    { c.buf with tmpbuf_rd := rd2 } B none 0 hwf hp hB hlen
  rw [← cstr_con_cleanup_tail] at h3
  have h3' : match_msg E.char_signed (cstr "con-cleanup %t") [Dest.ptr none, Dest.int 0]
      ({ con_init c with buf := { (con_init c).buf with tmpbuf_rd := rd2 } } : Client).buf =
      .ok (1, [Dest.ptr (some (B ++ [0])), Dest.int B.length],
            { c.buf with tmpbuf_rd := c.buf.tmpbuf_wr }) := by
    rw [hi]
    exact h3
  unfold con_process_msg
  dsimp only
  rw [h1]
  dsimp only
  rw [if_neg (by norm_num), h2]
  dsimp only
  rw [if_neg (by norm_num), with_match_ok E "con-cleanup %t" _ _ _ _ h3']
  dsimp only
  rw [if_pos (by norm_num)]
  simp only [dest_ptr, dest_int, List.get?, Option.getD, hi]

theorem reader_only_refl (c : Client) : ReaderOnly c c := ⟨_, _, _, _, _, _, rfl⟩

theorem reader_only_trans {c c1 c2 : Client} (h1 : ReaderOnly c c1) (h2 : ReaderOnly c1 c2) :
    ReaderOnly c c2 := by
  obtain ⟨_, _, _, _, _, _, rfl⟩ := h1
  obtain ⟨_, _, _, _, _, _, rfl⟩ := h2
  exact ⟨_, _, _, _, _, _, rfl⟩

theorem exit_ne_ok {α : Type} (st : Int) (c : Client) (a : α) (c1 : Client) :
    (exit st c : Res α) ≠ .ok a c1 := by
  unfold exit
  intro h
  cases h

theorem error_ne_ok {α : Type} (msg : String) (c : Client) (a : α) (c1 : Client) :
    (error msg c : Res α) ≠ .ok a c1 := exit_ne_ok _ _ _ _

theorem inbuf_fill_only (reads : List ReadResult) :
    ∀ (c : Client) (a : Int) (c1 : Client), inbuf_fill c reads = .ok a c1 → ReaderOnly c c1 := by
  induction reads with
  | nil =>
    intro c a c1 h
    unfold inbuf_fill at h
    dsimp only at h
    split at h
    · split at h
      · exact absurd h (error_ne_ok _ _ _ _)
      · cases h
    · cases h
      exact ⟨_, _, _, _, _, _, rfl⟩
  | cons r reads ih =>
    intro c a c1 h
    cases r with
    | eintr =>
      unfold inbuf_fill at h
      exact ih c a c1 h
    | failure =>
      unfold inbuf_fill at h
      exact absurd h (error_ne_ok _ _ _ _)
    | got k =>
      unfold inbuf_fill at h
      dsimp only at h
      split at h
      · split at h
        · exact absurd h (error_ne_ok _ _ _ _)
        · cases h
      · cases h
        exact ⟨_, _, _, _, _, _, rfl⟩

theorem inbuf_get_only (c : Client) (a : Int) (c1 : Client) (h : inbuf_get c = .ok a c1) :
    ReaderOnly c c1 := by
  unfold inbuf_get at h
  split at h
  · cases h
    exact ⟨_, _, _, _, _, _, rfl⟩
  · have := inbuf_fill_only _ _ _ _ h
    exact reader_only_trans ⟨_, _, _, _, _, _, rfl⟩ this

theorem bind_ok {α β : Type} (r : Res α) (f : α → Client → Res β) (b : β) (c1 : Client)
    (h : r.bind f = .ok b c1) : ∃ a c0, r = .ok a c0 ∧ f a c0 = .ok b c1 := by
  cases r with
  | ok a c0 => exact ⟨a, c0, rfl, h⟩
  | exited st c0 => cases h
  | undefined => cases h
  | blocked c0 => cases h

theorem read_msg_len_only (fuel : Nat) :
    ∀ (val : Nat) (c : Client) (a : Int) (c1 : Client),
    read_msg_len fuel val c = .ok a c1 → ReaderOnly c c1 := by
  induction fuel with
  | zero =>
    intro val c a c1 h
    unfold read_msg_len at h
    cases h
    exact reader_only_refl _
  | succ fuel ih =>
    intro val c a c1 h
    unfold read_msg_len at h
    obtain ⟨ch, c0, h0, h1⟩ := bind_ok _ _ _ _ h
    have r0 := inbuf_get_only c ch c0 h0
    dsimp only at h1
    split at h1
    · exact reader_only_trans r0 (ih _ _ _ _ h1)
    · cases h1
      exact r0

theorem read_msg_body_only (n : Nat) :
    ∀ (c : Client) (c1 : Client), read_msg_body n c = .ok () c1 → ReaderOnly c c1 := by
  induction n with
  | zero =>
    intro c c1 h
    unfold read_msg_body at h
    cases h
    exact reader_only_refl _
  | succ n ih =>
    intro c c1 h
    unfold read_msg_body at h
    obtain ⟨ch, c0, h0, h1⟩ := bind_ok _ _ _ _ h
    have r0 := inbuf_get_only c ch c0 h0
    exact reader_only_trans r0 (reader_only_trans ⟨_, _, _, _, _, _, rfl⟩ (ih _ _ h1))

theorem read_msg_only (c c1 : Client) (h : read_msg c = .ok () c1) : ReaderOnly c c1 := by
  unfold read_msg at h
  obtain ⟨v, c0, h0, h1⟩ := bind_ok _ _ _ _ h
  exact reader_only_trans (read_msg_len_only _ _ _ _ _ h0)
    (reader_only_trans ⟨_, _, _, _, _, _, rfl⟩ (read_msg_body_only _ _ _ h1))

/-- What `read_msg` does with a stream that starts with the frame of `P`, in
full: the payload is stored from the start of the block over what was there,
bytes behind it stay, and nothing but the buffer and the reader changes. -/
theorem read_msg_frame_full (c : Client) (P t : List Nat) (hok : c.InOK)
    (hnf : NoFail c.reads)
    (hp : c.pending = frame P ++ t) (hb : ∀ b ∈ P, b < 256) (hlen : P.length < 2 ^ 31) :
    ∃ c1, read_msg c = .ok () c1 ∧ Wrote (clear_tmpbuf c.buf) c1.buf P ∧ c1.buf.WF ∧
      c1.buf.payload = P ∧ c1.pending = t ∧ c1.InOK ∧ NoFail c1.reads ∧ c1.trace = c.trace ∧
      ReaderOnly c c1 := by
  have hp1 : c.pending = vlq_groups P.length (vlq_high P.length 4)
      ++ (P.length % 128) :: (P ++ t) := by
    rw [hp]
    simp [frame, vlq]
  have hfuel : (vlq_groups P.length (vlq_high P.length 4)).length
      < (c.in_len - c.in_off) + c.in_pipe.length + 1 := by
    have := pending_length c hok
    rw [hp1] at this
    simp only [List.length_append, List.length_cons] at this
    omega
  obtain ⟨c1, h1, hg⟩ := read_msg_len_vlq _ _ _ _ 0 c hok hnf hp1 (vlq_groups_bounds _ _)
    (Nat.mod_lt _ (by norm_num)) hfuel
  have e : vlq_groups P.length (vlq_high P.length 4) ++ [P.length % 128] = vlq P.length := rfl
  rw [e, vlq_value_vlq _ (by omega), to_int32_of_lt _ hlen] at h1
  obtain ⟨c2, h2, w2, hp2, hok2, hnf2, ht2⟩ := read_msg_body_copy P t
    { c1 with buf := clear_tmpbuf c1.buf } hg.2.1 hg.2.2.1 hg.1 hb (clear_tmpbuf_wf _)
  have hpay := wrote_payload (clear_tmpbuf_wf _) w2
  have hrm : read_msg c = .ok () c2 := by
    unfold read_msg
    rw [h1]
    simp only [Res.bind, Int.toNat_natCast]
    exact h2
  have hbuf : c1.buf = c.buf := hg.2.2.2.1
  refine ⟨c2, hrm, ?_, wrote_wf (clear_tmpbuf_wf _) w2, ?_, hp2, hok2, hnf2,
    ht2.trans hg.2.2.2.2, read_msg_only c c2 hrm⟩
  · rw [← hbuf]
    exact w2
  · rw [hpay]
    show (clear_tmpbuf c1.buf).payload ++ P = P
    rw [clear_tmpbuf_payload, List.nil_append]

/-- A payload that no `con-*` format matches ends in the warning, which
prints the buffer as a C string. -/
theorem con_process_msg_bad (E : Env) (c : Client) (hwf : c.buf.WF)
    (hb : ∀ b ∈ c.buf.payload, b < 256)
    (h1 : c.buf.payload ≠ cstr "con-raw-on") (h2 : c.buf.payload ≠ cstr "con-raw-off")
    (l1 : List Nat) (ch : Nat) (p t : List Nat) (hf : cstr "con-cleanup " = l1 ++ ch :: p)
    (h3 : c.buf.payload = l1 ++ t) (hne : t.head? ≠ some ch)
    (h4 : c.buf.payload ≠ cstr "con-req-size") (h5 : c.buf.payload ≠ cstr "con-term") :
    ∃ rd, con_process_msg E c =
      .ok () ({ con_init c with buf := { c.buf with tmpbuf_rd := rd } }.emit
        (Event.stderr (cstr "Bad con-* message: " ++ c_string c.buf.tmpbuf ++ [10]))) := by
  have hi := con_init_buf c
  obtain ⟨rd1, e1⟩ := with_match_lits_ne E "con-raw-on" (con_init c)
    (by rw [hi]; exact hwf) lits_con_raw_on (by rw [hi]; exact hb) (by rw [hi]; exact h1)
  obtain ⟨rd2, e2⟩ := with_match_lits_ne E "con-raw-off"
    { con_init c with buf := { (con_init c).buf with tmpbuf_rd := rd1 } }
    (by rw [hi]; exact hwf) lits_con_raw_off (by rw [hi]; exact hb) (by rw [hi]; exact h2)
  obtain ⟨rd3, e3⟩ := with_match_not_cleanup E
    { con_init c with buf := { (con_init c).buf with tmpbuf_rd := rd2 } }
    (by rw [hi]; exact hwf) (by rw [hi]; exact hb) l1 ch p t hf (by rw [hi]; exact h3) hne
  obtain ⟨rd4, e4⟩ := with_match_lits_ne E "con-req-size"
    { con_init c with buf := { (con_init c).buf with tmpbuf_rd := rd3 } }
    (by rw [hi]; exact hwf) lits_con_req_size (by rw [hi]; exact hb) (by rw [hi]; exact h4)
  obtain ⟨rd5, e5⟩ := with_match_lits_ne E "con-term"
    { con_init c with buf := { (con_init c).buf with tmpbuf_rd := rd4 } }
    (by rw [hi]; exact hwf) lits_con_term (by rw [hi]; exact hb) (by rw [hi]; exact h5)
  refine ⟨rd5, ?_⟩
  unfold con_process_msg
  dsimp only
  rw [e1]
  dsimp only
  rw [if_neg (by norm_num), e2]
  dsimp only
  rw [if_neg (by norm_num), e3]
  dsimp only
  rw [if_neg (by norm_num), e4]
  dsimp only
  rw [if_neg (by norm_num), e5]
  dsimp only
  rw [if_neg (by norm_num), hi]

theorem clear_tmpbuf_initial :
    clear_tmpbuf TmpBuf.initial = { tmpbuf := List.replicate 1024 0, tmpbuf_rd := 0, tmpbuf_wr := 0 } :=
  rfl

theorem clear_tmpbuf_tmpbuf (s : TmpBuf) (h : s.tmpbuf ≠ []) :
    (clear_tmpbuf s).tmpbuf = s.tmpbuf := by
  unfold clear_tmpbuf init_tmpbuf
  rw [if_neg h]

theorem start_pending (tty : Nat) (l : List Nat) :
    ({ Client.start tty with in_pipe := l } : Client).pending = l := rfl

theorem start_in_ok_pipe (tty : Nat) (l : List Nat) :
    ({ Client.start tty with in_pipe := l } : Client).InOK := start_in_ok tty

theorem start_no_fail (tty : Nat) (l : List Nat) :
    NoFail ({ Client.start tty with in_pipe := l } : Client).reads := List.not_mem_nil _

theorem drop_zeros (k : Nat) (hk : k < 1024) :
    ∃ m, (List.replicate 1024 0).drop k = 0 :: List.replicate m 0 := by
  refine ⟨1023 - k, ?_⟩
  rw [List.drop_replicate]
  have : 1024 - k = (1023 - k) + 1 := by omega
  rw [this, List.replicate_succ]

/-- The branch `process_msg` takes for the 3-byte payload `con` depends on
what an earlier message left in the buffer behind the payload. -/
theorem process_msg_stale_bytes (E : Env) :
    ∃ cA c1 c2 cB rA rB,
      read_msg { Client.start 5 with in_pipe := frame (cstr "con") } = .ok () cA ∧
      read_msg { Client.start 5 with
        in_pipe := frame (cstr "con-raw-off") ++ frame (cstr "con") } = .ok () c1 ∧
      process_msg E c1 = .ok () c2 ∧ read_msg c2 = .ok () cB ∧
      cA.buf.payload = cstr "con" ∧ cB.buf.payload = cstr "con" ∧
      cA.buf.tmpbuf_wr = 3 ∧ cB.buf.tmpbuf_wr = 3 ∧
      process_msg E cA = .ok () rA ∧
      rA.trace = cA.trace ++ [Event.stderr (cstr "Invalid message received:\n"),
        Event.stderr (cstr "con\n")] ∧
      process_msg E cB = .ok () rB ∧
      rB.trace = cB.trace ++ [Event.stderr (cstr "Bad con-* message: con-raw-off\n")] := by
  have hcon : cstr "con" = [99, 111, 110] := by decide
  -- run A
  obtain ⟨cA, hrA, wA, wfA, payA, -, -, -, -, -⟩ := read_msg_frame_full
    { Client.start 5 with in_pipe := frame (cstr "con") } (cstr "con") []
    (start_in_ok_pipe 5 _) (start_no_fail 5 _) (by rw [start_pending, List.append_nil])
    (by decide) (by decide)
  have hbA : ∀ b ∈ cA.buf.payload, b < 256 := by rw [payA]; decide
  obtain ⟨rdA, hpA⟩ := process_msg_to_con E cA wfA hbA (by rw [payA]; decide)
    (by rw [payA]; decide) (by rw [payA]; decide) (by rw [payA]; decide)
  have htA : cA.buf.tmpbuf.take 4 = [99, 111, 110, 0] := by
    obtain ⟨k, hk⟩ := wA.2.2
    obtain ⟨m, hm⟩ := drop_zeros 3 (by norm_num)
    rw [hk]
    show (List.take 0 _ ++ (cstr "con" ++ ((List.replicate 1024 0).drop (0 + 3) ++ _))).take 4 = _
    rw [Nat.zero_add, hm, hcon]
    rfl
  rw [if_neg (by rw [htA, cstr_con]; decide), payA] at hpA
  -- run B, first message
  obtain ⟨c1, hr1, w1, wf1, pay1, pend1, ok1, nf1, tr1, ro1⟩ := read_msg_frame_full
    { Client.start 5 with in_pipe := frame (cstr "con-raw-off") ++ frame (cstr "con") }
    (cstr "con-raw-off") (frame (cstr "con"))
    (start_in_ok_pipe 5 _) (start_no_fail 5 _) (start_pending 5 _) (by decide) (by decide)
  have hb1 : ∀ b ∈ c1.buf.payload, b < 256 := by rw [pay1]; decide
  obtain ⟨rd1, hp1⟩ := process_msg_to_con E c1 wf1 hb1 (by rw [pay1]; decide)
    (by rw [pay1]; decide) (by rw [pay1]; decide) (by rw [pay1]; decide)
  have ht1 : c1.buf.tmpbuf.take 4 = cstr "con-" :=
    tmpbuf_take_of_payload c1.buf [99, 111, 110, 45] [114, 97, 119, 45, 111, 102, 102] wf1
      (by rw [pay1]; decide)
  rw [if_pos ht1] at hp1
  obtain ⟨rd2, hp2⟩ := con_process_msg_raw_off E { c1 with buf := { c1.buf with tmpbuf_rd := rd1 } }
    wf1 pay1
  rw [hp2] at hp1
  have hq1 : c1.con_qinit = false ∧ c1.stdin_init = false ∧ c1.trace = [] := by
    obtain ⟨_, _, _, _, _, _, rfl⟩ := ro1
    exact ⟨rfl, rfl, rfl⟩
  obtain ⟨k1, hk1⟩ := w1.2.2
  have htb1 : c1.buf.tmpbuf = cstr "con-raw-off" ++ (List.replicate 1013 0 ++ List.replicate k1 0) := by
    rw [hk1]
    show List.take 0 _ ++ (cstr "con-raw-off" ++ ((List.replicate 1024 0).drop (0 + 11) ++ _)) = _
    rw [List.drop_replicate]
    rfl
  -- second message
  generalize hc2 : term_stdin { con_init { c1 with buf := { c1.buf with tmpbuf_rd := rd1 } } with
    buf := { c1.buf with tmpbuf_rd := rd2 } } = c2 at hp1
  have hc2' : c2 = { (Client.emit
      { c1 with buf := { c1.buf with tmpbuf_rd := rd2 }, con_qinit := true, con_cleanup := [0] }
      Event.sigaction) with atexit_con_term := true } := by
    rw [← hc2]
    unfold term_stdin con_init
    simp only [hq1.1, hq1.2.1, Bool.false_eq_true, if_false]
    rfl
  have ok2 : c2.InOK := by rw [hc2']; exact ok1
  have nf2 : NoFail c2.reads := by rw [hc2']; exact nf1
  have pend2 : c2.pending = frame (cstr "con") ++ [] := by
    rw [hc2', List.append_nil]
    exact pend1
  obtain ⟨cB, hrB, wB, wfB, payB, -, -, -, trB, -⟩ := read_msg_frame_full c2 (cstr "con") []
    ok2 nf2 pend2 (by decide) (by decide)
  have hbB : ∀ b ∈ cB.buf.payload, b < 256 := by rw [payB]; decide
  obtain ⟨rdB, hpB⟩ := process_msg_to_con E cB wfB hbB (by rw [payB]; decide)
    (by rw [payB]; decide) (by rw [payB]; decide) (by rw [payB]; decide)
  obtain ⟨kB, hkB⟩ := wB.2.2
  have hc2buf : c2.buf.tmpbuf = c1.buf.tmpbuf := by rw [hc2']; rfl
  have htbB : cB.buf.tmpbuf =
      cstr "con-raw-off" ++ (List.replicate 1013 0 ++ List.replicate k1 0 ++ List.replicate kB 0) := by
    rw [hkB, clear_tmpbuf_tmpbuf _ (by rw [hc2buf, htb1, cstr_con_raw_off]; exact List.cons_ne_nil _ _), hc2buf, htb1]
    show List.take 0 _ ++ (cstr "con" ++ (List.drop (0 + 3) _ ++ _)) = _
    rw [hcon, cstr_con_raw_off]
    generalize List.replicate 1013 0 ++ List.replicate k1 0 = X
    rfl
  have htB : cB.buf.tmpbuf.take 4 = cstr "con-" := by
    rw [htbB, cstr_con_raw_off, cstr_con]
    rfl
  have hcs : c_string cB.buf.tmpbuf = cstr "con-raw-off" := by
    rw [htbB, cstr_con_raw_off]
    have : List.replicate 1013 0 = 0 :: List.replicate 1012 0 := rfl
    rw [this]
    simp [c_string, List.takeWhile]
  rw [if_pos htB] at hpB
  obtain ⟨rdB2, hpB2⟩ := con_process_msg_bad E { cB with buf := { cB.buf with tmpbuf_rd := rdB } }
    wfB hbB (by show cB.buf.payload ≠ _; rw [payB]; decide)
    (by show cB.buf.payload ≠ _; rw [payB]; decide)
    [99, 111, 110] 45 [99, 108, 101, 97, 110, 117, 112, 32] [] (by decide)
    (by show cB.buf.payload = _; rw [payB]; decide) (by decide)
    (by show cB.buf.payload ≠ _; rw [payB]; decide)
    (by show cB.buf.payload ≠ _; rw [payB]; decide)
  rw [hpB2] at hpB
  have hqB : cB.con_qinit = true := by
    obtain ⟨_, _, _, _, _, _, rfl⟩ := read_msg_only c2 cB hrB
    rw [hc2']
    rfl
  refine ⟨cA, c1, c2, cB, _, _, hrA, hr1, hp1, hrB, payA, payB, ?_, ?_, hpA, ?_, hpB, ?_⟩
  · rw [wA.1]; rfl
  · rw [wB.1]; rfl
  · simp only [Client.emit, List.append_assoc, List.cons_append, List.nil_append]
    rfl
  · show (con_init { cB with buf := { cB.buf with tmpbuf_rd := rdB } }).trace ++ _ = _
    unfold con_init
    simp only [hqB, if_true]
    show cB.trace ++ [Event.stderr (cstr "Bad con-* message: " ++ c_string cB.buf.tmpbuf ++ [10])] = _
    rw [hcs]
    rfl

theorem reader_pending (c c1 : Client) (h : c1.reader = c.reader) :
    c1.pending = c.pending ∧ (c.InOK → c1.InOK) ∧ (NoFail c.reads → NoFail c1.reads) := by
  simp only [Client.reader, Prod.mk.injEq] at h
  obtain ⟨h1, h2, h3, h4, _, h6⟩ := h
  refine ⟨?_, ?_, ?_⟩
  · unfold Client.pending
    rw [h1, h2, h3, h4]
  · unfold Client.InOK
    rw [h1, h2, h3]
    exact id
  · rw [h6]
    exact id

theorem term_stdin_ok (t0 : Option Nat) (c : Client) (h : TermOK t0 c) :
    TermOK t0 (term_stdin c) ∧ (term_stdin c).stdin_init = false ∧
      (term_stdin c).reader = c.reader ∧
      (term_stdin c).atexit_con_term = c.atexit_con_term := by
  unfold term_stdin
  rcases h with ⟨h1, h2⟩ | ⟨h1, h2, h3, h4⟩
  · rw [h1]
    exact ⟨Or.inl ⟨h1, h2⟩, h1, rfl, rfl⟩
  · rw [h1]
    refine ⟨Or.inl ⟨rfl, ?_⟩, rfl, rfl, rfl⟩
    show (c.tty.map fun _ => c.tsave) = t0
    cases ht : c.tty with
    | none => exact absurd ht h3
    | some x => rw [h4]; rfl

theorem con_term_ok (t0 : Option Nat) (c : Client) (h : TermOK t0 c) :
    TermOK t0 (con_term c) ∧ (con_term c).stdin_init = false ∧
      (con_term c).reader = c.reader := by
  obtain ⟨h1, h2, h3, _⟩ := term_stdin_ok t0 c h
  unfold con_term write_data
  dsimp only
  split
  · refine ⟨Or.inl ⟨h2, ?_⟩, h2, h3⟩
    rcases h1 with ⟨_, q⟩ | ⟨q, _⟩
    · exact q
    · rw [h2] at q; cases q
  · refine ⟨Or.inl ⟨h2, ?_⟩, h2, h3⟩
    rcases h1 with ⟨_, q⟩ | ⟨q, _⟩
    · exact q
    · rw [h2] at q; cases q

/-- After `exit`, the terminal has the attributes it had at first. -/
theorem exit_restores {α : Type} (t0 : Option Nat) (st : Int) (c : Client) (h : TermOK t0 c) :
    ∃ c1, (exit st c : Res α) = .exited (st % 256).toNat c1 ∧ c1.tty = t0 := by
  unfold exit
  dsimp only
  rcases h with ⟨h1, h2⟩ | ⟨h1, h2, h3, h4⟩
  · by_cases ha : c.atexit_con_term = true
    · rw [if_pos ha]
      obtain ⟨q, q2, _⟩ := con_term_ok t0 c (Or.inl ⟨h1, h2⟩)
      refine ⟨_, rfl, ?_⟩
      rcases q with ⟨_, q⟩ | ⟨q, _⟩
      · exact q
      · rw [q2] at q; cases q
    · rw [if_neg ha]
      exact ⟨_, rfl, h2⟩
  · rw [if_pos h2]
    obtain ⟨q, q2, _⟩ := con_term_ok t0 c (Or.inr ⟨h1, h2, h3, h4⟩)
    refine ⟨_, rfl, ?_⟩
    rcases q with ⟨_, q⟩ | ⟨q, _⟩
    · exact q
    · rw [q2] at q; cases q

theorem term_ok_emit (t0 : Option Nat) (c : Client) (e : Event) (h : TermOK t0 c) :
    TermOK t0 (c.emit e) := h

theorem term_ok_buf (t0 : Option Nat) (c : Client) (s : TmpBuf) (h : TermOK t0 c) :
    TermOK t0 { c with buf := s } := h

theorem con_init_ok (t0 : Option Nat) (c : Client) (h : TermOK t0 c) (hq : ConOK c) :
    TermOK t0 (con_init c) ∧ (con_init c).atexit_con_term = true ∧
      (con_init c).con_qinit = true ∧ (con_init c).reader = c.reader := by
  unfold con_init
  by_cases hc : c.con_qinit = true
  · rw [if_pos hc]
    exact ⟨h, hq hc, hc, rfl⟩
  · rw [if_neg hc]
    refine ⟨?_, rfl, rfl, rfl⟩
    rcases h with ⟨h1, h2⟩ | ⟨h1, h2, h3, h4⟩
    · exact Or.inl ⟨h1, h2⟩
    · exact Or.inr ⟨h1, rfl, h3, h4⟩

/-- `init_stdin` on a set-up console: raw mode is on afterwards with the
first attributes saved, or the process has exited with them in place. -/
theorem init_stdin_ok (E : Env) (t0 : Option Nat) (c : Client) (h : TermOK t0 c)
    (ha : c.atexit_con_term = true) :
    (∃ c1, init_stdin E c = .ok () c1 ∧ TermOK t0 c1 ∧ c1.atexit_con_term = true ∧
      c1.con_qinit = c.con_qinit ∧ c1.reader = c.reader) ∨
    (∃ c1, init_stdin E c = .exited 1 c1 ∧ c1.tty = t0) := by
  unfold init_stdin
  rcases h with ⟨h1, h2⟩ | ⟨h1, h2, h3, h4⟩
  · rw [h1]
    simp only [Bool.false_eq_true, if_false]
    cases ht : c.tty with
    | none =>
      right
      obtain ⟨c1, e1, e2⟩ := exit_restores (α := Unit) t0 1
        (c.emit (Event.stderr (cstr "Input is not a terminal\n"))) (Or.inl ⟨h1, h2⟩)
      exact ⟨c1, e1, e2⟩
    | some tbuf =>
      left
      refine ⟨_, rfl, Or.inr ⟨rfl, ha, by simp, ?_⟩, ha, rfl, rfl⟩
      rw [← h2, ht]
      rfl
  · rw [h1]
    simp only [if_true]
    exact Or.inl ⟨c, rfl, Or.inr ⟨h1, h2, h3, h4⟩, ha, rfl, rfl⟩

theorem con_msg_shape (m : List Nat) (hm : ConMsg m) :
    (∃ t, m = [99, 111, 110, 45] ++ t) ∧ (∀ b ∈ m, b < 256) ∧ m.length < 2 ^ 31 := by
  rcases hm with rfl | rfl | rfl | ⟨B, rfl, hB, hlen⟩
  · exact ⟨⟨_, cstr_con_raw_on⟩, by decide, by decide⟩
  · exact ⟨⟨_, cstr_con_raw_off⟩, by decide, by decide⟩
  · exact ⟨⟨_, cstr_con_term⟩, by decide, by decide⟩
  · refine ⟨⟨[99, 108, 101, 97, 110, 117, 112, 32] ++ B, by rw [cstr_con_cleanup_sp]; rfl⟩, ?_, ?_⟩
    · intro b hb
      rcases List.mem_append.mp hb with h | h
      · have hall : ∀ x ∈ cstr "con-cleanup ", x < 256 := by decide
        exact hall b h
      · exact hB b h
    · rw [List.length_append, cstr_con_cleanup_sp]
      simp only [List.length_cons, List.length_nil]
      omega

/-- One of the console messages in the buffer: `process_msg` returns with
the terminal accounted for, or the process has exited with the first
attributes in place. -/
theorem process_msg_con_msg (E : Env) (t0 : Option Nat) (c : Client) (m : List Nat)
    (hm : ConMsg m) (hwf : c.buf.WF) (hp : c.buf.payload = m) (h : TermOK t0 c)
    (hq : ConOK c) :
    (∃ c1, process_msg E c = .ok () c1 ∧ TermOK t0 c1 ∧ ConOK c1 ∧ c1.reader = c.reader) ∨
    (∃ c1, process_msg E c = .exited 1 c1 ∧ c1.tty = t0) := by
  obtain ⟨⟨t, ht⟩, hb, _⟩ := con_msg_shape m hm
  have hpt : c.buf.payload = [99, 111, 110, 45] ++ t := by rw [hp, ht]
  obtain ⟨rd, hpm⟩ := process_msg_to_con E c hwf (by rw [hp]; exact hb) (by rw [hpt]; simp)
    (by rw [hpt]; simp) (by rw [hpt]; simp) (by rw [hpt]; simp)
  have h4 : c.buf.tmpbuf.take 4 = cstr "con-" :=
    tmpbuf_take_of_payload c.buf [99, 111, 110, 45] t hwf hpt
  rw [if_pos h4] at hpm
  rw [hpm]
  have hi := con_init_ok t0 { c with buf := { c.buf with tmpbuf_rd := rd } } h hq
  obtain ⟨i1, i2, i3, i4⟩ := hi
  rcases hm with rfl | rfl | rfl | ⟨B, rfl, hB, hlen⟩
  · obtain ⟨rd2, e⟩ := con_process_msg_raw_on E { c with buf := { c.buf with tmpbuf_rd := rd } }
      hwf hp
    rw [e]
    rcases init_stdin_ok E t0
      { con_init { c with buf := { c.buf with tmpbuf_rd := rd } } with
        buf := { c.buf with tmpbuf_rd := rd2 } } i1 i2 with ⟨c1, e1, e2, e3, e4, e5⟩ | ⟨c1, e1, e2⟩
    · exact Or.inl ⟨c1, e1, e2, fun _ => e3, e5.trans i4⟩
    · exact Or.inr ⟨c1, e1, e2⟩
  · obtain ⟨rd2, e⟩ := con_process_msg_raw_off E { c with buf := { c.buf with tmpbuf_rd := rd } }
      hwf hp
    rw [e]
    obtain ⟨q1, _, q3, q4⟩ := term_stdin_ok t0
      { con_init { c with buf := { c.buf with tmpbuf_rd := rd } } with
        buf := { c.buf with tmpbuf_rd := rd2 } } i1
    exact Or.inl ⟨_, rfl, q1, fun _ => q4.trans i2, q3.trans i4⟩
  · obtain ⟨rd2, e⟩ := con_process_msg_term E { c with buf := { c.buf with tmpbuf_rd := rd } }
      hwf hp
    rw [e]
    have q := con_term_ok t0
      { con_init { c with buf := { c.buf with tmpbuf_rd := rd } } with
        buf := { c.buf with tmpbuf_rd := rd2 } } i1
    refine Or.inl ⟨_, rfl, q.1, ?_, q.2.2.trans i4⟩
    intro _
    unfold con_term term_stdin write_data
    dsimp only
    split <;> split <;> exact i2
  · have e := con_process_msg_cleanup E { c with buf := { c.buf with tmpbuf_rd := rd } } B
      hwf hp hB (by omega)
    rw [e]
    exact Or.inl ⟨_, rfl, i1, fun _ => i2, i4⟩

/-- Any number of console messages, read and dispatched in turn: the loop
gets through them with the terminal accounted for, or the process has
exited on the way with the first attributes in place. -/
theorem inbound_con_msgs (E : Env) (t0 : Option Nat) (rest : List Nat) :
    ∀ (msgs : List (List Nat)) (c : Client), (∀ m ∈ msgs, ConMsg m) → c.InOK →
    NoFail c.reads → c.pending = (msgs.map frame).flatten ++ rest → TermOK t0 c → ConOK c →
    (∃ c1, inbound E msgs.length c = .ok () c1 ∧ TermOK t0 c1 ∧ ConOK c1 ∧ c1.InOK ∧
      NoFail c1.reads ∧ c1.pending = rest) ∨
    (∃ c1, inbound E msgs.length c = .exited 1 c1 ∧ c1.tty = t0) := by
  intro msgs
  induction msgs with
  | nil =>
    intro c _ hok hnf hp h hq
    exact Or.inl ⟨c, rfl, h, hq, hok, hnf, by simpa using hp⟩
  | cons m msgs ih =>
    intro c hm hok hnf hp h hq
    have hm1 := hm m (List.mem_cons_self _ _)
    obtain ⟨_, hb, hlen⟩ := con_msg_shape m hm1
    have hp' : c.pending = frame m ++ ((msgs.map frame).flatten ++ rest) := by
      rw [hp]
      simp
    obtain ⟨c1, hr, _, wf1, pay1, pend1, ok1, nf1, _, ro1⟩ :=
      read_msg_frame_full c m _ hok hnf hp' hb hlen
    have h1 : TermOK t0 c1 ∧ ConOK c1 := by
      obtain ⟨_, _, _, _, _, _, rfl⟩ := ro1
      exact ⟨h, hq⟩
    have step : inbound E (m :: msgs).length c =
        (process_msg E c1).bind fun _ c => inbound E msgs.length c := by
      rw [List.length_cons]
      conv_lhs => unfold inbound
      rw [hr]
      rfl
    rw [step]
    rcases process_msg_con_msg E t0 c1 m hm1 wf1 pay1 h1.1 h1.2 with
      ⟨c2, e1, e2, e3, e4⟩ | ⟨c2, e1, e2⟩
    · rw [e1]
      obtain ⟨q1, q2, q3⟩ := reader_pending c1 c2 e4
      exact ih c2 (fun x hx => hm x (List.mem_cons_of_mem _ hx)) (q2 ok1) (q3 nf1)
        (q1.trans pend1) e2 e3
    · rw [e1]
      exact Or.inr ⟨c2, rfl, e2⟩

theorem res_bind_assoc {α β γ : Type} (r : Res α) (f : α → Client → Res β)
    (g : β → Client → Res γ) :
    (r.bind f).bind g = r.bind fun a c => (f a c).bind g := by
  cases r <;> rfl

theorem inbound_succ (E : Env) (n : Nat) (c : Client) :
    inbound E (n + 1) c =
      (read_msg c).bind fun _ c => (process_msg E c).bind fun _ c => inbound E n c := rfl

theorem inbound_add (E : Env) (a b : Nat) :
    ∀ c, inbound E (a + b) c = (inbound E a c).bind fun _ c => inbound E b c := by
  induction a with
  | zero =>
    intro c
    rw [Nat.zero_add]
    rfl
  | succ a ih =>
    intro c
    rw [Nat.add_right_comm, inbound_succ, inbound_succ, res_bind_assoc]
    congr 1
    funext _ c1
    rw [res_bind_assoc]
    congr 1
    funext _ c2
    exact ih c2

/-- C14: terminal restore invariant.  For every sequence of inbound
`con-raw-on`, `con-raw-off`, `con-cleanup` and `con-term` messages, in any
order and any number, read and dispatched by the client: when the process
then ends through `exit()`, by an `exit` message that follows them or by a
fatal error (on the way or afterwards), the terminal has the attributes it
had before the first message; and while raw mode is on, the saved attributes
`tsave` are those first ones, so a repeated `con-raw-on` has not overwritten
them with raw ones. -/
theorem terminal_restored_at_exit (E : Env) (msgs : List (List Nat)) (v : Nat) (c : Client)
    (hm : ∀ m ∈ msgs, ConMsg m) (hv : v < 128) (hinit : c.stdin_init = false)
    (hq : c.con_qinit = true → c.atexit_con_term = true) (hok : c.InOK) (hnf : NoFail c.reads)
    (hp : c.pending = (msgs.map frame).flatten ++ frame (cstr "exit " ++ vlq v)) :
    (∃ st c2, inbound E (msgs.length + 1) c = .exited st c2 ∧ c2.tty = c.tty) ∧
    (∀ c1, inbound E msgs.length c = .ok () c1 →
      (c1.stdin_init = true → some c1.tsave = c.tty) ∧
      ∀ msg, ∃ c2, (error msg c1 : Res Unit) = .exited 1 c2 ∧ c2.tty = c.tty) := by
  have h0 : TermOK c.tty c := Or.inl ⟨hinit, rfl⟩
  have hmain := inbound_con_msgs E c.tty _ msgs c hm hok hnf hp h0 hq
  constructor
  · rw [inbound_add]
    rcases hmain with ⟨c1, e1, e2, e3, e4, e5, e6⟩ | ⟨c1, e1, e2⟩
    · rw [e1]
      have hb : ∀ b ∈ cstr "exit " ++ vlq v, b < 256 := exit_payload_bytes v
      have hlen : (cstr "exit " ++ vlq v).length < 2 ^ 31 := by
        have := vlq_length_le v
        rw [List.length_append, cstr_exit_sp]
        simp only [List.length_cons, List.length_nil]
        omega
      obtain ⟨c2, hr, _, wf2, pay2, _, _, _, _, ro2⟩ :=
        read_msg_frame_full c1 (cstr "exit " ++ vlq v) [] e4 e5 (by rw [e6, List.append_nil])
          hb hlen
      have h2 : TermOK c.tty c2 := by
        obtain ⟨_, _, _, _, _, _, rfl⟩ := ro2
        exact e2
      have hx := process_msg_exit E c2 v wf2 (by omega) (Or.inr hv) pay2
      have hx2 := exit_status Unit v (by omega)
        (release_proxy { c2 with buf := { c2.buf with tmpbuf_rd := c2.buf.tmpbuf_wr } })
      obtain ⟨c3, e7, e8⟩ := exit_restores (α := Unit) c.tty (v : Int)
        (release_proxy { c2 with buf := { c2.buf with tmpbuf_rd := c2.buf.tmpbuf_wr } }) h2
      have hfin : (Res.ok () c1 : Res Unit).bind (fun _ c => inbound E 1 c) =
          .exited ((v : Int) % 256).toNat c3 := by
        show inbound E (0 + 1) c1 = _
        rw [inbound_succ, hr]
        show ((process_msg E c2).bind fun _ c => inbound E 0 c) = _
        rw [hx, ← hx2, e7]
        rfl
      exact ⟨_, c3, hfin, e8⟩
    · rw [e1]
      exact ⟨1, c1, rfl, e2⟩
  · intro c1 hc1
    rcases hmain with ⟨c1', e1, e2, e3, e4, e5, e6⟩ | ⟨c1', e1, e2⟩
    · rw [e1] at hc1
      cases hc1
      constructor
      · intro hs
        rcases e2 with ⟨q, _⟩ | ⟨_, _, _, q⟩
        · rw [q] at hs; cases hs
        · exact q.symm
      · intro msg
        exact exit_restores c.tty 1 (c1.emit (Event.stderr (cstr msg))) e2
    · rw [e1] at hc1
      cases hc1

theorem terminal_restored_at_exit_witness :
    (∃ st c2, inbound (Env.linux 0) (con_session.length + 1)
        { Client.start 5 with in_pipe := (con_session.map frame).flatten ++ frame (cstr "exit " ++ vlq 0) } =
          .exited st c2 ∧
      c2.tty = some 5) ∧
    (∀ c1, inbound (Env.linux 0) con_session.length
        { Client.start 5 with in_pipe := (con_session.map frame).flatten ++ frame (cstr "exit " ++ vlq 0) } =
          .ok () c1 →
      (c1.stdin_init = true → some c1.tsave = some 5) ∧
      ∀ msg, ∃ c2, (error msg c1 : Res Unit) = .exited 1 c2 ∧ c2.tty = some 5) :=
  terminal_restored_at_exit (Env.linux 0) con_session 0 _
    (by
      intro m hm
      simp only [con_session, List.mem_cons, List.mem_singleton, List.not_mem_nil, or_false] at hm
      rcases hm with rfl | rfl | rfl | rfl | rfl
      · exact Or.inl rfl
      · exact Or.inr (Or.inr (Or.inr ⟨_, rfl, by decide, by decide⟩))
      · exact Or.inl rfl
      · exact Or.inr (Or.inl rfl)
      · exact Or.inl rfl)
    (by decide) rfl (fun h => by cases h) (start_in_ok_pipe 5 _) (start_no_fail 5 _) rfl

/-! ## The event loop: end of input and window-size signals -/

theorem console_resized_zero (c : Client) : console_resized 0 c = c := by
  unfold console_resized
  split
  · simp only [List.replicate_zero, List.append_nil]
  · rfl

/-- A message followed by a flush, as the trace shows it. -/
theorem write_msg_flush (E : Env) (fmt : List Nat) (ap : List Arg) (c : Client) (P : List Nat)
    (hs : c.buf.Sized) (he : encode fmt ap = some P) (hP : P.length < 2 ^ 28) :
    ∃ t, ((write_msg E fmt ap c).bind fun _ c => write_flush c) =
        .ok () { c with buf := t, trace := c.trace ++ [Event.fwrite (frame P), Event.fflush] } ∧
      1024 ≤ t.tmpbuf.length := by
  obtain ⟨t, h, hl⟩ := write_msg_sends E fmt ap c P hs he hP
  refine ⟨t, ?_, hl⟩
  rw [h]
  simp only [Res.bind, write_flush, Client.emit, List.append_assoc, List.cons_append,
    List.nil_append, frame]

theorem encode_eof : encode (cstr "EOF") [] = some (cstr "EOF") := by
  decide

theorem encode_stdin (data : List Nat) (hb : ∀ b ∈ data, b < 256) :
    encode (cstr "0%t") [Arg.ptr data, Arg.int data.length] = some (48 :: data) := by
  have h : cstr "0%t" = [48, 37, 116] := by decide
  have e := enc_bytes_leading data [] hb
  rw [List.append_nil] at e
  rw [h]
  simp [encode, e]

/-- The stdin part of a round in which `poll` reports POLLIN together with
POLLHUP: `EOF` is sent for POLLHUP, and then the `read` is done all the same
and its result is sent too. -/
theorem main_loop_stdin_hup (E : Env) (c : Client) (cnt : Int) (data : List Nat) (P : List Nat)
    (hs : c.buf.Sized) (he : c.stdin_eof = false)
    (hP : P.length < 2 ^ 28)
    (hcnt : (cnt = 0 ∧ P = cstr "EOF") ∨
      (0 < cnt ∧ encode (cstr "0%t") [Arg.ptr data, Arg.int cnt] = some P)) :
    ∃ c1, main_loop_stdin E (Poll.stdin_hup cnt data) c = .ok () c1 ∧
      c1.trace = c.trace ++ [Event.fwrite (frame (cstr "EOF")), Event.fflush,
        Event.fwrite (frame P), Event.fflush] ∧ c1.stdin_eof = true := by
  obtain ⟨t1, h1, hl1⟩ := write_msg_flush E (cstr "EOF") [] { c with stdin_eof := true }
    (cstr "EOF") hs encode_eof (by decide)
  unfold main_loop_stdin
  rw [he]
  simp only [Bool.false_eq_true, if_false, Poll.stdin_hup, Poll.idle, Bool.or_self, if_true]
  rw [h1]
  simp only [Res.bind]
  rcases hcnt with ⟨h0, hP0⟩ | ⟨hpos, henc⟩
  · rw [if_pos h0]
    obtain ⟨t2, h2, _⟩ := write_msg_flush E (cstr "EOF") []
      { c with buf := t1, stdin_eof := true, trace := c.trace ++ [Event.fwrite (frame (cstr "EOF")), Event.fflush] }
      (cstr "EOF") (Or.inr hl1) encode_eof (by decide)
    refine ⟨_, h2, ?_, rfl⟩
    rw [hP0]
    simp only [List.append_assoc, List.cons_append, List.nil_append]
  · rw [if_neg (by omega), if_neg (by omega)]
    obtain ⟨t2, h2, _⟩ := write_msg_flush E (cstr "0%t") [Arg.ptr data, Arg.int cnt]
      { c with buf := t1, stdin_eof := true, trace := c.trace ++ [Event.fwrite (frame (cstr "EOF")), Event.fflush] }
      P (Or.inr hl1) henc hP
    refine ⟨_, h2, ?_, rfl⟩
    simp only [List.append_assoc, List.cons_append, List.nil_append]

theorem main_loop_one (E : Env) (p : Poll) (c : Client) :
    main_loop E [p] c = main_loop_body E p c := by
  unfold main_loop main_loop
  cases main_loop_body E p c <;> rfl

/-- A round in which only standard input has events is its stdin part. -/
theorem main_loop_body_stdin_only (E : Env) (p : Poll) (c : Client) (c1 : Client)
    (hsw : p.sigwinch = 0) (hf : p.failed = false) (hsig : p.signal_pipe = Revents.none)
    (hin : p.in_fd = Revents.none) (h : main_loop_stdin E p c = .ok () c1) :
    main_loop_body E p c = .ok () c1 := by
  unfold main_loop_body
  dsimp only
  rw [hsw, console_resized_zero, hf, h]
  simp only [Bool.false_eq_true, if_false, Res.bind, main_loop_signal, hsig, hin, Revents.none,
    Bool.or_self]

/-- C16 at its failing input.  When `poll` reports POLLIN together with
POLLHUP on standard input, one round of the event loop sends `EOF` and then,
in the same round, the result of the `read`: the bytes read as a `0<bytes>`
message after `EOF`, or `EOF` a second time when the `read` returns 0. -/
theorem main_loop_sends_after_eof (E : Env) (c : Client) (data : List Nat)
    (hs : c.buf.Sized) (he : c.stdin_eof = false) (hd : data ≠ [])
    (hl : data.length ≤ 1024) (hb : ∀ b ∈ data, b < 256) :
    (∃ c1, main_loop E [Poll.stdin_hup data.length data] c = .ok () c1 ∧
      c1.trace = c.trace ++ [Event.fwrite (frame (cstr "EOF")), Event.fflush,
        Event.fwrite (frame (48 :: data)), Event.fflush]) ∧
    (∃ c1, main_loop E [Poll.stdin_hup 0 data] c = .ok () c1 ∧
      c1.trace = c.trace ++ [Event.fwrite (frame (cstr "EOF")), Event.fflush,
        Event.fwrite (frame (cstr "EOF")), Event.fflush]) := by
  have hpos : 0 < data.length := List.length_pos.mpr hd
  constructor
  · obtain ⟨c1, h, htr, _⟩ := main_loop_stdin_hup E c data.length data (48 :: data) hs he
      (by simp only [List.length_cons]; omega)
      (Or.inr ⟨by exact_mod_cast hpos, encode_stdin data hb⟩)
    refine ⟨c1, ?_, htr⟩
    rw [main_loop_one]
    exact main_loop_body_stdin_only E _ c _ rfl rfl rfl rfl h
  · obtain ⟨c1, h, htr, _⟩ := main_loop_stdin_hup E c 0 data (cstr "EOF") hs he (by decide)
      (Or.inl ⟨rfl, rfl⟩)
    refine ⟨c1, ?_, htr⟩
    rw [main_loop_one]
    exact main_loop_body_stdin_only E _ c _ rfl rfl rfl rfl h

theorem main_loop_sends_after_eof_witness :
    (∃ c1, main_loop (Env.linux 0) [Poll.stdin_hup (cstr "abc").length (cstr "abc")]
        (Client.start 5) = .ok () c1 ∧
      c1.trace = (Client.start 5).trace ++ [Event.fwrite (frame (cstr "EOF")), Event.fflush,
        Event.fwrite (frame (48 :: cstr "abc")), Event.fflush]) ∧
    (∃ c1, main_loop (Env.linux 0) [Poll.stdin_hup 0 (cstr "abc")] (Client.start 5) = .ok () c1 ∧
      c1.trace = (Client.start 5).trace ++ [Event.fwrite (frame (cstr "EOF")), Event.fflush,
        Event.fwrite (frame (cstr "EOF")), Event.fflush]) :=
  main_loop_sends_after_eof (Env.linux 0) (Client.start 5) (cstr "abc") (Or.inl rfl) rfl
    (by decide) (by decide) (by decide)

theorem encode_con_size (cols rows : Nat) :
    encode (cstr "con-size %i %i") [Arg.int cols, Arg.int rows] = some (con_size cols rows) := by
  have h1 : cstr "con-size %i %i" =
      [99, 111, 110, 45, 115, 105, 122, 101, 32, 37, 105, 32, 37, 105] := by decide
  have h2 : cstr "con-size " = [99, 111, 110, 45, 115, 105, 122, 101, 32] := by decide
  unfold con_size
  rw [h1, h2]
  simp [encode]

theorem con_size_length (cols rows : Nat) : (con_size cols rows).length < 2 ^ 28 := by
  have h2 : cstr "con-size " = [99, 111, 110, 45, 115, 105, 122, 101, 32] := by decide
  have a := vlq_length_le (to_uint cols) (to_uint_lt _)
  have b := vlq_length_le (to_uint rows) (to_uint_lt _)
  unfold con_size enc_int
  rw [h2]
  simp only [List.length_append, List.length_cons, List.length_nil]
  omega

theorem con_send_win_size_sends (E : Env) (c : Client) (cols rows : Nat)
    (hw : c.winsize = some (cols, rows)) (hs : c.buf.Sized) :
    ∃ t, con_send_win_size E c =
        .ok () { c with buf := t, trace := c.trace ++ [Event.fwrite (frame (con_size cols rows)), Event.fflush] } ∧
      1024 ≤ t.tmpbuf.length := by
  have e : con_send_win_size E c =
      ((write_msg E (cstr "con-size %i %i") [Arg.int cols, Arg.int rows] c).bind
        fun _ c => write_flush c) := by
    unfold con_send_win_size
    rw [hw]
  rw [e]
  exact write_msg_flush E _ _ c _ hs (encode_con_size cols rows) (con_size_length cols rows)

theorem signal_flags_all (k : Nat) : ∀ (sw : Bool) (c : Client),
    signal_flags (List.replicate k 87) sw c = .ok (sw || decide (0 < k)) c := by
  induction k with
  | zero =>
    intro sw c
    simp [signal_flags]
  | succ k ih =>
    intro sw c
    rw [List.replicate_succ]
    unfold signal_flags
    rw [if_pos rfl, ih]
    simp

theorem main_loop_stdin_none (E : Env) (p : Poll) (c : Client) (h : p.stdin = Revents.none) :
    main_loop_stdin E p c = .ok () c := by
  unfold main_loop_stdin
  rw [h]
  split
  · rfl
  · simp [Revents.none, Res.bind]

theorem main_loop_body_idle (E : Env) (c : Client) : main_loop_body E Poll.idle c = .ok () c := by
  unfold main_loop_body
  dsimp only
  rw [show Poll.idle.sigwinch = 0 from rfl, console_resized_zero,
    main_loop_stdin_none E _ c rfl]
  simp [Poll.idle, Revents.none, Res.bind, main_loop_signal]

theorem main_loop_idle (E : Env) (k : Nat) : ∀ c, main_loop E (List.replicate k Poll.idle) c = .ok () c := by
  induction k with
  | zero => intro c; rfl
  | succ k ih =>
    intro c
    rw [List.replicate_succ]
    unfold main_loop
    rw [main_loop_body_idle]
    exact ih c

theorem res_bind_ok {α : Type} (r : Res α) : (r.bind fun a c => .ok a c) = r := by
  cases r <;> rfl

/-- A round without events on standard input and on the inbound FIFO is its
self-pipe part. -/
theorem main_loop_body_signal_only (E : Env) (p : Poll) (c : Client) (hf : p.failed = false)
    (hstd : p.stdin = Revents.none) (hin : p.in_fd = Revents.none) :
    main_loop_body E p c = main_loop_signal E p (console_resized p.sigwinch c) := by
  unfold main_loop_body
  dsimp only
  rw [hf, main_loop_stdin_none E _ _ hstd, hin]
  simp only [Bool.false_eq_true, if_false, Res.bind, Revents.none, Bool.or_self]
  exact res_bind_ok _

/-- A round in which `poll` reports only the self-pipe readable, entered
with `n ≥ 1` flags `W` in the pipe (those queued before and those of the
signals handled during the wait): up to 16 of them are read and one
`con-size` message is sent. -/
theorem main_loop_body_signalled (E : Env) (c : Client) (m n cols rows : Nat)
    (hq : c.con_qinit = true) (hp : c.signal_pipe = List.replicate m 87) (hn : 1 ≤ m + n)
    (hw : c.winsize = some (cols, rows)) (hs : c.buf.Sized) :
    ∃ c1, main_loop_body E { Poll.signalled with sigwinch := n } c = .ok () c1 ∧
      c1.trace = c.trace ++ [Event.fwrite (frame (con_size cols rows)), Event.fflush] ∧
      c1.signal_pipe = List.replicate (m + n - 16) 87 ∧ c1.con_qinit = true ∧
      c1.winsize = some (cols, rows) ∧ c1.buf.Sized := by
  have hcr : console_resized n c = { c with signal_pipe := List.replicate (m + n) 87 } := by
    unfold console_resized
    rw [if_pos hq, hp, List.replicate_add]
  rw [main_loop_body_signal_only E _ c rfl rfl rfl]
  show ∃ c1, main_loop_signal E _ (console_resized n c) = _ ∧ _
  rw [hcr]
  have hsig : main_loop_signal E { Poll.signalled with sigwinch := n }
      { c with signal_pipe := List.replicate (m + n) 87 } =
      con_send_win_size E { c with signal_pipe := List.replicate (m + n - 16) 87 } := by
    unfold main_loop_signal
    have hne : List.replicate (m + n) 87 ≠ [] := by
      intro h
      have := congrArg List.length h
      simp at this
      omega
    simp only [Poll.signalled, Poll.idle, Revents.readable, Bool.or_self, Bool.false_eq_true,
      if_false, if_true, hne, List.take_replicate, List.drop_replicate, signal_flags_all,
      Res.bind, Bool.false_or]
    rw [if_pos (by simp; omega)]
  rw [hsig]
  obtain ⟨t, h, hl⟩ := con_send_win_size_sends E
    { c with signal_pipe := List.replicate (m + n - 16) 87 } cols rows hw hs
  rw [h]
  exact ⟨_, rfl, rfl, rfl, hq, hw, Or.inr hl⟩

theorem main_loop_cons (E : Env) (p : Poll) (ps : List Poll) (c c1 : Client)
    (h : main_loop_body E p c = .ok () c1) :
    main_loop E (p :: ps) c = main_loop E ps c1 := by
  conv_lhs => unfold main_loop
  rw [h]
  rfl

/-- C15, as it holds.  For every `n` from 1 to 16: when `n` SIGWINCH signals
are handled during one wait in `poll` (the handler is installed, and the
self-pipe was empty before, so `n` flags `W` are queued when `poll` returns
and reports the pipe readable), the client sends exactly one `con-size`
message for them in that round, the pipe is empty afterwards, and nothing
more is sent over any number of following rounds without new events. -/
theorem sigwinch_collapse (E : Env) (c : Client) (n k cols rows : Nat) (hn : 1 ≤ n)
    (h16 : n ≤ 16) (hq : c.con_qinit = true) (hp : c.signal_pipe = [])
    (hw : c.winsize = some (cols, rows)) (hs : c.buf.Sized) :
    ∃ c1, main_loop E ({ Poll.signalled with sigwinch := n } :: List.replicate k Poll.idle) c =
        .ok () c1 ∧
      c1.trace = c.trace ++ [Event.fwrite (frame (con_size cols rows)), Event.fflush] ∧
      c1.signal_pipe = [] := by
  obtain ⟨c1, h1, h2, h3, _⟩ := main_loop_body_signalled E c 0 n cols rows hq
    (by rw [hp]; rfl) (by omega) hw hs
  refine ⟨c1, ?_, h2, ?_⟩
  · rw [main_loop_cons E _ _ c c1 h1, main_loop_idle]
  · rw [h3]
    have : 0 + n - 16 = 0 := by omega
    rw [this]
    rfl

theorem sigwinch_collapse_witness :
    ∃ c1, main_loop (Env.linux 0)
        ({ Poll.signalled with sigwinch := 16 } :: List.replicate 3 Poll.idle)
        (con_init (Client.start 5)) = .ok () c1 ∧
      c1.trace = (con_init (Client.start 5)).trace ++
        [Event.fwrite (frame (con_size 80 24)), Event.fflush] ∧
      c1.signal_pipe = [] :=
  sigwinch_collapse (Env.linux 0) (con_init (Client.start 5)) 16 3 80 24 (by decide) (by decide)
    rfl rfl rfl (Or.inl rfl)

/-- With 17 SIGWINCH signals handled during one wait in `poll`, the round
that follows reads 16 flags and sends a `con-size` message, one flag stays in
the pipe, and the next round sends a second `con-size` message. -/
theorem sigwinch_17_sends_twice :
    ∃ c1, main_loop (Env.linux 0) [{ Poll.signalled with sigwinch := 17 }, Poll.signalled]
        (con_init (Client.start 5)) = .ok () c1 ∧
      c1.trace = (con_init (Client.start 5)).trace ++
        [Event.fwrite (frame (con_size 80 24)), Event.fflush,
         Event.fwrite (frame (con_size 80 24)), Event.fflush] ∧
      c1.signal_pipe = [] := by
  obtain ⟨c1, h1, h2, h3, h4, h5, h6⟩ := main_loop_body_signalled (Env.linux 0)
    (con_init (Client.start 5)) 0 17 80 24 rfl rfl (by decide) rfl (Or.inl rfl)
  obtain ⟨c2, g1, g2, g3, _⟩ := main_loop_body_signalled (Env.linux 0) c1 1 0 80 24 h4 h3
    (by decide) h5 h6
  refine ⟨c2, ?_, ?_, g3⟩
  · rw [main_loop_cons _ _ _ _ c1 h1, main_loop_one]
    exact g1
  · rw [g2, h2, List.append_assoc]
    rfl

/-! ## The config file -/

theorem starts_with_head (lit : String) (l : List Nat) (h : starts_with lit l = true) :
    l.head? = (cstr lit).head? ∨ cstr lit = [] := by
  unfold starts_with at h
  have h' := of_decide_eq_true h
  cases hl : cstr lit with
  | nil => exact Or.inr rfl
  | cons x t =>
    left
    rw [hl] at h'
    cases l with
    | nil => simp at h'
    | cons y t2 =>
      simp only [List.length_cons, List.take_succ_cons, List.cons.injEq] at h'
      rw [h'.1]
      rfl

theorem starts_with_false (lit : String) (l : List Nat) (h : l.head? ≠ (cstr lit).head?)
    (hne : cstr lit ≠ []) : starts_with lit l = false := by
  cases hs : starts_with lit l with
  | false => rfl
  | true =>
    rcases starts_with_head lit l hs with h1 | h1
    · exact absurd h1 h
    · exact absurd h1 hne

theorem head_alias : (cstr "alias ").head? = some 97 := by decide
theorem head_classpath : (cstr "classpath ").head? = some 99 := by decide
theorem head_startup : (cstr "startup ").head? = some 115 := by decide
theorem head_idle_timeout : (cstr "idle_timeout ").head? = some 105 := by decide

/-- Of the four keywords, a line starts with the one that has its first
character, if any. -/
theorem starts_with_other (l : List Nat) (x : Nat) (hx : l.head? = some x) :
    (x ≠ 97 → starts_with "alias " l = false) ∧
    (x ≠ 99 → starts_with "classpath " l = false) ∧
    (x ≠ 115 → starts_with "startup " l = false) ∧
    (x ≠ 105 → starts_with "idle_timeout " l = false) := by
  refine ⟨fun h => ?_, fun h => ?_, fun h => ?_, fun h => ?_⟩
  · exact starts_with_false _ l (by rw [hx, head_alias]; simpa using h) (by decide)
  · exact starts_with_false _ l (by rw [hx, head_classpath]; simpa using h) (by decide)
  · exact starts_with_false _ l (by rw [hx, head_startup]; simpa using h) (by decide)
  · exact starts_with_false _ l (by rw [hx, head_idle_timeout]; simpa using h) (by decide)

theorem starts_with_nil (lit : String) (hne : cstr lit ≠ []) : starts_with lit [] = false :=
  starts_with_false lit [] (by cases h : cstr lit with
    | nil => exact absurd h hne
    | cons x t => simp) hne

/-- A return value of 1 from `sscanf(s, "%d %c", ..)` means a number was
stored. -/
theorem sscanf_one (E : Env) (s : List Nat) (h : (sscanf_d_c E s).1 = 1) :
    ∃ v, sscanf_d_c E s = (1, some v) := by
  unfold sscanf_d_c at h ⊢
  dsimp only at h ⊢
  by_cases h1 : List.dropWhile isspace s = []
  · rw [if_pos h1] at h
    cases h
  · rw [if_neg h1] at h ⊢
    generalize (if (List.dropWhile isspace s).head? = some 45 ∨
      (List.dropWhile isspace s).head? = some 43 then (List.dropWhile isspace s).tail
      else List.dropWhile isspace s) = t at h ⊢
    by_cases h2 : List.takeWhile isdigit t = []
    · rw [if_pos h2] at h
      cases h
    · rw [if_neg h2] at h ⊢
      by_cases h3 : List.dropWhile isspace (List.dropWhile isdigit t) = []
      · rw [if_pos h3]
        exact ⟨_, rfl⟩
      · rw [if_neg h3] at h
        cases h

/-- What one round of the line loop of `load_config` has done when it goes
on to the next line. -/
theorem load_config_line_ok (E : Env) (line : List Nat) (its its1 : Bool) (c c1 : Client)
    (h : load_config_line E line its c = .ok its1 c1) :
    c1.aliases = (if starts_with "alias " line then [line.drop 6] else []) ++ c.aliases ∧
    c1.classpaths =
      (if starts_with "classpath " line then [line.drop 10] else []) ++ c.classpaths ∧
    (if starts_with "startup " line then
      c.startup_cmd = none ∧ c1.startup_cmd = some (line.drop 8)
     else c1.startup_cmd = c.startup_cmd) ∧
    (if starts_with "idle_timeout " line then
      its = false ∧ its1 = true ∧ sscanf_d_c E (line.drop 13) = (1, some c1.idle_timeout)
     else its1 = its ∧ c1.idle_timeout = c.idle_timeout) ∧
    c1.buf = c.buf ∧ c1.trace = c.trace := by
  unfold load_config_line at h
  split at h
  · rename_i h35
    obtain ⟨a1, a2, a3, a4⟩ := starts_with_other line 35 h35
    cases h
    simp [a1, a2, a3, a4]
  · split at h
    · rename_i hnil
      cases h
      subst hnil
      simp [starts_with_nil "alias " (by decide), starts_with_nil "classpath " (by decide),
        starts_with_nil "startup " (by decide), starts_with_nil "idle_timeout " (by decide)]
    · split at h
      · rename_i _ _ hal
        rcases starts_with_head _ _ hal with hh | hh
        · rw [head_alias] at hh
          obtain ⟨_, a2, a3, a4⟩ := starts_with_other line 97 hh
          cases h
          simp [hal, a2, a3, a4]
        · exact absurd hh (by decide)
      · rename_i _ _ hal
        split at h
        · rename_i hcp
          rcases starts_with_head _ _ hcp with hh | hh
          · rw [head_classpath] at hh
            obtain ⟨_, _, a3, a4⟩ := starts_with_other line 99 hh
            cases h
            simp [hal, hcp, a3, a4]
          · exact absurd hh (by decide)
        · rename_i hcp
          split at h
          · rename_i hst
            rcases starts_with_head _ _ hst with hh | hh
            · rw [head_startup] at hh
              obtain ⟨_, _, _, a4⟩ := starts_with_other line 115 hh
              split at h
              · exact absurd h (error_ne_ok _ _ _ _)
              · rename_i hsc
                cases h
                simp only [ne_eq, Decidable.not_not] at hsc
                simp [hal, hcp, hst, a4, hsc]
            · exact absurd hh (by decide)
          · rename_i hst
            split at h
            · rename_i hid
              split at h
              · exact absurd h (error_ne_ok _ _ _ _)
              · rename_i hits
                dsimp only at h
                split at h
                · exact absurd h (exit_ne_ok _ _ _ _)
                · rename_i hr
                  cases h
                  simp only [ne_eq, Decidable.not_not] at hr
                  simp only [Bool.not_eq_true] at hits
                  obtain ⟨v, hv⟩ := sscanf_one E _ hr
                  simp only [hal, hcp, hst, hid, hits, hv, Option.getD_some, if_true,
                    Bool.false_eq_true, if_false, List.nil_append, true_and, and_true]
            · exact absurd h (exit_ne_ok _ _ _ _)

theorem exit_one {α : Type} (c : Client) :
    ∃ c1, (exit 1 c : Res α) = .exited 1 c1 := ⟨_, rfl⟩

theorem ok_or_fatal_ite {α : Type} (p : Prop) [Decidable p] (a b : Res α)
    (ha : a.ok_or_fatal) (hb : b.ok_or_fatal) : (if p then a else b).ok_or_fatal := by
  split
  · exact ha
  · exact hb

theorem ok_or_fatal_ok {α : Type} (a : α) (c : Client) : (Res.ok a c).ok_or_fatal :=
  Or.inl ⟨a, c, rfl⟩

theorem ok_or_fatal_exit {α : Type} (c : Client) : (exit 1 c : Res α).ok_or_fatal :=
  Or.inr ⟨_, rfl⟩

theorem load_config_line_total (E : Env) (line : List Nat) (its : Bool) (c : Client) :
    (∃ its1 c1, load_config_line E line its c = .ok its1 c1) ∨
    (∃ c1, load_config_line E line its c = .exited 1 c1) := by
  show (load_config_line E line its c).ok_or_fatal
  unfold load_config_line
  refine ok_or_fatal_ite _ _ _ (ok_or_fatal_ok _ _) ?_
  refine ok_or_fatal_ite _ _ _ (ok_or_fatal_ok _ _) ?_
  refine ok_or_fatal_ite _ _ _ (ok_or_fatal_ok _ _) ?_
  refine ok_or_fatal_ite _ _ _ (ok_or_fatal_ok _ _) ?_
  refine ok_or_fatal_ite _ _ _ ?_ ?_
  · exact ok_or_fatal_ite _ _ _ (ok_or_fatal_exit _) (ok_or_fatal_ok _ _)
  · refine ok_or_fatal_ite _ _ _ ?_ (ok_or_fatal_exit _)
    refine ok_or_fatal_ite _ _ _ (ok_or_fatal_exit _) ?_
    exact ok_or_fatal_ite _ _ _ (ok_or_fatal_exit _) (ok_or_fatal_ok _ _)

theorem load_config_lines_total (E : Env) : ∀ (L : List (List Nat)) (its : Bool) (c : Client),
    (∃ c1, load_config_lines E L its c = .ok () c1) ∨
    (∃ c1, load_config_lines E L its c = .exited 1 c1) := by
  intro L
  induction L with
  | nil => intro its c; exact Or.inl ⟨c, rfl⟩
  | cons line L ih =>
    intro its c
    unfold load_config_lines
    rcases load_config_line_total E line its c with ⟨its1, c1, h⟩ | ⟨c1, h⟩
    · rw [h]
      exact ih its1 c1
    · rw [h]
      exact Or.inr ⟨c1, rfl⟩

/-- `load_config` returns or ends the process with status 1. -/
theorem load_config_total (E : Env) (c : Client) :
    (∃ c1, load_config E c = .ok () c1) ∨ (∃ c1, load_config E c = .exited 1 c1) := by
  unfold load_config
  split
  · exact Or.inr (exit_one _)
  · dsimp only
    split
    · exact Or.inr (exit_one _)
    · rename_i file _
      rcases load_config_lines_total E (config_lines (file.length + 1) file) false
        { c with buf := dot_dir_fnam E (cstr "config") c.buf } with ⟨c1, h⟩ | ⟨c1, h⟩
      · rw [h]
        simp only [Res.bind]
        split
        · exact Or.inr (exit_one _)
        · exact Or.inl ⟨c1, rfl⟩
      · rw [h]
        exact Or.inr ⟨c1, rfl⟩

/-- What the line loop of `load_config` has done when it returns: the
fields it sets, in terms of the lines it went through. -/
theorem load_config_lines_ok (E : Env) : ∀ (L : List (List Nat)) (its : Bool) (c c1 : Client),
    load_config_lines E L its c = .ok () c1 →
    c1.aliases = ((L.filter (starts_with "alias ")).map (fun l => l.drop 6)).reverse ++ c.aliases ∧
    c1.classpaths =
      ((L.filter (starts_with "classpath ")).map (fun l => l.drop 10)).reverse ++ c.classpaths ∧
    ((L.filter (starts_with "startup ") = [] ∧ c1.startup_cmd = c.startup_cmd) ∨
      (c.startup_cmd = none ∧ ∃ l, L.filter (starts_with "startup ") = [l] ∧
        c1.startup_cmd = some (l.drop 8))) ∧
    ((L.filter (starts_with "idle_timeout ") = [] ∧ c1.idle_timeout = c.idle_timeout) ∨
      (its = false ∧ ∃ l, L.filter (starts_with "idle_timeout ") = [l] ∧
        sscanf_d_c E (l.drop 13) = (1, some c1.idle_timeout))) ∧
    c1.buf = c.buf ∧ c1.trace = c.trace := by
  intro L
  induction L with
  | nil =>
    intro its c c1 h
    cases h
    simp
  | cons line L ih =>
    intro its c c1 h
    unfold load_config_lines at h
    obtain ⟨its1, c0, h0, h1⟩ := bind_ok _ _ _ _ h
    obtain ⟨a1, a2, a3, a4, a5, a6⟩ := load_config_line_ok E line its its1 c c0 h0
    obtain ⟨b1, b2, b3, b4, b5, b6⟩ := ih its1 c0 c1 h1
    refine ⟨?_, ?_, ?_, ?_, b5.trans a5, b6.trans a6⟩
    · rw [b1, a1]
      by_cases hk : starts_with "alias " line = true
      · simp [List.filter_cons, hk]
      · simp [List.filter_cons, hk]
    · rw [b2, a2]
      by_cases hk : starts_with "classpath " line = true
      · simp [List.filter_cons, hk]
      · simp [List.filter_cons, hk]
    · by_cases hk : starts_with "startup " line = true
      · rw [if_pos hk] at a3
        right
        rcases b3 with ⟨q1, q2⟩ | ⟨q1, _⟩
        · exact ⟨a3.1, line, by simp [List.filter_cons, hk, q1], by rw [q2, a3.2]⟩
        · rw [a3.2] at q1
          cases q1
      · rw [if_neg hk] at a3
        rcases b3 with ⟨q1, q2⟩ | ⟨q1, l, q2, q3⟩
        · exact Or.inl ⟨by simp [List.filter_cons, hk, q1], by rw [q2, a3]⟩
        · exact Or.inr ⟨by rw [← a3]; exact q1, l, by simp [List.filter_cons, hk, q2], q3⟩
    · by_cases hk : starts_with "idle_timeout " line = true
      · rw [if_pos hk] at a4
        right
        rcases b4 with ⟨q1, q2⟩ | ⟨q1, _⟩
        · exact ⟨a4.1, line, by simp [List.filter_cons, hk, q1], by rw [q2]; exact a4.2.2⟩
        · rw [a4.2.1] at q1
          cases q1
      · rw [if_neg hk] at a4
        rcases b4 with ⟨q1, q2⟩ | ⟨q1, l, q2, q3⟩
        · exact Or.inl ⟨by simp [List.filter_cons, hk, q1], by rw [q2, a4.2]⟩
        · exact Or.inr ⟨by rw [← a4.1]; exact q1, l, by simp [List.filter_cons, hk, q2], q3⟩

/-- What `load_config` has done when it returns. -/
theorem load_config_ok (E : Env) (c c1 : Client) (file : List Nat) (hc : c.config = some file)
    (h : load_config E c = .ok () c1) :
    c1.aliases = (((config_file_lines file).filter (starts_with "alias ")).map
      (fun l => l.drop 6)).reverse ++ c.aliases ∧
    c1.classpaths = (((config_file_lines file).filter (starts_with "classpath ")).map
      (fun l => l.drop 10)).reverse ++ c.classpaths ∧
    (∃ l, (config_file_lines file).filter (starts_with "startup ") = [l] ∧
      c1.startup_cmd = some (l.drop 8)) ∧
    (((config_file_lines file).filter (starts_with "idle_timeout ") = [] ∧
        c1.idle_timeout = c.idle_timeout) ∨
      (∃ l, (config_file_lines file).filter (starts_with "idle_timeout ") = [l] ∧
        sscanf_d_c E (l.drop 13) = (1, some c1.idle_timeout))) ∧
    c1.buf = dot_dir_fnam E (cstr "config") c.buf ∧ c1.trace = c.trace := by
  unfold load_config at h
  split at h
  · exact absurd h (error_ne_ok _ _ _ _)
  · rename_i h0
    simp only [ne_eq, Decidable.not_not] at h0
    dsimp only at h
    rw [hc] at h
    dsimp only at h
    obtain ⟨_, c0, e0, e1⟩ := bind_ok _ _ _ _ h
    split at e1
    · exact absurd e1 (error_ne_ok _ _ _ _)
    · rename_i hs
      cases e1
      obtain ⟨a1, a2, a3, a4, a5, a6⟩ := load_config_lines_ok E _ false _ c1 e0
      refine ⟨a1, a2, ?_, ?_, a5, a6⟩
      · rcases a3 with ⟨_, q⟩ | ⟨_, q⟩
        · exact absurd (q.trans h0) hs
        · exact q
      · rcases a4 with q | ⟨_, q⟩
        · exact Or.inl q
        · exact Or.inr q

/-- C11: `load_config` and the `startup` line.  The lines of the config file
are taken as `load_config` reads them: up to 1023 bytes at a time, the line
feed and trailing white space stripped, a line ending with a backslash
joined with the next.  If `load_config` returns, exactly one of these lines
starts with `startup `, `startup_cmd` is the text after `startup ` on that
line, and at most one line starts with `idle_timeout `.  If no line or more
than one line starts with `startup `, or more than one line starts with
`idle_timeout `, the call ends the process with status 1. -/
theorem load_config_startup_once (E : Env) (c : Client) (file : List Nat)
    (hc : c.config = some file) :
    (∀ c1, load_config E c = .ok () c1 →
      (∃ l, (config_file_lines file).filter (starts_with "startup ") = [l] ∧
        c1.startup_cmd = some (l.drop 8)) ∧
      ((config_file_lines file).filter (starts_with "idle_timeout ")).length ≤ 1) ∧
    (((config_file_lines file).filter (starts_with "startup ")).length ≠ 1 ∨
      2 ≤ ((config_file_lines file).filter (starts_with "idle_timeout ")).length →
      ∃ c1, load_config E c = .exited 1 c1) := by
  have key : ∀ c1, load_config E c = .ok () c1 →
      (∃ l, (config_file_lines file).filter (starts_with "startup ") = [l] ∧
        c1.startup_cmd = some (l.drop 8)) ∧
      ((config_file_lines file).filter (starts_with "idle_timeout ")).length ≤ 1 := by
    intro c1 h
    obtain ⟨_, _, a3, a4, _, _⟩ := load_config_ok E c c1 file hc h
    refine ⟨a3, ?_⟩
    rcases a4 with ⟨q, _⟩ | ⟨l, q, _⟩
    · rw [q]
      exact Nat.zero_le _
    · rw [q]
      exact Nat.le_refl _
  refine ⟨key, ?_⟩
  intro hbad
  rcases load_config_total E c with ⟨c1, h⟩ | h
  · obtain ⟨⟨l, q, _⟩, q2⟩ := key c1 h
    rw [q] at hbad
    rcases hbad with hb | hb
    · exact absurd rfl hb
    · omega
  · exact h

theorem sample_config_lines :
    config_file_lines sample_config =
      [cstr "# sample continued", cstr "alias foo net.example.Foo", cstr "classpath /tmp/x.jar",
       cstr "startup java -jar sj.jar", cstr "idle_timeout 20"] := by
  decide

set_option maxRecDepth 100000 in
/-- `load_config` accepts the sample file. -/
theorem load_config_sample :
    load_config (Env.linux 0) { Client.start 5 with config := some sample_config } =
      .ok () { Client.start 5 with config := some sample_config, buf := dot_dir_fnam (Env.linux 0) (cstr "config") TmpBuf.initial, aliases := [cstr "foo net.example.Foo"], classpaths := [cstr "/tmp/x.jar"], startup_cmd := some (cstr "java -jar sj.jar"), idle_timeout := 20 } := by
  rfl

theorem load_config_startup_once_witness :
    (∀ c1, load_config (Env.linux 0) { Client.start 5 with config := some sample_config } = .ok () c1 →
      (∃ l, (config_file_lines sample_config).filter (starts_with "startup ") = [l] ∧
        c1.startup_cmd = some (l.drop 8)) ∧
      ((config_file_lines sample_config).filter (starts_with "idle_timeout ")).length ≤ 1) ∧
    (((config_file_lines sample_config).filter (starts_with "startup ")).length ≠ 1 ∨
      2 ≤ ((config_file_lines sample_config).filter (starts_with "idle_timeout ")).length →
      ∃ c1, load_config (Env.linux 0) { Client.start 5 with config := some sample_config } =
        .exited 1 c1) :=
  load_config_startup_once (Env.linux 0) { Client.start 5 with config := some sample_config }
    sample_config rfl

set_option maxRecDepth 100000 in
/-- `load_config` accepts the line `idle_timeout -5` and sets `idle_timeout`
to -5. -/
theorem load_config_negative_timeout :
    ∃ c1, load_config (Env.linux 0) { Client.start 5 with config := some negative_config } =
        .ok () c1 ∧ c1.idle_timeout = -5 :=
  ⟨{ Client.start 5 with config := some negative_config, buf := dot_dir_fnam (Env.linux 0) (cstr "config") TmpBuf.initial, startup_cmd := some (cstr "java"), idle_timeout := -5 }, rfl, rfl⟩

/-- What `%d` reads from a number written as an optional `-` and decimal
digits, when it fits an `int`. -/
theorem sscanf_number (E : Env) (neg : Bool) (ds : List Nat) (hds : ds ≠ [])
    (hd : ∀ d ∈ ds, isdigit d = true) (hr : digits_value ds < 2 ^ 31) :
    sscanf_d_c E ((if neg then [45] else []) ++ ds) =
      (1, some (if neg then -(digits_value ds : Int) else digits_value ds)) := by
  obtain ⟨d, t, rfl⟩ := List.exists_cons_of_ne_nil hds
  have hd0 := hd d (List.mem_cons_self _ _)
  have hdn : isspace d = false := by
    unfold isdigit at hd0
    unfold isspace
    simp only [Bool.and_eq_true, decide_eq_true_eq] at hd0
    simp only [Bool.or_eq_false_iff, decide_eq_false_iff_not, Bool.and_eq_false_iff]
    omega
  have htw : List.takeWhile isdigit (d :: t) = d :: t := by
    rw [List.takeWhile_eq_self_iff]
    exact hd
  have hdw : List.dropWhile isdigit (d :: t) = [] := by
    rw [List.dropWhile_eq_nil_iff]
    exact hd
  have h45 : d ≠ 45 ∧ d ≠ 43 := by
    unfold isdigit at hd0
    simp only [Bool.and_eq_true, decide_eq_true_eq] at hd0
    omega
  cases neg with
  | true =>
    show sscanf_d_c E (45 :: d :: t) = (1, some (-(digits_value (d :: t) : Int)))
    unfold sscanf_d_c
    have e1 : List.dropWhile isspace (45 :: d :: t) = 45 :: d :: t := by
      simp [List.dropWhile, isspace]
    simp only [e1, List.head?_cons, List.tail_cons, htw, hdw, List.dropWhile_nil, if_true,
      true_or, decide_True, List.cons_ne_nil, if_false]
    rw [if_pos (by constructor <;> omega)]
  | false =>
    show sscanf_d_c E (d :: t) = (1, some (digits_value (d :: t) : Int))
    unfold sscanf_d_c
    have e1 : List.dropWhile isspace (d :: t) = d :: t := by
      simp [List.dropWhile, hdn]
    simp only [e1, List.head?_cons, htw, hdw, List.dropWhile_nil, if_true,
      List.cons_ne_nil, if_false, Option.some.injEq, h45.1, h45.2, or_self, decide_False,
      Bool.false_eq_true]
    rw [if_pos (by constructor <;> omega)]

/-- C12, as it holds.  For every config file that `load_config` accepts, read
by a process whose `idle_timeout` still has its initial value 15: the
resulting `idle_timeout` is 15 when no line starts with `idle_timeout `, and
otherwise there is one such line and `idle_timeout` is the number that
`sscanf(line + 13, "%d %c", ..)` stores when it returns 1: the integer
written there with its sign, which may be negative. -/
theorem load_config_idle_timeout (E : Env) (c c1 : Client) (file : List Nat)
    (hc : c.config = some file) (h15 : c.idle_timeout = 15) (h : load_config E c = .ok () c1) :
    ((config_file_lines file).filter (starts_with "idle_timeout ") = [] ∧ c1.idle_timeout = 15) ∨
    (∃ l, (config_file_lines file).filter (starts_with "idle_timeout ") = [l] ∧
      sscanf_d_c E (l.drop 13) = (1, some c1.idle_timeout)) := by
  obtain ⟨_, _, _, a4, _, _⟩ := load_config_ok E c c1 file hc h
  rcases a4 with ⟨q1, q2⟩ | q
  · exact Or.inl ⟨q1, q2.trans h15⟩
  · exact Or.inr q

set_option maxRecDepth 100000 in
theorem load_config_idle_timeout_witness :
    ((config_file_lines negative_config).filter (starts_with "idle_timeout ") = [] ∧
      ({ Client.start 5 with config := some negative_config, buf := dot_dir_fnam (Env.linux 0) (cstr "config") TmpBuf.initial, startup_cmd := some (cstr "java"), idle_timeout := -5 } : Client).idle_timeout = 15) ∨
    (∃ l, (config_file_lines negative_config).filter (starts_with "idle_timeout ") = [l] ∧
      sscanf_d_c (Env.linux 0) (l.drop 13) = (1, some ({ Client.start 5 with config := some negative_config, buf := dot_dir_fnam (Env.linux 0) (cstr "config") TmpBuf.initial, startup_cmd := some (cstr "java"), idle_timeout := -5 } : Client).idle_timeout)) :=
  load_config_idle_timeout (Env.linux 0) { Client.start 5 with config := some negative_config } _
    negative_config rfl rfl rfl

/-! ## Leasing a proxy slot -/

theorem slot_set_same (dir : List Slot) (k : Nat) (s : Slot) : slot (set_slot dir k s) k = s := by
  unfold slot set_slot
  by_cases h : k < dir.length
  · rw [if_pos h]
    simp [List.getD, h]
  · rw [if_neg h]
    rw [List.getD_eq_getElem?_getD, List.getElem?_append_right (by omega)]
    rw [List.getElem?_append_right (by simp)]
    simp

theorem slot_set_other (dir : List Slot) (k j : Nat) (s : Slot) (h : j ≠ k) :
    slot (set_slot dir k s) j = slot dir j := by
  unfold slot set_slot
  by_cases hk : k < dir.length
  · rw [if_pos hk]
    simp only [List.getD_eq_getElem?_getD]
    rw [List.getElem?_set_ne (Ne.symm h)]
  · rw [if_neg hk]
    simp only [List.getD_eq_getElem?_getD]
    by_cases hj : j < dir.length
    · rw [List.getElem?_append_left hj]
    · rw [List.getElem?_append_right (by omega)]
      rw [List.getElem?_eq_none (l := dir) (by omega)]
      by_cases hj2 : j - dir.length < k - dir.length
      · rw [List.getElem?_append_left (by simpa using hj2)]
        simp [hj2]
      · rw [List.getElem?_append_right (by simpa using hj2)]
        have : j - dir.length - (List.replicate (k - dir.length) Slot.absent).length ≠ 0 := by
          simp only [List.length_replicate]
          omega
        obtain ⟨m, hm⟩ := Nat.exists_eq_succ_of_ne_zero this
        rw [hm]
        rfl

theorem set_slot_length (dir : List Slot) (k : Nat) (s : Slot) :
    dir.length ≤ (set_slot dir k s).length := by
  unfold set_slot
  split
  · simp
  · simp

theorem slot_beyond (dir : List Slot) (k : Nat) (h : dir.length ≤ k) : slot dir k = Slot.absent := by
  unfold slot
  rw [List.getD_eq_getElem?_getD, List.getElem?_eq_none h]
  rfl

theorem mksp_length (total : Nat) (s : TmpBuf) : s.tmpbuf.length ≤ (mksp total s).tmpbuf.length := by
  unfold mksp
  simp

theorem put_length (v : Int) (s : TmpBuf) : s.tmpbuf.length ≤ (put v s).tmpbuf.length := by
  unfold put
  dsimp only
  split
  · simp only [List.length_set]
    exact mksp_length _ _
  · simp

theorem putf_loop_length (text : List Nat) : ∀ (fuel : Nat) (s : TmpBuf),
    s.tmpbuf.length ≤ (putf_loop text fuel s).tmpbuf.length := by
  intro fuel
  induction fuel with
  | zero => intro s; exact Nat.le_refl _
  | succ fuel ih =>
    intro s
    unfold putf_loop
    dsimp only
    generalize (text.take (s.tmpbuf_len - s.tmpbuf_wr - 1) ++
      (if s.tmpbuf_len - s.tmpbuf_wr = 0 then [] else [0])) = stored
    have hlen : s.tmpbuf.length ≤ (s.tmpbuf.take s.tmpbuf_wr ++
        (stored ++ s.tmpbuf.drop (s.tmpbuf_wr + stored.length))).length := by
      simp only [List.length_append, List.length_take, List.length_drop]
      omega
    generalize (s.tmpbuf.take s.tmpbuf_wr ++
        (stored ++ s.tmpbuf.drop (s.tmpbuf_wr + stored.length))) = new at hlen ⊢
    split
    · exact Nat.le_trans hlen (put_length 0 (TmpBuf.mk new s.tmpbuf_rd (s.tmpbuf_wr + text.length)))
    · exact Nat.le_trans hlen (Nat.le_trans
        (mksp_length (s.tmpbuf_wr + text.length + 1) (TmpBuf.mk new s.tmpbuf_rd s.tmpbuf_wr))
        (ih _))

theorem putf_sized (text : List Nat) (s : TmpBuf) (h : 1024 ≤ s.tmpbuf.length) :
    1024 ≤ (putf text s).tmpbuf.length :=
  Nat.le_trans h (putf_loop_length text 2 s)

theorem dot_dir_fnam_sized (E : Env) (f : List Nat) (s : TmpBuf) (h : s.Sized) :
    1024 ≤ (dot_dir_fnam E f s).tmpbuf.length :=
  putf_sized _ _ (clear_tmpbuf_length s h)

/-- The file name `<a><suffix>` in the buffer keeps it at its size. -/
theorem slot_fnam_sized (E : Env) (text : List Nat) (s : TmpBuf) (h : s.Sized) :
    (putf text (dot_dir_fnam E [] s)).Sized :=
  Or.inr (putf_sized _ _ (dot_dir_fnam_sized E [] s h))

/-- The scan of `grab_proxy` once `out_pipe` is set: it runs to the first
slot without `<n>-in`, counting free slots, and changes nothing but the
buffer. -/
theorem grab_scan_taken (E : Env) (n : Nat) : ∀ (fuel a free : Nat) (c : Client),
    (∀ j, a ≤ j → j < n → (slot c.dir j).has_in = true) → (slot c.dir n).has_in = false →
    a ≤ n → n - a < fuel → c.buf.Sized →
    ∃ free1 s, grab_scan E fuel a true free c = .ok (true, free1, n) { c with buf := s } ∧
      s.Sized ∧ free ≤ free1 ∧ free1 ≤ free + (n - a) := by
  intro fuel
  induction fuel with
  | zero => intro a free c _ _ _ hf; omega
  | succ fuel ih =>
    intro a free c hin hend han hf hs
    have h0 := slot_fnam_sized E (decimal a ++ cstr "-in") c.buf hs
    have h1 := slot_fnam_sized E (decimal a ++ cstr "-owner")
      (putf (decimal a ++ cstr "-in") (dot_dir_fnam E [] c.buf)) h0
    unfold grab_scan
    dsimp only
    generalize putf (decimal a ++ cstr "-in") (dot_dir_fnam E [] c.buf) = s0 at h0 h1 ⊢
    generalize putf (decimal a ++ cstr "-owner") (dot_dir_fnam E [] s0) = s1 at h1 ⊢
    by_cases hn : a = n
    · subst hn
      rw [if_pos hend]
      exact ⟨free, s0, rfl, h0, Nat.le_refl _, Nat.le_add_right _ _⟩
    · have hlt : a < n := by omega
      rw [if_neg (by rw [hin a (Nat.le_refl _) hlt]; simp)]
      by_cases ho : (slot c.dir a).owner ≠ none
      · rw [if_pos ho]
        obtain ⟨free1, s, e1, e2, e3, e4⟩ := ih (a + 1) free { c with buf := s1 }
          (fun j h1 h2 => hin j (by omega) h2) hend (by omega) (by omega) h1
        exact ⟨free1, s, e1, e2, e3, by omega⟩
      · rw [if_neg ho, if_pos rfl]
        obtain ⟨free1, s, e1, e2, e3, e4⟩ := ih (a + 1) (free + 1) { c with buf := s1 }
          (fun j h1 h2 => hin j (by omega) h2) hend (by omega) (by omega) h1
        exact ⟨free1, s, e1, e2, by omega, by omega⟩

/-- The scan of `grab_proxy` over slots that all have an owner file: it
leaves `out_pipe` unset and changes nothing but the buffer. -/
theorem grab_scan_owned (E : Env) (n : Nat) : ∀ (fuel a free : Nat) (c : Client),
    (∀ j, a ≤ j → j < n → (slot c.dir j).has_in = true) → (slot c.dir n).has_in = false →
    (∀ j, a ≤ j → j < n → (slot c.dir j).owner ≠ none) →
    a ≤ n → n - a < fuel →
    ∃ s, grab_scan E fuel a false free c = .ok (false, free, n) { c with buf := s } := by
  intro fuel
  induction fuel with
  | zero => intro a free c _ _ _ _ hf; omega
  | succ fuel ih =>
    intro a free c hin hend hown han hf
    unfold grab_scan
    dsimp only
    generalize putf (decimal a ++ cstr "-in") (dot_dir_fnam E [] c.buf) = s0
    generalize putf (decimal a ++ cstr "-owner") (dot_dir_fnam E [] s0) = s1
    by_cases hn : a = n
    · subst hn
      rw [if_pos hend]
      exact ⟨s0, rfl⟩
    · have hlt : a < n := by omega
      rw [if_neg (by rw [hin a (Nat.le_refl _) hlt]; simp), if_pos (hown a (Nat.le_refl _) hlt)]
      obtain ⟨s, e1⟩ := ih (a + 1) free { c with buf := s1 }
        (fun j h1 h2 => hin j (by omega) h2) hend (fun j h1 h2 => hown j (by omega) h2)
        (by omega) (by omega)
      exact ⟨s, e1⟩

/-- The scan of `grab_proxy` when slot `k` is the first one without an owner
file: the PID is written to `<k>-owner`, `<k>-in` is opened, `using_proxy`
is `k`, and the rest of the scan changes nothing but the buffer. -/
theorem grab_scan_lease (E : Env) (hopen : E.open_out_fails = false) (n k : Nat) :
    ∀ (fuel a free : Nat) (c : Client),
    (∀ j, a ≤ j → j < n → (slot c.dir j).has_in = true) → (slot c.dir n).has_in = false →
    (∀ j, a ≤ j → j < k → (slot c.dir j).owner ≠ none) → (slot c.dir k).owner = none →
    a ≤ k → k < n → n - a < fuel → c.buf.Sized →
    ∃ free1 s path, grab_scan E fuel a false free c =
        .ok (true, free1, n) { c with buf := s, dir := set_slot c.dir k { slot c.dir k with owner := some [c.pid] }, using_proxy := k, trace := c.trace ++ [Event.open_out path] } ∧
      s.Sized ∧ free ≤ free1 ∧ free1 ≤ free + (n - (k + 1)) := by
  intro fuel
  induction fuel with
  | zero => intro a free c _ _ _ _ _ _ hf; omega
  | succ fuel ih =>
    intro a free c hin hend hown hfree hak hkn hf hs
    have h0 := slot_fnam_sized E (decimal a ++ cstr "-in") c.buf hs
    have h1 := slot_fnam_sized E (decimal a ++ cstr "-owner")
      (putf (decimal a ++ cstr "-in") (dot_dir_fnam E [] c.buf)) h0
    have h2 := slot_fnam_sized E (decimal a ++ cstr "-in")
      (putf (decimal a ++ cstr "-owner") (dot_dir_fnam E []
        (putf (decimal a ++ cstr "-in") (dot_dir_fnam E [] c.buf)))) h1
    unfold grab_scan
    dsimp only
    generalize putf (decimal a ++ cstr "-in") (dot_dir_fnam E [] c.buf) = s0 at h0 h1 h2 ⊢
    generalize putf (decimal a ++ cstr "-owner") (dot_dir_fnam E [] s0) = s1 at h1 h2 ⊢
    generalize putf (decimal a ++ cstr "-in") (dot_dir_fnam E [] s1) = s2 at h2 ⊢
    have hlt : a < n := by omega
    rw [if_neg (by rw [hin a (Nat.le_refl _) hlt]; simp)]
    by_cases hk : a = k
    · subst hk
      rw [if_neg (by rw [hfree]; simp), if_neg (by simp)]
      rw [hfree]
      simp only [Option.getD_none, List.nil_append, List.headD_cons, if_true, hopen,
        Bool.false_eq_true, if_false]
      obtain ⟨free1, s, e1, e2, e3, e4⟩ := grab_scan_taken E n fuel (a + 1) free
        (Client.emit { c with buf := s2, dir := set_slot c.dir a { slot c.dir a with owner := some [c.pid] }, using_proxy := a } (Event.open_out (c_string s2.tmpbuf)))
        (fun j h1 h2 => by
          show (slot (set_slot c.dir a _) j).has_in = true
          rw [slot_set_other _ _ _ _ (by omega)]
          exact hin j (by omega) h2)
        (by
          show (slot (set_slot c.dir a _) n).has_in = false
          rw [slot_set_other _ _ _ _ (by omega)]
          exact hend)
        (by omega) (by omega) h2
      refine ⟨free1, s, c_string s2.tmpbuf, ?_, e2, e3, e4⟩
      rw [e1]
      rfl
    · rw [if_pos (hown a (Nat.le_refl _) (by omega))]
      obtain ⟨free1, s, path, e1, e2, e3, e4⟩ := ih (a + 1) free { c with buf := s1 }
        (fun j h1 h2 => hin j (by omega) h2) hend (fun j h1 h2 => hown j (by omega) h2) hfree
        (by omega) hkn (by omega) h1
      exact ⟨free1, s, path, e1, e2, e3, e4⟩

theorem encode_new_proxy (i : Nat) :
    encode (cstr "new_proxy %i") [Arg.int i] = some (new_proxy i) := by
  have h1 : cstr "new_proxy %i" = [110, 101, 119, 95, 112, 114, 111, 120, 121, 32, 37, 105] := by
    decide
  have h2 : cstr "new_proxy " = [110, 101, 119, 95, 112, 114, 111, 120, 121, 32] := by decide
  unfold new_proxy
  rw [h1, h2]
  simp [encode]

theorem new_proxy_length (i : Nat) : (new_proxy i).length < 2 ^ 28 := by
  have h2 : cstr "new_proxy " = [110, 101, 119, 95, 112, 114, 111, 120, 121, 32] := by decide
  have a := vlq_length_le (to_uint i) (to_uint_lt _)
  unfold new_proxy enc_int
  rw [h2]
  simp only [List.length_append, List.length_cons, List.length_nil]
  omega

/-- `create_proxy(a)` for a slot none of whose files exists: the three files
are made and nothing else in the directory changes. -/
theorem create_proxy_new (E : Env) (a : Nat) (c : Client) (hs : c.buf.Sized)
    (ha : slot c.dir a = Slot.absent) :
    ∃ s d, create_proxy E a c = .ok () { c with buf := s, dir := d } ∧ s.Sized ∧
      slot d a = Slot.created ∧ ∀ j, j ≠ a → slot d j = slot c.dir j := by
  have h0 := slot_fnam_sized E (decimal a ++ cstr "-owner") c.buf hs
  have h1 := slot_fnam_sized E (decimal a ++ cstr "-in")
    (putf (decimal a ++ cstr "-owner") (dot_dir_fnam E [] c.buf)) h0
  have h2 := slot_fnam_sized E (decimal a ++ cstr "-out")
    (putf (decimal a ++ cstr "-in") (dot_dir_fnam E []
      (putf (decimal a ++ cstr "-owner") (dot_dir_fnam E [] c.buf)))) h1
  unfold create_proxy
  dsimp only
  generalize putf (decimal a ++ cstr "-owner") (dot_dir_fnam E [] c.buf) = s0 at h0 h1 h2 ⊢
  generalize putf (decimal a ++ cstr "-in") (dot_dir_fnam E [] s0) = s1 at h1 h2 ⊢
  generalize putf (decimal a ++ cstr "-out") (dot_dir_fnam E [] s1) = s2 at h2 ⊢
  rw [ha]
  simp only [slot_set_same, Slot.absent, Bool.false_eq_true, if_false]
  refine ⟨s2, _, rfl, h2, ?_, ?_⟩
  · rw [slot_set_same]
    rfl
  · intro j hj
    rw [slot_set_other _ _ _ _ hj, slot_set_other _ _ _ _ hj, slot_set_other _ _ _ _ hj]

/-- The top-up loop of `grab_proxy` in a directory without files for the
slots from `n_proxies` on: every round makes the next slot and announces it,
and the slots below are left alone. -/
theorem grab_topup_new (E : Env) (inuse : Int) : ∀ (fuel np : Nat) (c : Client),
    c.buf.Sized → (∀ j, np ≤ j → slot c.dir j = Slot.absent) →
    ∃ c1, grab_topup E inuse fuel np c = .ok () c1 ∧ c1.using_proxy = c.using_proxy ∧
      (∀ j, j < np → slot c1.dir j = slot c.dir j) ∧
      c1.trace = c.trace ++ (List.range' np (min fuel (inuse + MIN_FREE_PROXIES - np).toNat)).map
        (fun i => Event.fwrite (frame (new_proxy i))) ∧
      c1.buf.Sized ∧ c1.classpaths = c.classpaths ∧ c1.aliases = c.aliases ∧
      c1.idle_timeout = c.idle_timeout := by
  intro fuel
  induction fuel with
  | zero =>
    intro np c hs _
    exact ⟨c, rfl, rfl, fun _ _ => rfl, by simp, hs, rfl, rfl, rfl⟩
  | succ fuel ih =>
    intro np c hs habs
    unfold grab_topup
    by_cases hc : inuse + MIN_FREE_PROXIES > np
    · rw [if_pos hc]
      obtain ⟨s, d, e1, e2, e3, e4⟩ := create_proxy_new E np c hs (habs np (Nat.le_refl _))
      rw [e1]
      obtain ⟨t, e5, e6⟩ := write_msg_sends E (cstr "new_proxy %i") [Arg.int np]
        { c with buf := s, dir := d } (new_proxy np) e2 (encode_new_proxy np)
        (new_proxy_length np)
      simp only [Res.bind]
      rw [e5]
      obtain ⟨c1, g1, g2, g3, g4, g5, g6, g7, g8⟩ := ih (np + 1)
        { c with buf := t, dir := d, trace := c.trace ++ [Event.fwrite (vlq (new_proxy np).length ++ new_proxy np)] }
        (Or.inr e6)
        (fun j hj => by
          show slot d j = Slot.absent
          rw [e4 j (by omega)]
          exact habs j (by omega))
      refine ⟨c1, g1, g2, ?_, ?_, g5, g6, g7, g8⟩
      · intro j hj
        rw [g3 j (by omega)]
        exact e4 j (by omega)
      · rw [g4]
        have hm : min (fuel + 1) (inuse + MIN_FREE_PROXIES - np).toNat =
            min fuel (inuse + MIN_FREE_PROXIES - ((np + 1 : Nat) : Int)).toNat + 1 := by
          omega
        rw [hm, List.range'_succ]
        simp [frame]
    · rw [if_neg hc]
      have hm : min (fuel + 1) (inuse + MIN_FREE_PROXIES - np).toNat = 0 := by omega
      rw [hm]
      exact ⟨c, rfl, rfl, fun _ _ => rfl, by simp, hs, rfl, rfl, rfl⟩

theorem exit_trace_mem {α : Type} (st : Int) (c : Client) (e : Event) (he : e ∈ c.trace) :
    ∃ c1, (exit st c : Res α) = .exited (st % 256).toNat c1 ∧ e ∈ c1.trace := by
  obtain ⟨c1, tail, h1, h2, _⟩ := exit_trace (α := α) st c
  exact ⟨c1, h1, by rw [h2]; exact List.mem_append_left _ he⟩

/-- C13: `grab_proxy` in a directory that holds the slots `0 .. n-1` and no
file of a later slot, with no other process at work and the FIFO of the
leased slot opening.  If slot `k` is the lowest one without an owner file,
`grab_proxy` returns with `using_proxy = k` and with the PID of the process
as the only, hence first, integer in `<k>-owner`, and every file of every
other slot below `n` is as before (slots from `n` on are new ones, which the
call makes when fewer than four are free).  And `grab_proxy` ends the process with
the message "All proxies are in use" if and only if every slot below `n`
has an owner file, which includes `n = 0`. -/
theorem grab_proxy_leases_lowest (E : Env) (c : Client) (n : Nat)
    (hopen : E.open_out_fails = false) (hs : c.buf.Sized)
    (hin : ∀ j, j < n → (slot c.dir j).has_in = true)
    (hend : ∀ j, n ≤ j → slot c.dir j = Slot.absent) (hmsg : all_in_use ∉ c.trace) :
    (∀ k, k < n → (slot c.dir k).owner = none → (∀ j, j < k → (slot c.dir j).owner ≠ none) →
      ∃ c1, grab_proxy E c = .ok () c1 ∧ c1.using_proxy = k ∧
        (slot c1.dir k).owner = some [c.pid] ∧
        (∀ j, j < n → j ≠ k → slot c1.dir j = slot c.dir j) ∧ all_in_use ∉ c1.trace) ∧
    ((∀ j, j < n → (slot c.dir j).owner ≠ none) ↔
      ∃ c1, grab_proxy E c = .exited 1 c1 ∧ all_in_use ∈ c1.trace) := by
  have hn : n ≤ c.dir.length := by
    by_contra hlt
    have h1 := hin c.dir.length (by omega)
    rw [slot_beyond c.dir c.dir.length (Nat.le_refl _)] at h1
    cases h1
  have hend0 : (slot c.dir n).has_in = false := by rw [hend n (Nat.le_refl _)]; rfl
  have lease : ∀ k, k < n → (slot c.dir k).owner = none →
      (∀ j, j < k → (slot c.dir j).owner ≠ none) →
      ∃ c1, grab_proxy E c = .ok () c1 ∧ c1.using_proxy = k ∧
        (slot c1.dir k).owner = some [c.pid] ∧
        (∀ j, j < n → j ≠ k → slot c1.dir j = slot c.dir j) ∧ all_in_use ∉ c1.trace := by
    intro k hk hfree hown
    obtain ⟨free1, s, path, e1, e2, _, _⟩ := grab_scan_lease E hopen n k (c.dir.length + 1) 0 0 c
      (fun j _ h => hin j h) hend0 (fun j _ h => hown j h) hfree (Nat.zero_le _) hk (by omega) hs
    unfold grab_proxy
    rw [e1]
    simp only [Res.bind, Bool.true_eq_false, if_false]
    obtain ⟨c1, g1, g2, g3, g4, _⟩ := grab_topup_new E ((n : Int) - (free1 : Int))
      MIN_FREE_PROXIES n
      { c with buf := s, dir := set_slot c.dir k { slot c.dir k with owner := some [c.pid] }, using_proxy := k, trace := c.trace ++ [Event.open_out path] }
      e2
      (fun j hj => by
        show slot (set_slot c.dir k _) j = Slot.absent
        rw [slot_set_other _ _ _ _ (by omega)]
        exact hend j hj)
    refine ⟨c1, g1, g2, ?_, ?_, ?_⟩
    · rw [g3 k hk]
      show (slot (set_slot c.dir k _) k).owner = _
      rw [slot_set_same]
    · intro j hj hjk
      rw [g3 j hj]
      exact slot_set_other _ _ _ _ hjk
    · rw [g4]
      intro hmem
      rcases List.mem_append.mp hmem with h | h
      · rcases List.mem_append.mp h with h | h
        · exact hmsg h
        · simp [all_in_use] at h
      · simp [all_in_use] at h
  refine ⟨lease, ?_, ?_⟩
  · intro hown
    obtain ⟨s, e1⟩ := grab_scan_owned E n (c.dir.length + 1) 0 0 c (fun j _ h => hin j h) hend0
      (fun j _ h => hown j h) (Nat.zero_le _) (by omega)
    unfold grab_proxy
    rw [e1]
    simp only [Res.bind]
    rw [if_pos True.intro]
    exact exit_trace_mem 1 _ all_in_use (by simp [Client.emit, all_in_use])
  · rintro ⟨c1, hex, _⟩ j hj
    by_contra hfree
    have hex2 : ∃ k, k < n ∧ (slot c.dir k).owner = none := ⟨j, hj, hfree⟩
    obtain ⟨hk1, hk2⟩ := Nat.find_spec hex2
    obtain ⟨c2, hok, _⟩ := lease (Nat.find hex2) hk1 hk2
      (fun i hi hnone => Nat.find_min hex2 hi ⟨by omega, hnone⟩)
    rw [hok] at hex
    cases hex

theorem grab_proxy_leases_lowest_witness :
    (∀ k, k < 4 → (slot sample_dir k).owner = none →
      (∀ j, j < k → (slot sample_dir j).owner ≠ none) →
      ∃ c1, grab_proxy (Env.linux 0) { Client.start 5 with dir := sample_dir } = .ok () c1 ∧
        c1.using_proxy = k ∧ (slot c1.dir k).owner = some [4711] ∧
        (∀ j, j < 4 → j ≠ k → slot c1.dir j = slot sample_dir j) ∧ all_in_use ∉ c1.trace) ∧
    ((∀ j, j < 4 → (slot sample_dir j).owner ≠ none) ↔
      ∃ c1, grab_proxy (Env.linux 0) { Client.start 5 with dir := sample_dir } = .exited 1 c1 ∧
        all_in_use ∈ c1.trace) :=
  grab_proxy_leases_lowest (Env.linux 0) { Client.start 5 with dir := sample_dir } 4 rfl
    (Or.inl rfl) (by decide) (fun j hj => slot_beyond sample_dir j hj) (List.not_mem_nil _)

/-! ## The cold start -/

theorem load_config_line_accepts (E : Env) (line : List Nat) (its : Bool) (c : Client)
    (hok : line_ok E line = true)
    (hst : starts_with "startup " line = true → c.startup_cmd = none)
    (hid : starts_with "idle_timeout " line = true → its = false) :
    ∃ its1 c1, load_config_line E line its c = .ok its1 c1 := by
  unfold load_config_line
  by_cases h1 : line.head? = some 35
  · rw [if_pos h1]
    exact ⟨_, _, rfl⟩
  rw [if_neg h1]
  by_cases h2 : line = []
  · rw [if_pos h2]
    exact ⟨_, _, rfl⟩
  rw [if_neg h2]
  by_cases h3 : starts_with "alias " line = true
  · rw [if_pos h3]
    exact ⟨_, _, rfl⟩
  rw [if_neg h3]
  by_cases h4 : starts_with "classpath " line = true
  · rw [if_pos h4]
    exact ⟨_, _, rfl⟩
  rw [if_neg h4]
  by_cases h5 : starts_with "startup " line = true
  · rw [if_pos h5, if_neg (by rw [hst h5]; exact fun h => h rfl)]
    exact ⟨_, _, rfl⟩
  rw [if_neg h5]
  have h6 : starts_with "idle_timeout " line = true ∧ (sscanf_d_c E (line.drop 13)).1 = 1 := by
    unfold line_ok at hok
    simpa [h1, h2, h3, h4, h5] using hok
  rw [if_pos h6.1, if_neg (by rw [hid h6.1]; exact Bool.false_ne_true)]
  dsimp only
  rw [if_neg (by rw [h6.2]; exact fun h => h rfl)]
  exact ⟨_, _, rfl⟩

theorem load_config_lines_accepts (E : Env) : ∀ (L : List (List Nat)) (its : Bool) (c : Client),
    (∀ l ∈ L, line_ok E l = true) →
    (L.filter (starts_with "startup ")).length ≤ (if c.startup_cmd = none then 1 else 0) →
    (L.filter (starts_with "idle_timeout ")).length ≤ (if its = true then 0 else 1) →
    ∃ c1, load_config_lines E L its c = .ok () c1 := by
  intro L
  induction L with
  | nil => intro its c _ _ _; exact ⟨c, rfl⟩
  | cons line L ih =>
    intro its c hok hst hid
    have hst1 : starts_with "startup " line = true → c.startup_cmd = none := by
      intro h
      by_contra hn
      rw [if_neg hn, List.filter_cons, if_pos h] at hst
      simp at hst
    have hid1 : starts_with "idle_timeout " line = true → its = false := by
      intro h
      by_contra hn
      rw [if_pos (by simpa using hn), List.filter_cons, if_pos h] at hid
      simp at hid
    obtain ⟨its1, c0, h0⟩ := load_config_line_accepts E line its c
      (hok line (List.mem_cons_self _ _)) hst1 hid1
    obtain ⟨_, _, a3, a4, _, _⟩ := load_config_line_ok E line its its1 c c0 h0
    unfold load_config_lines
    rw [h0]
    refine ih its1 c0 (fun l hl => hok l (List.mem_cons_of_mem _ hl)) ?_ ?_
    · by_cases hk : starts_with "startup " line = true
      · rw [if_pos hk] at a3
        rw [a3.2, if_neg (by simp)]
        rw [List.filter_cons, if_pos hk, if_pos a3.1] at hst
        simpa using hst
      · rw [if_neg hk] at a3
        rw [a3]
        rw [List.filter_cons, if_neg hk] at hst
        exact hst
    · by_cases hk : starts_with "idle_timeout " line = true
      · rw [if_pos hk] at a4
        rw [a4.2.1, if_pos rfl]
        rw [List.filter_cons, if_pos hk, a4.1, if_neg Bool.false_ne_true] at hid
        simpa using hid
      · rw [if_neg hk] at a4
        rw [a4.1]
        rw [List.filter_cons, if_neg hk] at hid
        exact hid

/-- A config file of lines that `load_config` takes, one of them a `startup`
line and at most one an `idle_timeout` line, is accepted. -/
theorem load_config_accepts (E : Env) (c : Client) (file : List Nat)
    (hc : c.config = some file) (hs : c.startup_cmd = none)
    (hok : ∀ l ∈ config_file_lines file, line_ok E l = true)
    (hst : ((config_file_lines file).filter (starts_with "startup ")).length = 1)
    (hid : ((config_file_lines file).filter (starts_with "idle_timeout ")).length ≤ 1) :
    ∃ c1, load_config E c = .ok () c1 := by
  obtain ⟨c1, h1⟩ := load_config_lines_accepts E (config_file_lines file) false
    { c with buf := dot_dir_fnam E (cstr "config") c.buf } hok
    (by rw [if_pos hs]; omega) (by rw [if_neg Bool.false_ne_true]; exact hid)
  obtain ⟨_, _, a3, _⟩ := load_config_lines_ok E _ false _ c1 h1
  have hne : c1.startup_cmd ≠ none := by
    rcases a3 with ⟨q, _⟩ | ⟨_, l, _, q⟩
    · rw [q] at hst
      cases hst
    · rw [q]
      simp
  unfold load_config
  rw [if_neg (by rw [hs]; exact fun h => h rfl)]
  dsimp only
  rw [hc]
  dsimp only
  unfold config_file_lines at h1
  rw [hc] at h1
  rw [h1]
  simp only [Res.bind]
  rw [if_neg hne]
  exact ⟨c1, rfl⟩

theorem write_msg_keeps (E : Env) (fmt : List Nat) (ap : List Arg) (c c1 : Client)
    (h : write_msg E fmt ap c = .ok () c1) :
    c1.classpaths = c.classpaths ∧ c1.aliases = c.aliases ∧ c1.using_proxy = c.using_proxy := by
  unfold write_msg at h
  split at h
  · cases h
  · cases h
    exact ⟨rfl, rfl, rfl⟩

theorem write_strings_keeps (E : Env) (fmt : String) : ∀ (l : List (List Nat)) (c c1 : Client),
    write_strings E fmt l c = .ok () c1 →
    c1.classpaths = c.classpaths ∧ c1.aliases = c.aliases ∧ c1.using_proxy = c.using_proxy := by
  intro l
  induction l with
  | nil =>
    intro c c1 h
    cases h
    exact ⟨rfl, rfl, rfl⟩
  | cons a l ih =>
    intro c c1 h
    unfold write_strings at h
    obtain ⟨_, c0, h0, h1⟩ := bind_ok _ _ _ _ h
    obtain ⟨a1, a2, a3⟩ := write_msg_keeps E _ _ c c0 h0
    obtain ⟨b1, b2, b3⟩ := ih c0 c1 h1
    exact ⟨b1.trans a1, b2.trans a2, b3.trans a3⟩

theorem encode_idle_timeout (t : Int) :
    encode (cstr "idle_timeout %i") [Arg.int t] = some (idle_timeout_msg t) := by
  have h1 : cstr "idle_timeout %i" =
      [105, 100, 108, 101, 95, 116, 105, 109, 101, 111, 117, 116, 32, 37, 105] := by decide
  have h2 : cstr "idle_timeout " =
      [105, 100, 108, 101, 95, 116, 105, 109, 101, 111, 117, 116, 32] := by decide
  unfold idle_timeout_msg
  rw [h1, h2]
  simp [encode]

theorem idle_timeout_msg_length (t : Int) : (idle_timeout_msg t).length < 2 ^ 28 := by
  have h2 : cstr "idle_timeout " =
      [105, 100, 108, 101, 95, 116, 105, 109, 101, 111, 117, 116, 32] := by decide
  have a := vlq_length_le (to_uint t) (to_uint_lt _)
  unfold idle_timeout_msg enc_int
  rw [h2]
  simp only [List.length_append, List.length_cons, List.length_nil]
  omega

/-- The options loop of `main` on `-j j1 .. -j jk` followed by a name that
does not start with a dash: the paths are put in front of `classpaths` one
by one, so the last comes first. -/
theorem main_options_classpaths (E : Env) (cmd : List Nat) (args : List (List Nat))
    (hcmd : cmd.head? ≠ some 45) : ∀ (js : List (List Nat)) (fuel : Nat) (c : Client),
    2 * js.length + 1 ≤ fuel →
    main_options E fuel (j_options js ++ cmd :: args) c =
      .ok (cmd :: args) { c with classpaths := js.reverse ++ c.classpaths } := by
  have hj : cmd ≠ cstr "-j" := by
    intro h
    rw [h] at hcmd
    exact hcmd (by decide)
  have hr : cmd ≠ cstr "-R" := by
    intro h
    rw [h] at hcmd
    exact hcmd (by decide)
  intro js
  induction js with
  | nil =>
    intro fuel c hf
    obtain ⟨f, rfl⟩ : ∃ f, fuel = f + 1 := ⟨fuel - 1, by omega⟩
    show main_options E (f + 1) (cmd :: args) c = _
    unfold main_options
    dsimp only
    rw [if_neg (fun h => hj h.2), if_neg hr]
    rfl
  | cons j js ih =>
    intro fuel c hf
    obtain ⟨f, rfl⟩ : ∃ f, fuel = f + 1 := ⟨fuel - 1, by omega⟩
    show main_options E (f + 1) (cstr "-j" :: j :: (j_options js ++ cmd :: args)) c = _
    unfold main_options
    dsimp only
    rw [if_pos ⟨by simp, rfl⟩]
    show main_options E f (j_options js ++ cmd :: args) { c with classpaths := j :: c.classpaths } = _
    rw [ih f { c with classpaths := j :: c.classpaths } (by simp at hf; omega)]
    simp

/-- `grab_proxy` in a directory that holds slot 0, free, and nothing else:
slot 0 is leased and the slots 1 to 4 are made and announced. -/
theorem grab_proxy_first (E : Env) (hopen : E.open_out_fails = false) (c : Client)
    (hs : c.buf.Sized) (h0 : slot c.dir 0 = Slot.free)
    (hend : ∀ j, 1 ≤ j → slot c.dir j = Slot.absent) :
    ∃ c1 path, grab_proxy E c = .ok () c1 ∧ c1.using_proxy = 0 ∧
      c1.trace = c.trace ++ (Event.open_out path ::
        (List.range' 1 4).map (fun i => Event.fwrite (frame (new_proxy i)))) ∧
      c1.buf.Sized ∧ c1.classpaths = c.classpaths ∧ c1.aliases = c.aliases ∧
      c1.idle_timeout = c.idle_timeout := by
  have hlen : 1 ≤ c.dir.length := by
    by_contra hlt
    rw [slot_beyond c.dir 0 (by omega)] at h0
    cases h0
  obtain ⟨free1, s, path, e1, e2, _, e4⟩ := grab_scan_lease E hopen 1 0 (c.dir.length + 1) 0 0 c
    (fun j _ h => by
      have : j = 0 := by omega
      subst this
      rw [h0]
      rfl)
    (by rw [hend 1 (Nat.le_refl _)]; rfl) (fun j _ h => absurd h (Nat.not_lt_zero _))
    (by rw [h0]; rfl) (Nat.le_refl _) Nat.one_pos (by omega) hs
  have hf : free1 = 0 := by omega
  subst hf
  unfold grab_proxy
  rw [e1]
  simp only [Res.bind, Bool.true_eq_false, if_false]
  obtain ⟨c1, g1, g2, _, g4, g5, g6, g7, g8⟩ := grab_topup_new E (((1 : Nat) : Int) - ((0 : Nat) : Int))
    MIN_FREE_PROXIES 1
    { c with buf := s, dir := set_slot c.dir 0 { slot c.dir 0 with owner := some [c.pid] }, using_proxy := 0, trace := c.trace ++ [Event.open_out path] }
    e2
    (fun j hj => by
      show slot (set_slot c.dir 0 _) j = Slot.absent
      rw [slot_set_other _ _ _ _ (by omega)]
      exact hend j hj)
  refine ⟨c1, path, g1, g2, ?_, g5, g6, g7, g8⟩
  rw [g4]
  have : min MIN_FREE_PROXIES ((((1 : Nat) : Int) - ((0 : Nat) : Int)) + (MIN_FREE_PROXIES : Int) - ((1 : Nat) : Int)).toNat = 4 := by
    decide
  rw [this]
  simp

theorem jvm_starts_of_ready (E : Env) (k : Nat) (hready : E.jvm_ready = some k) (hk : k ≤ 101) :
    jvm_starts E = true := by
  unfold jvm_starts
  rw [hready]
  exact decide_eq_true hk

/-- The part of `main` from `write_classpaths()` to `pipe(signal_pipe)` when
the inbound FIFO opens and the signal pipe is made. -/
theorem main_connect_sends (E : Env) (ho : E.open_in_fails = false) (hp : E.pipe_fails = false)
    (args environ : List (List Nat)) (cwd cmd : List Nat)
    (c : Client) (hs : c.buf.Sized) (hcp : ∀ a ∈ c.classpaths, Str a)
    (hargs : ∀ a ∈ args, Str a) (henv : ∀ a ∈ environ, Str a) (hcwd : Str cwd)
    (hcmd : Str cmd) :
    ∃ c1 path, main_connect E args environ (some cwd) cmd c = .ok () c1 ∧
      c1.trace = c.trace ++
        (c.classpaths.map (fun a => Event.fwrite (frame (tagged "classpath " a))) ++
        (args.map (fun a => Event.fwrite (frame (tagged "arg " a))) ++
        (environ.map (fun a => Event.fwrite (frame (tagged "env " a))) ++
        [Event.fwrite (frame (tagged "cwd " cwd)), Event.fwrite (frame (tagged "run " cmd)),
          Event.fflush, Event.open_in path, Event.pipe]))) ∧
      c1.classpaths = [] := by
  obtain ⟨c1, h1, ht1, hs1, hc1⟩ := write_classpaths_sends E c.classpaths c hs hcp
  obtain ⟨c2, h2, ht2, hs2⟩ := write_strings_sends E "arg %s" "arg " (by decide) (by decide)
    (by decide) args c1 hs1 hargs
  obtain ⟨hc2, _, _⟩ := write_strings_keeps E "arg %s" args c1 c2 h2
  obtain ⟨c3, h3, ht3, hs3⟩ := write_strings_sends E "env %s" "env " (by decide) (by decide)
    (by decide) environ c2 hs2 henv
  obtain ⟨hc3, _, _⟩ := write_strings_keeps E "env %s" environ c2 c3 h3
  obtain ⟨c4, h4, ht4, hs4⟩ := write_msg_tag_str E "cwd %s" "cwd " (by decide) (by decide)
    (by decide) cwd ([0] ++ c3.inbuf.drop (cwd.length + 1)) hcwd (Or.inr (by simp))
    { c3 with inbuf := cwd ++ ([0] ++ c3.inbuf.drop (cwd.length + 1)) } hs3
  obtain ⟨hc4, _, _⟩ := write_msg_keeps E _ _ _ c4 h4
  obtain ⟨c5, h5, ht5, hs5⟩ := write_msg_tag_str E "run %s" "run " (by decide) (by decide)
    (by decide) cmd [] hcmd (Or.inl rfl) c4 hs4
  rw [List.append_nil] at h5
  obtain ⟨hc5, _, _⟩ := write_msg_keeps E _ _ _ c5 h5
  have htr : c5.trace = c.trace ++
      (c.classpaths.map (fun a => Event.fwrite (frame (tagged "classpath " a))) ++
      (args.map (fun a => Event.fwrite (frame (tagged "arg " a))) ++
      (environ.map (fun a => Event.fwrite (frame (tagged "env " a))) ++
      [Event.fwrite (frame (tagged "cwd " cwd)), Event.fwrite (frame (tagged "run " cmd))]))) := by
    rw [ht5, ht4]
    show c3.trace ++ _ ++ _ = _
    rw [ht3, ht2, ht1]
    simp
  have hcl : c5.classpaths = [] := by
    rw [hc5, hc4]
    show c3.classpaths = []
    rw [hc3, hc2, hc1]
  unfold main_connect write_classpaths
  rw [h1]
  simp only [Res.bind]
  rw [h2]
  simp only [Res.bind]
  rw [h3]
  simp only [Res.bind]
  rw [h4]
  simp only [Res.bind]
  rw [h5]
  simp only [Res.bind, write_flush, setup_in_fd]
  rw [if_neg (by rw [ho]; exact Bool.false_ne_true)]
  simp only [Res.bind]
  rw [if_neg (by rw [hp]; exact Bool.false_ne_true)]
  refine ⟨_, c_string (putf (decimal (c5.emit Event.fflush).using_proxy ++ cstr "-out") (dot_dir_fnam E [] (c5.emit Event.fflush).buf)).tmpbuf, rfl, ?_, hcl⟩
  simp only [Client.emit, htr, List.append_assoc, List.cons_append, List.nil_append]

theorem slot_free_of_created (d : List Slot) (h : slot d 0 = Slot.created) :
    slot (set_slot d 0 { slot d 0 with owner := none }) 0 = Slot.free := by
  rw [slot_set_same, h]
  rfl

/-- The last block of `start_server` in a directory that holds slot 0, free,
and nothing else: slot 0 is leased, the slots 1 to 4 are announced, and then
the settings are sent: `idle_timeout`, the aliases from the head of the list
and the classpath entries from the head of the list, which is left empty. -/
theorem start_server_setup_sends (E : Env) (hopen : E.open_out_fails = false) (c : Client)
    (hs : c.buf.Sized) (h0 : slot c.dir 0 = Slot.free)
    (hend : ∀ j, 1 ≤ j → slot c.dir j = Slot.absent)
    (hal : ∀ a ∈ c.aliases, Str a) (hcp : ∀ a ∈ c.classpaths, Str a) :
    ∃ c1 path, start_server_setup E true c = .ok () c1 ∧
      c1.trace = c.trace ++ (Event.open_out path ::
        ((List.range' 1 4).map (fun i => Event.fwrite (frame (new_proxy i))) ++
        (Event.fwrite (frame (idle_timeout_msg c.idle_timeout)) ::
        (c.aliases.map (fun a => Event.fwrite (frame (tagged "alias " a))) ++
        (c.classpaths.map (fun a => Event.fwrite (frame (tagged "classpath " a))) ++
          [Event.fflush]))))) ∧
      c1.buf.Sized ∧ c1.classpaths = [] := by
  obtain ⟨cG, path, g1, _, g3, g4, g5, g6, g7⟩ := grab_proxy_first E hopen c hs h0 hend
  obtain ⟨t, i1, i2⟩ := write_msg_sends E (cstr "idle_timeout %i") [Arg.int cG.idle_timeout] cG
    _ g4 (encode_idle_timeout _) (idle_timeout_msg_length _)
  obtain ⟨cA, k1, k2, k3⟩ := write_strings_sends E "alias %s" "alias " (by decide) (by decide)
    (by decide) cG.aliases
    { cG with buf := t, trace := cG.trace ++ [Event.fwrite (vlq (idle_timeout_msg cG.idle_timeout).length ++ idle_timeout_msg cG.idle_timeout)] }
    (Or.inr i2) (by rw [g6]; exact hal)
  obtain ⟨k4, _, _⟩ := write_strings_keeps E "alias %s" _ _ cA k1
  have k5 : cA.classpaths = c.classpaths := k4.trans g5
  obtain ⟨cC, m1, m2, m3, m4⟩ := write_classpaths_sends E cA.classpaths cA k3
    (by rw [k5]; exact hcp)
  refine ⟨cC.emit Event.fflush, path, ?_, ?_, m3, m4⟩
  · unfold start_server_setup
    rw [g1]
    simp only [Res.bind]
    rw [i1]
    simp only [Res.bind, write_aliases]
    rw [k1]
    simp only [Res.bind, write_classpaths]
    rw [m1]
    rfl
  · show cC.trace ++ [Event.fflush] = _
    rw [m2, k2, k5]
    show (cG.trace ++ _ ++ _) ++ _ ++ _ = _
    rw [g3, g6, g7]
    simp [frame]

theorem start_server_wait_ok (E : Env) (k : Nat) (hready : E.jvm_ready = some k) (hk : k ≤ 101)
    (c : Client) :
    start_server_wait E c = .ok () { c with buf := dot_dir_fnam E (cstr "0-owner") c.buf, dir := set_slot c.dir 0 { slot c.dir 0 with owner := none }, server_not_running := 0 } := by
  unfold start_server_wait
  rw [jvm_starts_of_ready E k hready hk]
  rfl

theorem dot_dir_fnam_keeps_sized (E : Env) (f : List Nat) (s : TmpBuf) (h : s.Sized) :
    (dot_dir_fnam E f s).Sized :=
  Or.inr (dot_dir_fnam_sized E f s h)

theorem start_server_sweep_sized (E : Env) (c : Client) (hs : c.buf.Sized) :
    (start_server_sweep E c).buf.Sized := by
  have h1 := dot_dir_fnam_keeps_sized E (cstr "*.pid") c.buf hs
  have h2 := dot_dir_fnam_keeps_sized E (cstr "*-in") (dot_dir_fnam E (cstr "*.pid") c.buf) h1
  have h3 := dot_dir_fnam_keeps_sized E (cstr "*-out")
    (dot_dir_fnam E (cstr "*-in") (dot_dir_fnam E (cstr "*.pid") c.buf)) h2
  unfold start_server_sweep
  dsimp only
  exact dot_dir_fnam_keeps_sized E (cstr "*-owner") (dot_dir_fnam E (cstr "*-out")
    (dot_dir_fnam E (cstr "*-in") (dot_dir_fnam E (cstr "*.pid") c.buf))) h3

theorem start_server_spawn_sized (c : Client) (hs : c.buf.Sized) :
    (start_server_spawn c).buf.Sized := by
  have h := putf_sized (cstr "echo $$ >~/.scramjet/server.pid && exec " ++ c.startup_cmd.getD [])
    (clear_tmpbuf c.buf) (clear_tmpbuf_length c.buf hs)
  unfold start_server_spawn Client.emit
  dsimp only
  exact Or.inr h

/-- The sweep and `create_proxy(0)`: the directory holds slot 0, being set
up, and nothing else. -/
theorem start_server_slot0 (E : Env) (c : Client) (hs : c.buf.Sized) :
    ∃ c1, create_proxy E 0 (start_server_sweep E c) = .ok () c1 ∧ c1.buf.Sized ∧
      slot c1.dir 0 = Slot.created ∧ (∀ j, 1 ≤ j → slot c1.dir j = Slot.absent) ∧
      c1.trace = c.trace ∧ c1.aliases = c.aliases ∧ c1.classpaths = c.classpaths ∧
      c1.idle_timeout = c.idle_timeout ∧ c1.startup_cmd = c.startup_cmd := by
  have habs : ∀ j, slot (start_server_sweep E c).dir j = Slot.absent := by
    intro j
    unfold start_server_sweep
    dsimp only
    exact slot_beyond [] j (Nat.zero_le _)
  obtain ⟨s1, d1, hP, hs1, hd0, hdj⟩ := create_proxy_new E 0 (start_server_sweep E c)
    (start_server_sweep_sized E c hs) (habs 0)
  refine ⟨{ start_server_sweep E c with buf := s1, dir := d1 }, hP, hs1, hd0, ?_, ?_, ?_, ?_, ?_, ?_⟩
  · intro j hj
    show slot d1 j = Slot.absent
    rw [hdj j (by omega)]
    exact habs j
  · dsimp only [start_server_sweep]
  · dsimp only [start_server_sweep]
  · dsimp only [start_server_sweep]
  · dsimp only [start_server_sweep]
  · dsimp only [start_server_sweep]

/-- Running the shell command and waiting for a JVM that starts in time:
`0-owner` is gone. -/
theorem start_server_wait_spawn (E : Env) (k : Nat) (hready : E.jvm_ready = some k)
    (hk : k ≤ 101) (c : Client) (hs : c.buf.Sized) :
    ∃ c1 cmdline, start_server_wait E (start_server_spawn c) = .ok () c1 ∧ c1.buf.Sized ∧
      c1.dir = set_slot c.dir 0 { slot c.dir 0 with owner := none } ∧
      c1.trace = c.trace ++ [Event.exec cmdline] ∧ c1.aliases = c.aliases ∧
      c1.classpaths = c.classpaths ∧ c1.idle_timeout = c.idle_timeout := by
  have h := dot_dir_fnam_keeps_sized E (cstr "0-owner") (start_server_spawn c).buf
    (start_server_spawn_sized c hs)
  refine ⟨{ start_server_spawn c with buf := dot_dir_fnam E (cstr "0-owner") (start_server_spawn c).buf, dir := set_slot (start_server_spawn c).dir 0 { slot (start_server_spawn c).dir 0 with owner := none }, server_not_running := 0 }, c_string (putf (cstr "echo $$ >~/.scramjet/server.pid && exec " ++ c.startup_cmd.getD []) (clear_tmpbuf c.buf)).tmpbuf, start_server_wait_ok E k hready hk (start_server_spawn c), ?_, ?_, ?_, ?_, ?_, ?_⟩
  · dsimp only
    exact h
  · dsimp only [start_server_spawn, Client.emit]
  · dsimp only [start_server_spawn, Client.emit]
  · dsimp only [start_server_spawn, Client.emit]
  · dsimp only [start_server_spawn, Client.emit]
  · dsimp only [start_server_spawn, Client.emit]

/-- A cold start: `start_server(0, 1)` with no server running, a config file
that is accepted, and a JVM that starts in time.  The shell command is run,
slot 0 is leased, the slots 1 to 4 are announced, and then the settings are
sent: `idle_timeout`, the aliases and the classpath entries, each list from
its head; the list of classpath entries is left empty. -/
theorem start_server_cold (E : Env) (c : Client) (file : List Nat) (k : Nat)
    (hcold : c.server_not_running ≠ 0) (hc : c.config = some file)
    (hsc : c.startup_cmd = none) (hs : c.buf.Sized)
    (hok : ∀ l ∈ config_file_lines file, line_ok E l = true)
    (hst : ((config_file_lines file).filter (starts_with "startup ")).length = 1)
    (hid : ((config_file_lines file).filter (starts_with "idle_timeout ")).length ≤ 1)
    (hready : E.jvm_ready = some k) (hk : k ≤ 101) (hopen : E.open_out_fails = false)
    (hal : ∀ a ∈ (config_aliases file).reverse ++ c.aliases, Str a)
    (hcp : ∀ a ∈ (config_classpaths file).reverse ++ c.classpaths, Str a) :
    ∃ c1 cmdline path t, start_server E false true c = .ok 1 c1 ∧
      c1.trace = c.trace ++ ([Event.exec cmdline, Event.open_out path] ++
        ((List.range' 1 4).map (fun i => Event.fwrite (frame (new_proxy i))) ++
        (Event.fwrite (frame (idle_timeout_msg t)) ::
        (((config_aliases file).reverse ++ c.aliases).map
          (fun a => Event.fwrite (frame (tagged "alias " a))) ++
        (((config_classpaths file).reverse ++ c.classpaths).map
          (fun a => Event.fwrite (frame (tagged "classpath " a))) ++ [Event.fflush]))))) ∧
      c1.buf.Sized ∧ c1.classpaths = [] := by
  have hs0 := dot_dir_fnam_keeps_sized E (cstr "server.pid") c.buf hs
  generalize hc0 : ({ c with buf := dot_dir_fnam E (cstr "server.pid") c.buf } : Client) = c0
  have e1 : c0.config = some file := by rw [← hc0]; exact hc
  have e2 : c0.startup_cmd = none := by rw [← hc0]; exact hsc
  have e3 : c0.buf = dot_dir_fnam E (cstr "server.pid") c.buf := by rw [← hc0]
  have e4 : c0.trace = c.trace := by rw [← hc0]
  have e5 : c0.aliases = c.aliases := by rw [← hc0]
  have e6 : c0.classpaths = c.classpaths := by rw [← hc0]
  obtain ⟨cL, h1⟩ := load_config_accepts E c0 file e1 e2 hok hst hid
  obtain ⟨a1, a2, _, _, a5, a6⟩ := load_config_ok E c0 cL file e1 h1
  have b1 : cL.aliases = (config_aliases file).reverse ++ c.aliases := by
    rw [a1, e5]
    rfl
  have b2 : cL.classpaths = (config_classpaths file).reverse ++ c.classpaths := by
    rw [a2, e6]
    rfl
  have hsL : cL.buf.Sized := by
    rw [a5]
    exact dot_dir_fnam_keeps_sized E (cstr "config") c0.buf (by rw [e3]; exact hs0)
  obtain ⟨cP, hP, p1, p2, p3, p4, p5, p6, p7⟩ := start_server_slot0 E cL hsL
  obtain ⟨cW, cmdline, hW, w1, w2, w3, w4, w5, w6⟩ := start_server_wait_spawn E k hready hk cP p1
  obtain ⟨c1, path, q1, q2, q3, q4⟩ := start_server_setup_sends E hopen cW w1
    (by rw [w2]; exact slot_free_of_created cP.dir p2)
    (fun j hj => by rw [w2, slot_set_other _ _ _ _ (by omega)]; exact p3 j hj)
    (by rw [w4, p5, b1]; exact hal)
    (by rw [w5, p6, b2]; exact hcp)
  refine ⟨c1, cmdline, path, cW.idle_timeout, ?_, ?_, q3, q4⟩
  · unfold start_server
    simp only [server_not_running]
    rw [if_neg hcold]
    simp only [Bool.false_eq_true, if_false]
    rw [hc0, h1]
    simp only [Res.bind]
    rw [hP]
    simp only [Res.bind]
    rw [hW]
    simp only [Res.bind]
    rw [q1]
    rfl
  · rw [q2, w3, w4, w5, p4, p5, p6, b1, b2, a6, e4]
    simp

theorem cold_config_lines :
    config_file_lines cold_config =
      [cstr "alias a1 A", cstr "classpath /p1", cstr "startup java", cstr "alias a2 B",
       cstr "classpath /p2"] := by
  decide

theorem cold_config_aliases : config_aliases cold_config = [cstr "a1 A", cstr "a2 B"] := by
  unfold config_aliases
  rw [cold_config_lines]
  decide

theorem cold_config_classpaths : config_classpaths cold_config = [cstr "/p1", cstr "/p2"] := by
  unfold config_classpaths
  rw [cold_config_lines]
  decide

/-- C17: a cold start of `scramjet -j j1 .. -j jk <name> <args>`, from the
options loop of `main` to `pipe(signal_pipe)`: no server runs, the config
file is one that `load_config` accepts, with alias lines `a1 .. am` and
classpath lines `p1 .. pn` in file order, the JVM starts in time and the
FIFOs open.  Everything the process does on its files and pipes is, in
order: the shell command is run, the outbound FIFO of slot 0 is opened, the
slots 1 to 4 are announced, then `idle_timeout`, then `alias am` .. `alias
a1`, then `classpath pn` .. `classpath p1`, then `classpath jk` ..
`classpath j1`, a flush, and then the `arg`, `env`, `cwd` and `run` messages
of `main`.  So every classpath entry is sent once: `start_server` leaves the
list empty, and the `write_classpaths()` of `main` sends nothing. -/
theorem cold_start_order (E : Env) (c : Client) (file : List Nat) (k : Nat)
    (js args environ : List (List Nat)) (cmd cwd : List Nat)
    (hcold : c.server_not_running ≠ 0) (hc : c.config = some file)
    (hsc : c.startup_cmd = none) (hal0 : c.aliases = []) (hcp0 : c.classpaths = [])
    (hs : c.buf.Sized)
    (hok : ∀ l ∈ config_file_lines file, line_ok E l = true)
    (hst : ((config_file_lines file).filter (starts_with "startup ")).length = 1)
    (hid : ((config_file_lines file).filter (starts_with "idle_timeout ")).length ≤ 1)
    (hready : E.jvm_ready = some k) (hk : k ≤ 101) (hopen : E.open_out_fails = false)
    (ho : E.open_in_fails = false) (hp : E.pipe_fails = false)
    (hal : ∀ a ∈ config_aliases file, Str a) (hcp : ∀ a ∈ config_classpaths file, Str a)
    (hjs : ∀ a ∈ js, Str a) (hargs : ∀ a ∈ args, Str a) (henv : ∀ a ∈ environ, Str a)
    (hcwd : Str cwd) (hcmd : Str cmd) (hdash : cmd.head? ≠ some 45) :
    ∃ c1 cmdline out_path in_path t,
      main_session E (j_options js ++ cmd :: args) environ (some cwd) c = .ok () c1 ∧
      c1.trace = c.trace ++ ([Event.exec cmdline, Event.open_out out_path] ++
        ((List.range' 1 4).map (fun i => Event.fwrite (frame (new_proxy i))) ++
        (Event.fwrite (frame (idle_timeout_msg t)) ::
        ((config_aliases file).reverse.map (fun a => Event.fwrite (frame (tagged "alias " a))) ++
        ((config_classpaths file).reverse.map
          (fun a => Event.fwrite (frame (tagged "classpath " a))) ++
        (js.reverse.map (fun a => Event.fwrite (frame (tagged "classpath " a))) ++
        (Event.fflush ::
        (args.map (fun a => Event.fwrite (frame (tagged "arg " a))) ++
        (environ.map (fun a => Event.fwrite (frame (tagged "env " a))) ++
        [Event.fwrite (frame (tagged "cwd " cwd)), Event.fwrite (frame (tagged "run " cmd)),
          Event.fflush, Event.open_in in_path, Event.pipe]))))))))) ∧
      c1.classpaths = [] := by
  have hlen : 2 * js.length + 1 ≤ (j_options js ++ cmd :: args).length := by
    have : ∀ l : List (List Nat), (j_options l).length = 2 * l.length := by
      intro l
      induction l with
      | nil => rfl
      | cons a l ih =>
        show (cstr "-j" :: a :: j_options l).length = _
        simp only [List.length_cons, ih]
        omega
    rw [List.length_append, this, List.length_cons]
    omega
  have h0 := main_options_classpaths E cmd args hdash js _ c hlen
  generalize hcj : ({ c with classpaths := js.reverse ++ c.classpaths } : Client) = cJ at h0
  have j1 : cJ.server_not_running ≠ 0 := by rw [← hcj]; exact hcold
  have j2 : cJ.config = some file := by rw [← hcj]; exact hc
  have j3 : cJ.startup_cmd = none := by rw [← hcj]; exact hsc
  have j4 : cJ.buf.Sized := by rw [← hcj]; exact hs
  have j5 : cJ.aliases = [] := by rw [← hcj]; exact hal0
  have j6 : cJ.classpaths = js.reverse := by rw [← hcj, hcp0]; exact List.append_nil _
  have j7 : cJ.trace = c.trace := by rw [← hcj]
  obtain ⟨cS, cmdline, out_path, t, s1, s2, s3, s4⟩ := start_server_cold E cJ file k j1 j2 j3 j4
    hok hst hid hready hk hopen
    (by
      rw [j5, List.append_nil]
      intro a ha
      exact hal a (List.mem_reverse.mp ha))
    (by
      rw [j6]
      intro a ha
      rcases List.mem_append.mp ha with h | h
      · exact hcp a (List.mem_reverse.mp h)
      · exact hjs a (List.mem_reverse.mp h))
  obtain ⟨c1, in_path, m1, m2, m3⟩ := main_connect_sends E ho hp args environ cwd cmd cS s3
    (by rw [s4]; intro a ha; cases ha) hargs henv hcwd hcmd
  refine ⟨c1, cmdline, out_path, in_path, t, ?_, ?_, m3⟩
  · unfold main_session
    rw [h0]
    simp only [Res.bind]
    rw [if_neg hdash, s1]
    simp only [Res.bind]
    rw [if_neg (by decide)]
    exact m1
  · rw [m2, s2, s4, j5, j6, j7]
    simp

/-- Witness for C17: `scramjet -j /j1 -j /j2 foo bar` with `cold_config`. -/
theorem cold_start_order_witness :
    ∃ c1 cmdline out_path in_path t,
      main_session (Env.linux 0) (j_options [cstr "/j1", cstr "/j2"] ++ cstr "foo" :: [cstr "bar"])
        [cstr "HOME=/home/u"] (some (cstr "/tmp")) cold_client = .ok () c1 ∧
      c1.trace = cold_client.trace ++ ([Event.exec cmdline, Event.open_out out_path] ++
        ((List.range' 1 4).map (fun i => Event.fwrite (frame (new_proxy i))) ++
        (Event.fwrite (frame (idle_timeout_msg t)) ::
        ((config_aliases cold_config).reverse.map
          (fun a => Event.fwrite (frame (tagged "alias " a))) ++
        ((config_classpaths cold_config).reverse.map
          (fun a => Event.fwrite (frame (tagged "classpath " a))) ++
        ([cstr "/j1", cstr "/j2"].reverse.map
          (fun a => Event.fwrite (frame (tagged "classpath " a))) ++
        (Event.fflush ::
        ([cstr "bar"].map (fun a => Event.fwrite (frame (tagged "arg " a))) ++
        ([cstr "HOME=/home/u"].map (fun a => Event.fwrite (frame (tagged "env " a))) ++
        [Event.fwrite (frame (tagged "cwd " (cstr "/tmp"))),
          Event.fwrite (frame (tagged "run " (cstr "foo"))),
          Event.fflush, Event.open_in in_path, Event.pipe]))))))))) ∧
      c1.classpaths = [] :=
  cold_start_order (Env.linux 0) cold_client cold_config 3 [cstr "/j1", cstr "/j2"] [cstr "bar"]
    [cstr "HOME=/home/u"] (cstr "foo") (cstr "/tmp") (by decide) rfl rfl rfl rfl (Or.inl rfl)
    (by rw [cold_config_lines]; decide) (by rw [cold_config_lines]; decide)
    (by rw [cold_config_lines]; decide) rfl (by decide) rfl rfl rfl
    (by rw [cold_config_aliases]; decide) (by rw [cold_config_classpaths]; decide)
    (by decide) (by decide) (by decide) (by decide) (by decide) (by decide)

end Scramjet
